import Mathlib

/-!
# Examples of "C++ Software Design": type erasure and other patterns

A shallow embedding of the three owning `Shape` classes

* `G32_Type_Erasure.cpp`             (namespace `G32`:  heap storage, virtual dispatch),
* `G33_Manual_Virtual_Dispatch.cpp`  (namespace `G33M`: heap storage, function pointers),
* `G33_Small_Buffer_Optimization.cpp` (namespace `G33S`: in-place storage; namespace
  `G33S.Lifetime`: the same with the lifetimes of the models recorded; namespace `G33S.Storage`:
  the same on a machine with a free store, with the address of every model),

of the two non-owning `ShapeConstRef` classes

* `G34_Non_Owning_Type_Erasure_1.cpp` (namespace `G34_1`: two pointers and a function pointer),
* `G34_Non_Owning_Type_Erasure_2.cpp` (namespace `G34_2`: a `NonOwningShapeModel` in a buffer;
  namespace `G34_2.Dyn`: the same with every virtual call dispatched on the dynamic type),

of the statements a client can write with them, and of

* `G21_Command.cpp`        (namespace `G21`: the calculator and its commands),
* `G22_Example_2.cpp`      (namespace `G22`: `std::max_element` and `std::remove` on a vector),
* `G25_Classic_Observer.cpp`, `G25_Modern_Observer.cpp` (namespace `G25`: `Person::notify`),
* `G27_StrongType.cpp`     (namespace `G27`: `StrongType` and the skill `Addable`),
* `G35_Decorator_1.cpp`    (namespace `G35`: `Money`, the items and their decorators).

Conventions of the embedding.

* The class templates are instantiated for pairs `(ShapeT, DrawStrategy)`.  An instantiation is
  named by a `Key`; `ShapeT k` and `DrawStrategy k` are the two types of instantiation `k`.  The
  key plays the part of the dynamic type of an erased object (its vptr, or the type a `void*`
  really points to).
* A call `drawer(shape)` is an observable event of type `Effect`; `call k drawer shape` is the
  event of that call.  A machine state carries the list of events so far (`trace`).
* Objects of automatic storage duration are named by natural numbers; `objs x = none` means that
  no object is alive under the name `x`.
* The free store is a list of cells.  `new` appends a cell (addresses are never reused), `delete`
  empties one.  `avail` is the number of allocations the free store can still satisfy.
* A statement ends normally, leaves by a `std::bad_alloc` exception, or has undefined behaviour.
* A value of type `int` or `long` is an integer in the range of the type, whose width is a
  parameter (`bits`).  An addition or subtraction whose result is not in the range has undefined
  behaviour (`addSigned`, `subSigned`).
* A buffer of the in-place `Shape` is seen as the object that has been constructed in it.
  `std::array::swap` exchanges the bytes of two buffers.  The bytes of an object, copied to
  another address, are that object again only if its type is trivially relocatable
  (`relocatable k` for the model type of instantiation `k`): an object that holds a pointer into
  itself, for one, is not.  A program that swaps the bytes of a model of any other type has no
  defined behaviour in the embedding.
* The definitions come first, the theorems follow from "Free-store cells" on.
-/

namespace CppSoftwareDesign

/-- How a statement ends: normally with a result `a` in state `s`, by an exception of type
`std::bad_alloc` that leaves the statement in state `s`, or with undefined behaviour. -/
inductive Outcome (σ α : Type) where
  | ok (a : α) (s : σ)
  | bad_alloc (s : σ)
  | undefined

namespace Outcome

/-- Sequencing: run `f` on the result of a normal end, propagate everything else. -/
def andThen {σ α β : Type} (r : Outcome σ α) (f : α → σ → Outcome σ β) : Outcome σ β :=
  match r with
  | ok a s => f a s
  | bad_alloc s => bad_alloc s
  | undefined => undefined

/-- The outcome as an observer sees it who can only see `f s` of a state `s`. -/
def mapState {σ τ α : Type} (f : σ → τ) : Outcome σ α → Outcome τ α
  | ok a s => ok a (f s)
  | bad_alloc s => bad_alloc (f s)
  | undefined => undefined

/-- Whether a statement left by `std::bad_alloc`. -/
def isBadAlloc {σ α : Type} : Outcome σ α → Bool
  | bad_alloc _ => true
  | _ => false

end Outcome

/-- The object in cell `a` of a free store: `none` when `a` is no address of the store or the
cell has been released. -/
def cell {α : Type} (heap : List (Option α)) (a : Nat) : Option α :=
  (heap[a]?).join

/-- The statements a client writes with a `Shape` class; `x` and `other` name objects.

* `construct x k shape drawer` : the declaration `Shape x( shape, drawer );`
* `copyConstruct x other`      : the declaration `Shape x( other );`
* `moveConstruct x other`      : the declaration `Shape x( std::move(other) );`
* `copyAssign x other`         : `x = other;`
* `moveAssign x other`         : `x = std::move(other);`
* `draw x`                     : `draw( x );`
* `destroy x`                  : the end of the lifetime of `x` (its destructor runs). -/
inductive Stmt {Key : Type} (ShapeT DrawStrategy : Key → Type) where
  | construct (x : Nat) (k : Key) (shape : ShapeT k) (drawer : DrawStrategy k)
  | copyConstruct (x other : Nat)
  | moveConstruct (x other : Nat)
  | copyAssign (x other : Nat)
  | moveAssign (x other : Nat)
  | draw (x : Nat)
  | destroy (x : Nat)

/-- Whether a statement is a move construction or a move assignment. -/
def Stmt.isMove {Key : Type} {ShapeT DrawStrategy : Key → Type} :
    Stmt ShapeT DrawStrategy → Bool
  | .moveConstruct _ _ => true
  | .moveAssign _ _ => true
  | _ => false

/-- The objects a statement may modify: the object it declares, assigns to, moves from or
destroys.  A copy only reads its source and `draw` only reads its argument. -/
def Stmt.writes {Key : Type} {ShapeT DrawStrategy : Key → Type} :
    Stmt ShapeT DrawStrategy → List Nat
  | .construct x _ _ _ => [x]
  | .copyConstruct x _ => [x]
  | .moveConstruct x other => [x, other]
  | .copyAssign x _ => [x]
  | .moveAssign x other => [x, other]
  | .draw _ => []
  | .destroy x => [x]

/-- Run the statements of a list one after the other with `exec`, stopping at the first one
that does not end normally. -/
def runWith {σ S : Type} (exec : S → σ → Outcome σ Unit) : List S → σ → Outcome σ Unit
  | [], s => .ok () s
  | c :: cs, s => (exec c s).andThen fun _ s1 => runWith exec cs s1

/-! ## `G32_Type_Erasure.cpp` -/

namespace G32

section
variable {Key : Type} {ShapeT DrawStrategy : Key → Type} {Effect : Type}

/-- The class template `detail::OwningShapeModel<ShapeT,DrawStrategy>`: its two data members. -/
structure OwningShapeModel (ShapeT DrawStrategy : Type) where
  shape_ : ShapeT
  drawer_ : DrawStrategy

/-- An object used through `detail::ShapeConcept`.  Its dynamic type is
`OwningShapeModel<ShapeT key, DrawStrategy key>`. -/
structure ShapeConcept (ShapeT DrawStrategy : Key → Type) where
  key : Key
  model : OwningShapeModel (ShapeT key) (DrawStrategy key)

/-- The class `Shape`: its only data member, a `std::unique_ptr<detail::ShapeConcept>`
(`none` is the null pointer, `some a` points to cell `a` of the free store). -/
structure Shape where
  pimpl_ : Option Nat
deriving DecidableEq, Repr

/-- Machine state of a program that uses the heap `Shape`. -/
structure State (ShapeT DrawStrategy : Key → Type) (Effect : Type) where
  heap : List (Option (ShapeConcept ShapeT DrawStrategy))
  avail : Nat
  objs : Nat → Option Shape
  trace : List Effect

/-- The state at program start: empty free store with room for `avail` objects, no objects, no
events. -/
def State.init (ShapeT DrawStrategy : Key → Type) (Effect : Type) (avail : Nat) :
    State ShapeT DrawStrategy Effect :=
  { heap := [], avail := avail, objs := fun _ => none, trace := [] }

/-- The object a pointer points to: `none` for the null pointer and for a pointer to a cell that
holds no object. -/
def State.deref (s : State ShapeT DrawStrategy Effect) (p : Option Nat) :
    Option (ShapeConcept ShapeT DrawStrategy) :=
  match p with
  | none => none
  | some a => cell s.heap a

/-- The free store after an allocation that constructs `c` in the new cell. -/
def State.alloc (s : State ShapeT DrawStrategy Effect) (c : ShapeConcept ShapeT DrawStrategy) :
    State ShapeT DrawStrategy Effect :=
  { s with heap := s.heap ++ [some c], avail := s.avail - 1 }

/-- The free store after cell `a` has been released. -/
def State.free (s : State ShapeT DrawStrategy Effect) (a : Nat) :
    State ShapeT DrawStrategy Effect :=
  { s with heap := s.heap.set a none, avail := s.avail + 1 }

/-- The free store after `delete p`, where deleting a null pointer does nothing. -/
def State.release (s : State ShapeT DrawStrategy Effect) (p : Option Nat) :
    State ShapeT DrawStrategy Effect :=
  match p with
  | none => s
  | some a => s.free a

/-- A pointer that may be deleted: null, or the address of a live object. -/
def State.deletable (s : State ShapeT DrawStrategy Effect) (p : Option Nat) : Prop :=
  p = none ∨ ∃ a c, p = some a ∧ cell s.heap a = some c

/-- `std::make_unique<Model>( ... )`: allocate a cell and construct `c` in it; the result is the
address of the cell.  Throws `std::bad_alloc`, changing nothing, when the free store is
exhausted. -/
def make_unique (c : ShapeConcept ShapeT DrawStrategy) (s : State ShapeT DrawStrategy Effect) :
    Outcome (State ShapeT DrawStrategy Effect) Nat :=
  if s.avail = 0 then .bad_alloc s
  else .ok s.heap.length (s.alloc c)

/-- The expression `delete p` for a non-null `p`: destroy the object in cell `a` and release the
cell.  Undefined when the cell holds no object. -/
def delete (a : Nat) (s : State ShapeT DrawStrategy Effect) :
    Outcome (State ShapeT DrawStrategy Effect) Unit :=
  match cell s.heap a with
  | some _ => .ok () (s.free a)
  | none => .undefined

/-- `~unique_ptr()`: delete the owned object, if any. -/
def unique_ptr_dtor (p : Option Nat) (s : State ShapeT DrawStrategy Effect) :
    Outcome (State ShapeT DrawStrategy Effect) Unit :=
  match p with
  | none => .ok () s
  | some a => delete a s

/-- `OwningShapeModel::draw() const { drawer_(shape_); }`. -/
def OwningShapeModel.draw (call : ∀ k, DrawStrategy k → ShapeT k → Effect) (k : Key)
    (m : OwningShapeModel (ShapeT k) (DrawStrategy k)) (s : State ShapeT DrawStrategy Effect) :
    State ShapeT DrawStrategy Effect :=
  { s with trace := s.trace ++ [call k m.drawer_ m.shape_] }

/-- `OwningShapeModel::clone() const { return std::make_unique<OwningShapeModel>( *this ); }`. -/
def OwningShapeModel.clone (k : Key) (m : OwningShapeModel (ShapeT k) (DrawStrategy k))
    (s : State ShapeT DrawStrategy Effect) : Outcome (State ShapeT DrawStrategy Effect) Nat :=
  make_unique ⟨k, ⟨m.shape_, m.drawer_⟩⟩ s

/-- The virtual call `p->draw()`: dispatch on the dynamic type. -/
def ShapeConcept.draw (call : ∀ k, DrawStrategy k → ShapeT k → Effect)
    (c : ShapeConcept ShapeT DrawStrategy) (s : State ShapeT DrawStrategy Effect) :
    State ShapeT DrawStrategy Effect :=
  OwningShapeModel.draw call c.key c.model s

/-- The virtual call `p->clone()`: dispatch on the dynamic type. -/
def ShapeConcept.clone (c : ShapeConcept ShapeT DrawStrategy)
    (s : State ShapeT DrawStrategy Effect) : Outcome (State ShapeT DrawStrategy Effect) Nat :=
  OwningShapeModel.clone c.key c.model s

/-- The constructor template `Shape::Shape( ShapeT shape, DrawStrategy drawer )`, instantiated at
`k`: `pimpl_ = std::make_unique<Model>( std::move(shape), std::move(drawer) )`.  Returns the value
of the constructed object. -/
def Shape.ctor (k : Key) (shape : ShapeT k) (drawer : DrawStrategy k)
    (s : State ShapeT DrawStrategy Effect) : Outcome (State ShapeT DrawStrategy Effect) Shape :=
  (make_unique ⟨k, ⟨shape, drawer⟩⟩ s).andThen fun a s1 => .ok ⟨some a⟩ s1

/-- The copy constructor `Shape::Shape( Shape const& other ) : pimpl_( other.pimpl_->clone() )`.
Dereferencing a null `other.pimpl_` is undefined. -/
def Shape.copyCtor (other : Shape) (s : State ShapeT DrawStrategy Effect) :
    Outcome (State ShapeT DrawStrategy Effect) Shape :=
  match s.deref other.pimpl_ with
  | none => .undefined
  | some c => (c.clone s).andThen fun a s1 => .ok ⟨some a⟩ s1

/-- The destructor `Shape::~Shape() = default`, run on an object with value `this`. -/
def Shape.dtor (this : Shape) (s : State ShapeT DrawStrategy Effect) :
    Outcome (State ShapeT DrawStrategy Effect) Unit :=
  unique_ptr_dtor this.pimpl_ s

/-- The friend function `draw( Shape const& shape ) { shape.pimpl_->draw(); }`. -/
def draw (call : ∀ k, DrawStrategy k → ShapeT k → Effect) (shape : Shape)
    (s : State ShapeT DrawStrategy Effect) : Outcome (State ShapeT DrawStrategy Effect) Unit :=
  match s.deref shape.pimpl_ with
  | none => .undefined
  | some c => .ok () (c.draw call s)

/-- Write the value `v` of the object named `x`. -/
def State.put (s : State ShapeT DrawStrategy Effect) (x : Nat) (v : Option Shape) :
    State ShapeT DrawStrategy Effect :=
  { s with objs := Function.update s.objs x v }

/-- The copy assignment operator, called as `this = other` on two live objects (which may be the
same object):
`Shape copy( other ); pimpl_.swap( copy.pimpl_ ); return *this;` followed by `~copy`. -/
def Shape.copyAssign (this other : Nat) (s : State ShapeT DrawStrategy Effect) :
    Outcome (State ShapeT DrawStrategy Effect) Unit :=
  match s.objs this, s.objs other with
  | some _, some o =>
    (Shape.copyCtor o s).andThen fun copy s1 =>
      match s1.objs this with
      | none => .undefined
      | some t => Shape.dtor ⟨t.pimpl_⟩ (s1.put this (some ⟨copy.pimpl_⟩))
  | _, _ => .undefined

/-- The move assignment operator `Shape& operator=( Shape&& ) = default`, called as
`this = std::move(other)` on two live objects: the move assignment of `std::unique_ptr`,
`reset( other.release() )`. -/
def Shape.moveAssign (this other : Nat) (s : State ShapeT DrawStrategy Effect) :
    Outcome (State ShapeT DrawStrategy Effect) Unit :=
  match s.objs this, s.objs other with
  | some _, some o =>
    let s1 := s.put other (some ⟨none⟩)
    match s1.objs this with
    | none => .undefined
    | some t => unique_ptr_dtor t.pimpl_ (s1.put this (some ⟨o.pimpl_⟩))
  | _, _ => .undefined

/-- The move constructor `Shape( Shape&& ) = default`, called with a reference to the live object
named `other`: the new object takes over the pointer, `other.pimpl_` becomes null. -/
def Shape.moveCtor (other : Nat) (s : State ShapeT DrawStrategy Effect) :
    Outcome (State ShapeT DrawStrategy Effect) Shape :=
  match s.objs other with
  | none => .undefined
  | some o => .ok ⟨o.pimpl_⟩ (s.put other (some ⟨none⟩))

/-- Execution of one statement.  A declaration needs a name that is not in use, every other
statement needs live objects. -/
def exec (call : ∀ k, DrawStrategy k → ShapeT k → Effect) :
    Stmt ShapeT DrawStrategy → State ShapeT DrawStrategy Effect →
      Outcome (State ShapeT DrawStrategy Effect) Unit
  | .construct x k shape drawer, s =>
    match s.objs x with
    | some _ => .undefined
    | none => (Shape.ctor k shape drawer s).andThen fun v s1 => .ok () (s1.put x (some v))
  | .copyConstruct x other, s =>
    match s.objs x, s.objs other with
    | none, some o => (Shape.copyCtor o s).andThen fun v s1 => .ok () (s1.put x (some v))
    | _, _ => .undefined
  | .moveConstruct x other, s =>
    match s.objs x, s.objs other with
    | none, some _ => (Shape.moveCtor other s).andThen fun v s1 => .ok () (s1.put x (some v))
    | _, _ => .undefined
  | .copyAssign x other, s => Shape.copyAssign x other s
  | .moveAssign x other, s => Shape.moveAssign x other s
  | .draw x, s =>
    match s.objs x with
    | some v => draw call v s
    | none => .undefined
  | .destroy x, s =>
    match s.objs x with
    | some v => (Shape.dtor v s).andThen fun _ s1 => .ok () (s1.put x none)
    | none => .undefined

/-- Execution of a list of statements. -/
def run (call : ∀ k, DrawStrategy k → ShapeT k → Effect) :
    List (Stmt ShapeT DrawStrategy) → State ShapeT DrawStrategy Effect →
      Outcome (State ShapeT DrawStrategy Effect) Unit :=
  runWith (exec call)

/-- The object named `x` is alive and owns the model `c`: its `pimpl_` points to `c`. -/
def State.holds (s : State ShapeT DrawStrategy Effect) (x : Nat)
    (c : ShapeConcept ShapeT DrawStrategy) : Prop :=
  ∃ o, s.objs x = some o ∧ s.deref o.pimpl_ = some c

/-- The events that the statement `draw( x );` adds to the trace of `s`; `none` when the
statement does not end normally. -/
def drawEffect (call : ∀ k, DrawStrategy k → ShapeT k → Effect)
    (s : State ShapeT DrawStrategy Effect) (x : Nat) : Option (List Effect) :=
  match exec call (.draw x) s with
  | .ok _ s1 => some (s1.trace.drop s.trace.length)
  | _ => none

/-- Ownership discipline of a state: every non-null `pimpl_` of a live `Shape` points to a live
model, and no two live `Shape`s point to the same cell. -/
structure State.WF (s : State ShapeT DrawStrategy Effect) : Prop where
  valid : ∀ x o a, s.objs x = some o → o.pimpl_ = some a → ∃ c, cell s.heap a = some c
  unique : ∀ x y o o1 a, s.objs x = some o → s.objs y = some o1 →
    o.pimpl_ = some a → o1.pimpl_ = some a → x = y

/-- Bookkeeping of the moved-from state over one statement: `m` says which names are in the
moved-from state before the statement, the result says which are after it.

* A move construction `Shape x( std::move(other) );` and a move assignment
  `x = std::move(other);` of two different objects leave `other` in the moved-from state, and `x`
  in the state that `other` was in.
* A move assignment of an object to itself changes nothing.
* A construction from `(shape, drawer)`, a copy construction, a copy assignment and a destruction
  leave `x` in no moved-from state.
* `draw` changes nothing. -/
def vacate (st : Stmt ShapeT DrawStrategy) (m : Nat → Bool) : Nat → Bool :=
  match st with
  | .construct x _ _ _ => Function.update m x false
  | .copyConstruct x _ => Function.update m x false
  | .moveConstruct x other => Function.update (Function.update m x (m other)) other true
  | .copyAssign x _ => Function.update m x false
  | .moveAssign x other =>
    if x = other then m else Function.update (Function.update m x (m other)) other true
  | .draw _ => m
  | .destroy x => Function.update m x false

/-- The bookkeeping of `vacate` over a list of statements. -/
def vacated : List (Stmt ShapeT DrawStrategy) → (Nat → Bool) → Nat → Bool
  | [], m => m
  | st :: rest, m => vacated rest (vacate st m)

/-- The names in the moved-from state after the statements `prog`, run from the start of the
program: those that a move has used as its source, or has filled from a source in the moved-from
state, and that no later statement has constructed, assigned to or destroyed. -/
def movedFromState (prog : List (Stmt ShapeT DrawStrategy)) : Nat → Bool :=
  vacated prog (fun _ => false)

end

end G32

/-! ## `G33_Manual_Virtual_Dispatch.cpp` -/

namespace G33M

section
variable {Key : Type} [DecidableEq Key] {ShapeT DrawStrategy : Key → Type} {Effect : Type}

/-- The member class template `Shape::OwningModel<ShapeT,DrawStrategy>`: its two data members. -/
structure OwningModel (ShapeT DrawStrategy : Type) where
  shape_ : ShapeT
  drawer_ : DrawStrategy

/-- An object of the free store that is reached through a `void*`.  Its type is
`OwningModel<ShapeT key, DrawStrategy key>`. -/
structure Object (ShapeT DrawStrategy : Key → Type) where
  key : Key
  model : OwningModel (ShapeT key) (DrawStrategy key)

/-- The class `Shape`: `pimpl_` is a `std::unique_ptr<void,DestroyOperation*>`, here the stored
pointer `pimpl_` and the stored deleter `deleter`; `draw_` and `clone_` are function pointers.
A function pointer is null (`none`) or points to the lambda that the constructor template
defines in its instantiation `k` (`some k`). -/
structure Shape (Key : Type) where
  pimpl_ : Option Nat
  deleter : Option Key
  draw_ : Option Key
  clone_ : Option Key

/-- Machine state of a program that uses the manual-dispatch `Shape`. -/
structure State (ShapeT DrawStrategy : Key → Type) (Effect : Type) where
  heap : List (Option (Object ShapeT DrawStrategy))
  avail : Nat
  objs : Nat → Option (Shape Key)
  trace : List Effect

/-- The state at program start. -/
def State.init (ShapeT DrawStrategy : Key → Type) (Effect : Type) (avail : Nat) :
    State ShapeT DrawStrategy Effect :=
  { heap := [], avail := avail, objs := fun _ => none, trace := [] }

/-- The object a pointer points to, if any. -/
def State.deref (s : State ShapeT DrawStrategy Effect) (p : Option Nat) :
    Option (Object ShapeT DrawStrategy) :=
  match p with
  | none => none
  | some a => cell s.heap a

/-- Write the value `v` of the object named `x`. -/
def State.put (s : State ShapeT DrawStrategy Effect) (x : Nat) (v : Option (Shape Key)) :
    State ShapeT DrawStrategy Effect :=
  { s with objs := Function.update s.objs x v }

/-- The expression `new Model( ... )`: throws `std::bad_alloc`, changing nothing, when the free
store is exhausted. -/
def new (o : Object ShapeT DrawStrategy) (s : State ShapeT DrawStrategy Effect) :
    Outcome (State ShapeT DrawStrategy Effect) Nat :=
  if s.avail = 0 then .bad_alloc s
  else .ok s.heap.length { s with heap := s.heap ++ [some o], avail := s.avail - 1 }

/-- The deleter lambda of instantiation `k`:
`auto* const model = static_cast<Model*>(shapeBytes); delete model;`.
Deleting a null pointer does nothing; the cast is only valid for an object of type `Model`. -/
def destroyOp (k : Key) (shapeBytes : Option Nat) (s : State ShapeT DrawStrategy Effect) :
    Outcome (State ShapeT DrawStrategy Effect) Unit :=
  match shapeBytes with
  | none => .ok () s
  | some a =>
    match cell s.heap a with
    | none => .undefined
    | some o =>
      if o.key = k then .ok () { s with heap := s.heap.set a none, avail := s.avail + 1 }
      else .undefined

/-- The `draw_` lambda of instantiation `k`:
`auto* const model = static_cast<Model*>(shapeBytes); (*model->drawer_)( model->shape_ );`.
The call goes to `*drawer_`, not to `drawer_`: `derefCall k` is the meaning of the expression
`(*drawer)( shape )` for the types of instantiation `k`, `none` when the expression is ill-formed
for them. -/
def drawOp (derefCall : ∀ k, Option (DrawStrategy k → ShapeT k → Effect)) (k : Key)
    (shapeBytes : Option Nat) (s : State ShapeT DrawStrategy Effect) :
    Outcome (State ShapeT DrawStrategy Effect) Unit :=
  match s.deref shapeBytes with
  | none => .undefined
  | some o =>
    if o.key = k then
      match derefCall o.key with
      | none => .undefined
      | some f => .ok () { s with trace := s.trace ++ [f o.model.drawer_ o.model.shape_] }
    else .undefined

/-- The `clone_` lambda of instantiation `k`:
`auto* const model = static_cast<Model*>(shapeBytes); return new Model( *model );`. -/
def cloneOp (k : Key) (shapeBytes : Option Nat) (s : State ShapeT DrawStrategy Effect) :
    Outcome (State ShapeT DrawStrategy Effect) Nat :=
  match s.deref shapeBytes with
  | none => .undefined
  | some o =>
    if o.key = k then new ⟨o.key, ⟨o.model.shape_, o.model.drawer_⟩⟩ s
    else .undefined

/-- `~unique_ptr()` and the deleting half of `reset`: call the deleter on a non-null pointer.
Calling a null function pointer is undefined. -/
def unique_ptr_dtor (p : Option Nat) (deleter : Option Key)
    (s : State ShapeT DrawStrategy Effect) : Outcome (State ShapeT DrawStrategy Effect) Unit :=
  match p, deleter with
  | none, _ => .ok () s
  | some _, none => .undefined
  | some a, some k => destroyOp k (some a) s

/-- The constructor template `Shape::Shape( ShapeT shape, DrawStrategy drawer )`, instantiated at
`k`: a new `OwningModel`, and the three lambdas of this instantiation. -/
def Shape.ctor (k : Key) (shape : ShapeT k) (drawer : DrawStrategy k)
    (s : State ShapeT DrawStrategy Effect) :
    Outcome (State ShapeT DrawStrategy Effect) (Shape Key) :=
  (new ⟨k, ⟨shape, drawer⟩⟩ s).andThen fun a s1 => .ok ⟨some a, some k, some k, some k⟩ s1

/-- The copy constructor
`pimpl_( other.clone_( other.pimpl_.get() ), other.pimpl_.get_deleter() ), draw_( other.draw_ ),
clone_( other.clone_ )`. -/
def Shape.copyCtor (other : Shape Key) (s : State ShapeT DrawStrategy Effect) :
    Outcome (State ShapeT DrawStrategy Effect) (Shape Key) :=
  match other.clone_ with
  | none => .undefined
  | some k =>
    (cloneOp k other.pimpl_ s).andThen fun a s1 =>
      .ok ⟨some a, other.deleter, other.draw_, other.clone_⟩ s1

/-- The destructor `Shape::~Shape() = default`. -/
def Shape.dtor (this : Shape Key) (s : State ShapeT DrawStrategy Effect) :
    Outcome (State ShapeT DrawStrategy Effect) Unit :=
  unique_ptr_dtor this.pimpl_ this.deleter s

/-- The friend function `draw( Shape const& shape ) { shape.draw_( shape.pimpl_.get() ); }`. -/
def draw (derefCall : ∀ k, Option (DrawStrategy k → ShapeT k → Effect)) (shape : Shape Key)
    (s : State ShapeT DrawStrategy Effect) : Outcome (State ShapeT DrawStrategy Effect) Unit :=
  match shape.draw_ with
  | none => .undefined
  | some k => drawOp derefCall k shape.pimpl_ s

/-- The copy assignment operator, called as `this = other`:
`Shape copy( other ); swap( pimpl_, copy.pimpl_ ); swap( draw_, copy.draw_ );
swap( clone_, copy.clone_ ); return *this;` followed by `~copy`. -/
def Shape.copyAssign (this other : Nat) (s : State ShapeT DrawStrategy Effect) :
    Outcome (State ShapeT DrawStrategy Effect) Unit :=
  match s.objs this, s.objs other with
  | some _, some o =>
    (Shape.copyCtor o s).andThen fun copy s1 =>
      match s1.objs this with
      | none => .undefined
      | some t => Shape.dtor t (s1.put this (some copy))
  | _, _ => .undefined

/-- The move constructor `Shape( Shape&& ) = default`: the `unique_ptr` member is moved (the
source pointer becomes null, the deleter is copied), the two function pointers are copied. -/
def Shape.moveCtor (other : Nat) (s : State ShapeT DrawStrategy Effect) :
    Outcome (State ShapeT DrawStrategy Effect) (Shape Key) :=
  match s.objs other with
  | none => .undefined
  | some o => .ok o (s.put other (some { o with pimpl_ := none }))

/-- The move assignment operator `Shape& operator=( Shape&& ) = default`, member by member:
`pimpl_.reset( other.pimpl_.release() )` with the old deleter, then the deleter, `draw_` and
`clone_` are copied from `other`. -/
def Shape.moveAssign (this other : Nat) (s : State ShapeT DrawStrategy Effect) :
    Outcome (State ShapeT DrawStrategy Effect) Unit :=
  match s.objs this, s.objs other with
  | some _, some o =>
    let s1 := s.put other (some { o with pimpl_ := none })
    match s1.objs this with
    | none => .undefined
    | some t =>
      unique_ptr_dtor t.pimpl_ t.deleter
        (s1.put this (some ⟨o.pimpl_, o.deleter, o.draw_, o.clone_⟩))
  | _, _ => .undefined

/-- Whether the compiler accepts a statement: instantiating the constructor template at `k`
instantiates the `draw_` lambda, whose body needs `(*drawer)( shape )` to be well-formed. -/
def compiles (derefCall : ∀ k, Option (DrawStrategy k → ShapeT k → Effect)) :
    Stmt ShapeT DrawStrategy → Bool
  | .construct _ k _ _ => (derefCall k).isSome
  | _ => true

/-- Execution of one statement. -/
def exec (derefCall : ∀ k, Option (DrawStrategy k → ShapeT k → Effect)) :
    Stmt ShapeT DrawStrategy → State ShapeT DrawStrategy Effect →
      Outcome (State ShapeT DrawStrategy Effect) Unit
  | .construct x k shape drawer, s =>
    match s.objs x with
    | some _ => .undefined
    | none => (Shape.ctor k shape drawer s).andThen fun v s1 => .ok () (s1.put x (some v))
  | .copyConstruct x other, s =>
    match s.objs x, s.objs other with
    | none, some o => (Shape.copyCtor o s).andThen fun v s1 => .ok () (s1.put x (some v))
    | _, _ => .undefined
  | .moveConstruct x other, s =>
    match s.objs x, s.objs other with
    | none, some _ => (Shape.moveCtor other s).andThen fun v s1 => .ok () (s1.put x (some v))
    | _, _ => .undefined
  | .copyAssign x other, s => Shape.copyAssign x other s
  | .moveAssign x other, s => Shape.moveAssign x other s
  | .draw x, s =>
    match s.objs x with
    | some v => draw derefCall v s
    | none => .undefined
  | .destroy x, s =>
    match s.objs x with
    | some v => (Shape.dtor v s).andThen fun _ s1 => .ok () (s1.put x none)
    | none => .undefined

/-- Execution of a program: nothing runs (`none`) unless every statement compiles. -/
def run (derefCall : ∀ k, Option (DrawStrategy k → ShapeT k → Effect))
    (prog : List (Stmt ShapeT DrawStrategy)) (s : State ShapeT DrawStrategy Effect) :
    Option (Outcome (State ShapeT DrawStrategy Effect) Unit) :=
  if prog.all (compiles derefCall) then some (runWith (exec derefCall) prog s) else none

end

end G33M

/-! ## `G33_Small_Buffer_Optimization.cpp` -/

namespace G33S

section
variable {Key : Type} {ShapeT DrawStrategy : Key → Type} {Effect : Type}

/-- The member class template `Shape::OwningModel<ShapeT,DrawStrategy>`: its two data members. -/
structure OwningModel (ShapeT DrawStrategy : Type) where
  shape_ : ShapeT
  drawer_ : DrawStrategy

/-- An object used through `Shape::Concept`.  Its dynamic type is
`OwningModel<ShapeT key, DrawStrategy key>`. -/
structure Concept (ShapeT DrawStrategy : Key → Type) where
  key : Key
  model : OwningModel (ShapeT key) (DrawStrategy key)

/-- The class template `Shape<Capacity,Alignment>`: its only data member, the byte array
`buffer_`, seen as the object that has been constructed in it (`none`: the bytes hold no
object). -/
structure Shape (ShapeT DrawStrategy : Key → Type) where
  buffer_ : Option (Concept ShapeT DrawStrategy)

/-- Machine state of a program that uses the `Shape` with in-place storage: the objects and the
events.  (The free store and the addresses of the models are left out here; `G33S.Storage` has
them.) -/
structure State (ShapeT DrawStrategy : Key → Type) (Effect : Type) where
  objs : Nat → Option (Shape ShapeT DrawStrategy)
  trace : List Effect

/-- The state at program start. -/
def State.init (ShapeT DrawStrategy : Key → Type) (Effect : Type) :
    State ShapeT DrawStrategy Effect :=
  { objs := fun _ => none, trace := [] }

/-- Write the value `v` of the object named `x`. -/
def State.put (s : State ShapeT DrawStrategy Effect) (x : Nat)
    (v : Option (Shape ShapeT DrawStrategy)) : State ShapeT DrawStrategy Effect :=
  { s with objs := Function.update s.objs x v }

/-- The two `static_assert`s of the constructor template, for instantiation `k`:
`sizeof(Model) <= Capacity` and `alignof(Model) <= Alignment`.  `sizeofModel k` and
`alignofModel k` are `sizeof` and `alignof` of `OwningModel<ShapeT k, DrawStrategy k>`. -/
def static_asserts (Capacity Alignment : Nat) (sizeofModel alignofModel : Key → Nat) (k : Key) :
    Bool :=
  decide (sizeofModel k ≤ Capacity) && decide (alignofModel k ≤ Alignment)

/-- The constructor template `Shape::Shape( ShapeT shape, DrawStrategy drawer )` of
`Shape<Capacity,Alignment>`, instantiated at `k`.  When a `static_assert` fails the instantiation
is rejected by the compiler and there is no constructor to run (`none`); otherwise
`std::construct_at( static_cast<Model*>(pimpl()), std::move(shape), std::move(drawer) )`
constructs the model in the buffer. -/
def Shape.ctor (Capacity Alignment : Nat) (sizeofModel alignofModel : Key → Nat) (k : Key)
    (shape : ShapeT k) (drawer : DrawStrategy k) : Option (Shape ShapeT DrawStrategy) :=
  if static_asserts Capacity Alignment sizeofModel alignofModel k then
    some ⟨some ⟨k, ⟨shape, drawer⟩⟩⟩
  else none

/-- `OwningModel::draw() const { drawer_( shape_ ); }`. -/
def OwningModel.draw (call : ∀ k, DrawStrategy k → ShapeT k → Effect) (k : Key)
    (m : OwningModel (ShapeT k) (DrawStrategy k)) (s : State ShapeT DrawStrategy Effect) :
    State ShapeT DrawStrategy Effect :=
  { s with trace := s.trace ++ [call k m.drawer_ m.shape_] }

/-- `OwningModel::clone( Concept* memory ) const`:
`std::construct_at( static_cast<OwningModel*>(memory), *this )`.  Returns the object constructed
at `memory`. -/
def OwningModel.clone (k : Key) (m : OwningModel (ShapeT k) (DrawStrategy k)) :
    Concept ShapeT DrawStrategy :=
  ⟨k, ⟨m.shape_, m.drawer_⟩⟩

/-- `OwningModel::move( Concept* memory )`:
`std::construct_at( static_cast<OwningModel*>(memory), std::move(*this) )`.  Returns the object
constructed at `memory` and the state `*this` is left in; `movedFrom k m` is the state in which
the move constructors of `ShapeT k` and `DrawStrategy k` leave the members of `m`. -/
def OwningModel.move
    (movedFrom : ∀ k, OwningModel (ShapeT k) (DrawStrategy k) →
      OwningModel (ShapeT k) (DrawStrategy k))
    (k : Key) (m : OwningModel (ShapeT k) (DrawStrategy k)) :
    Concept ShapeT DrawStrategy × Concept ShapeT DrawStrategy :=
  (⟨k, ⟨m.shape_, m.drawer_⟩⟩, ⟨k, movedFrom k m⟩)

/-- The copy constructor `Shape( Shape const& other ) { other.pimpl()->clone( pimpl() ); }`.
A virtual call on bytes that hold no object is undefined. -/
def Shape.copyCtor (other : Shape ShapeT DrawStrategy) (s : State ShapeT DrawStrategy Effect) :
    Outcome (State ShapeT DrawStrategy Effect) (Shape ShapeT DrawStrategy) :=
  match other.buffer_ with
  | none => .undefined
  | some c => .ok ⟨some (OwningModel.clone c.key c.model)⟩ s

/-- The move constructor `Shape( Shape&& other ) noexcept { other.pimpl()->move( pimpl() ); }`,
called with a reference to the live object named `other`. -/
def Shape.moveCtor
    (movedFrom : ∀ k, OwningModel (ShapeT k) (DrawStrategy k) →
      OwningModel (ShapeT k) (DrawStrategy k))
    (other : Nat) (s : State ShapeT DrawStrategy Effect) :
    Outcome (State ShapeT DrawStrategy Effect) (Shape ShapeT DrawStrategy) :=
  match s.objs other with
  | none => .undefined
  | some o =>
    match o.buffer_ with
    | none => .undefined
    | some c =>
      .ok ⟨some (OwningModel.move movedFrom c.key c.model).1⟩
        (s.put other (some ⟨some (OwningModel.move movedFrom c.key c.model).2⟩))

/-- The destructor `~Shape() { std::destroy_at( pimpl() ); }`, run on an object with value
`this`. -/
def Shape.dtor (this : Shape ShapeT DrawStrategy) (s : State ShapeT DrawStrategy Effect) :
    Outcome (State ShapeT DrawStrategy Effect) Unit :=
  match this.buffer_ with
  | none => .undefined
  | some _ => .ok () s

/-- The friend function `draw( Shape const& shape ) { shape.pimpl()->draw(); }`. -/
def draw (call : ∀ k, DrawStrategy k → ShapeT k → Effect) (shape : Shape ShapeT DrawStrategy)
    (s : State ShapeT DrawStrategy Effect) : Outcome (State ShapeT DrawStrategy Effect) Unit :=
  match shape.buffer_ with
  | none => .undefined
  | some c => .ok () (OwningModel.draw call c.key c.model s)

/-- What the bytes of a buffer are after they have been copied, byte by byte, into another
buffer.  The bytes of a model of a trivially relocatable type (`relocatable k = true`) are that
model again.  The bytes of a model of any other type are no object that the program can use, and
the program has no defined behaviour (`none`).  Bytes that hold no object stay such bytes. -/
def relocated (relocatable : Key → Bool) :
    Option (Concept ShapeT DrawStrategy) → Option (Option (Concept ShapeT DrawStrategy))
  | none => some none
  | some c => if relocatable c.key then some (some c) else none

/-- `buffer_.swap( copy.buffer_ )`, the member `swap` of `std::array<std::byte,Capacity>`: it
exchanges the bytes of the two buffers.  The arguments are the contents of `buffer_` and of
`copy.buffer_` before the call, the result is the pair of their contents after it. -/
def swap (relocatable : Key → Bool) (buffer_ copy : Option (Concept ShapeT DrawStrategy)) :
    Option (Option (Concept ShapeT DrawStrategy) × Option (Concept ShapeT DrawStrategy)) :=
  match relocated relocatable copy, relocated relocatable buffer_ with
  | some b, some c => some (b, c)
  | _, _ => none

/-- The copy assignment operator, called as `this = other`:
`Shape copy( other ); buffer_.swap( copy.buffer_ ); return *this;` followed by `~copy`. -/
def Shape.copyAssign (relocatable : Key → Bool) (this other : Nat)
    (s : State ShapeT DrawStrategy Effect) : Outcome (State ShapeT DrawStrategy Effect) Unit :=
  match s.objs this, s.objs other with
  | some _, some o =>
    (Shape.copyCtor o s).andThen fun copy s1 =>
      match s1.objs this with
      | none => .undefined
      | some t =>
        match swap relocatable t.buffer_ copy.buffer_ with
        | none => .undefined
        | some b => Shape.dtor ⟨b.2⟩ (s1.put this (some ⟨b.1⟩))
  | _, _ => .undefined

/-- The move assignment operator, called as `this = std::move(other)`:
`Shape copy( std::move(other) ); buffer_.swap( copy.buffer_ ); return *this;` followed by
`~copy`. -/
def Shape.moveAssign
    (movedFrom : ∀ k, OwningModel (ShapeT k) (DrawStrategy k) →
      OwningModel (ShapeT k) (DrawStrategy k))
    (relocatable : Key → Bool) (this other : Nat) (s : State ShapeT DrawStrategy Effect) :
    Outcome (State ShapeT DrawStrategy Effect) Unit :=
  match s.objs this with
  | none => .undefined
  | some _ =>
    (Shape.moveCtor movedFrom other s).andThen fun copy s1 =>
      match s1.objs this with
      | none => .undefined
      | some t =>
        match swap relocatable t.buffer_ copy.buffer_ with
        | none => .undefined
        | some b => Shape.dtor ⟨b.2⟩ (s1.put this (some ⟨b.1⟩))

/-- Whether the compiler accepts a statement of a program that uses `Shape<Capacity,Alignment>`:
a construction from `(shape, drawer)` is accepted when the constructor template can be
instantiated. -/
def compiles (Capacity Alignment : Nat) (sizeofModel alignofModel : Key → Nat) :
    Stmt ShapeT DrawStrategy → Bool
  | .construct _ k shape drawer =>
    (Shape.ctor Capacity Alignment sizeofModel alignofModel k shape drawer).isSome
  | _ => true

/-- Execution of one statement of a program that uses `Shape<Capacity,Alignment>`. -/
def exec (Capacity Alignment : Nat) (sizeofModel alignofModel : Key → Nat)
    (call : ∀ k, DrawStrategy k → ShapeT k → Effect)
    (movedFrom : ∀ k, OwningModel (ShapeT k) (DrawStrategy k) →
      OwningModel (ShapeT k) (DrawStrategy k))
    (relocatable : Key → Bool) :
    Stmt ShapeT DrawStrategy → State ShapeT DrawStrategy Effect →
      Outcome (State ShapeT DrawStrategy Effect) Unit
  | .construct x k shape drawer, s =>
    match s.objs x, Shape.ctor Capacity Alignment sizeofModel alignofModel k shape drawer with
    | none, some v => .ok () (s.put x (some v))
    | _, _ => .undefined
  | .copyConstruct x other, s =>
    match s.objs x, s.objs other with
    | none, some o => (Shape.copyCtor o s).andThen fun v s1 => .ok () (s1.put x (some v))
    | _, _ => .undefined
  | .moveConstruct x other, s =>
    match s.objs x, s.objs other with
    | none, some _ =>
      (Shape.moveCtor movedFrom other s).andThen fun v s1 => .ok () (s1.put x (some v))
    | _, _ => .undefined
  | .copyAssign x other, s => Shape.copyAssign relocatable x other s
  | .moveAssign x other, s => Shape.moveAssign movedFrom relocatable x other s
  | .draw x, s =>
    match s.objs x with
    | some v => draw call v s
    | none => .undefined
  | .destroy x, s =>
    match s.objs x with
    | some v => (Shape.dtor v s).andThen fun _ s1 => .ok () (s1.put x none)
    | none => .undefined

/-- Execution of a program that uses `Shape<Capacity,Alignment>`: nothing runs (`none`), and so
no object is ever constructed, unless every statement compiles. -/
def run (Capacity Alignment : Nat) (sizeofModel alignofModel : Key → Nat)
    (call : ∀ k, DrawStrategy k → ShapeT k → Effect)
    (movedFrom : ∀ k, OwningModel (ShapeT k) (DrawStrategy k) →
      OwningModel (ShapeT k) (DrawStrategy k))
    (relocatable : Key → Bool)
    (prog : List (Stmt ShapeT DrawStrategy)) (s : State ShapeT DrawStrategy Effect) :
    Option (Outcome (State ShapeT DrawStrategy Effect) Unit) :=
  if prog.all (compiles Capacity Alignment sizeofModel alignofModel) then
    some (runWith (exec Capacity Alignment sizeofModel alignofModel call movedFrom relocatable)
      prog s)
  else none

/-- The object named `x` is alive and its buffer holds the model `c`. -/
def State.holds (s : State ShapeT DrawStrategy Effect) (x : Nat)
    (c : Concept ShapeT DrawStrategy) : Prop :=
  s.objs x = some ⟨some c⟩

/-- The events that the statement `draw( x );` adds to the trace of `s`; `none` when the
statement does not end normally. -/
def drawEffect (call : ∀ k, DrawStrategy k → ShapeT k → Effect)
    (s : State ShapeT DrawStrategy Effect) (x : Nat) : Option (List Effect) :=
  match s.objs x with
  | none => none
  | some v =>
    match draw call v s with
    | .ok _ s1 => some (s1.trace.drop s.trace.length)
    | _ => none

/-! ### The same member functions, with the lifetimes of the models recorded

Every model gets a serial number when `std::construct_at` creates it; `std::destroy_at` records
the serial number of the model it destroys. -/

namespace Lifetime

/-- A model in a buffer, with its serial number. -/
structure Model (ShapeT DrawStrategy : Key → Type) where
  serial : Nat
  object : Concept ShapeT DrawStrategy

/-- The class template `Shape<Capacity,Alignment>`: the byte array `buffer_`, seen as the model
that has been constructed in it. -/
structure Shape (ShapeT DrawStrategy : Key → Type) where
  buffer_ : Option (Model ShapeT DrawStrategy)

/-- Machine state with the record of lifetimes: `born` counts the calls of `std::construct_at`
(it is the serial number of the next model), `dead` lists the serial numbers of the models on
which `std::destroy_at` has been called. -/
structure State (ShapeT DrawStrategy : Key → Type) (Effect : Type) where
  objs : Nat → Option (Shape ShapeT DrawStrategy)
  trace : List Effect
  born : Nat
  dead : List Nat

/-- The state at program start. -/
def State.init (ShapeT DrawStrategy : Key → Type) (Effect : Type) :
    State ShapeT DrawStrategy Effect :=
  { objs := fun _ => none, trace := [], born := 0, dead := [] }

/-- Write the value `v` of the object named `x`. -/
def State.put (s : State ShapeT DrawStrategy Effect) (x : Nat)
    (v : Option (Shape ShapeT DrawStrategy)) : State ShapeT DrawStrategy Effect :=
  { s with objs := Function.update s.objs x v }

/-- `std::construct_at( memory, ... )`: a new model with value `c` and a fresh serial number. -/
def construct_at (c : Concept ShapeT DrawStrategy) (s : State ShapeT DrawStrategy Effect) :
    Model ShapeT DrawStrategy × State ShapeT DrawStrategy Effect :=
  (⟨s.born, c⟩, { s with born := s.born + 1 })

/-- `std::destroy_at( pimpl() )` on a buffer with contents `p`: undefined when the buffer holds
no model. -/
def destroy_at (p : Option (Model ShapeT DrawStrategy)) (s : State ShapeT DrawStrategy Effect) :
    Outcome (State ShapeT DrawStrategy Effect) Unit :=
  match p with
  | none => .undefined
  | some m => .ok () { s with dead := s.dead ++ [m.serial] }

/-- The constructor template `Shape::Shape( ShapeT shape, DrawStrategy drawer )`; `none` when a
`static_assert` fails. -/
def Shape.ctor (Capacity Alignment : Nat) (sizeofModel alignofModel : Key → Nat) (k : Key)
    (shape : ShapeT k) (drawer : DrawStrategy k) (s : State ShapeT DrawStrategy Effect) :
    Option (Shape ShapeT DrawStrategy × State ShapeT DrawStrategy Effect) :=
  if static_asserts Capacity Alignment sizeofModel alignofModel k then
    some (⟨some (construct_at ⟨k, ⟨shape, drawer⟩⟩ s).1⟩, (construct_at ⟨k, ⟨shape, drawer⟩⟩ s).2)
  else none

/-- The copy constructor `Shape( Shape const& other ) { other.pimpl()->clone( pimpl() ); }`,
where `clone` calls `std::construct_at`. -/
def Shape.copyCtor (other : Shape ShapeT DrawStrategy) (s : State ShapeT DrawStrategy Effect) :
    Outcome (State ShapeT DrawStrategy Effect) (Shape ShapeT DrawStrategy) :=
  match other.buffer_ with
  | none => .undefined
  | some m =>
    .ok ⟨some (construct_at (OwningModel.clone m.object.key m.object.model) s).1⟩
      (construct_at (OwningModel.clone m.object.key m.object.model) s).2

/-- The move constructor `Shape( Shape&& other ) noexcept { other.pimpl()->move( pimpl() ); }`,
where `move` calls `std::construct_at`; the model of `other` stays in its buffer, moved from. -/
def Shape.moveCtor
    (movedFrom : ∀ k, OwningModel (ShapeT k) (DrawStrategy k) →
      OwningModel (ShapeT k) (DrawStrategy k))
    (other : Nat) (s : State ShapeT DrawStrategy Effect) :
    Outcome (State ShapeT DrawStrategy Effect) (Shape ShapeT DrawStrategy) :=
  match s.objs other with
  | none => .undefined
  | some o =>
    match o.buffer_ with
    | none => .undefined
    | some m =>
      .ok ⟨some (construct_at (OwningModel.move movedFrom m.object.key m.object.model).1 s).1⟩
        ((construct_at (OwningModel.move movedFrom m.object.key m.object.model).1 s).2.put other
          (some ⟨some ⟨m.serial, (OwningModel.move movedFrom m.object.key m.object.model).2⟩⟩))

/-- The destructor `~Shape() { std::destroy_at( pimpl() ); }`. -/
def Shape.dtor (this : Shape ShapeT DrawStrategy) (s : State ShapeT DrawStrategy Effect) :
    Outcome (State ShapeT DrawStrategy Effect) Unit :=
  destroy_at this.buffer_ s

/-- The friend function `draw( Shape const& shape ) { shape.pimpl()->draw(); }`. -/
def draw (call : ∀ k, DrawStrategy k → ShapeT k → Effect) (shape : Shape ShapeT DrawStrategy)
    (s : State ShapeT DrawStrategy Effect) : Outcome (State ShapeT DrawStrategy Effect) Unit :=
  match shape.buffer_ with
  | none => .undefined
  | some m =>
    .ok () { s with trace := s.trace ++
      [call m.object.key m.object.model.drawer_ m.object.model.shape_] }

/-- What the bytes of a buffer are after they have been copied, byte by byte, into another
buffer: the same model, for a trivially relocatable type; nothing the program can use (`none`),
for any other type. -/
def relocated (relocatable : Key → Bool) :
    Option (Model ShapeT DrawStrategy) → Option (Option (Model ShapeT DrawStrategy))
  | none => some none
  | some m => if relocatable m.object.key then some (some m) else none

/-- `buffer_.swap( copy.buffer_ )`: the contents of the two buffers after the exchange of their
bytes. -/
def swap (relocatable : Key → Bool) (buffer_ copy : Option (Model ShapeT DrawStrategy)) :
    Option (Option (Model ShapeT DrawStrategy) × Option (Model ShapeT DrawStrategy)) :=
  match relocated relocatable copy, relocated relocatable buffer_ with
  | some b, some c => some (b, c)
  | _, _ => none

/-- The copy assignment operator:
`Shape copy( other ); buffer_.swap( copy.buffer_ ); return *this;` followed by `~copy`. -/
def Shape.copyAssign (relocatable : Key → Bool) (this other : Nat)
    (s : State ShapeT DrawStrategy Effect) : Outcome (State ShapeT DrawStrategy Effect) Unit :=
  match s.objs this, s.objs other with
  | some _, some o =>
    (Shape.copyCtor o s).andThen fun copy s1 =>
      match s1.objs this with
      | none => .undefined
      | some t =>
        match swap relocatable t.buffer_ copy.buffer_ with
        | none => .undefined
        | some b => Shape.dtor ⟨b.2⟩ (s1.put this (some ⟨b.1⟩))
  | _, _ => .undefined

/-- The move assignment operator:
`Shape copy( std::move(other) ); buffer_.swap( copy.buffer_ ); return *this;` followed by
`~copy`. -/
def Shape.moveAssign
    (movedFrom : ∀ k, OwningModel (ShapeT k) (DrawStrategy k) →
      OwningModel (ShapeT k) (DrawStrategy k))
    (relocatable : Key → Bool) (this other : Nat) (s : State ShapeT DrawStrategy Effect) :
    Outcome (State ShapeT DrawStrategy Effect) Unit :=
  match s.objs this with
  | none => .undefined
  | some _ =>
    (Shape.moveCtor movedFrom other s).andThen fun copy s1 =>
      match s1.objs this with
      | none => .undefined
      | some t =>
        match swap relocatable t.buffer_ copy.buffer_ with
        | none => .undefined
        | some b => Shape.dtor ⟨b.2⟩ (s1.put this (some ⟨b.1⟩))

/-- Execution of one statement of a program that uses `Shape<Capacity,Alignment>`. -/
def exec (Capacity Alignment : Nat) (sizeofModel alignofModel : Key → Nat)
    (call : ∀ k, DrawStrategy k → ShapeT k → Effect)
    (movedFrom : ∀ k, OwningModel (ShapeT k) (DrawStrategy k) →
      OwningModel (ShapeT k) (DrawStrategy k))
    (relocatable : Key → Bool) :
    Stmt ShapeT DrawStrategy → State ShapeT DrawStrategy Effect →
      Outcome (State ShapeT DrawStrategy Effect) Unit
  | .construct x k shape drawer, s =>
    match s.objs x, Shape.ctor Capacity Alignment sizeofModel alignofModel k shape drawer s with
    | none, some v => .ok () (v.2.put x (some v.1))
    | _, _ => .undefined
  | .copyConstruct x other, s =>
    match s.objs x, s.objs other with
    | none, some o => (Shape.copyCtor o s).andThen fun v s1 => .ok () (s1.put x (some v))
    | _, _ => .undefined
  | .moveConstruct x other, s =>
    match s.objs x, s.objs other with
    | none, some _ =>
      (Shape.moveCtor movedFrom other s).andThen fun v s1 => .ok () (s1.put x (some v))
    | _, _ => .undefined
  | .copyAssign x other, s => Shape.copyAssign relocatable x other s
  | .moveAssign x other, s => Shape.moveAssign movedFrom relocatable x other s
  | .draw x, s =>
    match s.objs x with
    | some v => draw call v s
    | none => .undefined
  | .destroy x, s =>
    match s.objs x with
    | some v => (Shape.dtor v s).andThen fun _ s1 => .ok () (s1.put x none)
    | none => .undefined

/-- Forget the record of lifetimes: the `Shape` of the plain model. -/
def Shape.erase (v : Shape ShapeT DrawStrategy) : G33S.Shape ShapeT DrawStrategy :=
  ⟨v.buffer_.map fun m => m.object⟩

/-- Forget the record of lifetimes: the state of the plain model. -/
def State.erase (s : State ShapeT DrawStrategy Effect) : G33S.State ShapeT DrawStrategy Effect :=
  { objs := fun x => (s.objs x).map Shape.erase, trace := s.trace }

/-- The serial number of the model in the buffer of the live object `x`. -/
def State.serialOf (s : State ShapeT DrawStrategy Effect) (x : Nat) : Option Nat :=
  match s.objs x with
  | some ⟨some m⟩ => some m.serial
  | _ => none

/-- Execution of a list of statements, with the record of lifetimes. -/
def run (Capacity Alignment : Nat) (sizeofModel alignofModel : Key → Nat)
    (call : ∀ k, DrawStrategy k → ShapeT k → Effect)
    (movedFrom : ∀ k, OwningModel (ShapeT k) (DrawStrategy k) →
      OwningModel (ShapeT k) (DrawStrategy k))
    (relocatable : Key → Bool) :
    List (Stmt ShapeT DrawStrategy) → State ShapeT DrawStrategy Effect →
      Outcome (State ShapeT DrawStrategy Effect) Unit :=
  runWith (exec Capacity Alignment sizeofModel alignofModel call movedFrom relocatable)

end Lifetime

end

end G33S

/-! ## The `Shape` with in-place storage on a machine with a free store

`G33_Small_Buffer_Optimization.cpp` once more, this time with the addresses spelled out.  The
machine has a free store, as the machine of the heap `Shape` has, and storage for `Shape`
objects.  `std::construct_at` constructs a model at the address it is given, be it the address
of a buffer or of a cell of the free store; `OwningModel::clone` and `OwningModel::move` pass on
the address they are given; the member functions of `Shape` pass `pimpl()`.  The state records
every address at which a model is constructed and every address at which one is destroyed. -/

namespace G33S
namespace Storage

section
variable {Key : Type} {ShapeT DrawStrategy : Key → Type} {Effect : Type}

/-- A `Shape` object: the object of automatic storage duration named `x`, or the local object
`copy` of an assignment operator. -/
inductive Obj where
  | var (x : Nat)
  | copy
deriving DecidableEq, Repr

/-- An address at which a model can be: the data member `buffer_` of a `Shape` object, or cell
`a` of the free store. -/
inductive Place where
  | buffer (o : Obj)
  | cell (a : Nat)
deriving DecidableEq, Repr

/-- Machine state: the free store (`heap` and `avail`, as for the heap `Shape`), the `Shape`
objects whose storage exists (`objs o = some v`, where `v.buffer_` is the model that the bytes of
the buffer hold, if any), the events so far, and the addresses that `std::construct_at`
(`placed`) and `std::destroy_at` (`destroyed`) have been called with so far. -/
structure State (ShapeT DrawStrategy : Key → Type) (Effect : Type) where
  heap : List (Option (Concept ShapeT DrawStrategy))
  avail : Nat
  objs : Obj → Option (Shape ShapeT DrawStrategy)
  trace : List Effect
  placed : List Place
  destroyed : List Place

/-- The state at program start: empty free store with room for `avail` objects, no objects, no
events. -/
def State.init (ShapeT DrawStrategy : Key → Type) (Effect : Type) (avail : Nat) :
    State ShapeT DrawStrategy Effect :=
  { heap := [], avail := avail, objs := fun _ => none, trace := [], placed := [],
    destroyed := [] }

/-- Write the value `v` of the object `o`. -/
def State.put (s : State ShapeT DrawStrategy Effect) (o : Obj)
    (v : Option (Shape ShapeT DrawStrategy)) : State ShapeT DrawStrategy Effect :=
  { s with objs := Function.update s.objs o v }

/-- The storage of a `Shape` object whose constructor is about to run: the bytes of its buffer
hold no model. -/
def State.declare (s : State ShapeT DrawStrategy Effect) (o : Obj) :
    State ShapeT DrawStrategy Effect :=
  s.put o (some ⟨none⟩)

/-- The model at an address, if there is one. -/
def State.load (s : State ShapeT DrawStrategy Effect) :
    Place → Option (Concept ShapeT DrawStrategy)
  | .buffer o =>
    match s.objs o with
    | some v => v.buffer_
    | none => none
  | .cell a => cell s.heap a

/-- Whether there is storage at an address: the buffer of an object whose storage exists, or an
allocated cell of the free store. -/
def State.hasStorage (s : State ShapeT DrawStrategy Effect) : Place → Bool
  | .buffer o => (s.objs o).isSome
  | .cell a => decide (a < s.heap.length)

/-- Write the contents `v` of the storage at an address. -/
def State.store (s : State ShapeT DrawStrategy Effect) (p : Place)
    (v : Option (Concept ShapeT DrawStrategy)) : State ShapeT DrawStrategy Effect :=
  match p with
  | .buffer o => s.put o (some ⟨v⟩)
  | .cell a => { s with heap := s.heap.set a v }

/-- `Shape::pimpl()`: `return reinterpret_cast<Concept*>( buffer_.data() );`, the address of the
buffer of the object. -/
def pimpl (this : Obj) : Place :=
  .buffer this

/-- `std::construct_at( memory, ... )`: construct the model `c` in the storage at `memory`, and
record the address.  Undefined when there is no storage at `memory`. -/
def construct_at (memory : Place) (c : Concept ShapeT DrawStrategy)
    (s : State ShapeT DrawStrategy Effect) : Outcome (State ShapeT DrawStrategy Effect) Unit :=
  if s.hasStorage memory then
    .ok () { s.store memory (some c) with placed := s.placed ++ [memory] }
  else .undefined

/-- `std::destroy_at( memory )`: destroy the model at `memory`, and record the address; its
storage holds no model afterwards.  Undefined when there is no model at `memory`. -/
def destroy_at (memory : Place) (s : State ShapeT DrawStrategy Effect) :
    Outcome (State ShapeT DrawStrategy Effect) Unit :=
  match s.load memory with
  | none => .undefined
  | some _ => .ok () { s.store memory none with destroyed := s.destroyed ++ [memory] }

/-- `OwningModel::draw() const { drawer_( shape_ ); }`. -/
def OwningModel.draw (call : ∀ k, DrawStrategy k → ShapeT k → Effect) (k : Key)
    (m : OwningModel (ShapeT k) (DrawStrategy k)) (s : State ShapeT DrawStrategy Effect) :
    State ShapeT DrawStrategy Effect :=
  { s with trace := s.trace ++ [call k m.drawer_ m.shape_] }

/-- `OwningModel::clone( Concept* memory ) const`:
`std::construct_at( static_cast<OwningModel*>(memory), *this )`. -/
def OwningModel.clone (k : Key) (m : OwningModel (ShapeT k) (DrawStrategy k)) (memory : Place)
    (s : State ShapeT DrawStrategy Effect) : Outcome (State ShapeT DrawStrategy Effect) Unit :=
  construct_at memory ⟨k, ⟨m.shape_, m.drawer_⟩⟩ s

/-- `OwningModel::move( Concept* memory )`, called on the model at the address `this`:
`std::construct_at( static_cast<OwningModel*>(memory), std::move(*this) )`.  The move
constructors of the members leave `*this` in the state `movedFrom k m`. -/
def OwningModel.move
    (movedFrom : ∀ k, OwningModel (ShapeT k) (DrawStrategy k) →
      OwningModel (ShapeT k) (DrawStrategy k))
    (k : Key) (m : OwningModel (ShapeT k) (DrawStrategy k)) (this memory : Place)
    (s : State ShapeT DrawStrategy Effect) : Outcome (State ShapeT DrawStrategy Effect) Unit :=
  (construct_at memory ⟨k, ⟨m.shape_, m.drawer_⟩⟩ s).andThen fun _ s1 =>
    .ok () (s1.store this (some ⟨k, movedFrom k m⟩))

/-- The virtual call `p->draw()`: dispatch on the dynamic type of the model at `p`.  Undefined
when there is no model at `p`. -/
def Concept.draw (call : ∀ k, DrawStrategy k → ShapeT k → Effect) (p : Place)
    (s : State ShapeT DrawStrategy Effect) : Outcome (State ShapeT DrawStrategy Effect) Unit :=
  match s.load p with
  | none => .undefined
  | some c => .ok () (OwningModel.draw call c.key c.model s)

/-- The virtual call `p->clone( memory )`. -/
def Concept.clone (p memory : Place) (s : State ShapeT DrawStrategy Effect) :
    Outcome (State ShapeT DrawStrategy Effect) Unit :=
  match s.load p with
  | none => .undefined
  | some c => OwningModel.clone c.key c.model memory s

/-- The virtual call `p->move( memory )`. -/
def Concept.move
    (movedFrom : ∀ k, OwningModel (ShapeT k) (DrawStrategy k) →
      OwningModel (ShapeT k) (DrawStrategy k))
    (p memory : Place) (s : State ShapeT DrawStrategy Effect) :
    Outcome (State ShapeT DrawStrategy Effect) Unit :=
  match s.load p with
  | none => .undefined
  | some c => OwningModel.move movedFrom c.key c.model p memory s

/-- The constructor template `Shape::Shape( ShapeT shape, DrawStrategy drawer )` of
`Shape<Capacity,Alignment>`, instantiated at `k` and run on the storage of the object `this`:
`std::construct_at( static_cast<Model*>(pimpl()), std::move(shape), std::move(drawer) )`.
There is no constructor to run (`none`) when a `static_assert` fails. -/
def Shape.ctor (Capacity Alignment : Nat) (sizeofModel alignofModel : Key → Nat) (this : Obj)
    (k : Key) (shape : ShapeT k) (drawer : DrawStrategy k)
    (s : State ShapeT DrawStrategy Effect) :
    Option (Outcome (State ShapeT DrawStrategy Effect) Unit) :=
  if static_asserts Capacity Alignment sizeofModel alignofModel k then
    some (construct_at (pimpl this) ⟨k, ⟨shape, drawer⟩⟩ s)
  else none

/-- The copy constructor `Shape( Shape const& other ) { other.pimpl()->clone( pimpl() ); }`. -/
def Shape.copyCtor (this other : Obj) (s : State ShapeT DrawStrategy Effect) :
    Outcome (State ShapeT DrawStrategy Effect) Unit :=
  Concept.clone (pimpl other) (pimpl this) s

/-- The move constructor `Shape( Shape&& other ) noexcept { other.pimpl()->move( pimpl() ); }`. -/
def Shape.moveCtor
    (movedFrom : ∀ k, OwningModel (ShapeT k) (DrawStrategy k) →
      OwningModel (ShapeT k) (DrawStrategy k))
    (this other : Obj) (s : State ShapeT DrawStrategy Effect) :
    Outcome (State ShapeT DrawStrategy Effect) Unit :=
  Concept.move movedFrom (pimpl other) (pimpl this) s

/-- The destructor `~Shape() { std::destroy_at( pimpl() ); }`. -/
def Shape.dtor (this : Obj) (s : State ShapeT DrawStrategy Effect) :
    Outcome (State ShapeT DrawStrategy Effect) Unit :=
  destroy_at (pimpl this) s

/-- The friend function `draw( Shape const& shape ) { shape.pimpl()->draw(); }`. -/
def draw (call : ∀ k, DrawStrategy k → ShapeT k → Effect) (shape : Obj)
    (s : State ShapeT DrawStrategy Effect) : Outcome (State ShapeT DrawStrategy Effect) Unit :=
  Concept.draw call (pimpl shape) s

/-- The second and third line of both assignment operators, and the end of the function:
`buffer_.swap( copy.buffer_ ); return *this;` followed by the destructor of the local object
`copy`, whose storage then ends. -/
def Shape.swapAndReturn (relocatable : Key → Bool) (this : Obj)
    (s : State ShapeT DrawStrategy Effect) : Outcome (State ShapeT DrawStrategy Effect) Unit :=
  match swap relocatable (s.load (pimpl this)) (s.load (pimpl .copy)) with
  | none => .undefined
  | some b =>
    (Shape.dtor .copy ((s.store (pimpl this) b.1).store (pimpl .copy) b.2)).andThen fun _ s1 =>
      .ok () (s1.put .copy none)

/-- The copy assignment operator, called as `this = other`:
`Shape copy( other ); buffer_.swap( copy.buffer_ ); return *this;` followed by `~copy`. -/
def Shape.copyAssign (relocatable : Key → Bool) (this other : Obj)
    (s : State ShapeT DrawStrategy Effect) : Outcome (State ShapeT DrawStrategy Effect) Unit :=
  (Shape.copyCtor .copy other (s.declare .copy)).andThen fun _ s1 =>
    Shape.swapAndReturn relocatable this s1

/-- The move assignment operator, called as `this = std::move(other)`:
`Shape copy( std::move(other) ); buffer_.swap( copy.buffer_ ); return *this;` followed by
`~copy`. -/
def Shape.moveAssign
    (movedFrom : ∀ k, OwningModel (ShapeT k) (DrawStrategy k) →
      OwningModel (ShapeT k) (DrawStrategy k))
    (relocatable : Key → Bool) (this other : Obj) (s : State ShapeT DrawStrategy Effect) :
    Outcome (State ShapeT DrawStrategy Effect) Unit :=
  (Shape.moveCtor movedFrom .copy other (s.declare .copy)).andThen fun _ s1 =>
    Shape.swapAndReturn relocatable this s1

/-- Execution of one statement of a program that uses `Shape<Capacity,Alignment>`.  A
declaration needs a name that is not in use and gets storage for the new object, every other
statement needs live objects, and the storage of a destroyed object ends. -/
def exec (Capacity Alignment : Nat) (sizeofModel alignofModel : Key → Nat)
    (call : ∀ k, DrawStrategy k → ShapeT k → Effect)
    (movedFrom : ∀ k, OwningModel (ShapeT k) (DrawStrategy k) →
      OwningModel (ShapeT k) (DrawStrategy k))
    (relocatable : Key → Bool) :
    Stmt ShapeT DrawStrategy → State ShapeT DrawStrategy Effect →
      Outcome (State ShapeT DrawStrategy Effect) Unit
  | .construct x k shape drawer, s =>
    match s.objs (.var x),
      Shape.ctor Capacity Alignment sizeofModel alignofModel (.var x) k shape drawer
        (s.declare (.var x)) with
    | none, some r => r
    | _, _ => .undefined
  | .copyConstruct x other, s =>
    match s.objs (.var x), s.objs (.var other) with
    | none, some _ => Shape.copyCtor (.var x) (.var other) (s.declare (.var x))
    | _, _ => .undefined
  | .moveConstruct x other, s =>
    match s.objs (.var x), s.objs (.var other) with
    | none, some _ => Shape.moveCtor movedFrom (.var x) (.var other) (s.declare (.var x))
    | _, _ => .undefined
  | .copyAssign x other, s =>
    match s.objs (.var x), s.objs (.var other) with
    | some _, some _ => Shape.copyAssign relocatable (.var x) (.var other) s
    | _, _ => .undefined
  | .moveAssign x other, s =>
    match s.objs (.var x), s.objs (.var other) with
    | some _, some _ => Shape.moveAssign movedFrom relocatable (.var x) (.var other) s
    | _, _ => .undefined
  | .draw x, s =>
    match s.objs (.var x) with
    | some _ => draw call (.var x) s
    | none => .undefined
  | .destroy x, s =>
    match s.objs (.var x) with
    | some _ => (Shape.dtor (.var x) s).andThen fun _ s1 => .ok () (s1.put (.var x) none)
    | none => .undefined

/-- Execution of a program that uses `Shape<Capacity,Alignment>`: nothing runs (`none`) unless
every statement compiles. -/
def run (Capacity Alignment : Nat) (sizeofModel alignofModel : Key → Nat)
    (call : ∀ k, DrawStrategy k → ShapeT k → Effect)
    (movedFrom : ∀ k, OwningModel (ShapeT k) (DrawStrategy k) →
      OwningModel (ShapeT k) (DrawStrategy k))
    (relocatable : Key → Bool)
    (prog : List (Stmt ShapeT DrawStrategy)) (s : State ShapeT DrawStrategy Effect) :
    Option (Outcome (State ShapeT DrawStrategy Effect) Unit) :=
  if prog.all (compiles Capacity Alignment sizeofModel alignofModel) then
    some (runWith (exec Capacity Alignment sizeofModel alignofModel call movedFrom relocatable)
      prog s)
  else none

/-- Forget the free store, the local object `copy` and the two records of addresses: the state
of the plain model. -/
def State.erase (s : State ShapeT DrawStrategy Effect) : G33S.State ShapeT DrawStrategy Effect :=
  { objs := fun x => s.objs (.var x), trace := s.trace }

end

end Storage
end G33S

namespace G33S
namespace Storage

end Storage
end G33S

/-! ## Relating the heap `Shape` and the `Shape` with in-place storage -/

section
variable {Key : Type} {ShapeT DrawStrategy : Key → Type} {Effect : Type}

/-- The in-place model with the same members as a heap model. -/
def toConcept (c : G32.ShapeConcept ShapeT DrawStrategy) : G33S.Concept ShapeT DrawStrategy :=
  ⟨c.key, ⟨c.model.shape_, c.model.drawer_⟩⟩

/-- A state of the heap program and a state of the in-place program correspond: the same objects
are alive, corresponding objects hold models with the same members, the traces are equal, and the
heap state respects unique ownership. -/
def Sim (hs : G32.State ShapeT DrawStrategy Effect) (ss : G33S.State ShapeT DrawStrategy Effect) :
    Prop :=
  hs.WF ∧ hs.trace = ss.trace ∧
    ∀ x, (hs.objs x = none ∧ ss.objs x = none) ∨
      ∃ c, hs.holds x c ∧ ss.holds x (toConcept c)

end

/-! ## `G34_Non_Owning_Type_Erasure_1.cpp` and `G34_Non_Owning_Type_Erasure_2.cpp`

The non-owning `ShapeConstRef` stores addresses.  The objects a program of these files can take
the address of are: a shape object and a drawer object of automatic storage duration (named by
natural numbers, like the other objects), the members `shape_` and `drawer_` of an
`OwningShapeModel` in a cell of the free store, a `Shape` object and a `ShapeConstRef` object.
A shape or drawer object carries the instantiation `k` whose `ShapeT k` (or `DrawStrategy k`) is
its type; reading an object through a pointer to another type is undefined.  The template
arguments `ShapeT const` and `DrawStrategy const` name the same instantiation as `ShapeT` and
`DrawStrategy`: the members are only read. -/

/-- The address of an object:
* `shapeVar x`, `drawerVar x` : the shape object and the drawer object named `x`;
* `shapeMember a`, `drawerMember a` : the members `shape_` and `drawer_` of the
  `OwningShapeModel` in cell `a` of the free store;
* `handle x` : the `Shape` object named `x` (and its only data member `pimpl_`);
* `constRef r` : the `ShapeConstRef` object named `r` (and its only data member `raw_`);
* `shapeBufMember r`, `drawerBufMember r` : the members `shape_` and `drawer_` of an
  `OwningShapeModel` that lives in the buffer of the `ShapeConstRef` named `r`. -/
inductive Addr where
  | shapeVar (x : Nat)
  | drawerVar (x : Nat)
  | shapeMember (a : Nat)
  | drawerMember (a : Nat)
  | handle (x : Nat)
  | constRef (r : Nat)
  | shapeBufMember (r : Nat)
  | drawerBufMember (r : Nat)
deriving DecidableEq, Repr

/-- Whether an address is the address of a shape value: a shape object, or the member `shape_`
of a model of the free store. -/
def Addr.isShape : Addr → Bool
  | .shapeVar _ => true
  | .shapeMember _ => true
  | _ => false

/-- Whether an address is the address of a drawer value: a drawer object, or the member
`drawer_` of a model of the free store. -/
def Addr.isDrawer : Addr → Bool
  | .drawerVar _ => true
  | .drawerMember _ => true
  | _ => false

/-- Read an object of the type of instantiation `v.1` as an object of the type of instantiation
`k`; `none` when the instantiations differ. -/
def castTo {Key : Type} [DecidableEq Key] {F : Key → Type} (k : Key) (v : Sigma F) :
    Option (F k) :=
  if h : v.1 = k then some (h ▸ v.2) else none

/-! ### `G34_Non_Owning_Type_Erasure_1.cpp` -/

namespace G34_1

section
variable {Key : Type} [DecidableEq Key] {ShapeT DrawStrategy : Key → Type} {Effect : Type}

/-- The class `ShapeConstRef`: the two `void const*` members and the function pointer `draw_`
(`none` is the null pointer; a non-null `draw_` points to the lambda of the constructor
instantiation `k`). -/
structure ShapeConstRef (Key : Type) where
  shape_ : Option Addr
  drawer_ : Option Addr
  draw_ : Option Key
deriving DecidableEq

/-- Machine state: the shape objects and drawer objects of automatic storage duration and the
trace. -/
structure State (ShapeT DrawStrategy : Key → Type) (Effect : Type) where
  shapeVars : Nat → Option (Sigma ShapeT)
  drawerVars : Nat → Option (Sigma DrawStrategy)
  trace : List Effect

/-- The shape of type `ShapeT k` at an address, if there is one. -/
def State.shapeAt (s : State ShapeT DrawStrategy Effect) (k : Key) : Addr → Option (ShapeT k)
  | .shapeVar x => (s.shapeVars x).bind (castTo k)
  | _ => none

/-- The drawer of type `DrawStrategy k` at an address, if there is one. -/
def State.drawerAt (s : State ShapeT DrawStrategy Effect) (k : Key) :
    Addr → Option (DrawStrategy k)
  | .drawerVar x => (s.drawerVars x).bind (castTo k)
  | _ => none

/-- The constructor template `ShapeConstRef( ShapeT& shape, DrawStrategy& drawer )`, instantiated
at `k`, called with references to the objects at the addresses `shape` and `drawer`:
`shape_{ std::addressof(shape) }, drawer_{ std::addressof(drawer) }, draw_{ lambda }`. -/
def ShapeConstRef.ctor (k : Key) (shape drawer : Addr) : ShapeConstRef Key :=
  ⟨some shape, some drawer, some k⟩

/-- The `draw_` lambda of instantiation `k`:
`auto const* shape = static_cast<ShapeT const*>(shapeBytes);
auto const* drawer = static_cast<DrawStrategy const*>(drawerBytes); (*drawer)( *shape );`. -/
def drawOp (call : ∀ k, DrawStrategy k → ShapeT k → Effect) (k : Key)
    (shapeBytes drawerBytes : Option Addr) (s : State ShapeT DrawStrategy Effect) :
    Outcome (State ShapeT DrawStrategy Effect) Unit :=
  match shapeBytes.bind (s.shapeAt k), drawerBytes.bind (s.drawerAt k) with
  | some shape, some drawer => .ok () { s with trace := s.trace ++ [call k drawer shape] }
  | _, _ => .undefined

/-- The friend function `draw( ShapeConstRef const& shape )`:
`shape.draw_( shape.shape_, shape.drawer_ )`. -/
def draw (call : ∀ k, DrawStrategy k → ShapeT k → Effect) (shape : ShapeConstRef Key)
    (s : State ShapeT DrawStrategy Effect) : Outcome (State ShapeT DrawStrategy Effect) Unit :=
  match shape.draw_ with
  | none => .undefined
  | some k => drawOp call k shape.shape_ shape.drawer_ s

end

end G34_1

/-! ### `G34_Non_Owning_Type_Erasure_2.cpp`

The classes `detail::ShapeConcept`, `detail::OwningShapeModel` and `Shape` of this file have the
members of their namesakes in `G32_Type_Erasure.cpp`, with the same text, and a few more.  The
free store, the `Shape` objects and their member functions are those of namespace `G32`; this
section adds the new members, the class `detail::NonOwningShapeModel` and the class
`ShapeConstRef`.  Every object constructed in the buffer `raw_` of a `ShapeConstRef` is a
`NonOwningShapeModel`, and every object of the free store is an `OwningShapeModel`: the
virtual calls are resolved accordingly (namespace `G34_2.Dyn` does without this). -/

namespace G34_2

section
variable {Key : Type} [DecidableEq Key] {ShapeT DrawStrategy : Key → Type} {Effect : Type}

/-- The class template `detail::NonOwningShapeModel<ShapeT,DrawStrategy>`: its two pointer
members. -/
structure NonOwningShapeModel where
  shape_ : Addr
  drawer_ : Addr
deriving DecidableEq, Repr

/-- An object in the buffer of a `ShapeConstRef`, used through `detail::ShapeConcept`.  Its
dynamic type is `NonOwningShapeModel<ShapeT key const, DrawStrategy key const>`. -/
structure RefConcept (Key : Type) where
  key : Key
  model : NonOwningShapeModel
deriving DecidableEq

/-- The class `ShapeConstRef`: its only data member, the byte array `raw_`, seen as the object
that has been constructed in it (`none`: the bytes hold no object). -/
structure ShapeConstRef (Key : Type) where
  raw_ : Option (RefConcept Key)
deriving DecidableEq

/-- Machine state: the state of a program that uses the heap `Shape`, the shape and drawer
objects of automatic storage duration, and the `ShapeConstRef` objects. -/
structure State (ShapeT DrawStrategy : Key → Type) (Effect : Type) extends
    G32.State ShapeT DrawStrategy Effect where
  shapeVars : Nat → Option (Sigma ShapeT)
  drawerVars : Nat → Option (Sigma DrawStrategy)
  refs : Nat → Option (ShapeConstRef Key)

/-- The state at program start. -/
def State.init (ShapeT DrawStrategy : Key → Type) (Effect : Type) (avail : Nat) :
    State ShapeT DrawStrategy Effect :=
  { toState := G32.State.init ShapeT DrawStrategy Effect avail
    shapeVars := fun _ => none
    drawerVars := fun _ => none
    refs := fun _ => none }

/-- Write the value `v` of the `ShapeConstRef` object named `r`. -/
def State.putRef (s : State ShapeT DrawStrategy Effect) (r : Nat)
    (v : Option (ShapeConstRef Key)) : State ShapeT DrawStrategy Effect :=
  { s with refs := Function.update s.refs r v }

/-- Write the value `v` of the `Shape` object named `x`. -/
def State.putObj (s : State ShapeT DrawStrategy Effect) (x : Nat) (v : Option G32.Shape) :
    State ShapeT DrawStrategy Effect :=
  { s with toState := s.toState.put x v }

/-- The shape of type `ShapeT k` at an address, if there is one: a live shape object, or the
member `shape_` of a live model of the free store. -/
def State.shapeAt (s : State ShapeT DrawStrategy Effect) (k : Key) : Addr → Option (ShapeT k)
  | .shapeVar x => (s.shapeVars x).bind (castTo k)
  | .shapeMember a => (cell s.heap a).bind fun c => castTo k ⟨c.key, c.model.shape_⟩
  | _ => none

/-- The drawer of type `DrawStrategy k` at an address, if there is one. -/
def State.drawerAt (s : State ShapeT DrawStrategy Effect) (k : Key) :
    Addr → Option (DrawStrategy k)
  | .drawerVar x => (s.drawerVars x).bind (castTo k)
  | .drawerMember a => (cell s.heap a).bind fun c => castTo k ⟨c.key, c.model.drawer_⟩
  | _ => none

/-- Run a member function of `G32` on the heap part of the state. -/
def liftHeap {α : Type}
    (f : G32.State ShapeT DrawStrategy Effect → Outcome (G32.State ShapeT DrawStrategy Effect) α)
    (s : State ShapeT DrawStrategy Effect) : Outcome (State ShapeT DrawStrategy Effect) α :=
  match f s.toState with
  | .ok a h => .ok a { s with toState := h }
  | .bad_alloc h => .bad_alloc { s with toState := h }
  | .undefined => .undefined

/-- `OwningShapeModel::clone( ShapeConcept* memory ) const`, called on the model `c` in cell `a`
of the free store:
`std::construct_at( static_cast<Model*>(memory), shape_, drawer_ )` with
`Model = NonOwningShapeModel<ShapeT const,DrawStrategy const>`.  Returns the object constructed
at `memory`: it points to the two members of the model. -/
def OwningShapeModel.cloneInto (a : Nat) (c : G32.ShapeConcept ShapeT DrawStrategy) :
    RefConcept Key :=
  ⟨c.key, ⟨.shapeMember a, .drawerMember a⟩⟩

/-- The constructor `NonOwningShapeModel( ShapeT& shape, DrawStrategy& drawer )`, called with
references to the objects at the addresses `shape` and `drawer`:
`shape_{ std::addressof(shape) }, drawer_{ std::addressof(drawer) }`. -/
def NonOwningShapeModel.ctor (shape drawer : Addr) : NonOwningShapeModel :=
  ⟨shape, drawer⟩

/-- `NonOwningShapeModel::draw() const { (*drawer_)(*shape_); }` in instantiation `k`.
Dereferencing a pointer to no object (of the pointer's type) is undefined. -/
def NonOwningShapeModel.draw (call : ∀ k, DrawStrategy k → ShapeT k → Effect) (k : Key)
    (m : NonOwningShapeModel) (s : State ShapeT DrawStrategy Effect) :
    Outcome (State ShapeT DrawStrategy Effect) Unit :=
  match s.shapeAt k m.shape_, s.drawerAt k m.drawer_ with
  | some shape, some drawer => .ok () { s with trace := s.trace ++ [call k drawer shape] }
  | _, _ => .undefined

/-- `NonOwningShapeModel::clone() const` in instantiation `k`:
`return std::make_unique<OwningShapeModel<ShapeT,DrawStrategy>>( *shape_, *drawer_ );`.  The
result is the address of the new model. -/
def NonOwningShapeModel.clone (k : Key) (m : NonOwningShapeModel)
    (s : State ShapeT DrawStrategy Effect) : Outcome (State ShapeT DrawStrategy Effect) Nat :=
  match s.shapeAt k m.shape_, s.drawerAt k m.drawer_ with
  | some shape, some drawer => liftHeap (G32.make_unique ⟨k, ⟨shape, drawer⟩⟩) s
  | _, _ => .undefined

/-- `NonOwningShapeModel::clone( ShapeConcept* memory ) const` in instantiation `k`:
`std::construct_at( static_cast<NonOwningShapeModel*>(memory), *this )`.  Returns the object
constructed at `memory`. -/
def NonOwningShapeModel.cloneInto (k : Key) (m : NonOwningShapeModel) : RefConcept Key :=
  ⟨k, ⟨m.shape_, m.drawer_⟩⟩

/-- The constructor template `ShapeConstRef( ShapeT& shape, DrawStrategy& drawer )`, instantiated
at `k`, called with references to the objects at the addresses `shape` and `drawer`:
`std::construct_at( static_cast<Model*>(pimpl()), shape, drawer )` with
`Model = NonOwningShapeModel<ShapeT const,DrawStrategy const>`.  (The two `static_assert`s
compare size and alignment of a class with a vptr and two pointers with `3U*sizeof(void*)` and
`alignof(void*)`.) -/
def ShapeConstRef.ctor (k : Key) (shape drawer : Addr) : ShapeConstRef Key :=
  ⟨some ⟨k, NonOwningShapeModel.ctor shape drawer⟩⟩

/-- The constructor `ShapeConstRef::ShapeConstRef( Shape& other )`:
`other.pimpl_->clone( pimpl() );`.  Dereferencing a null `pimpl_` is undefined. -/
def ShapeConstRef.ctorFromShape (other : G32.Shape) (s : State ShapeT DrawStrategy Effect) :
    Outcome (State ShapeT DrawStrategy Effect) (ShapeConstRef Key) :=
  match other.pimpl_ with
  | none => .undefined
  | some a =>
    match cell s.heap a with
    | none => .undefined
    | some c => .ok ⟨some (OwningShapeModel.cloneInto a c)⟩ s

/-- The constructor `ShapeConstRef::ShapeConstRef( Shape const& other )`:
`other.pimpl_->clone( pimpl() );`. -/
def ShapeConstRef.ctorFromConstShape (other : G32.Shape)
    (s : State ShapeT DrawStrategy Effect) :
    Outcome (State ShapeT DrawStrategy Effect) (ShapeConstRef Key) :=
  match other.pimpl_ with
  | none => .undefined
  | some a =>
    match cell s.heap a with
    | none => .undefined
    | some c => .ok ⟨some (OwningShapeModel.cloneInto a c)⟩ s

/-- The copy constructor `ShapeConstRef( ShapeConstRef const& other )`:
`other.pimpl()->clone( pimpl() );`.  A virtual call on bytes that hold no object is
undefined. -/
def ShapeConstRef.copyCtor (other : ShapeConstRef Key) (s : State ShapeT DrawStrategy Effect) :
    Outcome (State ShapeT DrawStrategy Effect) (ShapeConstRef Key) :=
  match other.raw_ with
  | none => .undefined
  | some m => .ok ⟨some (NonOwningShapeModel.cloneInto m.key m.model)⟩ s

/-- The destructor `~ShapeConstRef() { std::destroy_at( pimpl() ); }`. -/
def ShapeConstRef.dtor (this : ShapeConstRef Key) (s : State ShapeT DrawStrategy Effect) :
    Outcome (State ShapeT DrawStrategy Effect) Unit :=
  match this.raw_ with
  | none => .undefined
  | some _ => .ok () s

/-- The copy assignment operator of `ShapeConstRef`, called as `this = other` on two live
objects: `ShapeConstRef copy( other ); raw_.swap( copy.raw_ ); return *this;` followed by
`~copy`. -/
def ShapeConstRef.copyAssign (this other : Nat) (s : State ShapeT DrawStrategy Effect) :
    Outcome (State ShapeT DrawStrategy Effect) Unit :=
  match s.refs this, s.refs other with
  | some _, some o =>
    (ShapeConstRef.copyCtor o s).andThen fun copy s1 =>
      match s1.refs this with
      | none => .undefined
      | some t => ShapeConstRef.dtor ⟨t.raw_⟩ (s1.putRef this (some ⟨copy.raw_⟩))
  | _, _ => .undefined

/-- The friend function `draw( ShapeConstRef const& shape ) { shape.pimpl()->draw(); }`. -/
def draw (call : ∀ k, DrawStrategy k → ShapeT k → Effect) (shape : ShapeConstRef Key)
    (s : State ShapeT DrawStrategy Effect) : Outcome (State ShapeT DrawStrategy Effect) Unit :=
  match shape.raw_ with
  | none => .undefined
  | some m => NonOwningShapeModel.draw call m.key m.model s

/-- The constructor `Shape( ShapeConstRef const& other ) : pimpl_{ other.pimpl()->clone() }`. -/
def Shape.ctorFromRef (other : ShapeConstRef Key) (s : State ShapeT DrawStrategy Effect) :
    Outcome (State ShapeT DrawStrategy Effect) G32.Shape :=
  match other.raw_ with
  | none => .undefined
  | some m => (NonOwningShapeModel.clone m.key m.model s).andThen fun a s1 => .ok ⟨some a⟩ s1

/-- The statements of a program of this file.

* `shape st`                   : a statement `st` on `Shape` objects, as in `G32`
* `declShape x k v`            : the declaration `ShapeT x{ v };` of a shape object
* `declDrawer x k d`           : the declaration `DrawStrategy x{ d };` of a drawer object
* `setShape x k v`             : `x = v;`, the owner gives the shape object a new value
* `setDrawer x k d`            : `x = d;`
* `endShape x`, `endDrawer x`  : the end of the lifetime of a shape or drawer object
* `refConstruct r k shape drawer` : `ShapeConstRef r( shape, drawer );`
* `refFromShape r x`           : `ShapeConstRef r( x );` with `x` a `Shape`
* `refFromConstShape r x`      : `ShapeConstRef r( x );` with `x` a `Shape const`
* `refCopyConstruct r other`   : `ShapeConstRef r( other );`
* `refCopyAssign r other`      : `r = other;`
* `refDraw r`                  : `draw( r );`
* `refDestroy r`               : the end of the lifetime of the `ShapeConstRef` `r`
* `shapeFromRef x r`           : `Shape x( r );` -/
inductive Statement (ShapeT DrawStrategy : Key → Type) where
  | shape (st : Stmt ShapeT DrawStrategy)
  | declShape (x : Nat) (k : Key) (v : ShapeT k)
  | declDrawer (x : Nat) (k : Key) (d : DrawStrategy k)
  | setShape (x : Nat) (k : Key) (v : ShapeT k)
  | setDrawer (x : Nat) (k : Key) (d : DrawStrategy k)
  | endShape (x : Nat)
  | endDrawer (x : Nat)
  | refConstruct (r : Nat) (k : Key) (shape drawer : Nat)
  | refFromShape (r x : Nat)
  | refFromConstShape (r x : Nat)
  | refCopyConstruct (r other : Nat)
  | refCopyAssign (r other : Nat)
  | refDraw (r : Nat)
  | refDestroy (r : Nat)
  | shapeFromRef (x r : Nat)

/-- Execution of one statement.  A declaration needs a name that is not in use, a reference
binds to a live object of its type, every other statement needs live objects. -/
def exec (call : ∀ k, DrawStrategy k → ShapeT k → Effect) :
    Statement ShapeT DrawStrategy → State ShapeT DrawStrategy Effect →
      Outcome (State ShapeT DrawStrategy Effect) Unit
  | .shape st, s => liftHeap (G32.exec call st) s
  | .declShape x k v, s =>
    match s.shapeVars x with
    | none => .ok () { s with shapeVars := Function.update s.shapeVars x (some ⟨k, v⟩) }
    | some _ => .undefined
  | .declDrawer x k d, s =>
    match s.drawerVars x with
    | none => .ok () { s with drawerVars := Function.update s.drawerVars x (some ⟨k, d⟩) }
    | some _ => .undefined
  | .setShape x k v, s =>
    match s.shapeAt k (.shapeVar x) with
    | some _ => .ok () { s with shapeVars := Function.update s.shapeVars x (some ⟨k, v⟩) }
    | none => .undefined
  | .setDrawer x k d, s =>
    match s.drawerAt k (.drawerVar x) with
    | some _ => .ok () { s with drawerVars := Function.update s.drawerVars x (some ⟨k, d⟩) }
    | none => .undefined
  | .endShape x, s =>
    match s.shapeVars x with
    | some _ => .ok () { s with shapeVars := Function.update s.shapeVars x none }
    | none => .undefined
  | .endDrawer x, s =>
    match s.drawerVars x with
    | some _ => .ok () { s with drawerVars := Function.update s.drawerVars x none }
    | none => .undefined
  | .refConstruct r k shape drawer, s =>
    match s.refs r, s.shapeAt k (.shapeVar shape), s.drawerAt k (.drawerVar drawer) with
    | none, some _, some _ =>
      .ok () (s.putRef r (some (ShapeConstRef.ctor k (.shapeVar shape) (.drawerVar drawer))))
    | _, _, _ => .undefined
  | .refFromShape r x, s =>
    match s.refs r, s.objs x with
    | none, some o =>
      (ShapeConstRef.ctorFromShape o s).andThen fun v s1 => .ok () (s1.putRef r (some v))
    | _, _ => .undefined
  | .refFromConstShape r x, s =>
    match s.refs r, s.objs x with
    | none, some o =>
      (ShapeConstRef.ctorFromConstShape o s).andThen fun v s1 => .ok () (s1.putRef r (some v))
    | _, _ => .undefined
  | .refCopyConstruct r other, s =>
    match s.refs r, s.refs other with
    | none, some o =>
      (ShapeConstRef.copyCtor o s).andThen fun v s1 => .ok () (s1.putRef r (some v))
    | _, _ => .undefined
  | .refCopyAssign r other, s => ShapeConstRef.copyAssign r other s
  | .refDraw r, s =>
    match s.refs r with
    | some v => draw call v s
    | none => .undefined
  | .refDestroy r, s =>
    match s.refs r with
    | some v => (ShapeConstRef.dtor v s).andThen fun _ s1 => .ok () (s1.putRef r none)
    | none => .undefined
  | .shapeFromRef x r, s =>
    match s.objs x, s.refs r with
    | none, some v =>
      (Shape.ctorFromRef v s).andThen fun o s1 => .ok () (s1.putObj x (some o))
    | _, _ => .undefined

/-- Execution of a list of statements. -/
def run (call : ∀ k, DrawStrategy k → ShapeT k → Effect) :
    List (Statement ShapeT DrawStrategy) → State ShapeT DrawStrategy Effect →
      Outcome (State ShapeT DrawStrategy Effect) Unit :=
  runWith (exec call)

/-- The events that a statement adds to the trace of `s`; `none` when the statement does not end
normally. -/
def effectOf (call : ∀ k, DrawStrategy k → ShapeT k → Effect)
    (s : State ShapeT DrawStrategy Effect) (st : Statement ShapeT DrawStrategy) :
    Option (List Effect) :=
  match exec call st s with
  | .ok _ s1 => some (s1.trace.drop s.trace.length)
  | _ => none

/-- The `Shape` objects a statement may modify. -/
def Statement.writes : Statement ShapeT DrawStrategy → List Nat
  | .shape st => st.writes
  | .shapeFromRef x _ => [x]
  | _ => []

/-- Whether a statement is one of the operations on a `ShapeConstRef`: its construction (from two
objects or from a `Shape`), its copy construction, its copy assignment, a draw through it, its
destruction. -/
def Statement.isRefOp : Statement ShapeT DrawStrategy → Bool
  | .refConstruct _ _ _ _ => true
  | .refFromShape _ _ => true
  | .refFromConstShape _ _ => true
  | .refCopyConstruct _ _ => true
  | .refCopyAssign _ _ => true
  | .refDraw _ => true
  | .refDestroy _ => true
  | _ => false

/-- The `ShapeConstRef` named `r` is alive and its buffer holds the model `m`. -/
def State.refHolds (s : State ShapeT DrawStrategy Effect) (r : Nat) (m : RefConcept Key) :
    Prop :=
  s.refs r = some ⟨some m⟩

/-- Every live `ShapeConstRef` stores the address of a shape value and the address of a drawer
value. -/
def State.Direct (s : State ShapeT DrawStrategy Effect) : Prop :=
  ∀ r m, s.refHolds r m → m.model.shape_.isShape = true ∧ m.model.drawer_.isDrawer = true

end

end G34_2

/-! ## Concrete instantiations, used to evaluate the definitions -/

namespace Demo

/-- The class `Circle` of the sources.  The radius is kept in hundredths: `Circle{ 3.14 }` is
`⟨314⟩`. -/
structure Circle where
  radius : Nat
deriving DecidableEq, Repr

/-- A shape class with four `double` members (hundredths again). -/
structure Box where
  left : Nat
  top : Nat
  right : Nat
  bottom : Nat
deriving DecidableEq, Repr

/-- A function object class with one data member.  As type `DrawStrategy` of instantiation
`relay` it has, besides `operator()( Circle const& ) const`, a member `operator*() const` that
returns another function object. -/
structure Pen where
  colour : Nat
deriving DecidableEq, Repr

/-- Three instantiations of the class templates:
* `lambda`: `Circle` and the closure type of the captureless lambda of `main()`;
* `relay` : `Circle` and the class `Pen` with its `operator*`;
* `wide`  : `Box` and the closure type of a captureless lambda. -/
inductive K where
  | lambda
  | relay
  | wide
deriving DecidableEq, Repr

/-- The shape type of an instantiation. -/
def ShapeT : K → Type
  | .lambda => Circle
  | .relay => Circle
  | .wide => Box

/-- The drawing strategy type of an instantiation (a captureless closure has no state). -/
def DrawStrategy : K → Type
  | .lambda => Unit
  | .relay => Pen
  | .wide => Unit

/-- Observable events of the demo behaviours. -/
inductive Ev where
  | circleDrawn (radius : Nat)
  | penDrawn (colour radius : Nat)
  | penRelayed (colour radius : Nat)
  | boxDrawn (left top right bottom : Nat)
deriving DecidableEq, Repr

/-- The event of the call `drawer( shape )`. -/
def call : ∀ k, DrawStrategy k → ShapeT k → Ev
  | .lambda, _, (c : Circle) => .circleDrawn c.radius
  | .relay, (p : Pen), (c : Circle) => .penDrawn p.colour c.radius
  | .wide, _, (b : Box) => .boxDrawn b.left b.top b.right b.bottom

/-- The event of the call `(*drawer)( shape )`.  For a captureless closure `*drawer` is the
function the closure converts to, so the call is the call of the closure; for `Pen` it is the
call of the object that `Pen::operator*` returns. -/
def derefCall : ∀ k, Option (DrawStrategy k → ShapeT k → Ev)
  | .lambda => some fun _ (c : Circle) => .circleDrawn c.radius
  | .relay => some fun (p : Pen) (c : Circle) => .penRelayed p.colour c.radius
  | .wide => some fun _ (b : Box) => .boxDrawn b.left b.top b.right b.bottom

/-- `sizeof` of the SBO model of an instantiation on a 64-bit platform: the vptr, the shape and
the drawer, padded to a multiple of 8. -/
def sizeofModel : K → Nat
  | .lambda => 24
  | .relay => 24
  | .wide => 48

/-- `alignof` of the SBO model of an instantiation. -/
def alignofModel : K → Nat := fun _ => 8

/-- The moved-from state of a model: the members are trivially copyable, a move leaves them as
they are. -/
def movedFrom : ∀ k, G33S.OwningModel (ShapeT k) (DrawStrategy k) →
    G33S.OwningModel (ShapeT k) (DrawStrategy k) :=
  fun _ m => m

/-- The models of the three instantiations are trivially relocatable: their members are
`double`s and a function object without a pointer or reference. -/
def relocatable : K → Bool := fun _ => true

/-- `Circle circle{ 3.14 };` -/
def circle : Circle := ⟨314⟩

/-- The statements of `main()` of the three source files, with `shape1` and `shape2` named `1`
and `2`, followed by the destruction of the two objects. -/
def mainProg : List (Stmt ShapeT DrawStrategy) :=
  [.construct 1 .lambda circle (), .draw 1, .copyConstruct 2 1, .draw 2, .destroy 2, .destroy 1]

/-- The state of the heap `Shape` program after `Shape shape1( circle, drawer );`, started with
room for two objects in the free store. -/
def heapOne : G32.State ShapeT DrawStrategy Ev :=
  { heap := [some ⟨.lambda, ⟨circle, ()⟩⟩]
    avail := 1
    objs := Function.update (fun _ => none) 1 (some ⟨some 0⟩)
    trace := [] }

/-- The state `heapOne` with an exhausted free store. -/
def heapFull : G32.State ShapeT DrawStrategy Ev :=
  { heapOne with avail := 0 }

/-- The model that `shape1` owns in `heapOne`. -/
def circleModel : G32.ShapeConcept ShapeT DrawStrategy :=
  ⟨.lambda, ⟨circle, ()⟩⟩

/-- The state of the SBO `Shape` program after `Shape shape1( circle, drawer );`. -/
def sboOne : G33S.State ShapeT DrawStrategy Ev :=
  { objs := Function.update (fun _ => none) 1 (some ⟨some ⟨.lambda, ⟨circle, ()⟩⟩⟩)
    trace := [] }

/-- The model that the buffer of `shape1` holds in `sboOne`. -/
def circleSboModel : G33S.Concept ShapeT DrawStrategy :=
  ⟨.lambda, ⟨circle, ()⟩⟩

/-- The state `sboOne` with the lifetimes recorded: the model of `shape1` is model `0`. -/
def sboOneTracked : G33S.Lifetime.State ShapeT DrawStrategy Ev :=
  { objs := Function.update (fun _ => none) 1 (some ⟨some ⟨0, circleSboModel⟩⟩)
    trace := []
    born := 1
    dead := [] }

/-- The state of `main()` of `G34_Non_Owning_Type_Erasure_2.cpp` after
`Shape shape1( circle, drawer );`: `circle` is shape object `1`, `drawer` is drawer object `1`,
`shape1` is `Shape` object `1`. -/
def refOne : G34_2.State ShapeT DrawStrategy Ev :=
  { toState := heapOne
    shapeVars := Function.update (fun _ => none) 1 (some ⟨.lambda, circle⟩)
    drawerVars := Function.update (fun _ => none) 1 (some ⟨.lambda, ()⟩)
    refs := fun _ => none }

/-- The state of `main()` of `G34_Non_Owning_Type_Erasure_1.cpp` after the declarations of
`circle` and `drawer`. -/
def simpleOne : G34_1.State ShapeT DrawStrategy Ev :=
  { shapeVars := Function.update (fun _ => none) 1 (some ⟨.lambda, circle⟩)
    drawerVars := Function.update (fun _ => none) 1 (some ⟨.lambda, ()⟩)
    trace := [] }

end Demo

/-! ## A model type that is not trivially relocatable -/

namespace DemoTracked

/-- A shape class that is not trivially relocatable:
`class Tracked { int id_; int const* self_; ... };`, whose constructors -- the copy and the move
constructor among them -- set `self_` to the address of the member `id_` of the object they
construct, and whose `id()` returns `*self_`.  The value of an object is its `id_`.  With the
closure type of a captureless lambda `[]( Tracked const& t ){ ... t.id() ... }` as drawing
strategy, the model has a vptr, the eight bytes of `id_` and its padding, the pointer and the
closure: 32 bytes, aligned to 8. -/
structure Tracked where
  id_ : Nat
deriving DecidableEq, Repr

/-- The one instantiation: `Tracked` with the lambda. -/
inductive K where
  | tracked
deriving DecidableEq, Repr

/-- The shape type of the instantiation. -/
def ShapeT : K → Type := fun _ => Tracked

/-- The drawing strategy type of the instantiation (a captureless closure has no state). -/
def DrawStrategy : K → Type := fun _ => Unit

/-- Observable event of the behaviour: the `id()` that the lambda reads. -/
inductive Ev where
  | trackedDrawn (id : Nat)
deriving DecidableEq, Repr

/-- The event of the call `drawer( shape )`. -/
def call : ∀ k, DrawStrategy k → ShapeT k → Ev :=
  fun _ _ (t : Tracked) => .trackedDrawn t.id_

/-- `sizeof` of the SBO model on a 64-bit platform. -/
def sizeofModel : K → Nat := fun _ => 32

/-- `alignof` of the SBO model. -/
def alignofModel : K → Nat := fun _ => 8

/-- The moved-from state of a model: the move constructor of `Tracked` copies `id_`. -/
def movedFrom : ∀ k, G33S.OwningModel (ShapeT k) (DrawStrategy k) →
    G33S.OwningModel (ShapeT k) (DrawStrategy k) :=
  fun _ m => m

/-- The model is not trivially relocatable: in bytes copied to another buffer, `self_` points
into the buffer the bytes came from. -/
def relocatable : K → Bool := fun _ => false

/-- `Shape a( Tracked{ 1 }, drawer ); Shape b( Tracked{ 2 }, drawer ); a = b; draw( a );` -/
def assignProg : List (Stmt ShapeT DrawStrategy) :=
  [.construct 1 .tracked (⟨1⟩ : Tracked) (), .construct 2 .tracked (⟨2⟩ : Tracked) (),
   .copyAssign 1 2, .draw 1]

/-- `Shape b1( Tracked{ 1 }, drawer ); Shape c( Tracked{ 3 }, drawer ); Shape b2( std::move(b1) );
b1 = c; draw( b1 );` with `b1`, `b2`, `c` named `1`, `2`, `3`. -/
def reassignProg : List (Stmt ShapeT DrawStrategy) :=
  [.construct 1 .tracked (⟨1⟩ : Tracked) (), .construct 3 .tracked (⟨3⟩ : Tracked) (),
   .moveConstruct 2 1, .copyAssign 1 3, .draw 1]

end DemoTracked


/-! ## Machine integers

A signed integer type of `bits` bits holds the integers from `-(2^bits / 2)` up to
`2^bits - 2^bits / 2 - 1`.  An addition or subtraction of two values of the type whose
mathematical result is not a value of the type has undefined behaviour: it has no result. -/

/-- Whether the integer `i` is a value of the signed integer type of `bits` bits. -/
def inSigned (bits : Nat) (i : Int) : Prop :=
  -((2 : Int) ^ bits / 2) ≤ i ∧ i < 2 ^ bits - (2 : Int) ^ bits / 2

instance (bits : Nat) (i : Int) : Decidable (inSigned bits i) := by
  unfold inSigned
  exact inferInstance

/-- The expression `a + b` on two operands of the signed integer type of `bits` bits: the sum
when it is a value of the type, no result (`none`) when it is not.  Integers that are not values
of the type are no operands. -/
def addSigned (bits : Nat) (a b : Int) : Option Int :=
  if inSigned bits a ∧ inSigned bits b ∧ inSigned bits (a + b) then some (a + b) else none

/-- The expression `a - b` on two operands of the signed integer type of `bits` bits: the
difference when it is a value of the type, no result (`none`) when it is not. -/
def subSigned (bits : Nat) (a b : Int) : Option Int :=
  if inSigned bits a ∧ inSigned bits b ∧ inSigned bits (a - b) then some (a - b) else none

/-! ## `G21_Command.cpp` -/

namespace G21

/-- An object of a class derived from `CalculatorCommand`: its dynamic type (`Add` or `Subtract`)
and its data member `operand_`. -/
inductive CalculatorCommand where
  | Add (operand_ : Int)
  | Subtract (operand_ : Int)
deriving DecidableEq, Repr

/-- The virtual function `execute( int i ) const`: `return i + operand_;` in `Add`,
`return i - operand_;` in `Subtract`, in the type `int` of `bits` bits.  The result is `none`
when the behaviour of the arithmetic expression is undefined. -/
def CalculatorCommand.execute (bits : Nat) : CalculatorCommand → Int → Option Int
  | .Add operand_, i => addSigned bits i operand_
  | .Subtract operand_, i => subSigned bits i operand_

/-- The virtual function `undo( int i ) const`: `return i - operand_;` in `Add`,
`return i + operand_;` in `Subtract`. -/
def CalculatorCommand.undo (bits : Nat) : CalculatorCommand → Int → Option Int
  | .Add operand_, i => subSigned bits i operand_
  | .Subtract operand_, i => addSigned bits i operand_

/-- The class `Calculator`: `current_` and the commands that `stack_` points to, the top of the
stack first.  (`compute` dereferences a command before it pushes it, so that no element of the
stack is a null pointer.) -/
structure Calculator where
  current_ : Int
  stack_ : List CalculatorCommand
deriving DecidableEq, Repr

/-- The object that `Calculator calculator{};` declares: `current_` is `0`, the stack is
empty. -/
def Calculator.init : Calculator :=
  { current_ := 0, stack_ := [] }

/-- `Calculator::compute( std::unique_ptr<CalculatorCommand> command )`:
`current_ = command->execute( current_ ); stack_.push( std::move(command) );`.
`command` is `none` for a null pointer, which `compute` dereferences.  The behaviour is undefined
when that of `execute` is.  `pushThrows` says whether the allocation inside `stack_.push` fails:
then `compute` is left by `std::bad_alloc`, after the assignment to `current_`. -/
def Calculator.compute (bits : Nat) (pushThrows : Bool) (command : Option CalculatorCommand)
    (c : Calculator) : Outcome Calculator Unit :=
  match command with
  | none => .undefined
  | some cmd =>
    match cmd.execute bits c.current_ with
    | none => .undefined
    | some i =>
      if pushThrows then .bad_alloc { c with current_ := i }
      else .ok () { current_ := i, stack_ := cmd :: c.stack_ }

/-- `Calculator::undoLast()`:
`if( stack_.empty() ) return; auto command = std::move(stack_.top()); stack_.pop();
current_ = command->undo(current_);`.  The behaviour is undefined when that of `undo` is. -/
def Calculator.undoLast (bits : Nat) (c : Calculator) : Outcome Calculator Unit :=
  match c.stack_ with
  | [] => .ok () c
  | command :: rest =>
    match command.undo bits c.current_ with
    | none => .undefined
    | some i => .ok () { current_ := i, stack_ := rest }

/-- `Calculator::result() const { return current_; }`. -/
def Calculator.result (c : Calculator) : Int :=
  c.current_

/-- `Calculator::clear()`: `current_ = 0; CommandStack{}.swap( stack_ );`. -/
def Calculator.clear (c : Calculator) : Calculator :=
  { c with current_ := 0, stack_ := [] }

/-- Run `compute` on the commands of a list, one after the other, all pushes succeeding. -/
def Calculator.computeAll (bits : Nat) : List CalculatorCommand → Calculator →
    Outcome Calculator Unit
  | [], c => .ok () c
  | cmd :: rest, c =>
    (Calculator.compute bits false (some cmd) c).andThen fun _ c1 =>
      Calculator.computeAll bits rest c1

end G21

/-! ## `G27_StrongType.cpp` -/

namespace G27

/-- The class template `StrongType<T,Tag,Skills...>`: its data member `value_`.  The tag is a
type parameter without values, as in the source. -/
structure StrongType (T : Type) (Tag : Type) where
  value_ : T
deriving DecidableEq, Repr

/-- `struct MeterTag`. -/
inductive MeterTag : Type

/-- `struct KilometerTag`. -/
inductive KilometerTag : Type

/-- `Meter<long>`, with `long` the signed integer type of `bits` bits. -/
abbrev Meter := StrongType Int MeterTag

/-- `Kilometer<long>`. -/
abbrev Kilometer := StrongType Int KilometerTag

/-- `StrongType::get() const noexcept { return value_; }`. -/
def StrongType.get {T Tag : Type} (s : StrongType T Tag) : T :=
  s.value_

/-- The friend `operator+( Derived const& lhs, Derived const& rhs )` of the skill `Addable`, for
`T = long`: `return Derived{ lhs.get() + rhs.get() };`.  Both parameters are references to
`const`; the result is a new object of the type of the operands, and there is none when the
behaviour of the addition is undefined. -/
def Addable.add {Tag : Type} (bits : Nat) (lhs rhs : StrongType Int Tag) :
    Option (StrongType Int Tag) :=
  match addSigned bits lhs.get rhs.get with
  | none => none
  | some i => some ⟨i⟩

/-- The friend `operator+=( Derived& lhs, Derived const& rhs )` of the skill `Addable`, for
`T = long`: `lhs.get() += rhs.get(); return lhs;`.  The result is the new value of `lhs`. -/
def Addable.addAssign {Tag : Type} (bits : Nat) (lhs rhs : StrongType Int Tag) :
    Option (StrongType Int Tag) :=
  match addSigned bits lhs.get rhs.get with
  | none => none
  | some i => some { lhs with value_ := i }

/-- The variables `m1`, `m2`, `m3` of `main()` after
`auto const m1 = Meter<long>{ 100 }; auto const m2 = Meter<long>{ 50 };
auto const m3 = m1 + m2;`. -/
def main (bits : Nat) : Option (Meter × Meter × Meter) :=
  let m1 : Meter := ⟨100⟩
  let m2 : Meter := ⟨50⟩
  match Addable.add bits m1 m2 with
  | none => none
  | some m3 => some (m1, m2, m3)

end G27

/-! ## `G22_Example_2.cpp`

A `std::vector<int>` is the list of its elements, an iterator into it is an index, `end` is the
length.  The two algorithms are those of the standard library, in the formulation of its
implementations. -/

namespace G22

/-- The loop of `std::max_element`:
`while( ++first != last ) if( *largest < *first ) largest = first;`, with `n` elements left
after `first`. -/
def maxLoop (vec : List Int) : Nat → Nat → Nat → Nat
  | 0, _, largest => largest
  | n + 1, first, largest =>
    if vec.getD largest 0 < vec.getD (first + 1) 0 then maxLoop vec n (first + 1) (first + 1)
    else maxLoop vec n (first + 1) largest

/-- `std::max_element( begin(vec), end(vec) )`: `if( first == last ) return last;` and the loop,
started with `largest = first`.  The result is the first of the largest elements. -/
def max_element (vec : List Int) : Nat :=
  if vec.length = 0 then vec.length else maxLoop vec (vec.length - 1) 0 0

/-- `std::find( first, last, value )` with `value` a reference to the element at index `pos`:
the first index from `first` on, `n` elements being left, whose element equals `value`; `last`
when there is none. -/
def findLoop (vec : List Int) (pos : Nat) : Nat → Nat → Nat
  | 0, first => first
  | n + 1, first =>
    if vec.getD first 0 = vec.getD pos 0 then first else findLoop vec pos n (first + 1)

/-- The loop of `std::remove( first, last, value )` with `value` a reference to the element at
index `pos`: `for( i = first; ++i != last; ) if( !(*i == value) ) *first++ = std::move(*i);`,
with `n` elements left after `i`.  Every comparison reads the element that `value` refers to as
it is then.  Returns the vector and the iterator `first`. -/
def removeLoop (pos : Nat) : Nat → Nat → Nat → List Int → List Int × Nat
  | 0, _, first, vec => (vec, first)
  | n + 1, i, first, vec =>
    if vec.getD (i + 1) 0 = vec.getD pos 0 then removeLoop pos n (i + 1) first vec
    else removeLoop pos n (i + 1) (first + 1) (vec.set first (vec.getD (i + 1) 0))

/-- `std::remove( begin(vec), end(vec), value )` with `value` a reference to the element at index
`pos`: `first = std::find( first, last, value ); if( first != last ) ` the loop
`; return first;`. -/
def remove (vec : List Int) (pos : Nat) : List Int × Nat :=
  let first := findLoop vec pos vec.length 0
  if first = vec.length then (vec, first)
  else removeLoop pos (vec.length - first - 1) first first vec

/-- `vec.erase( first, end(vec) )`. -/
def erase (vec : List Int) (first : Nat) : List Int :=
  vec.take first

/-- The vector of `main()`. -/
def vec0 : List Int :=
  [1, -3, 27, 42, 4, -8, 22, 42, 37, 4, 18, 9]

/-- The statements of `main()` on a vector `vec`:
`auto const pos = std::max_element( begin(vec), end(vec) );
vec.erase( std::remove( begin(vec), end(vec), *pos ), end(vec) );`.  The argument `*pos` is
bound to the reference parameter `value` of `std::remove`.  Returns the vector as `print` sees
it. -/
def main (vec : List Int) : List Int :=
  let pos := max_element vec
  let r := remove vec pos
  erase r.1 r.2

end G22

/-! ## `G35_Decorator_1.cpp`

The type `double` is the floating-point type of the implementation.  A value of it is a finite
number, an infinity or a NaN; the finite values are kept as rational numbers (both zeros are
`0`).  What the implementation contributes is the rounding: `round x` is the value of type
`double` that stands for the exact result `x` of a conversion or of an arithmetic operation. -/

namespace G35

/-- A value of type `double`. -/
inductive Double where
  | finite (q : ℚ)
  | inf (negative : Bool)
  | nan
deriving DecidableEq

/-- `std::isfinite( d )`. -/
def Double.isfinite : Double → Bool
  | .finite _ => true
  | _ => false

/-- The comparison `a < b` of two values of type `double`; a comparison with a NaN is false. -/
def Double.lt : Double → Double → Bool
  | .finite a, .finite b => decide (a < b)
  | .finite _, .inf negative => !negative
  | .inf negative, .finite _ => negative
  | .inf a, .inf b => a && !b
  | _, _ => false

/-- The unary minus of type `double`. -/
def Double.neg : Double → Double
  | .finite a => .finite (-a)
  | .inf negative => .inf (!negative)
  | .nan => .nan

/-- The addition `a + b` of type `double`. -/
def Double.add (round : ℚ → Double) : Double → Double → Double
  | .finite a, .finite b => round (a + b)
  | .finite _, .inf negative => .inf negative
  | .inf negative, .finite _ => .inf negative
  | .inf a, .inf b => if a = b then .inf a else .nan
  | _, _ => .nan

/-- The subtraction `a - b` of type `double`. -/
def Double.sub (round : ℚ → Double) (a b : Double) : Double :=
  Double.add round a b.neg

/-- The multiplication `a * b` of type `double`. -/
def Double.mul (round : ℚ → Double) : Double → Double → Double
  | .finite a, .finite b => round (a * b)
  | .finite a, .inf negative => if a = 0 then .nan else .inf (xor negative (decide (a < 0)))
  | .inf negative, .finite b => if b = 0 then .nan else .inf (xor negative (decide (b < 0)))
  | .inf a, .inf b => .inf (xor a b)
  | _, _ => .nan

/-- The conversion `static_cast<uint64_t>( d )`: the fractional part is discarded; undefined
(`none`) when the truncated value is no value of type `uint64_t`. -/
def Double.toUInt64 : Double → Option Nat
  | .finite q => if -1 < q ∧ q < 2 ^ 64 then some ⌊q⌋.toNat else none
  | _ => none

/-- What the theorems need of the rounding of the implementation: a result between `0` and `1`
is rounded to a finite value between `0` and `1`, and a result between `1/100` and `2^64` is
rounded to a finite value with a relative error of at most `2^-52`. -/
structure Rounding (round : ℚ → Double) : Prop where
  unit : ∀ x, 0 ≤ x → x ≤ 1 → ∃ y, round x = .finite y ∧ 0 ≤ y ∧ y ≤ 1
  near : ∀ x, 1 / 100 ≤ x → x ≤ 2 ^ 64 → ∃ y, round x = .finite y ∧ |y - x| ≤ x / 2 ^ 52

/-- Arithmetic without rounding error. -/
def exact (x : ℚ) : Double :=
  .finite x

/-- The class `Money`: its data member `value`, of type `uint64_t`. -/
structure Money where
  value : Nat
deriving DecidableEq, Repr

/-- The function template `operator*( Money money, T factor )` for `T = double`:
`return Money{ static_cast<uint64_t>( money.value * factor ) };`.  `money.value` is converted
to `double` for the multiplication. -/
def Money.mul (round : ℚ → Double) (money : Money) (factor : Double) : Option Money :=
  (Double.mul round (round money.value) factor).toUInt64.map Money.mk

/-- `operator+( Money lhs, Money rhs )`: `return Money{ lhs.value + rhs.value };` in
`uint64_t`. -/
def Money.add (lhs rhs : Money) : Money :=
  ⟨(lhs.value + rhs.value) % 2 ^ 64⟩

/-- An object of a class derived from `Item`, with its data members; `item_` of a
`DecoratedItem` is the object that the non-null `std::unique_ptr<Item>` points to. -/
inductive Item where
  | CppBook (title_ : String) (price_ : Money)
  | ConferenceTicket (name_ : String) (price_ : Money)
  | Discounted (factor_ : Double) (item_ : Item)
  | Taxed (factor_ : Double) (item_ : Item)
deriving DecidableEq

/-- The exceptions that the constructors throw. -/
inductive Exception where
  | invalid_argument (what : String)
deriving DecidableEq, Repr

/-- The constructor `DecoratedItem( std::unique_ptr<Item> item )`:
`item_( std::move(item) )` and `if( !item_ ) throw std::invalid_argument( "Invalid item" );`.
Returns what `item_` points to. -/
def DecoratedItem.ctor (item : Option Item) : Except Exception Item :=
  match item with
  | none => .error (.invalid_argument "Invalid item")
  | some item_ => .ok item_

/-- The constructor `Discounted( double discount, std::unique_ptr<Item> item )`:
`DecoratedItem( std::move(item) ), factor_( 1.0 - discount )` and
`if( !std::isfinite(discount) || discount < 0.0 || discount > 1.0 )
throw std::invalid_argument( "Invalid discount" );`. -/
def Discounted.ctor (round : ℚ → Double) (discount : Double) (item : Option Item) :
    Except Exception Item :=
  match DecoratedItem.ctor item with
  | .error e => .error e
  | .ok item_ =>
    let factor_ := Double.sub round (.finite 1) discount
    if !discount.isfinite || discount.lt (.finite 0) || (Double.finite 1).lt discount then
      .error (.invalid_argument "Invalid discount")
    else .ok (.Discounted factor_ item_)

/-- The constructor `Taxed( double taxRate, std::unique_ptr<Item> item )`:
`DecoratedItem( std::move(item) ), factor_( 1.0 + taxRate )` and
`if( !std::isfinite(taxRate) || taxRate < 0.0 ) throw std::invalid_argument( "Invalid tax" );`. -/
def Taxed.ctor (round : ℚ → Double) (taxRate : Double) (item : Option Item) :
    Except Exception Item :=
  match DecoratedItem.ctor item with
  | .error e => .error e
  | .ok item_ =>
    let factor_ := Double.add round (.finite 1) taxRate
    if !taxRate.isfinite || taxRate.lt (.finite 0) then
      .error (.invalid_argument "Invalid tax")
    else .ok (.Taxed factor_ item_)

/-- The virtual function `price() const`: `return price_;` in `CppBook` and `ConferenceTicket`,
`return item().price() * factor_;` in `Discounted` and `Taxed`. -/
def Item.price (round : ℚ → Double) : Item → Option Money
  | .CppBook _ price_ => some price_
  | .ConferenceTicket _ price_ => some price_
  | .Discounted factor_ item_ => (item_.price round).bind fun m => Money.mul round m factor_
  | .Taxed factor_ item_ => (item_.price round).bind fun m => Money.mul round m factor_

/-- A floating-point literal with the decimal value `x`. -/
def literal (round : ℚ → Double) (x : ℚ) : Double :=
  round x

/-- `item1` of `main()`:
`std::make_unique<Taxed>( 0.07, std::make_unique<CppBook>( "Effective C++", Money{19} ) )`. -/
def item1 (round : ℚ → Double) : Except Exception Item :=
  Taxed.ctor round (literal round (7 / 100)) (some (.CppBook "Effective C++" ⟨19⟩))

/-- `item2` of `main()`: `std::make_unique<Taxed>( 0.19, std::make_unique<Discounted>( 0.2,
std::make_unique<ConferenceTicket>( "CppCon", Money{999} ) ) )`. -/
def item2 (round : ℚ → Double) : Except Exception Item :=
  match Discounted.ctor round (literal round (2 / 10))
      (some (.ConferenceTicket "CppCon" ⟨999⟩)) with
  | .error e => .error e
  | .ok d => Taxed.ctor round (literal round (19 / 100)) (some d)

/-- `item->price()` for the result of a construction: `none` when there is no price, because
the construction threw or the computation of the price is undefined. -/
def totalPrice (round : ℚ → Double) (item : Except Exception Item) : Option Money :=
  match item with
  | .error _ => none
  | .ok i => i.price round

end G35

/-! ## `G25_Classic_Observer.cpp` and `G25_Modern_Observer.cpp`

The member functions `attach`, `detach` and `notify` of `Person` have the same text in the two
files.  An observer is named by its address, a natural number.  The `std::set<PersonObserver*>`
is the list of its elements in increasing order; an iterator is `none` for `end()` and
`some o` for the position of the element `o`. -/

namespace G25

/-- A call that an `update` makes on the `Person` that notifies it. -/
inductive Call where
  | attach (observer : Nat)
  | detach (observer : Nat)
deriving DecidableEq, Repr

/-- The class `Person`: the data member `observers_`. -/
structure Person where
  observers_ : List Nat
deriving DecidableEq, Repr

/-- `std::set::insert`: the element goes to its place in the order, unless it is there. -/
def insert (observer : Nat) : List Nat → List Nat
  | [] => [observer]
  | x :: xs =>
    if observer < x then observer :: x :: xs
    else if observer = x then x :: xs
    else x :: insert observer xs

/-- `Person::attach( PersonObserver* observer )`:
`auto [pos,success] = observers_.insert( observer ); return success;`. -/
def Person.attach (p : Person) (observer : Nat) : Person × Bool :=
  (⟨insert observer p.observers_⟩, decide (observer ∉ p.observers_))

/-- `Person::detach( PersonObserver* observer )`:
`return ( observers_.erase( observer ) > 0U );`. -/
def Person.detach (p : Person) (observer : Nat) : Person × Bool :=
  (⟨p.observers_.erase observer⟩, decide (observer ∈ p.observers_))

/-- `begin(observers_)`. -/
def begin (observers_ : List Nat) : Option Nat :=
  observers_.head?

/-- The iterator after `++` on the position of `pos`: the position of the next greater
element. -/
def next (observers_ : List Nat) (pos : Nat) : Option Nat :=
  (observers_.filter fun o => pos < o).head?

/-- The calls of one `update`, run on the `Person`.  `valid` tells whether the iterator `iter`
of the running `notify` is still valid: erasing the element it points to invalidates it. -/
def runCalls (iter : Option Nat) : List Call → Person → Bool → Person × Bool
  | [], p, valid => (p, valid)
  | .attach o :: calls, p, valid => runCalls iter calls (p.attach o).1 valid
  | .detach o :: calls, p, valid =>
    runCalls iter calls (p.detach o).1
      (valid && !(decide (iter = some o) && decide (o ∈ p.observers_)))

/-- The loop of `Person::notify( StateChange property )`:
`for( auto iter=begin(observers_); iter!=end(observers_); )
{ auto const pos = iter++; (*pos)->update(*this,property); }`.
`update o` is the list of calls that the `update` of observer `o` makes on this `Person`; the
list `trace` collects the observers whose `update` has been called.  The use of an invalidated
iterator is undefined.  `none`: the loop has not ended after `fuel` iterations. -/
def notifyLoop (update : Nat → List Call) :
    Nat → Option Nat → Person → List Nat → Option (Outcome Person (List Nat))
  | 0, _, _, _ => none
  | _ + 1, none, p, trace => some (.ok trace p)
  | fuel + 1, some pos, p, trace =>
    let iter := next p.observers_ pos
    let r := runCalls iter (update pos) p true
    if r.2 then notifyLoop update fuel iter r.1 (trace ++ [pos]) else some .undefined

/-- `Person::notify( StateChange property )`.  The result is the list of the observers whose
`update` has been called, in the order of the calls. -/
def Person.notify (update : Nat → List Call) (fuel : Nat) (p : Person) :
    Option (Outcome Person (List Nat)) :=
  notifyLoop update fuel (begin p.observers_) p []

end G25

/-! ## The dispatch table of the manual-dispatch `Shape` -/

namespace G33M

section
variable {Key : Type} [DecidableEq Key] {ShapeT DrawStrategy : Key → Type} {Effect : Type}

/-- The three function pointers of a `Shape` are the lambdas of instantiation `k`. -/
def Shape.tableOf (v : Shape Key) (k : Key) : Prop :=
  v.deleter = some k ∧ v.draw_ = some k ∧ v.clone_ = some k

/-- Ownership discipline and dispatch-table consistency of a state: every non-null `pimpl_` of
a live `Shape` points to a live object, the deleter, `draw_` and `clone_` of that `Shape` are
the lambdas of the instantiation that is the type of the object, and no two live `Shape`s point
to the same object. -/
structure State.WF (s : State ShapeT DrawStrategy Effect) : Prop where
  consistent : ∀ x v a, s.objs x = some v → v.pimpl_ = some a →
    ∃ o, cell s.heap a = some o ∧ v.tableOf o.key
  unique : ∀ x y v w a, s.objs x = some v → s.objs y = some w →
    v.pimpl_ = some a → w.pimpl_ = some a → x = y

end

end G33M

/-! ## `G34_Non_Owning_Type_Erasure_2.cpp` with the dynamic types

In namespace `G34_2` a virtual call is resolved where it is written: a model of the free store
is taken to be an `OwningShapeModel`, a model in the buffer of a `ShapeConstRef` to be a
`NonOwningShapeModel`.  Here nothing is taken for granted.  A `std::unique_ptr<ShapeConcept>`
and a buffer `raw_` hold an object of either class, every call of `draw()`, `clone()` and
`clone( ShapeConcept* )` dispatches on the dynamic type of the object it is made on, and the
addresses of the members of a model are those of the place where the model lives. -/

namespace G34_2

namespace Dyn

section
variable {Key : Type} [DecidableEq Key] {ShapeT DrawStrategy : Key → Type} {Effect : Type}

/-- The place where an object of a class derived from `detail::ShapeConcept` lives: a cell of
the free store or the buffer of a `ShapeConstRef`. -/
inductive Place where
  | cell (a : Nat)
  | buffer (r : Nat)
deriving DecidableEq, Repr

/-- The address of the member `shape_` of an `OwningShapeModel` at a place. -/
def Place.shapeMember : Place → Addr
  | .cell a => .shapeMember a
  | .buffer r => .shapeBufMember r

/-- The address of the member `drawer_` of an `OwningShapeModel` at a place. -/
def Place.drawerMember : Place → Addr
  | .cell a => .drawerMember a
  | .buffer r => .drawerBufMember r

/-- An object of a class derived from `detail::ShapeConcept`: its dynamic type, an instantiation
of `OwningShapeModel` or of `NonOwningShapeModel`, and its data members. -/
inductive Model (ShapeT DrawStrategy : Key → Type) where
  | owning (c : G32.ShapeConcept ShapeT DrawStrategy)
  | nonOwning (m : RefConcept Key)

/-- Machine state.  `objs` are the `Shape` objects (`pimpl_` points to a cell of `heap`), `refs`
the `ShapeConstRef` objects, each with what its buffer `raw_` holds. -/
structure State (ShapeT DrawStrategy : Key → Type) (Effect : Type) where
  heap : List (Option (Model ShapeT DrawStrategy))
  avail : Nat
  objs : Nat → Option G32.Shape
  refs : Nat → Option (Option (Model ShapeT DrawStrategy))
  shapeVars : Nat → Option (Sigma ShapeT)
  drawerVars : Nat → Option (Sigma DrawStrategy)
  trace : List Effect

/-- The state at program start. -/
def State.init (ShapeT DrawStrategy : Key → Type) (Effect : Type) (avail : Nat) :
    State ShapeT DrawStrategy Effect :=
  { heap := [], avail := avail, objs := fun _ => none, refs := fun _ => none,
    shapeVars := fun _ => none, drawerVars := fun _ => none, trace := [] }

/-- Write the value `v` of the `Shape` object named `x`. -/
def State.put (s : State ShapeT DrawStrategy Effect) (x : Nat) (v : Option G32.Shape) :
    State ShapeT DrawStrategy Effect :=
  { s with objs := Function.update s.objs x v }

/-- Write the value `v` of the `ShapeConstRef` object named `r`. -/
def State.putRef (s : State ShapeT DrawStrategy Effect) (r : Nat)
    (v : Option (Option (Model ShapeT DrawStrategy))) : State ShapeT DrawStrategy Effect :=
  { s with refs := Function.update s.refs r v }

/-- The shape of type `ShapeT k` at an address, if there is one. -/
def State.shapeAt (s : State ShapeT DrawStrategy Effect) (k : Key) : Addr → Option (ShapeT k)
  | .shapeVar x => (s.shapeVars x).bind (castTo k)
  | .shapeMember a =>
    match cell s.heap a with
    | some (.owning c) => castTo k ⟨c.key, c.model.shape_⟩
    | _ => none
  | .shapeBufMember r =>
    match s.refs r with
    | some (some (.owning c)) => castTo k ⟨c.key, c.model.shape_⟩
    | _ => none
  | _ => none

/-- The drawer of type `DrawStrategy k` at an address, if there is one. -/
def State.drawerAt (s : State ShapeT DrawStrategy Effect) (k : Key) :
    Addr → Option (DrawStrategy k)
  | .drawerVar x => (s.drawerVars x).bind (castTo k)
  | .drawerMember a =>
    match cell s.heap a with
    | some (.owning c) => castTo k ⟨c.key, c.model.drawer_⟩
    | _ => none
  | .drawerBufMember r =>
    match s.refs r with
    | some (some (.owning c)) => castTo k ⟨c.key, c.model.drawer_⟩
    | _ => none
  | _ => none

/-- `std::make_unique<Model>( ... )`: allocate a cell and construct `obj` in it. -/
def make_unique (obj : Model ShapeT DrawStrategy) (s : State ShapeT DrawStrategy Effect) :
    Outcome (State ShapeT DrawStrategy Effect) Nat :=
  if s.avail = 0 then .bad_alloc s
  else .ok s.heap.length { s with heap := s.heap ++ [some obj], avail := s.avail - 1 }

/-- `~unique_ptr()`: `delete` the owned object, if any (its virtual destructor destroys the data
members, whatever the dynamic type is). -/
def unique_ptr_dtor (p : Option Nat) (s : State ShapeT DrawStrategy Effect) :
    Outcome (State ShapeT DrawStrategy Effect) Unit :=
  match p with
  | none => .ok () s
  | some a =>
    match cell s.heap a with
    | some _ => .ok () { s with heap := s.heap.set a none, avail := s.avail + 1 }
    | none => .undefined

/-- The virtual call `p->draw()`: `drawer_(shape_)` in an `OwningShapeModel`,
`(*drawer_)(*shape_)` in a `NonOwningShapeModel`. -/
def Model.draw (call : ∀ k, DrawStrategy k → ShapeT k → Effect) :
    Model ShapeT DrawStrategy → State ShapeT DrawStrategy Effect →
      Outcome (State ShapeT DrawStrategy Effect) Unit
  | .owning c, s =>
    .ok () { s with trace := s.trace ++ [call c.key c.model.drawer_ c.model.shape_] }
  | .nonOwning m, s =>
    match s.shapeAt m.key m.model.shape_, s.drawerAt m.key m.model.drawer_ with
    | some shape, some drawer =>
      .ok () { s with trace := s.trace ++ [call m.key drawer shape] }
    | _, _ => .undefined

/-- The virtual call `p->clone()`:
`return std::make_unique<OwningShapeModel>( *this );` in an `OwningShapeModel`,
`return std::make_unique<OwningShapeModel<ShapeT,DrawStrategy>>( *shape_, *drawer_ );` in a
`NonOwningShapeModel`. -/
def Model.clone : Model ShapeT DrawStrategy → State ShapeT DrawStrategy Effect →
    Outcome (State ShapeT DrawStrategy Effect) Nat
  | .owning c, s => make_unique (.owning ⟨c.key, ⟨c.model.shape_, c.model.drawer_⟩⟩) s
  | .nonOwning m, s =>
    match s.shapeAt m.key m.model.shape_, s.drawerAt m.key m.model.drawer_ with
    | some shape, some drawer => make_unique (.owning ⟨m.key, ⟨shape, drawer⟩⟩) s
    | _, _ => .undefined

/-- The virtual call `p->clone( memory )` on the object that lives at `place`; returns the
object constructed at `memory`:
`std::construct_at( static_cast<NonOwningShapeModel<ShapeT const,DrawStrategy const>*>(memory),
shape_, drawer_ )` in an `OwningShapeModel`,
`std::construct_at( static_cast<NonOwningShapeModel*>(memory), *this )` in a
`NonOwningShapeModel`. -/
def Model.cloneInto (place : Place) : Model ShapeT DrawStrategy → Model ShapeT DrawStrategy
  | .owning c => .nonOwning ⟨c.key, ⟨place.shapeMember, place.drawerMember⟩⟩
  | .nonOwning m => .nonOwning ⟨m.key, ⟨m.model.shape_, m.model.drawer_⟩⟩

/-- `Shape::Shape( ShapeT shape, DrawStrategy drawer )`, instantiated at `k`. -/
def Shape.ctor (k : Key) (shape : ShapeT k) (drawer : DrawStrategy k)
    (s : State ShapeT DrawStrategy Effect) :
    Outcome (State ShapeT DrawStrategy Effect) G32.Shape :=
  (make_unique (.owning ⟨k, ⟨shape, drawer⟩⟩) s).andThen fun a s1 => .ok ⟨some a⟩ s1

/-- What a `std::unique_ptr<ShapeConcept>` points to. -/
def State.deref (s : State ShapeT DrawStrategy Effect) (p : Option Nat) :
    Option (Model ShapeT DrawStrategy) :=
  match p with
  | none => none
  | some a => cell s.heap a

/-- `Shape::Shape( Shape const& other ) : pimpl_( other.pimpl_->clone() )`. -/
def Shape.copyCtor (other : G32.Shape) (s : State ShapeT DrawStrategy Effect) :
    Outcome (State ShapeT DrawStrategy Effect) G32.Shape :=
  match s.deref other.pimpl_ with
  | none => .undefined
  | some obj => (obj.clone s).andThen fun a s1 => .ok ⟨some a⟩ s1

/-- `Shape::Shape( ShapeConstRef const& other ) : pimpl_{ other.pimpl()->clone() }`, with what
the buffer of `other` holds. -/
def Shape.ctorFromRef (other : Option (Model ShapeT DrawStrategy))
    (s : State ShapeT DrawStrategy Effect) :
    Outcome (State ShapeT DrawStrategy Effect) G32.Shape :=
  match other with
  | none => .undefined
  | some obj => (obj.clone s).andThen fun a s1 => .ok ⟨some a⟩ s1

/-- `Shape::~Shape() = default`. -/
def Shape.dtor (this : G32.Shape) (s : State ShapeT DrawStrategy Effect) :
    Outcome (State ShapeT DrawStrategy Effect) Unit :=
  unique_ptr_dtor this.pimpl_ s

/-- `draw( Shape const& shape ) { shape.pimpl_->draw(); }`. -/
def drawShape (call : ∀ k, DrawStrategy k → ShapeT k → Effect) (shape : G32.Shape)
    (s : State ShapeT DrawStrategy Effect) : Outcome (State ShapeT DrawStrategy Effect) Unit :=
  match s.deref shape.pimpl_ with
  | none => .undefined
  | some obj => obj.draw call s

/-- The copy assignment operator of `Shape` (copy-and-swap), called as `this = other`. -/
def Shape.copyAssign (this other : Nat) (s : State ShapeT DrawStrategy Effect) :
    Outcome (State ShapeT DrawStrategy Effect) Unit :=
  match s.objs this, s.objs other with
  | some _, some o =>
    (Shape.copyCtor o s).andThen fun copy s1 =>
      match s1.objs this with
      | none => .undefined
      | some t => Shape.dtor ⟨t.pimpl_⟩ (s1.put this (some ⟨copy.pimpl_⟩))
  | _, _ => .undefined

/-- The move assignment operator `Shape& operator=( Shape&& ) = default`. -/
def Shape.moveAssign (this other : Nat) (s : State ShapeT DrawStrategy Effect) :
    Outcome (State ShapeT DrawStrategy Effect) Unit :=
  match s.objs this, s.objs other with
  | some _, some o =>
    let s1 := s.put other (some ⟨none⟩)
    match s1.objs this with
    | none => .undefined
    | some t => unique_ptr_dtor t.pimpl_ (s1.put this (some ⟨o.pimpl_⟩))
  | _, _ => .undefined

/-- The move constructor `Shape( Shape&& ) = default`. -/
def Shape.moveCtor (other : Nat) (s : State ShapeT DrawStrategy Effect) :
    Outcome (State ShapeT DrawStrategy Effect) G32.Shape :=
  match s.objs other with
  | none => .undefined
  | some o => .ok ⟨o.pimpl_⟩ (s.put other (some ⟨none⟩))

/-- The statements on `Shape` objects. -/
def execShape (call : ∀ k, DrawStrategy k → ShapeT k → Effect) :
    Stmt ShapeT DrawStrategy → State ShapeT DrawStrategy Effect →
      Outcome (State ShapeT DrawStrategy Effect) Unit
  | .construct x k shape drawer, s =>
    match s.objs x with
    | some _ => .undefined
    | none => (Shape.ctor k shape drawer s).andThen fun v s1 => .ok () (s1.put x (some v))
  | .copyConstruct x other, s =>
    match s.objs x, s.objs other with
    | none, some o => (Shape.copyCtor o s).andThen fun v s1 => .ok () (s1.put x (some v))
    | _, _ => .undefined
  | .moveConstruct x other, s =>
    match s.objs x, s.objs other with
    | none, some _ => (Shape.moveCtor other s).andThen fun v s1 => .ok () (s1.put x (some v))
    | _, _ => .undefined
  | .copyAssign x other, s => Shape.copyAssign x other s
  | .moveAssign x other, s => Shape.moveAssign x other s
  | .draw x, s =>
    match s.objs x with
    | some v => drawShape call v s
    | none => .undefined
  | .destroy x, s =>
    match s.objs x with
    | some v => (Shape.dtor v s).andThen fun _ s1 => .ok () (s1.put x none)
    | none => .undefined

/-- The constructor template `ShapeConstRef( ShapeT& shape, DrawStrategy& drawer )`,
instantiated at `k`; returns what `raw_` holds. -/
def ShapeConstRef.ctor (k : Key) (shape drawer : Addr) : Option (Model ShapeT DrawStrategy) :=
  some (.nonOwning ⟨k, NonOwningShapeModel.ctor shape drawer⟩)

/-- `ShapeConstRef::ShapeConstRef( Shape& other )` and
`ShapeConstRef::ShapeConstRef( Shape const& other )`: `other.pimpl_->clone( pimpl() );`. -/
def ShapeConstRef.ctorFromShape (other : G32.Shape) (s : State ShapeT DrawStrategy Effect) :
    Outcome (State ShapeT DrawStrategy Effect) (Option (Model ShapeT DrawStrategy)) :=
  match other.pimpl_ with
  | none => .undefined
  | some a =>
    match cell s.heap a with
    | none => .undefined
    | some obj => .ok (some (obj.cloneInto (.cell a))) s

/-- `ShapeConstRef( ShapeConstRef const& other )`: `other.pimpl()->clone( pimpl() );`, with
`other` the `ShapeConstRef` named `q`. -/
def ShapeConstRef.copyCtor (q : Nat) (other : Option (Model ShapeT DrawStrategy))
    (s : State ShapeT DrawStrategy Effect) :
    Outcome (State ShapeT DrawStrategy Effect) (Option (Model ShapeT DrawStrategy)) :=
  match other with
  | none => .undefined
  | some obj => .ok (some (obj.cloneInto (.buffer q))) s

/-- `~ShapeConstRef() { std::destroy_at( pimpl() ); }`. -/
def ShapeConstRef.dtor (this : Option (Model ShapeT DrawStrategy))
    (s : State ShapeT DrawStrategy Effect) : Outcome (State ShapeT DrawStrategy Effect) Unit :=
  match this with
  | none => .undefined
  | some _ => .ok () s

/-- The copy assignment operator of `ShapeConstRef` (copy-and-swap), called as
`this = other`. -/
def ShapeConstRef.copyAssign (this other : Nat) (s : State ShapeT DrawStrategy Effect) :
    Outcome (State ShapeT DrawStrategy Effect) Unit :=
  match s.refs this, s.refs other with
  | some _, some o =>
    (ShapeConstRef.copyCtor other o s).andThen fun copy s1 =>
      match s1.refs this with
      | none => .undefined
      | some t => ShapeConstRef.dtor t (s1.putRef this (some copy))
  | _, _ => .undefined

/-- `draw( ShapeConstRef const& shape ) { shape.pimpl()->draw(); }`. -/
def drawRef (call : ∀ k, DrawStrategy k → ShapeT k → Effect)
    (shape : Option (Model ShapeT DrawStrategy)) (s : State ShapeT DrawStrategy Effect) :
    Outcome (State ShapeT DrawStrategy Effect) Unit :=
  match shape with
  | none => .undefined
  | some obj => obj.draw call s

/-- Execution of one statement. -/
def exec (call : ∀ k, DrawStrategy k → ShapeT k → Effect) :
    Statement ShapeT DrawStrategy → State ShapeT DrawStrategy Effect →
      Outcome (State ShapeT DrawStrategy Effect) Unit
  | .shape st, s => execShape call st s
  | .declShape x k v, s =>
    match s.shapeVars x with
    | none => .ok () { s with shapeVars := Function.update s.shapeVars x (some ⟨k, v⟩) }
    | some _ => .undefined
  | .declDrawer x k d, s =>
    match s.drawerVars x with
    | none => .ok () { s with drawerVars := Function.update s.drawerVars x (some ⟨k, d⟩) }
    | some _ => .undefined
  | .setShape x k v, s =>
    match s.shapeAt k (.shapeVar x) with
    | some _ => .ok () { s with shapeVars := Function.update s.shapeVars x (some ⟨k, v⟩) }
    | none => .undefined
  | .setDrawer x k d, s =>
    match s.drawerAt k (.drawerVar x) with
    | some _ => .ok () { s with drawerVars := Function.update s.drawerVars x (some ⟨k, d⟩) }
    | none => .undefined
  | .endShape x, s =>
    match s.shapeVars x with
    | some _ => .ok () { s with shapeVars := Function.update s.shapeVars x none }
    | none => .undefined
  | .endDrawer x, s =>
    match s.drawerVars x with
    | some _ => .ok () { s with drawerVars := Function.update s.drawerVars x none }
    | none => .undefined
  | .refConstruct r k shape drawer, s =>
    match s.refs r, s.shapeAt k (.shapeVar shape), s.drawerAt k (.drawerVar drawer) with
    | none, some _, some _ =>
      .ok () (s.putRef r (some (ShapeConstRef.ctor k (.shapeVar shape) (.drawerVar drawer))))
    | _, _, _ => .undefined
  | .refFromShape r x, s =>
    match s.refs r, s.objs x with
    | none, some o =>
      (ShapeConstRef.ctorFromShape o s).andThen fun v s1 => .ok () (s1.putRef r (some v))
    | _, _ => .undefined
  | .refFromConstShape r x, s =>
    match s.refs r, s.objs x with
    | none, some o =>
      (ShapeConstRef.ctorFromShape o s).andThen fun v s1 => .ok () (s1.putRef r (some v))
    | _, _ => .undefined
  | .refCopyConstruct r other, s =>
    match s.refs r, s.refs other with
    | none, some o =>
      (ShapeConstRef.copyCtor other o s).andThen fun v s1 => .ok () (s1.putRef r (some v))
    | _, _ => .undefined
  | .refCopyAssign r other, s => ShapeConstRef.copyAssign r other s
  | .refDraw r, s =>
    match s.refs r with
    | some v => drawRef call v s
    | none => .undefined
  | .refDestroy r, s =>
    match s.refs r with
    | some v => (ShapeConstRef.dtor v s).andThen fun _ s1 => .ok () (s1.putRef r none)
    | none => .undefined
  | .shapeFromRef x r, s =>
    match s.objs x, s.refs r with
    | none, some v =>
      (Shape.ctorFromRef v s).andThen fun o s1 => .ok () (s1.put x (some o))
    | _, _ => .undefined

/-- Execution of a list of statements. -/
def run (call : ∀ k, DrawStrategy k → ShapeT k → Effect) :
    List (Statement ShapeT DrawStrategy) → State ShapeT DrawStrategy Effect →
      Outcome (State ShapeT DrawStrategy Effect) Unit :=
  runWith (exec call)

/-- A state of namespace `G34_2` as a state with dynamic types: every model of the free store is
an `OwningShapeModel`, every buffer holds a `NonOwningShapeModel`. -/
def embed (s : G34_2.State ShapeT DrawStrategy Effect) : State ShapeT DrawStrategy Effect :=
  { heap := s.heap.map (Option.map Model.owning)
    avail := s.avail
    objs := s.objs
    refs := fun r => (s.refs r).map fun v => v.raw_.map Model.nonOwning
    shapeVars := s.shapeVars
    drawerVars := s.drawerVars
    trace := s.trace }

end

end Dyn

end G34_2
/-! ## Free-store cells -/

theorem cell_lt {α : Type} {h : List (Option α)} {a : Nat} {c : α} (hc : cell h a = some c) :
    a < h.length := by
  unfold cell at hc
  by_contra hge
  rw [List.getElem?_eq_none (by omega)] at hc
  simp at hc

theorem cell_append_of_lt {α : Type} (h : List (Option α)) (x : Option α) {a : Nat}
    (ha : a < h.length) : cell (h ++ [x]) a = cell h a := by
  unfold cell
  rw [List.getElem?_append_left ha]

theorem cell_append_length {α : Type} (h : List (Option α)) (c : α) :
    cell (h ++ [some c]) h.length = some c := by
  unfold cell
  simp

theorem cell_set_self {α : Type} (h : List (Option α)) (a : Nat) :
    cell (h.set a none) a = none := by
  unfold cell
  by_cases ha : a < h.length
  · simp [List.getElem?_set, ha]
  · simp [List.getElem?_set, ha]

theorem cell_set_of_ne {α : Type} (h : List (Option α)) {a b : Nat} (hne : a ≠ b) :
    cell (h.set a none) b = cell h b := by
  unfold cell
  simp [List.getElem?_set, hne]

/-! ## The heap `Shape` of `G32_Type_Erasure.cpp` -/

namespace G32
section
variable {Key : Type} {ShapeT DrawStrategy : Key → Type} {Effect : Type}

theorem g32_draw_of_holds (call : ∀ k, DrawStrategy k → ShapeT k → Effect)
    {s : State ShapeT DrawStrategy Effect} {x : Nat} {c : ShapeConcept ShapeT DrawStrategy}
    (h : s.holds x c) :
    exec call (.draw x) s
      = .ok () { s with trace := s.trace ++ [call c.key c.model.drawer_ c.model.shape_] } := by
  obtain ⟨o, ho, hc⟩ := h
  simp [exec, ho, draw, hc, ShapeConcept.draw, OwningShapeModel.draw]

theorem g32_drawEffect_of_holds (call : ∀ k, DrawStrategy k → ShapeT k → Effect)
    {s : State ShapeT DrawStrategy Effect} {x : Nat} {c : ShapeConcept ShapeT DrawStrategy}
    (h : s.holds x c) :
    drawEffect call s x = some [call c.key c.model.drawer_ c.model.shape_] := by
  simp [drawEffect, g32_draw_of_holds call h]

theorem g32_copyCtor_ok {s : State ShapeT DrawStrategy Effect} {o : Shape}
    {c : ShapeConcept ShapeT DrawStrategy} (hc : s.deref o.pimpl_ = some c) (ha : s.avail ≠ 0) :
    Shape.copyCtor o s
      = .ok ⟨some s.heap.length⟩ (s.alloc c) := by
  simp [Shape.copyCtor, hc, ShapeConcept.clone, OwningShapeModel.clone, make_unique, ha,
    Outcome.andThen]

theorem g32_copyCtor_bad_alloc {s : State ShapeT DrawStrategy Effect} {o : Shape}
    {c : ShapeConcept ShapeT DrawStrategy} (hc : s.deref o.pimpl_ = some c) (ha : s.avail = 0) :
    Shape.copyCtor o s = .bad_alloc s := by
  simp [Shape.copyCtor, hc, ShapeConcept.clone, OwningShapeModel.clone, make_unique, ha,
    Outcome.andThen]


theorem g32_deref_put (s : State ShapeT DrawStrategy Effect) (x : Nat) (v : Option Shape)
    (p : Option Nat) : (s.put x v).deref p = s.deref p := rfl

theorem g32_deref_alloc {s : State ShapeT DrawStrategy Effect} {p : Option Nat}
    {c : ShapeConcept ShapeT DrawStrategy} (h : s.deref p = some c)
    (d : ShapeConcept ShapeT DrawStrategy) : (s.alloc d).deref p = some c := by
  cases p with
  | none => simp [State.deref] at h
  | some a =>
    simp only [State.deref, State.alloc] at h ⊢
    rw [cell_append_of_lt _ _ (cell_lt h)]
    exact h

theorem g32_deref_alloc_new (s : State ShapeT DrawStrategy Effect)
    (d : ShapeConcept ShapeT DrawStrategy) : (s.alloc d).deref (some s.heap.length) = some d := by
  simp [State.deref, State.alloc, cell_append_length]

theorem g32_deref_free_of_ne (s : State ShapeT DrawStrategy Effect) {a b : Nat} (hne : a ≠ b) :
    (s.free a).deref (some b) = s.deref (some b) := by
  simp [State.deref, State.free, cell_set_of_ne _ hne]

theorem g32_holds_put_of_ne {s : State ShapeT DrawStrategy Effect} {x y : Nat}
    {c : ShapeConcept ShapeT DrawStrategy} (v : Option Shape) (hne : y ≠ x) :
    (s.put x v).holds y c ↔ s.holds y c := by
  simp [State.holds, State.put, Function.update_noteq hne, State.deref]

theorem g32_holds_put_same {s : State ShapeT DrawStrategy Effect} {x : Nat}
    {c : ShapeConcept ShapeT DrawStrategy} (v : Shape) :
    (s.put x (some v)).holds x c ↔ s.deref v.pimpl_ = some c := by
  simp [State.holds, State.put, State.deref]

theorem g32_unique_ptr_dtor_none (s : State ShapeT DrawStrategy Effect) :
    unique_ptr_dtor none s = .ok () s := rfl

theorem g32_unique_ptr_dtor_some {s : State ShapeT DrawStrategy Effect} {a : Nat}
    {c : ShapeConcept ShapeT DrawStrategy} (h : cell s.heap a = some c) :
    unique_ptr_dtor (some a) s = .ok () (s.free a) := by
  simp [unique_ptr_dtor, delete, h]

theorem g32_unique_ptr_dtor_ok {s s1 : State ShapeT DrawStrategy Effect} {p : Option Nat}
    (h : unique_ptr_dtor p s = .ok () s1) :
    (p = none ∧ s1 = s) ∨ ∃ a c, p = some a ∧ cell s.heap a = some c ∧ s1 = s.free a := by
  cases p with
  | none =>
    left
    simp [unique_ptr_dtor] at h
    exact ⟨rfl, h.symm⟩
  | some a =>
    right
    cases hc : cell s.heap a with
    | none => simp [unique_ptr_dtor, delete, hc] at h
    | some c =>
      simp [unique_ptr_dtor, delete, hc] at h
      exact ⟨a, c, rfl, hc, h.symm⟩

theorem g32_unique_ptr_dtor_no_throw (p : Option Nat) (s s1 : State ShapeT DrawStrategy Effect) :
    unique_ptr_dtor p s ≠ .bad_alloc s1 := by
  cases p with
  | none => simp [unique_ptr_dtor]
  | some a =>
    cases hc : cell s.heap a <;> simp [unique_ptr_dtor, delete, hc]

/-- Inversion of a construction from `(shape, drawer)`. -/
theorem g32_construct_ok (call : ∀ k, DrawStrategy k → ShapeT k → Effect)
    {s s1 : State ShapeT DrawStrategy Effect} {x : Nat} {k : Key} {shape : ShapeT k}
    {drawer : DrawStrategy k} (h : exec call (.construct x k shape drawer) s = .ok () s1) :
    s.objs x = none ∧ s.avail ≠ 0 ∧
      s1 = (s.alloc ⟨k, ⟨shape, drawer⟩⟩).put x (some ⟨some s.heap.length⟩) := by
  cases hx : s.objs x with
  | some v => simp [exec, hx] at h
  | none =>
    by_cases ha : s.avail = 0
    · simp [exec, hx, Shape.ctor, make_unique, ha, Outcome.andThen] at h
    · simp [exec, hx, Shape.ctor, make_unique, ha, Outcome.andThen] at h
      exact ⟨rfl, ha, h.symm⟩

/-- Inversion of a copy construction. -/
theorem g32_copyConstruct_ok (call : ∀ k, DrawStrategy k → ShapeT k → Effect)
    {s s1 : State ShapeT DrawStrategy Effect} {x other : Nat}
    (h : exec call (.copyConstruct x other) s = .ok () s1) :
    ∃ o c, s.objs x = none ∧ s.objs other = some o ∧ s.deref o.pimpl_ = some c ∧ s.avail ≠ 0 ∧
      s1 = (s.alloc c).put x (some ⟨some s.heap.length⟩) := by
  cases hx : s.objs x with
  | some v => simp [exec, hx] at h
  | none =>
    cases ho : s.objs other with
    | none => simp [exec, hx, ho] at h
    | some o =>
      cases hc : s.deref o.pimpl_ with
      | none => simp [exec, hx, ho, Shape.copyCtor, hc, Outcome.andThen] at h
      | some c =>
        by_cases ha : s.avail = 0
        · simp [exec, hx, ho, g32_copyCtor_bad_alloc hc ha, Outcome.andThen] at h
        · simp [exec, hx, ho, g32_copyCtor_ok hc ha, Outcome.andThen] at h
          exact ⟨o, c, rfl, rfl, hc, ha, h.symm⟩

/-- Inversion of a move construction. -/
theorem g32_moveConstruct_ok (call : ∀ k, DrawStrategy k → ShapeT k → Effect)
    {s s1 : State ShapeT DrawStrategy Effect} {x other : Nat}
    (h : exec call (.moveConstruct x other) s = .ok () s1) :
    ∃ o, s.objs x = none ∧ s.objs other = some o ∧
      s1 = (s.put other (some ⟨none⟩)).put x (some ⟨o.pimpl_⟩) := by
  cases hx : s.objs x with
  | some v => simp [exec, hx] at h
  | none =>
    cases ho : s.objs other with
    | none => simp [exec, hx, ho] at h
    | some o =>
      simp [exec, hx, ho, Shape.moveCtor, Outcome.andThen] at h
      exact ⟨o, rfl, rfl, h.symm⟩


theorem g32_unique_ptr_dtor_iff {s s1 : State ShapeT DrawStrategy Effect} {p : Option Nat} :
    unique_ptr_dtor p s = .ok () s1 ↔ s.deletable p ∧ s1 = s.release p := by
  constructor
  · intro h
    rcases g32_unique_ptr_dtor_ok h with ⟨hp, hs⟩ | ⟨a, c, hp, hc, hs⟩
    · subst hp
      exact ⟨Or.inl rfl, hs⟩
    · subst hp
      exact ⟨Or.inr ⟨a, c, rfl, hc⟩, hs⟩
  · rintro ⟨hd, hs⟩
    rcases hd with hp | ⟨a, c, hp, hc⟩
    · subst hp
      subst hs
      rfl
    · subst hp
      subst hs
      exact g32_unique_ptr_dtor_some hc

theorem g32_deletable_alloc_put {s : State ShapeT DrawStrategy Effect} {p : Option Nat}
    (c : ShapeConcept ShapeT DrawStrategy) (x : Nat) (v : Option Shape) :
    ((s.alloc c).put x v).deletable p ↔ s.deletable p ∨ p = some s.heap.length := by
  cases p with
  | none => simp [State.deletable]
  | some a =>
    simp only [State.deletable, State.put, State.alloc]
    constructor
    · rintro (h | ⟨b, d, hb, hd⟩)
      · cases h
      · cases hb
        by_cases hlt : a < s.heap.length
        · rw [cell_append_of_lt _ _ hlt] at hd
          exact Or.inl (Or.inr ⟨a, d, rfl, hd⟩)
        · have := cell_lt hd
          simp at this
          right
          congr 1
          omega
    · rintro ((h | ⟨b, d, hb, hd⟩) | h)
      · cases h
      · cases hb
        right
        exact ⟨a, d, rfl, by rw [cell_append_of_lt _ _ (cell_lt hd)]; exact hd⟩
      · cases h
        right
        exact ⟨_, c, rfl, cell_append_length _ _⟩

/-- Inversion of a copy assignment. -/
theorem g32_copyAssign_ok (call : ∀ k, DrawStrategy k → ShapeT k → Effect)
    {s s1 : State ShapeT DrawStrategy Effect} {this other : Nat} :
    exec call (.copyAssign this other) s = .ok () s1 ↔
    ∃ t o c, s.objs this = some t ∧ s.objs other = some o ∧ s.deref o.pimpl_ = some c ∧
      s.avail ≠ 0 ∧ (s.deletable t.pimpl_ ∨ t.pimpl_ = some s.heap.length) ∧
      s1 = ((s.alloc c).put this (some ⟨some s.heap.length⟩)).release t.pimpl_ := by
  cases ht : s.objs this with
  | none => simp [exec, Shape.copyAssign, ht]
  | some t =>
    cases ho : s.objs other with
    | none => simp [exec, Shape.copyAssign, ht, ho]
    | some o =>
      cases hc : s.deref o.pimpl_ with
      | none => simp [exec, Shape.copyAssign, ht, ho, Shape.copyCtor, hc, Outcome.andThen]
      | some c =>
        by_cases ha : s.avail = 0
        · simp [exec, Shape.copyAssign, ht, ho, g32_copyCtor_bad_alloc hc ha, Outcome.andThen, ha]
        · have h1 : (s.alloc c).objs this = some t := ht
          simp only [exec, Shape.copyAssign, ht, ho, g32_copyCtor_ok hc ha, Outcome.andThen, h1,
            Shape.dtor, g32_unique_ptr_dtor_iff, g32_deletable_alloc_put]
          constructor
          · rintro ⟨hd, hs⟩
            exact ⟨t, o, c, rfl, rfl, hc, ha, hd, hs⟩
          · rintro ⟨t1, o1, c1, h1, h2, h3, -, hd, hs⟩
            cases h1
            cases h2
            rw [hc] at h3
            cases h3
            exact ⟨hd, hs⟩


theorem g32_deletable_put {s : State ShapeT DrawStrategy Effect} {p : Option Nat} (x : Nat)
    (v : Option Shape) : (s.put x v).deletable p ↔ s.deletable p := Iff.rfl

/-- Inversion of a move assignment. -/
theorem g32_moveAssign_ok (call : ∀ k, DrawStrategy k → ShapeT k → Effect)
    {s s1 : State ShapeT DrawStrategy Effect} {this other : Nat} :
    exec call (.moveAssign this other) s = .ok () s1 ↔
    ∃ t o, s.objs this = some t ∧ s.objs other = some o ∧
      ((this = other ∧ s1 = (s.put other (some ⟨none⟩)).put this (some ⟨o.pimpl_⟩)) ∨
       (this ≠ other ∧ s.deletable t.pimpl_ ∧
        s1 = ((s.put other (some ⟨none⟩)).put this (some ⟨o.pimpl_⟩)).release t.pimpl_)) := by
  cases ht : s.objs this with
  | none => simp [exec, Shape.moveAssign, ht]
  | some t =>
    cases ho : s.objs other with
    | none => simp [exec, Shape.moveAssign, ht, ho]
    | some o =>
      by_cases hto : this = other
      · subst hto
        have hto : t = o := by
          rw [ht] at ho
          exact Option.some.inj ho
        subst hto
        have h1 : (s.put this (some ⟨none⟩)).objs this = some ⟨none⟩ := by simp [State.put]
        simp [exec, Shape.moveAssign, ht, h1, unique_ptr_dtor, eq_comm]
      · have h1 : (s.put other (some ⟨none⟩)).objs this = some t := by
          simp [State.put, Function.update_noteq hto, ht]
        simp only [exec, Shape.moveAssign, ht, ho, h1, g32_unique_ptr_dtor_iff,
          g32_deletable_put]
        constructor
        · rintro ⟨hd, hs⟩
          exact ⟨t, o, rfl, rfl, Or.inr ⟨hto, hd, hs⟩⟩
        · rintro ⟨t1, o1, h2, h3, h4⟩
          cases h2
          cases h3
          rcases h4 with ⟨h5, -⟩ | ⟨-, hd, hs⟩
          · exact absurd h5 hto
          · exact ⟨hd, hs⟩

/-- Inversion of a destruction. -/
theorem g32_destroy_ok (call : ∀ k, DrawStrategy k → ShapeT k → Effect)
    {s s1 : State ShapeT DrawStrategy Effect} {x : Nat} :
    exec call (.destroy x) s = .ok () s1 ↔
    ∃ v, s.objs x = some v ∧ s.deletable v.pimpl_ ∧ s1 = (s.release v.pimpl_).put x none := by
  cases hx : s.objs x with
  | none => simp [exec, hx]
  | some v =>
    simp only [exec, hx, Shape.dtor]
    constructor
    · intro h
      cases hd : unique_ptr_dtor v.pimpl_ s with
      | ok u s2 =>
        rw [hd] at h
        simp [Outcome.andThen] at h
        obtain ⟨h1, h2⟩ := g32_unique_ptr_dtor_iff.mp hd
        exact ⟨v, rfl, h1, by rw [← h, h2]⟩
      | bad_alloc s2 => rw [hd] at h; simp [Outcome.andThen] at h
      | undefined => rw [hd] at h; simp [Outcome.andThen] at h
    · rintro ⟨v1, h1, hd, hs⟩
      cases h1
      rw [g32_unique_ptr_dtor_iff.mpr ⟨hd, rfl⟩, hs]
      rfl

/-- Inversion of a draw. -/
theorem g32_draw_ok (call : ∀ k, DrawStrategy k → ShapeT k → Effect)
    {s s1 : State ShapeT DrawStrategy Effect} {x : Nat} :
    exec call (.draw x) s = .ok () s1 ↔
    ∃ c, s.holds x c ∧
      s1 = { s with trace := s.trace ++ [call c.key c.model.drawer_ c.model.shape_] } := by
  constructor
  · intro h
    cases hx : s.objs x with
    | none => simp [exec, hx] at h
    | some v =>
      cases hc : s.deref v.pimpl_ with
      | none => simp [exec, hx, draw, hc] at h
      | some c =>
        have hh : s.holds x c := ⟨v, hx, hc⟩
        rw [g32_draw_of_holds call hh] at h
        simp at h
        exact ⟨c, hh, h.symm⟩
  · rintro ⟨c, hh, hs⟩
    rw [g32_draw_of_holds call hh, hs]

/-- A statement that leaves by `std::bad_alloc` found the free store exhausted and has changed
nothing. -/
theorem g32_exec_bad_alloc (call : ∀ k, DrawStrategy k → ShapeT k → Effect)
    (st : Stmt ShapeT DrawStrategy) {s s1 : State ShapeT DrawStrategy Effect}
    (h : exec call st s = .bad_alloc s1) : s1 = s ∧ s.avail = 0 := by
  cases st with
  | construct x k shape drawer =>
    cases hx : s.objs x with
    | some v => simp [exec, hx] at h
    | none =>
      by_cases ha : s.avail = 0
      · simp [exec, hx, Shape.ctor, make_unique, ha, Outcome.andThen] at h
        exact ⟨h.symm, ha⟩
      · simp [exec, hx, Shape.ctor, make_unique, ha, Outcome.andThen] at h
  | copyConstruct x other =>
    cases hx : s.objs x with
    | some v => simp [exec, hx] at h
    | none =>
      cases ho : s.objs other with
      | none => simp [exec, hx, ho] at h
      | some o =>
        cases hc : s.deref o.pimpl_ with
        | none => simp [exec, hx, ho, Shape.copyCtor, hc, Outcome.andThen] at h
        | some c =>
          by_cases ha : s.avail = 0
          · simp [exec, hx, ho, g32_copyCtor_bad_alloc hc ha, Outcome.andThen] at h
            exact ⟨h.symm, ha⟩
          · simp [exec, hx, ho, g32_copyCtor_ok hc ha, Outcome.andThen] at h
  | moveConstruct x other =>
    cases hx : s.objs x with
    | some v => simp [exec, hx] at h
    | none =>
      cases ho : s.objs other with
      | none => simp [exec, hx, ho] at h
      | some o => simp [exec, hx, ho, Shape.moveCtor, Outcome.andThen] at h
  | copyAssign this other =>
    cases ht : s.objs this with
    | none => simp [exec, Shape.copyAssign, ht] at h
    | some t =>
      cases ho : s.objs other with
      | none => simp [exec, Shape.copyAssign, ht, ho] at h
      | some o =>
        cases hc : s.deref o.pimpl_ with
        | none => simp [exec, Shape.copyAssign, ht, ho, Shape.copyCtor, hc, Outcome.andThen] at h
        | some c =>
          by_cases ha : s.avail = 0
          · simp [exec, Shape.copyAssign, ht, ho, g32_copyCtor_bad_alloc hc ha,
              Outcome.andThen] at h
            exact ⟨h.symm, ha⟩
          · have h1 : (s.alloc c).objs this = some t := ht
            simp [exec, Shape.copyAssign, ht, ho, g32_copyCtor_ok hc ha, Outcome.andThen, h1,
              Shape.dtor, g32_unique_ptr_dtor_no_throw] at h
  | moveAssign this other =>
    cases ht : s.objs this with
    | none => simp [exec, Shape.moveAssign, ht] at h
    | some t =>
      cases ho : s.objs other with
      | none => simp [exec, Shape.moveAssign, ht, ho] at h
      | some o =>
        simp only [exec, Shape.moveAssign, ht, ho] at h
        split at h
        · cases h
        · exact absurd h (g32_unique_ptr_dtor_no_throw _ _ _)
  | draw x =>
    cases hx : s.objs x with
    | none => simp [exec, hx] at h
    | some v =>
      cases hc : s.deref v.pimpl_ <;> simp [exec, hx, draw, hc] at h
  | destroy x =>
    cases hx : s.objs x with
    | none => simp [exec, hx] at h
    | some v =>
      simp only [exec, hx, Shape.dtor] at h
      cases hd : unique_ptr_dtor v.pimpl_ s with
      | ok u s2 => rw [hd] at h; simp [Outcome.andThen] at h
      | bad_alloc s2 => exact absurd hd (g32_unique_ptr_dtor_no_throw _ _ _)
      | undefined => rw [hd] at h; simp [Outcome.andThen] at h


/-! ### The ownership discipline is an invariant -/

theorem g32_WF_init (avail : Nat) : (State.init ShapeT DrawStrategy Effect avail).WF :=
  ⟨fun x o a h => by simp [State.init] at h, fun x y o o1 a h => by simp [State.init] at h⟩

theorem g32_WF_lt {s : State ShapeT DrawStrategy Effect} (h : s.WF) {x : Nat} {o : Shape}
    {a : Nat} (hx : s.objs x = some o) (ha : o.pimpl_ = some a) : a < s.heap.length := by
  obtain ⟨c, hc⟩ := h.valid x o a hx ha
  exact cell_lt hc

theorem g32_WF_alloc {s : State ShapeT DrawStrategy Effect} (h : s.WF)
    (c : ShapeConcept ShapeT DrawStrategy) : (s.alloc c).WF := by
  refine ⟨?_, h.unique⟩
  intro x o a hx ha
  obtain ⟨d, hd⟩ := h.valid x o a hx ha
  exact ⟨d, by simp only [State.alloc]; rw [cell_append_of_lt _ _ (cell_lt hd)]; exact hd⟩

theorem g32_WF_put {s : State ShapeT DrawStrategy Effect} (h : s.WF) (x : Nat)
    (v : Option Shape)
    (hv : ∀ w a, v = some w → w.pimpl_ = some a →
      (∃ c, cell s.heap a = some c) ∧ ∀ y o, y ≠ x → s.objs y = some o → o.pimpl_ ≠ some a) :
    (s.put x v).WF := by
  constructor
  · intro y o a hy ha
    by_cases hyx : y = x
    · subst hyx
      simp [State.put] at hy
      exact (hv o a hy ha).1
    · simp [State.put, Function.update_noteq hyx] at hy
      exact h.valid y o a hy ha
  · intro y z o o1 a hy hz ha ha1
    by_cases hyx : y = x
    · by_cases hzx : z = x
      · rw [hyx, hzx]
      · subst hyx
        simp [State.put] at hy
        simp [State.put, Function.update_noteq hzx] at hz
        exact absurd ha1 ((hv o a hy ha).2 z o1 hzx hz)
    · by_cases hzx : z = x
      · subst hzx
        simp [State.put] at hz
        simp [State.put, Function.update_noteq hyx] at hy
        exact absurd ha ((hv o1 a hz ha1).2 y o hyx hy)
      · simp [State.put, Function.update_noteq hyx] at hy
        simp [State.put, Function.update_noteq hzx] at hz
        exact h.unique y z o o1 a hy hz ha ha1

theorem g32_WF_release {s : State ShapeT DrawStrategy Effect} (h : s.WF) (p : Option Nat)
    (hp : ∀ y o a, s.objs y = some o → p = some a → o.pimpl_ ≠ some a) :
    (s.release p).WF := by
  cases p with
  | none => exact h
  | some a =>
    refine ⟨?_, h.unique⟩
    intro y o b hy hb
    obtain ⟨c, hc⟩ := h.valid y o b hy hb
    have hne : a ≠ b := by
      intro hab
      subst hab
      exact hp y o a hy rfl hb
    exact ⟨c, by simp only [State.release, State.free]; rw [cell_set_of_ne _ hne]; exact hc⟩

theorem g32_release_put (s : State ShapeT DrawStrategy Effect) (p : Option Nat) (x : Nat)
    (v : Option Shape) : (s.release p).put x v = (s.put x v).release p := by
  cases p <;> rfl

/-- Every statement that ends normally keeps the ownership discipline. -/
theorem g32_exec_WF (call : ∀ k, DrawStrategy k → ShapeT k → Effect)
    (st : Stmt ShapeT DrawStrategy) {s s1 : State ShapeT DrawStrategy Effect} (hwf : s.WF)
    (h : exec call st s = .ok () s1) : s1.WF := by
  have fresh : ∀ (c : ShapeConcept ShapeT DrawStrategy) (x : Nat),
      ((s.alloc c).put x (some ⟨some s.heap.length⟩)).WF := by
    intro c x
    apply g32_WF_put (g32_WF_alloc hwf c)
    intro w a hw ha
    cases hw
    cases ha
    refine ⟨⟨c, by simp [State.alloc, cell_append_length]⟩, ?_⟩
    intro y o _ hy hya
    have := g32_WF_lt hwf (show s.objs y = some o from hy) hya
    omega
  cases st with
  | construct x k shape drawer =>
    obtain ⟨-, -, hs⟩ := g32_construct_ok call h
    rw [hs]
    exact fresh _ _
  | copyConstruct x other =>
    obtain ⟨o, c, -, -, -, -, hs⟩ := g32_copyConstruct_ok call h
    rw [hs]
    exact fresh _ _
  | moveConstruct x other =>
    obtain ⟨o, hx, ho, hs⟩ := g32_moveConstruct_ok call h
    rw [hs]
    have hne : x ≠ other := by
      intro hxo
      rw [hxo, ho] at hx
      cases hx
    have h1 : (s.put other (some ⟨none⟩)).WF :=
      g32_WF_put hwf _ _ (fun w a hw ha => by cases hw; cases ha)
    apply g32_WF_put h1
    intro w a hw ha
    cases hw
    simp only at ha
    refine ⟨hwf.valid other o a ho ha, ?_⟩
    intro y o1 hyx hy hya
    by_cases hyo : y = other
    · subst hyo
      simp [State.put] at hy
      subst hy
      cases hya
    · simp [State.put, Function.update_noteq hyo] at hy
      exact hyo (hwf.unique y other o1 o a hy ho hya ha)
  | copyAssign this other =>
    obtain ⟨t, o, c, ht, ho, hc, -, hd, hs⟩ := (g32_copyAssign_ok call).mp h
    rw [hs]
    apply g32_WF_release (fresh c this)
    intro y o1 a hy hp
    by_cases hyt : y = this
    · subst hyt
      simp [State.put] at hy
      subst hy
      have := g32_WF_lt hwf ht hp
      simp only
      intro hcontra
      cases hcontra
      omega
    · simp [State.put, Function.update_noteq hyt, State.alloc] at hy
      intro hya
      exact hyt (hwf.unique y this o1 t a hy ht hya hp)
  | moveAssign this other =>
    obtain ⟨t, o, ht, ho, hcase⟩ := (g32_moveAssign_ok call).mp h
    have h1 : (s.put other (some ⟨none⟩)).WF :=
      g32_WF_put hwf _ _ (fun w a hw ha => by cases hw; cases ha)
    have h2 : ((s.put other (some ⟨none⟩)).put this (some ⟨o.pimpl_⟩)).WF := by
      apply g32_WF_put h1
      intro w a hw ha
      cases hw
      simp only at ha
      refine ⟨hwf.valid other o a ho ha, ?_⟩
      intro y o1 hyx hy hya
      by_cases hyo : y = other
      · subst hyo
        simp [State.put] at hy
        subst hy
        cases hya
      · simp [State.put, Function.update_noteq hyo] at hy
        exact hyo (hwf.unique y other o1 o a hy ho hya ha)
    rcases hcase with ⟨-, hs⟩ | ⟨hne, hd, hs⟩
    · rw [hs]
      exact h2
    · rw [hs]
      apply g32_WF_release h2
      intro y o1 a hy hp
      by_cases hyt : y = this
      · subst hyt
        simp [State.put] at hy
        subst hy
        simp only
        intro hoa
        exact hne (hwf.unique y other t o a ht ho hp hoa)
      · by_cases hyo : y = other
        · subst hyo
          simp [State.put, Function.update_noteq hyt] at hy
          subst hy
          simp
        · simp [State.put, Function.update_noteq hyt, Function.update_noteq hyo] at hy
          intro hya
          exact hyt (hwf.unique y this o1 t a hy ht hya hp)
  | draw x =>
    obtain ⟨c, -, hs⟩ := (g32_draw_ok call).mp h
    rw [hs]
    exact ⟨hwf.valid, hwf.unique⟩
  | destroy x =>
    obtain ⟨v, hx, hd, hs⟩ := (g32_destroy_ok call).mp h
    rw [hs, g32_release_put]
    have h1 : (s.put x none).WF := g32_WF_put hwf _ _ (fun w a hw => by cases hw)
    apply g32_WF_release h1
    intro y o a hy hp
    by_cases hyx : y = x
    · subst hyx
      simp [State.put] at hy
    · simp [State.put, Function.update_noteq hyx] at hy
      intro hya
      exact hyx (hwf.unique y x o v a hy hx hya hp)


theorem runWith_cons_ok {σ S : Type} (exec : S → σ → Outcome σ Unit) (c : S) (cs : List S)
    (s s2 : σ) :
    runWith exec (c :: cs) s = .ok () s2 ↔
      ∃ s1, exec c s = .ok () s1 ∧ runWith exec cs s1 = .ok () s2 := by
  cases h : exec c s <;> simp [runWith, h, Outcome.andThen]

theorem g32_run_WF (call : ∀ k, DrawStrategy k → ShapeT k → Effect)
    (prog : List (Stmt ShapeT DrawStrategy)) :
    ∀ {s s1 : State ShapeT DrawStrategy Effect}, s.WF → run call prog s = .ok () s1 → s1.WF := by
  induction prog with
  | nil =>
    intro s s1 hwf h
    simp [run, runWith] at h
    rw [← h]
    exact hwf
  | cons c cs ih =>
    intro s s1 hwf h
    obtain ⟨s2, h2, h3⟩ := (runWith_cons_ok _ _ _ _ _).mp h
    exact ih (g32_exec_WF call c hwf h2) h3

theorem g32_release_objs (s : State ShapeT DrawStrategy Effect) (p : Option Nat) :
    (s.release p).objs = s.objs := by
  cases p <;> rfl

/-- Every statement that ends normally keeps the bookkeeping of `vacate` exact: a live `Shape`
has a null `pimpl_` if and only if its name is in the moved-from state. -/
theorem g32_exec_vacate (call : ∀ k, DrawStrategy k → ShapeT k → Effect)
    (st : Stmt ShapeT DrawStrategy) {s s1 : State ShapeT DrawStrategy Effect} {m : Nat → Bool}
    (hm : ∀ x o, s.objs x = some o → (o.pimpl_ = none ↔ m x = true))
    (h : exec call st s = .ok () s1) :
    ∀ x o, s1.objs x = some o → (o.pimpl_ = none ↔ vacate st m x = true) := by
  have fresh : ∀ (c : ShapeConcept ShapeT DrawStrategy) (x : Nat) (p : Option Nat) (y : Nat)
      (o : Shape),
      (((s.alloc c).put x (some ⟨some s.heap.length⟩)).release p).objs y = some o →
      (o.pimpl_ = none ↔ Function.update m x false y = true) := by
    intro c x p y o hy
    rw [g32_release_objs] at hy
    by_cases hyx : y = x
    · subst hyx
      simp [State.put] at hy
      subst hy
      simp
    · simp [State.put, Function.update_noteq hyx, State.alloc] at hy
      rw [Function.update_noteq hyx]
      exact hm y o hy
  have moved : ∀ (x other : Nat) (v : Shape) (p : Option Nat) (y : Nat) (o : Shape),
      x ≠ other → s.objs other = some v →
      (((s.put other (some ⟨none⟩)).put x (some ⟨v.pimpl_⟩)).release p).objs y = some o →
      (o.pimpl_ = none ↔
        Function.update (Function.update m x (m other)) other true y = true) := by
    intro x other v p y o hne hv hy
    rw [g32_release_objs] at hy
    by_cases hyo : y = other
    · subst hyo
      have hyx : y ≠ x := fun e => hne e.symm
      simp [State.put, Function.update_noteq hyx] at hy
      subst hy
      simp
    · rw [Function.update_noteq hyo]
      by_cases hyx : y = x
      · subst hyx
        simp [State.put] at hy
        subst hy
        simp only [Function.update_same]
        exact hm other v hv
      · simp [State.put, Function.update_noteq hyx, Function.update_noteq hyo] at hy
        rw [Function.update_noteq hyx]
        exact hm y o hy
  cases st with
  | construct x k shape drawer =>
    obtain ⟨-, -, hs⟩ := g32_construct_ok call h
    rw [hs]
    exact fun y o hy => fresh _ x none y o hy
  | copyConstruct x other =>
    obtain ⟨o, c, -, -, -, -, hs⟩ := g32_copyConstruct_ok call h
    rw [hs]
    exact fun y o hy => fresh _ x none y o hy
  | moveConstruct x other =>
    obtain ⟨v, hx, hv, hs⟩ := g32_moveConstruct_ok call h
    rw [hs]
    have hne : x ≠ other := by
      intro hxo
      rw [hxo, hv] at hx
      cases hx
    exact fun y o hy => moved x other v none y o hne hv hy
  | copyAssign this other =>
    obtain ⟨t, o, c, -, -, -, -, -, hs⟩ := (g32_copyAssign_ok call).mp h
    rw [hs]
    exact fun y o hy => fresh _ this _ y o hy
  | moveAssign this other =>
    obtain ⟨t, v, ht, hv, hcase⟩ := (g32_moveAssign_ok call).mp h
    rcases hcase with ⟨heq, hs⟩ | ⟨hne, -, hs⟩
    · subst heq
      rw [hs]
      intro y o hy
      simp only [vacate, if_true]
      by_cases hyx : y = this
      · subst hyx
        simp [State.put] at hy
        subst hy
        exact hm y v hv
      · simp [State.put, Function.update_noteq hyx] at hy
        exact hm y o hy
    · rw [hs]
      intro y o hy
      simp only [vacate, if_neg hne]
      exact moved this other v _ y o hne hv hy
  | draw x =>
    obtain ⟨c, -, hs⟩ := (g32_draw_ok call).mp h
    rw [hs]
    exact hm
  | destroy x =>
    obtain ⟨v, hx, hd, hs⟩ := (g32_destroy_ok call).mp h
    rw [hs]
    intro y o hy
    by_cases hyx : y = x
    · subst hyx
      simp [State.put] at hy
    · simp only [State.put, Function.update_noteq hyx, g32_release_objs] at hy
      simp only [vacate, Function.update_noteq hyx]
      exact hm y o hy

theorem g32_run_vacated (call : ∀ k, DrawStrategy k → ShapeT k → Effect)
    (prog : List (Stmt ShapeT DrawStrategy)) :
    ∀ {s s1 : State ShapeT DrawStrategy Effect} {m : Nat → Bool},
      (∀ x o, s.objs x = some o → (o.pimpl_ = none ↔ m x = true)) →
      run call prog s = .ok () s1 →
      ∀ x o, s1.objs x = some o → (o.pimpl_ = none ↔ vacated prog m x = true) := by
  induction prog with
  | nil =>
    intro s s1 m hm h
    simp [run, runWith] at h
    rw [← h]
    exact hm
  | cons c cs ih =>
    intro s s1 m hm h
    obtain ⟨s2, h2, h3⟩ := (runWith_cons_ok _ _ _ _ _).mp h
    exact ih (g32_exec_vacate call c hm h2) h3

theorem g32_vacated_of_no_move (prog : List (Stmt ShapeT DrawStrategy))
    (hp : prog.all (fun st => !st.isMove) = true) :
    ∀ m : Nat → Bool, (∀ x, m x = false) → ∀ x, vacated prog m x = false := by
  induction prog with
  | nil => exact fun m hm => hm
  | cons c cs ih =>
    intro m hm
    simp only [List.all_cons, Bool.and_eq_true, Bool.not_eq_true'] at hp
    apply ih hp.2
    have upd : ∀ x y, Function.update m x false y = false := by
      intro x y
      by_cases hyx : y = x
      · rw [hyx, Function.update_same]
      · rw [Function.update_noteq hyx]
        exact hm y
    cases c with
    | construct x k shape drawer => exact upd x
    | copyConstruct x other => exact upd x
    | moveConstruct x other => simp [Stmt.isMove] at hp
    | copyAssign x other => exact upd x
    | moveAssign x other => simp [Stmt.isMove] at hp
    | draw x => exact hm
    | destroy x => exact upd x

/-- C6, as amended: after any sequence of constructions, copy and move constructions, copy and
move assignments, draws and destructions that runs to its end from the empty state, every live
heap `Shape` addresses a valid model, with the one exception of the objects in the moved-from
state (`movedFromState`): the source of a move that has not been assigned to since, or the
target of a move from such a source.  A live `Shape` has a null `pimpl_` exactly when it is in
the moved-from state.  In particular every live `Shape` has a null `pimpl_` or addresses a valid
model, and when the sequence contains no move construction and no move assignment, no object is
in the moved-from state and every live `Shape` addresses a valid model. -/
theorem heap_shape_addresses_model_unless_moved_from
    (call : ∀ k, DrawStrategy k → ShapeT k → Effect) (prog : List (Stmt ShapeT DrawStrategy))
    (avail : Nat) (s1 : State ShapeT DrawStrategy Effect)
    (h : run call prog (State.init ShapeT DrawStrategy Effect avail) = .ok () s1) :
    (∀ x o, s1.objs x = some o →
      (movedFromState prog x = false → o.pimpl_ ≠ none ∧ ∃ c, s1.holds x c) ∧
      (movedFromState prog x = true → o.pimpl_ = none)) ∧
    (∀ x o, s1.objs x = some o → o.pimpl_ = none ∨ ∃ c, s1.holds x c) ∧
    (prog.all (fun st => !st.isMove) = true → ∀ x, movedFromState prog x = false) ∧
    (prog.all (fun st => !st.isMove) = true → ∀ x o, s1.objs x = some o → ∃ c, s1.holds x c) := by
  have hwf := g32_run_WF call prog (g32_WF_init avail) h
  have hv := g32_run_vacated call prog (s := State.init ShapeT DrawStrategy Effect avail)
    (m := fun _ => false) (fun y o1 hy => by simp [State.init] at hy) h
  have valid : ∀ x o, s1.objs x = some o → o.pimpl_ ≠ none → ∃ c, s1.holds x c := by
    intro x o hx hne
    cases hp : o.pimpl_ with
    | none => exact absurd hp hne
    | some a =>
      obtain ⟨c, hc⟩ := hwf.valid x o a hx hp
      exact ⟨c, o, hx, by rw [hp]; exact hc⟩
  have exact_ : ∀ x o, s1.objs x = some o →
      (movedFromState prog x = false → o.pimpl_ ≠ none ∧ ∃ c, s1.holds x c) ∧
      (movedFromState prog x = true → o.pimpl_ = none) := by
    intro x o hx
    refine ⟨fun hf => ?_, fun ht => (hv x o hx).mpr ht⟩
    have hne : o.pimpl_ ≠ none := by
      intro hnull
      have := (hv x o hx).mp hnull
      unfold movedFromState at hf
      rw [hf] at this
      cases this
    exact ⟨hne, valid x o hx hne⟩
  have nomove := g32_vacated_of_no_move prog
  refine ⟨exact_, ?_, ?_, ?_⟩
  · intro x o hx
    by_cases hp : o.pimpl_ = none
    · exact Or.inl hp
    · exact Or.inr (valid x o hx hp)
  · intro hp x
    exact nomove hp _ (fun _ => rfl) x
  · intro hp x o hx
    exact ((exact_ x o hx).1 (nomove hp _ (fun _ => rfl) x)).2


/-- A statement leaves alone every object it does not write: the object keeps its value and the
model it owns. -/
theorem g32_exec_frame (call : ∀ k, DrawStrategy k → ShapeT k → Effect)
    (st : Stmt ShapeT DrawStrategy) {s s1 : State ShapeT DrawStrategy Effect} (hwf : s.WF)
    (h : exec call st s = .ok () s1) {y : Nat} (hy : y ∉ st.writes)
    {c : ShapeConcept ShapeT DrawStrategy} (hc : s.holds y c) :
    s1.objs y = s.objs y ∧ s1.holds y c := by
  obtain ⟨v, hv, hvc⟩ := hc
  have alloc_put : ∀ (d : ShapeConcept ShapeT DrawStrategy) (x : Nat) (w : Option Shape),
      y ≠ x → ((s.alloc d).put x w).objs y = s.objs y ∧ ((s.alloc d).put x w).holds y c := by
    intro d x w hyx
    refine ⟨by simp [State.put, State.alloc, Function.update_noteq hyx], ?_⟩
    rw [g32_holds_put_of_ne _ hyx]
    exact ⟨v, hv, g32_deref_alloc hvc d⟩
  have rel : ∀ (s2 : State ShapeT DrawStrategy Effect) (p : Option Nat),
      s2.objs y = s.objs y → s2.holds y c → (∀ a, p = some a → v.pimpl_ ≠ some a) →
      (s2.release p).objs y = s.objs y ∧ (s2.release p).holds y c := by
    intro s2 p h1 h2 h3
    cases p with
    | none => exact ⟨h1, h2⟩
    | some a =>
      refine ⟨h1, ?_⟩
      obtain ⟨v2, hv2, hv2c⟩ := h2
      have hvv : v2 = v := by
        have : s2.objs y = some v := h1.trans hv
        rw [hv2] at this
        exact Option.some.inj this
      subst hvv
      refine ⟨v2, hv2, ?_⟩
      cases hp : v2.pimpl_ with
      | none => rw [hp] at hv2c; simp [State.deref] at hv2c
      | some b =>
        have hne : a ≠ b := by
          intro hab
          subst hab
          exact h3 a rfl hp
        rw [hp] at hv2c
        show (s2.free a).deref (some b) = some c
        rw [g32_deref_free_of_ne _ hne]
        exact hv2c
  cases st with
  | construct x k shape drawer =>
    obtain ⟨-, -, hs⟩ := g32_construct_ok call h
    rw [hs]
    exact alloc_put _ _ _ (by simpa [Stmt.writes] using hy)
  | copyConstruct x other =>
    obtain ⟨o, d, -, -, -, -, hs⟩ := g32_copyConstruct_ok call h
    rw [hs]
    exact alloc_put _ _ _ (by simpa [Stmt.writes] using hy)
  | moveConstruct x other =>
    obtain ⟨o, hx, ho, hs⟩ := g32_moveConstruct_ok call h
    simp only [Stmt.writes, List.mem_cons, List.mem_singleton, not_or, List.not_mem_nil,
      or_false] at hy
    rw [hs]
    refine ⟨by simp [State.put, Function.update_noteq hy.1, Function.update_noteq hy.2], ?_⟩
    rw [g32_holds_put_of_ne _ hy.1, g32_holds_put_of_ne _ hy.2]
    exact ⟨v, hv, hvc⟩
  | copyAssign this other =>
    obtain ⟨t, o, d, ht, ho, hd, -, -, hs⟩ := (g32_copyAssign_ok call).mp h
    have hyt : y ≠ this := by simpa [Stmt.writes] using hy
    rw [hs]
    apply rel _ _ (alloc_put _ _ _ hyt).1 (alloc_put _ _ _ hyt).2
    intro a hp hva
    exact hyt (hwf.unique y this v t a hv ht hva hp)
  | moveAssign this other =>
    obtain ⟨t, o, ht, ho, hcase⟩ := (g32_moveAssign_ok call).mp h
    simp only [Stmt.writes, List.mem_cons, List.mem_singleton, not_or, List.not_mem_nil,
      or_false] at hy
    have h2 : ((s.put other (some ⟨none⟩)).put this (some ⟨o.pimpl_⟩)).objs y = s.objs y ∧
        ((s.put other (some ⟨none⟩)).put this (some ⟨o.pimpl_⟩)).holds y c := by
      refine ⟨by simp [State.put, Function.update_noteq hy.1, Function.update_noteq hy.2], ?_⟩
      rw [g32_holds_put_of_ne _ hy.1, g32_holds_put_of_ne _ hy.2]
      exact ⟨v, hv, hvc⟩
    rcases hcase with ⟨-, hs⟩ | ⟨-, -, hs⟩
    · rw [hs]
      exact h2
    · rw [hs]
      apply rel _ _ h2.1 h2.2
      intro a hp hva
      exact hy.1 (hwf.unique y this v t a hv ht hva hp)
  | draw x =>
    obtain ⟨d, -, hs⟩ := (g32_draw_ok call).mp h
    rw [hs]
    exact ⟨rfl, v, hv, hvc⟩
  | destroy x =>
    obtain ⟨w, hx, hd, hs⟩ := (g32_destroy_ok call).mp h
    have hyx : y ≠ x := by simpa [Stmt.writes] using hy
    rw [hs, g32_release_put]
    apply rel
    · simp [State.put, Function.update_noteq hyx]
    · rw [g32_holds_put_of_ne _ hyx]
      exact ⟨v, hv, hvc⟩
    · intro a hp hva
      exact hyx (hwf.unique y x v w a hv hx hva hp)

/-- The frame property for a list of statements. -/
theorem g32_run_frame (call : ∀ k, DrawStrategy k → ShapeT k → Effect)
    (prog : List (Stmt ShapeT DrawStrategy)) {y : Nat} (hy : ∀ st ∈ prog, y ∉ st.writes)
    {c : ShapeConcept ShapeT DrawStrategy} :
    ∀ {s s1 : State ShapeT DrawStrategy Effect}, s.WF → run call prog s = .ok () s1 →
      s.holds y c → s1.objs y = s.objs y ∧ s1.holds y c := by
  induction prog with
  | nil =>
    intro s s1 _ h hc
    simp [run, runWith] at h
    rw [← h]
    exact ⟨rfl, hc⟩
  | cons st cs ih =>
    intro s s1 hwf h hc
    obtain ⟨s2, h2, h3⟩ := (runWith_cons_ok _ _ _ _ _).mp h
    have f1 := g32_exec_frame call st hwf h2 (hy st (List.mem_cons_self _ _)) hc
    have f2 := ih (fun st1 hst => hy st1 (List.mem_cons_of_mem _ hst))
      (g32_exec_WF call st hwf h2) h3 f1.2
    exact ⟨f2.1.trans f1.1, f2.2⟩


theorem g32_copyConstruct_run (call : ∀ k, DrawStrategy k → ShapeT k → Effect)
    {s : State ShapeT DrawStrategy Effect} {x src : Nat} {c : ShapeConcept ShapeT DrawStrategy}
    (hx : s.objs x = none) (hsrc : s.holds src c) (ha : s.avail ≠ 0) :
    exec call (.copyConstruct x src) s
      = .ok () ((s.alloc c).put x (some ⟨some s.heap.length⟩)) := by
  obtain ⟨o, ho, hc⟩ := hsrc
  simp [exec, hx, ho, g32_copyCtor_ok hc ha, Outcome.andThen]

theorem g32_holds_unique {s : State ShapeT DrawStrategy Effect} {x : Nat}
    {c d : ShapeConcept ShapeT DrawStrategy} (hc : s.holds x c) (hd : s.holds x d) : c = d := by
  obtain ⟨o, ho, hoc⟩ := hc
  obtain ⟨o1, ho1, hod⟩ := hd
  rw [ho] at ho1
  cases ho1
  rw [hoc] at hod
  exact Option.some.inj hod

/-- What a copy construction that ends normally has done. -/
theorem g32_copyConstruct_spec (call : ∀ k, DrawStrategy k → ShapeT k → Effect)
    {s s1 : State ShapeT DrawStrategy Effect} {x src : Nat}
    {c : ShapeConcept ShapeT DrawStrategy} (hsrc : s.holds src c)
    (h : exec call (.copyConstruct x src) s = .ok () s1) :
    s1 = (s.alloc c).put x (some ⟨some s.heap.length⟩) ∧ src ≠ x ∧
      s1.holds x c ∧ s1.holds src c ∧ s1.objs src = s.objs src := by
  obtain ⟨o, d, hx, ho, hd, -, hs⟩ := g32_copyConstruct_ok call h
  have hcd : c = d := g32_holds_unique hsrc ⟨o, ho, hd⟩
  subst hcd
  have hne : src ≠ x := by
    intro hsx
    rw [hsx, hx] at ho
    cases ho
  refine ⟨hs, hne, ?_, ?_, ?_⟩
  · rw [hs, g32_holds_put_same]
    exact g32_deref_alloc_new s c
  · rw [hs, g32_holds_put_of_ne _ hne]
    exact ⟨o, ho, g32_deref_alloc hd c⟩
  · rw [hs]
    simp [State.put, State.alloc, Function.update_noteq hne]

/-- C2: for every heap `Shape` `src` that holds a model `c`, the copy construction
`Shape x( src );` succeeds whenever the free store has room, and the copy `x` then holds a model
equal to `c`, so that `draw( x )` adds the same event as `draw( src )`, namely the one call
`drawer_( shape_ )` of `c`; `src` keeps its value and its model, and the copy construction itself
adds no event. -/
theorem heap_copy_construct_draws_same (call : ∀ k, DrawStrategy k → ShapeT k → Effect)
    (s : State ShapeT DrawStrategy Effect) (x src : Nat) (c : ShapeConcept ShapeT DrawStrategy)
    (hx : s.objs x = none) (hsrc : s.holds src c) :
    (s.avail ≠ 0 → ∃ s1, exec call (.copyConstruct x src) s = .ok () s1) ∧
    ∀ s1, exec call (.copyConstruct x src) s = .ok () s1 →
      s1.holds x c ∧
      drawEffect call s1 x = drawEffect call s src ∧
      drawEffect call s src = some [call c.key c.model.drawer_ c.model.shape_] ∧
      s1.objs src = s.objs src ∧ s1.holds src c ∧
      drawEffect call s1 src = drawEffect call s src ∧
      s1.trace = s.trace := by
  refine ⟨fun ha => ⟨_, g32_copyConstruct_run call hx hsrc ha⟩, ?_⟩
  intro s1 h1
  obtain ⟨hs, -, hxc, hsc, hobj⟩ := g32_copyConstruct_spec call hsrc h1
  refine ⟨hxc, ?_, g32_drawEffect_of_holds call hsrc, hobj, hsc, ?_, ?_⟩
  · rw [g32_drawEffect_of_holds call hxc, g32_drawEffect_of_holds call hsrc]
  · rw [g32_drawEffect_of_holds call hsc, g32_drawEffect_of_holds call hsrc]
  · rw [hs]
    rfl

theorem g32_heapOne_holds : Demo.heapOne.holds 1 Demo.circleModel :=
  ⟨⟨some 0⟩, rfl, rfl⟩

theorem g32_heapOne_WF : Demo.heapOne.WF :=
  g32_run_WF Demo.call [.construct 1 .lambda Demo.circle ()] (g32_WF_init 2)
    (show run Demo.call [.construct 1 .lambda Demo.circle ()]
      (State.init Demo.ShapeT Demo.DrawStrategy Demo.Ev 2) = .ok () Demo.heapOne from rfl)

/-- Witness for C2: in the state after `Shape shape1( circle, drawer );` the copy
`Shape shape2( shape1 );` succeeds and both shapes draw the circle. -/
theorem heap_copy_construct_draws_same_witness :
    Demo.heapOne.objs 2 = none ∧ Demo.heapOne.holds 1 Demo.circleModel ∧
    ∃ s1, exec Demo.call (.copyConstruct 2 1) Demo.heapOne = .ok () s1 ∧
      drawEffect Demo.call s1 2 = some [Demo.Ev.circleDrawn 314] ∧
      drawEffect Demo.call s1 1 = some [Demo.Ev.circleDrawn 314] := by
  have h := heap_copy_construct_draws_same Demo.call Demo.heapOne 2 1 Demo.circleModel rfl
    g32_heapOne_holds
  obtain ⟨s1, hs1⟩ := h.1 (by decide)
  obtain ⟨-, h2, h3, -, -, h6, -⟩ := h.2 s1 hs1
  exact ⟨rfl, g32_heapOne_holds, s1, hs1, h2.trans h3, h6.trans h3⟩


theorem g32_release_trace (s : State ShapeT DrawStrategy Effect) (p : Option Nat) :
    (s.release p).trace = s.trace := by
  cases p <;> rfl

theorem g32_WF_deletable {s : State ShapeT DrawStrategy Effect} (hwf : s.WF) {x : Nat}
    {o : Shape} (hx : s.objs x = some o) : s.deletable o.pimpl_ := by
  cases hp : o.pimpl_ with
  | none => exact Or.inl rfl
  | some a =>
    obtain ⟨c, hc⟩ := hwf.valid x o a hx hp
    exact Or.inr ⟨a, c, rfl, hc⟩

/-- A copy assignment to a live object (moved-from or not) from an object that holds a model
succeeds when the free store has room. -/
theorem g32_copyAssign_run (call : ∀ k, DrawStrategy k → ShapeT k → Effect)
    {s : State ShapeT DrawStrategy Effect} (hwf : s.WF) {a b : Nat} {t : Shape}
    {cb : ShapeConcept ShapeT DrawStrategy} (ha : s.objs a = some t) (hb : s.holds b cb)
    (hav : s.avail ≠ 0) : ∃ s1, exec call (.copyAssign a b) s = .ok () s1 := by
  obtain ⟨o, ho, hc⟩ := hb
  exact ⟨_, (g32_copyAssign_ok call).mpr
    ⟨t, o, cb, ha, ho, hc, hav, Or.inl (g32_WF_deletable hwf ha), rfl⟩⟩

/-- What a copy assignment that ends normally has done. -/
theorem g32_copyAssign_spec (call : ∀ k, DrawStrategy k → ShapeT k → Effect)
    {s s1 : State ShapeT DrawStrategy Effect} (hwf : s.WF) {a b : Nat}
    {cb : ShapeConcept ShapeT DrawStrategy} (hb : s.holds b cb)
    (h : exec call (.copyAssign a b) s = .ok () s1) :
    s1.holds a cb ∧ s1.trace = s.trace ∧
      ∀ y c, y ≠ a → s.holds y c → s1.objs y = s.objs y ∧ s1.holds y c := by
  obtain ⟨t, o, d, ht, ho, hd, -, -, hs⟩ := (g32_copyAssign_ok call).mp h
  have hcd : cb = d := g32_holds_unique hb ⟨o, ho, hd⟩
  subst hcd
  refine ⟨?_, ?_, ?_⟩
  · refine ⟨⟨some s.heap.length⟩, ?_, ?_⟩
    · rw [hs, g32_release_objs]
      simp [State.put]
    · rw [hs]
      cases hp : t.pimpl_ with
      | none => exact g32_deref_alloc_new s cb
      | some pa =>
        have hlt := g32_WF_lt hwf ht hp
        show (State.free _ pa).deref (some s.heap.length) = some cb
        rw [g32_deref_free_of_ne _ (by omega)]
        exact g32_deref_alloc_new s cb
  · rw [hs, g32_release_trace]
    rfl
  · intro y c hya hyc
    exact g32_exec_frame call _ hwf h (by simpa [Stmt.writes] using hya) hyc

/-- C4: for heap `Shape`s `a` and `b` that each hold a model (in a state that respects unique
ownership), the copy assignment `a = b;` succeeds whenever the free store has room for the
temporary copy; afterwards `a` holds a model equal to the one `b` held, so `draw( a )` adds the
event that `draw( b )` added before the assignment, and `b` still holds its model (and, when it
is another object than `a`, its value is untouched).  `a` and `b` may be the same object: after
the self-assignment `a` holds a valid model and draws as before. -/
theorem heap_copy_assign_spec (call : ∀ k, DrawStrategy k → ShapeT k → Effect)
    (s : State ShapeT DrawStrategy Effect) (a b : Nat) (ca cb : ShapeConcept ShapeT DrawStrategy)
    (hwf : s.WF) (ha : s.holds a ca) (hb : s.holds b cb) :
    (s.avail ≠ 0 → ∃ s1, exec call (.copyAssign a b) s = .ok () s1) ∧
    ∀ s1, exec call (.copyAssign a b) s = .ok () s1 →
      s1.holds a cb ∧
      drawEffect call s1 a = drawEffect call s b ∧
      drawEffect call s b = some [call cb.key cb.model.drawer_ cb.model.shape_] ∧
      s1.holds b cb ∧ drawEffect call s1 b = drawEffect call s b ∧
      (a ≠ b → s1.objs b = s.objs b) ∧
      (a = b → drawEffect call s1 a = drawEffect call s a) ∧
      s1.trace = s.trace := by
  obtain ⟨t, ht, -⟩ := ha
  refine ⟨fun hav => g32_copyAssign_run call hwf ht hb hav, ?_⟩
  intro s1 h1
  obtain ⟨hacb, htr, hframe⟩ := g32_copyAssign_spec call hwf hb h1
  have hb1 : s1.holds b cb := by
    by_cases hab : b = a
    · rw [hab]
      exact hacb
    · exact (hframe b cb hab hb).2
  have e1 : drawEffect call s1 a = drawEffect call s b := by
    rw [g32_drawEffect_of_holds call hacb, g32_drawEffect_of_holds call hb]
  refine ⟨hacb, e1, g32_drawEffect_of_holds call hb, hb1, ?_, ?_, ?_, htr⟩
  · rw [g32_drawEffect_of_holds call hb1, g32_drawEffect_of_holds call hb]
  · intro hab
    exact (hframe b cb (Ne.symm hab) hb).1
  · intro hab
    rw [e1, hab]

/-- Witness for C4: the self-assignment `shape1 = shape1;` in the state after
`Shape shape1( circle, drawer );`. -/
theorem heap_copy_assign_spec_witness :
    Demo.heapOne.WF ∧ Demo.heapOne.holds 1 Demo.circleModel ∧
    ∃ s1, exec Demo.call (.copyAssign 1 1) Demo.heapOne = .ok () s1 ∧
      drawEffect Demo.call s1 1 = some [Demo.Ev.circleDrawn 314] := by
  have h := heap_copy_assign_spec Demo.call Demo.heapOne 1 1 Demo.circleModel Demo.circleModel
    g32_heapOne_WF g32_heapOne_holds g32_heapOne_holds
  obtain ⟨s1, hs1⟩ := h.1 (by decide)
  obtain ⟨-, h2, h3, -⟩ := h.2 s1 hs1
  exact ⟨g32_heapOne_WF, g32_heapOne_holds, s1, hs1, h2.trans h3⟩

/-- C5: the copy assignment `a = b;` of the heap `Shape` is atomic on failure.  When `a` and `b`
hold models and the duplication of the model of `b` fails (the free store is exhausted), the
statement leaves by `std::bad_alloc` in exactly the state it started in: `a` still owns its
original model and draws as before, `b` is unchanged.  More generally, whenever the statement
leaves by an exception the state is the one it started in. -/
theorem heap_copy_assign_atomic (call : ∀ k, DrawStrategy k → ShapeT k → Effect)
    (s : State ShapeT DrawStrategy Effect) (a b : Nat) (ca cb : ShapeConcept ShapeT DrawStrategy)
    (ha : s.holds a ca) (hb : s.holds b cb) (hfail : s.avail = 0) :
    exec call (.copyAssign a b) s = .bad_alloc s ∧
    (∀ s1, exec call (.copyAssign a b) s = .bad_alloc s1 →
      s1 = s ∧ s1.holds a ca ∧ s1.holds b cb ∧
      drawEffect call s1 a = drawEffect call s a ∧
      drawEffect call s1 b = drawEffect call s b) := by
  obtain ⟨t, ht, htc⟩ := ha
  obtain ⟨o, ho, hoc⟩ := hb
  refine ⟨?_, ?_⟩
  · simp [exec, Shape.copyAssign, ht, ho, g32_copyCtor_bad_alloc hoc hfail, Outcome.andThen]
  · intro s1 h1
    obtain ⟨hs, -⟩ := g32_exec_bad_alloc call _ h1
    subst hs
    exact ⟨rfl, ⟨t, ht, htc⟩, ⟨o, ho, hoc⟩, rfl, rfl⟩

/-- A statement of the heap program, whatever it is, leaves by an exception only in the state
it started in. -/
theorem g32_exec_strong_guarantee (call : ∀ k, DrawStrategy k → ShapeT k → Effect)
    (st : Stmt ShapeT DrawStrategy) (s s1 : State ShapeT DrawStrategy Effect)
    (h : exec call st s = .bad_alloc s1) : s1 = s :=
  (g32_exec_bad_alloc call st h).1


/-- Witness for C5: `shape1 = shape1;` with an exhausted free store. -/
theorem heap_copy_assign_atomic_witness :
    Demo.heapFull.holds 1 Demo.circleModel ∧ Demo.heapFull.avail = 0 ∧
    exec Demo.call (.copyAssign 1 1) Demo.heapFull = .bad_alloc Demo.heapFull :=
  ⟨⟨⟨some 0⟩, rfl, rfl⟩, rfl,
    (heap_copy_assign_atomic Demo.call Demo.heapFull 1 1 Demo.circleModel Demo.circleModel
      ⟨⟨some 0⟩, rfl, rfl⟩ ⟨⟨some 0⟩, rfl, rfl⟩ rfl).1⟩

/-- C7: moving a heap `Shape`.  Let `b1` hold the model `c` and let `b2` be another name.
After the move construction `Shape b2( std::move(b1) );` (when `b2` is not in use), and after the
move assignment `b2 = std::move(b1);` (when `b2` is a live object), which always end normally:
`b2` has the pointer that `b1` had, and so owns the very model `b1` owned; `draw( b2 )` adds the
event that `draw( b1 )` added before the move; `b1.pimpl_` is null; no event is added.  No model
is duplicated: the move construction leaves the free store as it is, and the move assignment
changes it only by deleting the model that `b2` owned before. -/
theorem heap_move_transfers_ownership (call : ∀ k, DrawStrategy k → ShapeT k → Effect)
    (s : State ShapeT DrawStrategy Effect) (b1 b2 : Nat) (c : ShapeConcept ShapeT DrawStrategy)
    (hwf : s.WF) (hb1 : s.holds b1 c) (hne : b2 ≠ b1) :
    (s.objs b2 = none →
      ∃ s1, exec call (.moveConstruct b2 b1) s = .ok () s1 ∧
        s1.objs b2 = s.objs b1 ∧ s1.holds b2 c ∧ s1.objs b1 = some ⟨none⟩ ∧
        drawEffect call s1 b2 = drawEffect call s b1 ∧
        s1.heap = s.heap ∧ s1.avail = s.avail ∧ s1.trace = s.trace) ∧
    (∀ t, s.objs b2 = some t →
      ∃ s1, exec call (.moveAssign b2 b1) s = .ok () s1 ∧
        s1.objs b2 = s.objs b1 ∧ s1.holds b2 c ∧ s1.objs b1 = some ⟨none⟩ ∧
        drawEffect call s1 b2 = drawEffect call s b1 ∧
        s1.heap = (s.release t.pimpl_).heap ∧ s1.heap.length = s.heap.length ∧
        s1.trace = s.trace) := by
  obtain ⟨o, ho, hoc⟩ := hb1
  have hb1 : s.holds b1 c := ⟨o, ho, hoc⟩
  have hne1 : b1 ≠ b2 := Ne.symm hne
  constructor
  · intro hx
    have hrun : exec call (.moveConstruct b2 b1) s
        = .ok () ((s.put b1 (some ⟨none⟩)).put b2 (some ⟨o.pimpl_⟩)) := by
      simp [exec, hx, ho, Shape.moveCtor, Outcome.andThen]
    have hh : ((s.put b1 (some ⟨none⟩)).put b2 (some ⟨o.pimpl_⟩)).holds b2 c := by
      rw [g32_holds_put_same]
      exact hoc
    refine ⟨_, hrun, ?_, hh, ?_, ?_, rfl, rfl, rfl⟩
    · simp [State.put, ho]
    · simp [State.put, Function.update_noteq hne1]
    · rw [g32_drawEffect_of_holds call hh, g32_drawEffect_of_holds call hb1]
  · intro t ht
    have hrun : exec call (.moveAssign b2 b1) s
        = .ok () (((s.put b1 (some ⟨none⟩)).put b2 (some ⟨o.pimpl_⟩)).release t.pimpl_) :=
      (g32_moveAssign_ok call).mpr
        ⟨t, o, ht, ho, Or.inr ⟨hne, g32_WF_deletable hwf ht, rfl⟩⟩
    have hh : (((s.put b1 (some ⟨none⟩)).put b2 (some ⟨o.pimpl_⟩)).release t.pimpl_).holds
        b2 c := by
      refine ⟨⟨o.pimpl_⟩, ?_, ?_⟩
      · rw [g32_release_objs]
        simp [State.put]
      · cases hp : t.pimpl_ with
        | none => exact hoc
        | some pa =>
          cases hq : o.pimpl_ with
          | none => rw [hq] at hoc; simp [State.deref] at hoc
          | some pb =>
            have hab : pa ≠ pb := by
              intro hab
              subst hab
              exact hne (hwf.unique b2 b1 t o pa ht ho hp hq)
            show (State.free _ pa).deref (some pb) = some c
            rw [g32_deref_free_of_ne _ hab]
            rw [hq] at hoc
            exact hoc
    refine ⟨_, hrun, ?_, hh, ?_, ?_, ?_, ?_, ?_⟩
    · rw [g32_release_objs]
      simp [State.put, ho]
    · rw [g32_release_objs]
      simp [State.put, Function.update_noteq hne1]
    · rw [g32_drawEffect_of_holds call hh, g32_drawEffect_of_holds call hb1]
    · cases t.pimpl_ <;> rfl
    · cases t.pimpl_ <;> simp [State.release, State.free, State.put]
    · rw [g32_release_trace]
      rfl

/-- Witness for C7: `Shape shape2( std::move(shape1) );` in the state after
`Shape shape1( circle, drawer );`. -/
theorem heap_move_transfers_ownership_witness :
    Demo.heapOne.WF ∧ Demo.heapOne.holds 1 Demo.circleModel ∧
    ∃ s1, exec Demo.call (.moveConstruct 2 1) Demo.heapOne = .ok () s1 ∧
      s1.objs 2 = some ⟨some 0⟩ ∧ s1.objs 1 = some ⟨none⟩ ∧
      drawEffect Demo.call s1 2 = some [Demo.Ev.circleDrawn 314] := by
  obtain ⟨s1, h1, h2, h3, h4, h5, -⟩ :=
    (heap_move_transfers_ownership Demo.call Demo.heapOne 1 2 Demo.circleModel g32_heapOne_WF
      g32_heapOne_holds (by decide)).1 rfl
  exact ⟨g32_heapOne_WF, g32_heapOne_holds, s1, h1, h2, h4,
    h5.trans (g32_drawEffect_of_holds Demo.call g32_heapOne_holds)⟩


/-- Counterexample to C6 as stated: after `Shape shape1( circle, drawer );` and
`Shape shape2( std::move(shape1) );` the object `shape1` is alive, its `pimpl_` is null and it
addresses no model. -/
theorem heap_moved_from_shape_is_null :
    ∃ s1, run Demo.call [.construct 1 .lambda Demo.circle (), .moveConstruct 2 1]
        (State.init Demo.ShapeT Demo.DrawStrategy Demo.Ev 2) = .ok () s1 ∧
      s1.objs 1 = some ⟨none⟩ ∧ ¬ ∃ c, s1.holds 1 c := by
  refine ⟨_, rfl, rfl, ?_⟩
  rintro ⟨c, o, ho, hc⟩
  have : o = ⟨none⟩ := (Option.some.inj ho).symm
  subst this
  simp [State.deref] at hc

/-- Witness for C6 as amended: after `Shape shape1( circle, drawer );`,
`Shape shape2( circle, drawer );` and `Shape shape3( std::move(shape1) );` only `shape1` is in the
moved-from state; `shape2` and `shape3` address a model. -/
theorem heap_shape_addresses_model_unless_moved_from_witness :
    ∃ s1, run Demo.call [.construct 1 .lambda Demo.circle (), .construct 2 .lambda Demo.circle (),
          .moveConstruct 3 1]
        (State.init Demo.ShapeT Demo.DrawStrategy Demo.Ev 2) = .ok () s1 ∧
      (∃ c, s1.holds 2 c) ∧ (∃ c, s1.holds 3 c) ∧ s1.objs 1 = some ⟨none⟩ :=
  ⟨_, rfl,
    (((heap_shape_addresses_model_unless_moved_from Demo.call
      [.construct 1 .lambda Demo.circle (), .construct 2 .lambda Demo.circle (),
        .moveConstruct 3 1] 2 _ rfl).1 2 ⟨some 1⟩ rfl).1 rfl).2,
    (((heap_shape_addresses_model_unless_moved_from Demo.call
      [.construct 1 .lambda Demo.circle (), .construct 2 .lambda Demo.circle (),
        .moveConstruct 3 1] 2 _ rfl).1 3 ⟨some 0⟩ rfl).1 rfl).2,
    rfl⟩

/-- C3: copy independence of the heap `Shape`.  Let `b2` be copy-constructed from `b1`, which
holds the model `c` (in a state that respects unique ownership).  Then the two objects point to
two different cells of the free store.  Whatever statements follow that do not write `b2` --
among them `b1 = other;`, `b1 = std::move(other);`, `Shape x( std::move(b1) );`,
`x = std::move(b1);` and the destruction of `b1` -- when they have run to their end `b2` still
has its value, still holds `c`, and `draw( b2 )` adds the same event as before.  The same holds
with `b1` and `b2` exchanged. -/
theorem heap_copy_independence (call : ∀ k, DrawStrategy k → ShapeT k → Effect)
    (s s1 : State ShapeT DrawStrategy Effect) (b1 b2 : Nat)
    (c : ShapeConcept ShapeT DrawStrategy) (hwf : s.WF) (hb1 : s.holds b1 c)
    (hcopy : exec call (.copyConstruct b2 b1) s = .ok () s1) :
    (∃ a1 a2, s1.objs b1 = some ⟨some a1⟩ ∧ s1.objs b2 = some ⟨some a2⟩ ∧ a1 ≠ a2 ∧
      cell s1.heap a1 = some c ∧ cell s1.heap a2 = some c) ∧
    (∀ prog s2, (∀ st ∈ prog, b2 ∉ Stmt.writes st) → run call prog s1 = .ok () s2 →
      s2.objs b2 = s1.objs b2 ∧ s2.holds b2 c ∧
      drawEffect call s2 b2 = drawEffect call s1 b2) ∧
    (∀ prog s2, (∀ st ∈ prog, b1 ∉ Stmt.writes st) → run call prog s1 = .ok () s2 →
      s2.objs b1 = s1.objs b1 ∧ s2.holds b1 c ∧
      drawEffect call s2 b1 = drawEffect call s1 b1) := by
  have hwf1 : s1.WF := g32_exec_WF call _ hwf hcopy
  obtain ⟨-, hne, h2c, h1c, -⟩ := g32_copyConstruct_spec call hb1 hcopy
  refine ⟨?_, ?_, ?_⟩
  · obtain ⟨o1, ho1, hc1⟩ := h1c
    obtain ⟨o2, ho2, hc2⟩ := h2c
    cases hp1 : o1.pimpl_ with
    | none => rw [hp1] at hc1; simp [State.deref] at hc1
    | some a1 =>
      cases hp2 : o2.pimpl_ with
      | none => rw [hp2] at hc2; simp [State.deref] at hc2
      | some a2 =>
        rw [hp1] at hc1
        rw [hp2] at hc2
        refine ⟨a1, a2, ?_, ?_, ?_, hc1, hc2⟩
        · rw [ho1, ← hp1]
        · rw [ho2, ← hp2]
        · intro h12
          subst h12
          exact hne (hwf1.unique b1 b2 o1 o2 a1 ho1 ho2 hp1 hp2)
  · intro prog s2 hprog hrun
    obtain ⟨f1, f2⟩ := g32_run_frame call prog hprog hwf1 hrun h2c
    exact ⟨f1, f2, by
      rw [g32_drawEffect_of_holds call f2, g32_drawEffect_of_holds call h2c]⟩
  · intro prog s2 hprog hrun
    obtain ⟨f1, f2⟩ := g32_run_frame call prog hprog hwf1 hrun h1c
    exact ⟨f1, f2, by
      rw [g32_drawEffect_of_holds call f2, g32_drawEffect_of_holds call h1c]⟩

/-- Witness for C3: after `Shape shape2( shape1 );`, moving from `shape1` into a new object and
destroying `shape1` leaves `shape2` drawing the circle. -/
theorem heap_copy_independence_witness :
    Demo.heapOne.WF ∧ Demo.heapOne.holds 1 Demo.circleModel ∧
    ∃ s1 s2, exec Demo.call (.copyConstruct 2 1) Demo.heapOne = .ok () s1 ∧
      run Demo.call [.moveConstruct 3 1, .destroy 1] s1 = .ok () s2 ∧
      s2.holds 2 Demo.circleModel ∧ drawEffect Demo.call s2 2 = some [Demo.Ev.circleDrawn 314] := by
  have h := heap_copy_independence Demo.call Demo.heapOne _ 1 2 Demo.circleModel g32_heapOne_WF
    g32_heapOne_holds (g32_copyConstruct_run Demo.call rfl g32_heapOne_holds (by decide))
  have h2 := h.2.1 [.moveConstruct 3 1, .destroy 1] _ (by decide) rfl
  exact ⟨g32_heapOne_WF, g32_heapOne_holds, _, _,
    g32_copyConstruct_run Demo.call rfl g32_heapOne_holds (by decide), rfl, h2.2.1,
    g32_drawEffect_of_holds Demo.call h2.2.1⟩

end
end G32

namespace G32
section
variable {Key : Type} {ShapeT DrawStrategy : Key → Type} {Effect : Type}

/-- The state after a move from `b1` into `b2`: `b2` holds what `b1` held, `b1` is null. -/
theorem g32_moved_state (call : ∀ k, DrawStrategy k → ShapeT k → Effect)
    {s s1 : State ShapeT DrawStrategy Effect} {b1 b2 : Nat}
    {m : ShapeConcept ShapeT DrawStrategy} (hwf : s.WF) (hb1 : s.holds b1 m) (hne : b2 ≠ b1)
    {mv : Stmt ShapeT DrawStrategy}
    (hmv : mv = .moveConstruct b2 b1 ∨ mv = .moveAssign b2 b1)
    (hrun : exec call mv s = .ok () s1) :
    s1.holds b2 m ∧ s1.objs b1 = some ⟨none⟩ := by
  obtain ⟨o, ho, hoc⟩ := hb1
  have hne1 : b1 ≠ b2 := Ne.symm hne
  have base : ((s.put b1 (some ⟨none⟩)).put b2 (some ⟨o.pimpl_⟩)).holds b2 m ∧
      ((s.put b1 (some ⟨none⟩)).put b2 (some ⟨o.pimpl_⟩)).objs b1 = some ⟨none⟩ := by
    refine ⟨?_, by simp [State.put, Function.update_noteq hne1]⟩
    rw [g32_holds_put_same]
    exact hoc
  rcases hmv with hmv | hmv
  · subst hmv
    obtain ⟨o1, -, ho1, hs⟩ := g32_moveConstruct_ok call hrun
    rw [ho] at ho1
    cases ho1
    rw [hs]
    exact base
  · subst hmv
    obtain ⟨t, o1, ht, ho1, hcase⟩ := (g32_moveAssign_ok call).mp hrun
    rw [ho] at ho1
    cases ho1
    rcases hcase with ⟨h0, -⟩ | ⟨-, -, hs⟩
    · exact absurd h0 hne
    · rw [hs]
      refine ⟨?_, by rw [g32_release_objs]; exact base.2⟩
      obtain ⟨v, hv, hvc⟩ := base.1
      refine ⟨v, by rw [g32_release_objs]; exact hv, ?_⟩
      cases hp : t.pimpl_ with
      | none => exact hvc
      | some pa =>
        have hvo : v = ⟨o.pimpl_⟩ := by
          simp [State.put] at hv
          exact hv.symm
        subst hvo
        cases hq : o.pimpl_ with
        | none => rw [hq] at hoc; simp [State.deref] at hoc
        | some pb =>
          have hab : pa ≠ pb := by
            intro hab
            subst hab
            exact hne (hwf.unique b2 b1 t o pa ht ho hp hq)
          show (State.free _ pa).deref (some pb) = some m
          rw [g32_deref_free_of_ne _ hab]
          rw [hq] at hoc
          exact hoc

end
end G32

/-! ## The `Shape` with in-place storage of `G33_Small_Buffer_Optimization.cpp` -/

namespace G33S
section
variable {Key : Type} {ShapeT DrawStrategy : Key → Type} {Effect : Type}
variable (Capacity Alignment : Nat) (sizeofModel alignofModel : Key → Nat)
variable (call : ∀ k, DrawStrategy k → ShapeT k → Effect)
variable (movedFrom : ∀ k, OwningModel (ShapeT k) (DrawStrategy k) →
  OwningModel (ShapeT k) (DrawStrategy k))
variable (relocatable : Key → Bool)

theorem g33s_draw_of_holds {s : State ShapeT DrawStrategy Effect} {x : Nat}
    {c : Concept ShapeT DrawStrategy} (h : s.holds x c) :
    exec Capacity Alignment sizeofModel alignofModel call movedFrom relocatable (.draw x) s
      = .ok () { s with trace := s.trace ++ [call c.key c.model.drawer_ c.model.shape_] } := by
  simp [exec, show s.objs x = _ from h, draw, OwningModel.draw]

theorem g33s_drawEffect_of_holds {s : State ShapeT DrawStrategy Effect} {x : Nat}
    {c : Concept ShapeT DrawStrategy} (h : s.holds x c) :
    drawEffect call s x = some [call c.key c.model.drawer_ c.model.shape_] := by
  simp [drawEffect, show s.objs x = _ from h, draw, OwningModel.draw]

theorem g33s_copyConstruct_of_holds {s : State ShapeT DrawStrategy Effect} {x other : Nat}
    {c : Concept ShapeT DrawStrategy} (hx : s.objs x = none) (h : s.holds other c) :
    exec Capacity Alignment sizeofModel alignofModel call movedFrom
        relocatable (.copyConstruct x other) s
      = .ok () (s.put x (some ⟨some c⟩)) := by
  simp [exec, hx, show s.objs other = _ from h, Shape.copyCtor, OwningModel.clone,
    Outcome.andThen]

theorem g33s_swap_of_relocatable {a b : Concept ShapeT DrawStrategy}
    (ha : relocatable a.key = true) (hb : relocatable b.key = true) :
    swap relocatable (some a) (some b) = some (some b, some a) := by
  simp [swap, relocated, ha, hb]

theorem g33s_swap_of_not_relocatable {a b : Concept ShapeT DrawStrategy}
    (h : relocatable a.key = false ∨ relocatable b.key = false) :
    swap relocatable (some a) (some b) = none := by
  rcases h with h | h
  · cases hb : relocatable b.key <;> simp [swap, relocated, h, hb]
  · simp [swap, relocated, h]

theorem g33s_copyAssign_of_holds {s : State ShapeT DrawStrategy Effect} {this other : Nat}
    {ct c : Concept ShapeT DrawStrategy} (ht : s.holds this ct) (h : s.holds other c)
    (hrt : relocatable ct.key = true) (hrc : relocatable c.key = true) :
    exec Capacity Alignment sizeofModel alignofModel call movedFrom relocatable
        (.copyAssign this other) s
      = .ok () (s.put this (some ⟨some c⟩)) := by
  have hsw : swap relocatable (some ct) (some (⟨c.key, ⟨c.model.shape_, c.model.drawer_⟩⟩ :
      Concept ShapeT DrawStrategy)) = some (some c, some ct) :=
    g33s_swap_of_relocatable relocatable hrt hrc
  simp [exec, Shape.copyAssign, show s.objs this = _ from ht, show s.objs other = _ from h,
    Shape.copyCtor, OwningModel.clone, Outcome.andThen, Shape.dtor, State.put, hsw]

/-- The copy assignment of a model that is not trivially relocatable, or to a `Shape` whose model
is not, has undefined behaviour. -/
theorem g33s_copyAssign_undefined {s : State ShapeT DrawStrategy Effect} {this other : Nat}
    {ct c : Concept ShapeT DrawStrategy} (ht : s.holds this ct) (h : s.holds other c)
    (hr : relocatable ct.key = false ∨ relocatable c.key = false) :
    exec Capacity Alignment sizeofModel alignofModel call movedFrom relocatable
        (.copyAssign this other) s
      = .undefined := by
  have hsw : swap relocatable (some ct) (some (⟨c.key, ⟨c.model.shape_, c.model.drawer_⟩⟩ :
      Concept ShapeT DrawStrategy)) = none :=
    g33s_swap_of_not_relocatable relocatable hr
  simp [exec, Shape.copyAssign, show s.objs this = _ from ht, show s.objs other = _ from h,
    Shape.copyCtor, OwningModel.clone, Outcome.andThen, State.put, hsw]

theorem g33s_destroy_of_holds {s : State ShapeT DrawStrategy Effect} {x : Nat}
    {c : Concept ShapeT DrawStrategy} (h : s.holds x c) :
    exec Capacity Alignment sizeofModel alignofModel call movedFrom relocatable (.destroy x) s
      = .ok () (s.put x none) := by
  simp [exec, show s.objs x = _ from h, Shape.dtor, Outcome.andThen]

theorem g33s_moveConstruct_of_holds {s : State ShapeT DrawStrategy Effect} {x other : Nat}
    {c : Concept ShapeT DrawStrategy} (hx : s.objs x = none) (h : s.holds other c) :
    exec Capacity Alignment sizeofModel alignofModel call movedFrom
        relocatable (.moveConstruct x other) s
      = .ok () ((s.put other (some ⟨some ⟨c.key, movedFrom c.key c.model⟩⟩)).put x
          (some ⟨some c⟩)) := by
  simp [exec, hx, show s.objs other = _ from h, Shape.moveCtor, OwningModel.move,
    Outcome.andThen]

theorem g33s_moveAssign_of_holds {s : State ShapeT DrawStrategy Effect} {this other : Nat}
    {ct c : Concept ShapeT DrawStrategy} (ht : s.holds this ct) (h : s.holds other c)
    (hrt : relocatable ct.key = true) (hrc : relocatable c.key = true) :
    exec Capacity Alignment sizeofModel alignofModel call movedFrom relocatable
        (.moveAssign this other) s
      = .ok () ((s.put other (some ⟨some ⟨c.key, movedFrom c.key c.model⟩⟩)).put this
          (some ⟨some c⟩)) := by
  by_cases hto : this = other
  · subst hto
    have hsw : swap relocatable (some (⟨c.key, movedFrom c.key c.model⟩ :
        Concept ShapeT DrawStrategy))
        (some (⟨c.key, ⟨c.model.shape_, c.model.drawer_⟩⟩ : Concept ShapeT DrawStrategy))
        = some (some c, some ⟨c.key, movedFrom c.key c.model⟩) :=
      g33s_swap_of_relocatable relocatable hrc hrc
    simp [exec, Shape.moveAssign, show s.objs this = _ from h, Shape.moveCtor,
      OwningModel.move, Outcome.andThen, Shape.dtor, State.put, hsw]
  · have hsw : swap relocatable (some ct)
        (some (⟨c.key, ⟨c.model.shape_, c.model.drawer_⟩⟩ : Concept ShapeT DrawStrategy))
        = some (some c, some ct) :=
      g33s_swap_of_relocatable relocatable hrt hrc
    simp [exec, Shape.moveAssign, show s.objs this = _ from ht, show s.objs other = _ from h,
      Shape.moveCtor, OwningModel.move, Outcome.andThen, Shape.dtor, State.put,
      Function.update_noteq hto, hsw]

end
end G33S

namespace G33S
section
variable {Key : Type} {ShapeT DrawStrategy : Key → Type} {Effect : Type}
variable (Capacity Alignment : Nat) (sizeofModel alignofModel : Key → Nat)
variable (call : ∀ k, DrawStrategy k → ShapeT k → Effect)
variable (movedFrom : ∀ k, OwningModel (ShapeT k) (DrawStrategy k) →
  OwningModel (ShapeT k) (DrawStrategy k))
variable (relocatable : Key → Bool)

theorem g33s_moveConstruct_inv {s s1 : State ShapeT DrawStrategy Effect} {x other : Nat}
    {c : Concept ShapeT DrawStrategy} (h : s.holds other c)
    (hrun : exec Capacity Alignment sizeofModel alignofModel call movedFrom relocatable
      (.moveConstruct x other) s = .ok () s1) :
    s.objs x = none ∧
      s1 = (s.put other (some ⟨some ⟨c.key, movedFrom c.key c.model⟩⟩)).put x
        (some ⟨some c⟩) := by
  cases hx : s.objs x with
  | some v => simp [exec, hx] at hrun
  | none =>
    rw [g33s_moveConstruct_of_holds Capacity Alignment sizeofModel alignofModel call movedFrom
        relocatable
      hx h] at hrun
    simp at hrun
    exact ⟨rfl, hrun.symm⟩

theorem g33s_moveAssign_inv {s s1 : State ShapeT DrawStrategy Effect} {this other : Nat}
    {c : Concept ShapeT DrawStrategy} (h : s.holds other c) (hne : this ≠ other)
    (hrun : exec Capacity Alignment sizeofModel alignofModel call movedFrom relocatable
      (.moveAssign this other) s = .ok () s1) :
    (∃ ct, s.holds this ct ∧ relocatable ct.key = true) ∧ relocatable c.key = true ∧
      s1 = (s.put other (some ⟨some ⟨c.key, movedFrom c.key c.model⟩⟩)).put this
        (some ⟨some c⟩) := by
  cases ht : s.objs this with
  | none => simp [exec, Shape.moveAssign, ht] at hrun
  | some t =>
    obtain ⟨buf⟩ := t
    cases buf with
    | none =>
      cases hc : relocatable c.key <;>
      simp [exec, Shape.moveAssign, ht, show s.objs other = _ from h, Shape.moveCtor,
        OwningModel.move, Outcome.andThen, Shape.dtor, State.put,
        Function.update_noteq hne, swap, relocated, hc] at hrun
    | some ct =>
      have hct : s.holds this ct := ht
      cases hrt : relocatable ct.key with
      | false =>
        simp [exec, Shape.moveAssign, ht, show s.objs other = _ from h, Shape.moveCtor,
          OwningModel.move, Outcome.andThen, State.put, Function.update_noteq hne,
          g33s_swap_of_not_relocatable relocatable (Or.inl hrt)] at hrun
      | true =>
        cases hrc : relocatable c.key with
        | false =>
          have hsw : swap relocatable (some ct)
              (some (⟨c.key, ⟨c.model.shape_, c.model.drawer_⟩⟩ : Concept ShapeT DrawStrategy))
              = none :=
            g33s_swap_of_not_relocatable relocatable (Or.inr hrc)
          simp [exec, Shape.moveAssign, ht, show s.objs other = _ from h, Shape.moveCtor,
            OwningModel.move, Outcome.andThen, State.put, Function.update_noteq hne,
            hsw] at hrun
        | true =>
          rw [g33s_moveAssign_of_holds Capacity Alignment sizeofModel alignofModel call
            movedFrom relocatable hct h hrt hrc] at hrun
          simp at hrun
          exact ⟨⟨ct, hct, hrt⟩, rfl, hrun.symm⟩

end
end G33S

/-! ## Claims about both the heap `Shape` and the `Shape` with in-place storage -/

section
variable {Key : Type} {ShapeT DrawStrategy : Key → Type} {Effect : Type}

/-- C8: a moved-from owning `Shape` may be reassigned.  Let `b1` hold the model `m`, let `b2` be
moved from `b1` (by `Shape b2( std::move(b1) );` or by `b2 = std::move(b1);`), and let `c` hold
the model `mc` after the move.

First conjunct, the heap `Shape`: the copy assignment `b1 = c;` ends normally whenever the free
store has room for the copy, and afterwards `b1` holds a valid model equal to `mc` and draws as
`c` does, while `b2` still has its value and holds `m`, drawing what `b1` drew before the move,
and `c` still has its value and holds `mc`.

Second conjunct, the `Shape` with in-place storage: the same holds, and `b1 = c;` always ends
normally, when the types of `m` and of `mc` are trivially relocatable; when one of them is not,
`buffer_.swap( copy.buffer_ )` moves the bytes of a model that cannot be moved so, and the
behaviour of `b1 = c;` is undefined. -/
theorem moved_from_shape_can_be_reassigned
    (call : ∀ k, DrawStrategy k → ShapeT k → Effect) (b1 b2 c : Nat)
    (mv : Stmt ShapeT DrawStrategy)
    (hmv : mv = .moveConstruct b2 b1 ∨ mv = .moveAssign b2 b1) (hne : b2 ≠ b1) :
    (∀ (s s1 : G32.State ShapeT DrawStrategy Effect) (m mc : G32.ShapeConcept ShapeT DrawStrategy),
      s.WF → s.holds b1 m → G32.exec call mv s = .ok () s1 → s1.holds c mc →
      s1.objs b1 = some ⟨none⟩ ∧
      (s1.avail ≠ 0 → ∃ s2, G32.exec call (.copyAssign b1 c) s1 = .ok () s2) ∧
      ∀ s2, G32.exec call (.copyAssign b1 c) s1 = .ok () s2 →
        s2.holds b1 mc ∧ G32.drawEffect call s2 b1 = G32.drawEffect call s1 c ∧
        s2.objs b2 = s1.objs b2 ∧ s2.holds b2 m ∧
        G32.drawEffect call s2 b2 = G32.drawEffect call s b1 ∧
        s2.objs c = s1.objs c ∧ s2.holds c mc) ∧
    (∀ (Capacity Alignment : Nat) (sizeofModel alignofModel : Key → Nat)
      (movedFrom : ∀ k, G33S.OwningModel (ShapeT k) (DrawStrategy k) →
        G33S.OwningModel (ShapeT k) (DrawStrategy k))
      (relocatable : Key → Bool)
      (s s1 : G33S.State ShapeT DrawStrategy Effect) (m mc : G33S.Concept ShapeT DrawStrategy),
      s.holds b1 m →
      G33S.exec Capacity Alignment sizeofModel alignofModel call movedFrom relocatable mv s
        = .ok () s1 →
      s1.holds c mc →
      (relocatable m.key = true → relocatable mc.key = true →
        ∃ s2, G33S.exec Capacity Alignment sizeofModel alignofModel call movedFrom relocatable
            (.copyAssign b1 c) s1 = .ok () s2 ∧
          s2.holds b1 mc ∧ G33S.drawEffect call s2 b1 = G33S.drawEffect call s1 c ∧
          s2.objs b2 = s1.objs b2 ∧ s2.holds b2 m ∧
          G33S.drawEffect call s2 b2 = G33S.drawEffect call s b1 ∧
          (c ≠ b1 → s2.objs c = s1.objs c) ∧ s2.holds c mc) ∧
      (relocatable m.key = false ∨ relocatable mc.key = false →
        G33S.exec Capacity Alignment sizeofModel alignofModel call movedFrom relocatable
          (.copyAssign b1 c) s1 = .undefined)) := by
  constructor
  · intro s s1 m mc hwf hb1 hrun hc
    have hwf1 : s1.WF := G32.g32_exec_WF call mv hwf hrun
    obtain ⟨hb2, hnull⟩ := G32.g32_moved_state call hwf hb1 hne hmv hrun
    have hdraw : G32.drawEffect call s1 b2 = G32.drawEffect call s b1 := by
      rw [G32.g32_drawEffect_of_holds call hb2, G32.g32_drawEffect_of_holds call hb1]
    have hcb1 : c ≠ b1 := by
      intro hcb
      subst hcb
      obtain ⟨o, ho, hoc⟩ := hc
      rw [hnull] at ho
      cases ho
      simp [G32.State.deref] at hoc
    refine ⟨hnull, fun hav => G32.g32_copyAssign_run call hwf1 hnull hc hav, ?_⟩
    intro s2 h2
    obtain ⟨hh, -, hframe⟩ := G32.g32_copyAssign_spec call hwf1 hc h2
    obtain ⟨f1, f2⟩ := hframe b2 m hne hb2
    obtain ⟨f3, f4⟩ := hframe c mc hcb1 hc
    refine ⟨hh, ?_, f1, f2, ?_, f3, f4⟩
    · rw [G32.g32_drawEffect_of_holds call hh, G32.g32_drawEffect_of_holds call hc]
    · rw [G32.g32_drawEffect_of_holds call f2, ← hdraw,
        G32.g32_drawEffect_of_holds call hb2]
  · intro Capacity Alignment sizeofModel alignofModel movedFrom relocatable s s1 m mc hb1 hrun hc
    have hs1 : s1 = (s.put b1 (some ⟨some ⟨m.key, movedFrom m.key m.model⟩⟩)).put b2
        (some ⟨some m⟩) := by
      rcases hmv with hmv | hmv
      · subst hmv
        exact (G33S.g33s_moveConstruct_inv Capacity Alignment sizeofModel alignofModel call
          movedFrom relocatable hb1 hrun).2
      · subst hmv
        exact (G33S.g33s_moveAssign_inv Capacity Alignment sizeofModel alignofModel call
          movedFrom relocatable hb1 hne hrun).2.2
    have hne1 : b1 ≠ b2 := Ne.symm hne
    have h1b1 : s1.holds b1 ⟨m.key, movedFrom m.key m.model⟩ := by
      rw [hs1]
      simp [G33S.State.holds, G33S.State.put, Function.update_noteq hne1]
    have h1b2 : s1.holds b2 m := by
      rw [hs1]
      simp [G33S.State.holds, G33S.State.put]
    have h2b1 : (s1.put b1 (some ⟨some mc⟩)).holds b1 mc := by
      simp [G33S.State.holds, G33S.State.put]
    have h2b2 : (s1.put b1 (some ⟨some mc⟩)).holds b2 m := by
      simpa [G33S.State.holds, G33S.State.put, Function.update_noteq hne] using h1b2
    constructor
    · intro hrm hrc
      refine ⟨_, G33S.g33s_copyAssign_of_holds Capacity Alignment sizeofModel alignofModel call
        movedFrom relocatable h1b1 hc hrm hrc, h2b1, ?_, ?_, h2b2, ?_, ?_, ?_⟩
      · rw [G33S.g33s_drawEffect_of_holds call h2b1, G33S.g33s_drawEffect_of_holds call hc]
      · simp [G33S.State.put, Function.update_noteq hne]
      · rw [G33S.g33s_drawEffect_of_holds call h2b2, G33S.g33s_drawEffect_of_holds call hb1]
      · intro hcb
        simp [G33S.State.put, Function.update_noteq hcb]
      · by_cases hcb : c = b1
        · rw [hcb]
          exact h2b1
        · simpa [G33S.State.holds, G33S.State.put, Function.update_noteq hcb] using hc
    · intro hr
      exact G33S.g33s_copyAssign_undefined Capacity Alignment sizeofModel alignofModel call
        movedFrom relocatable h1b1 hc hr

end

namespace G32
section
variable {Key : Type} {ShapeT DrawStrategy : Key → Type} {Effect : Type}

/-- A statement does not change the value of an object it does not write. -/
theorem g32_exec_objs_frame (call : ∀ k, DrawStrategy k → ShapeT k → Effect)
    (st : Stmt ShapeT DrawStrategy) {s s1 : State ShapeT DrawStrategy Effect}
    (h : exec call st s = .ok () s1) {y : Nat} (hy : y ∉ st.writes) :
    s1.objs y = s.objs y := by
  cases st with
  | construct x k shape drawer =>
    obtain ⟨-, -, hs⟩ := g32_construct_ok call h
    have hyx : y ≠ x := by simpa [Stmt.writes] using hy
    rw [hs]
    simp [State.put, State.alloc, Function.update_noteq hyx]
  | copyConstruct x other =>
    obtain ⟨o, d, -, -, -, -, hs⟩ := g32_copyConstruct_ok call h
    have hyx : y ≠ x := by simpa [Stmt.writes] using hy
    rw [hs]
    simp [State.put, State.alloc, Function.update_noteq hyx]
  | moveConstruct x other =>
    obtain ⟨o, hx, ho, hs⟩ := g32_moveConstruct_ok call h
    simp only [Stmt.writes, List.mem_cons, List.mem_singleton, not_or, List.not_mem_nil,
      or_false] at hy
    rw [hs]
    simp [State.put, Function.update_noteq hy.1, Function.update_noteq hy.2]
  | copyAssign this other =>
    obtain ⟨t, o, d, ht, ho, hd, -, -, hs⟩ := (g32_copyAssign_ok call).mp h
    have hyt : y ≠ this := by simpa [Stmt.writes] using hy
    rw [hs, g32_release_objs]
    simp [State.put, State.alloc, Function.update_noteq hyt]
  | moveAssign this other =>
    obtain ⟨t, o, ht, ho, hcase⟩ := (g32_moveAssign_ok call).mp h
    simp only [Stmt.writes, List.mem_cons, List.mem_singleton, not_or, List.not_mem_nil,
      or_false] at hy
    rcases hcase with ⟨-, hs⟩ | ⟨-, -, hs⟩
    · rw [hs]
      simp [State.put, Function.update_noteq hy.1, Function.update_noteq hy.2]
    · rw [hs, g32_release_objs]
      simp [State.put, Function.update_noteq hy.1, Function.update_noteq hy.2]
  | draw x =>
    obtain ⟨d, -, hs⟩ := (g32_draw_ok call).mp h
    rw [hs]
  | destroy x =>
    obtain ⟨w, hx, hd, hs⟩ := (g32_destroy_ok call).mp h
    have hyx : y ≠ x := by simpa [Stmt.writes] using hy
    rw [hs]
    simp [State.put, g32_release_objs, Function.update_noteq hyx]

/-- A statement that ends normally has used at most one allocation. -/
theorem g32_exec_avail (call : ∀ k, DrawStrategy k → ShapeT k → Effect)
    (st : Stmt ShapeT DrawStrategy) {s s1 : State ShapeT DrawStrategy Effect}
    (h : exec call st s = .ok () s1) : s.avail ≤ s1.avail + 1 := by
  have rel : ∀ (s2 : State ShapeT DrawStrategy Effect) (p : Option Nat),
      s2.avail ≤ (s2.release p).avail := by
    intro s2 p
    cases p with
    | none => exact le_refl _
    | some a => simp [State.release, State.free]
  cases st with
  | construct x k shape drawer =>
    obtain ⟨-, -, hs⟩ := g32_construct_ok call h
    rw [hs]
    simp [State.put, State.alloc]
    omega
  | copyConstruct x other =>
    obtain ⟨o, d, -, -, -, -, hs⟩ := g32_copyConstruct_ok call h
    rw [hs]
    simp [State.put, State.alloc]
    omega
  | moveConstruct x other =>
    obtain ⟨o, hx, ho, hs⟩ := g32_moveConstruct_ok call h
    rw [hs]
    simp [State.put]
  | copyAssign this other =>
    obtain ⟨t, o, d, ht, ho, hd, -, -, hs⟩ := (g32_copyAssign_ok call).mp h
    rw [hs]
    have h1 := rel ((s.alloc d).put this (some ⟨some s.heap.length⟩)) t.pimpl_
    have h2 : ((s.alloc d).put this (some ⟨some s.heap.length⟩)).avail = s.avail - 1 := rfl
    omega
  | moveAssign this other =>
    obtain ⟨t, o, ht, ho, hcase⟩ := (g32_moveAssign_ok call).mp h
    rcases hcase with ⟨-, hs⟩ | ⟨-, -, hs⟩
    · rw [hs]
      simp [State.put]
    · rw [hs]
      have h1 := rel ((s.put other (some ⟨none⟩)).put this (some ⟨o.pimpl_⟩)) t.pimpl_
      have h2 : ((s.put other (some ⟨none⟩)).put this (some ⟨o.pimpl_⟩)).avail = s.avail := rfl
      omega
  | draw x =>
    obtain ⟨d, -, hs⟩ := (g32_draw_ok call).mp h
    rw [hs]
    simp
  | destroy x =>
    obtain ⟨w, hx, hd, hs⟩ := (g32_destroy_ok call).mp h
    rw [hs]
    have := rel s w.pimpl_
    simp [State.put]
    omega

/-- With room for one object per statement a program never leaves by `std::bad_alloc`. -/
theorem g32_run_no_bad_alloc (call : ∀ k, DrawStrategy k → ShapeT k → Effect)
    (prog : List (Stmt ShapeT DrawStrategy)) :
    ∀ (s : State ShapeT DrawStrategy Effect), prog.length ≤ s.avail →
      (run call prog s).isBadAlloc = false := by
  induction prog with
  | nil => intro s _; rfl
  | cons st cs ih =>
    intro s hlen
    simp only [List.length_cons] at hlen
    cases hst : exec call st s with
    | ok u s1 =>
      have := g32_exec_avail call st hst
      have h1 := ih s1 (by omega)
      simpa [run, runWith, hst, Outcome.andThen] using h1
    | bad_alloc s1 =>
      have := (g32_exec_bad_alloc call st hst).2
      omega
    | undefined => simp [run, runWith, hst, Outcome.andThen, Outcome.isBadAlloc]

theorem g32_construct_run (call : ∀ k, DrawStrategy k → ShapeT k → Effect)
    {s : State ShapeT DrawStrategy Effect} {x : Nat} (k : Key) (shape : ShapeT k)
    (drawer : DrawStrategy k) (hx : s.objs x = none) (ha : s.avail ≠ 0) :
    exec call (.construct x k shape drawer) s
      = .ok () ((s.alloc ⟨k, ⟨shape, drawer⟩⟩).put x (some ⟨some s.heap.length⟩)) := by
  simp [exec, hx, Shape.ctor, make_unique, ha, Outcome.andThen]

theorem g32_destroy_run (call : ∀ k, DrawStrategy k → ShapeT k → Effect)
    {s : State ShapeT DrawStrategy Effect} {x : Nat} {c : ShapeConcept ShapeT DrawStrategy}
    (h : s.holds x c) : ∃ s1, exec call (.destroy x) s = .ok () s1 ∧ s1.objs x = none := by
  obtain ⟨o, ho, hc⟩ := h
  have hd : s.deletable o.pimpl_ := by
    cases hp : o.pimpl_ with
    | none => exact Or.inl rfl
    | some a =>
      rw [hp] at hc
      exact Or.inr ⟨a, c, rfl, hc⟩
  exact ⟨_, (g32_destroy_ok call).mpr ⟨o, ho, hd, rfl⟩, by simp [State.put]⟩

end
end G32

/-! ## The heap `Shape` and the `Shape` with in-place storage run in lockstep -/

section
variable {Key : Type} {ShapeT DrawStrategy : Key → Type} {Effect : Type}

theorem sim_init (avail : Nat) :
    Sim (G32.State.init ShapeT DrawStrategy Effect avail)
      (G33S.State.init ShapeT DrawStrategy Effect) :=
  ⟨G32.g32_WF_init avail, rfl, fun _ => Or.inl ⟨rfl, rfl⟩⟩

theorem sim_update {hs hs1 : G32.State ShapeT DrawStrategy Effect}
    {ss ss1 : G33S.State ShapeT DrawStrategy Effect} (x : Nat) (hsim : Sim hs ss)
    (hwf : hs1.WF) (htr : hs1.trace = ss1.trace)
    (hh : ∀ y, y ≠ x → hs1.objs y = hs.objs y ∧ ∀ c, hs.holds y c → hs1.holds y c)
    (hsbo : ∀ y, y ≠ x → ss1.objs y = ss.objs y)
    (hx : (hs1.objs x = none ∧ ss1.objs x = none) ∨
      ∃ c, hs1.holds x c ∧ ss1.holds x (toConcept c)) : Sim hs1 ss1 := by
  refine ⟨hwf, htr, fun y => ?_⟩
  by_cases hyx : y = x
  · subst hyx
    exact hx
  · rcases hsim.2.2 y with ⟨h1, h2⟩ | ⟨c, h1, h2⟩
    · exact Or.inl ⟨(hh y hyx).1.trans h1, (hsbo y hyx).trans h2⟩
    · exact Or.inr ⟨c, (hh y hyx).2 c h1, (hsbo y hyx).trans h2⟩

theorem g32_frame_except (call : ∀ k, DrawStrategy k → ShapeT k → Effect)
    (st : Stmt ShapeT DrawStrategy) {hs hs1 : G32.State ShapeT DrawStrategy Effect}
    (hwf : hs.WF) (h : G32.exec call st hs = .ok () hs1) (x : Nat)
    (hw : ∀ y, y ∈ st.writes → y = x) :
    ∀ y, y ≠ x → hs1.objs y = hs.objs y ∧ ∀ c, hs.holds y c → hs1.holds y c := by
  intro y hyx
  have hy : y ∉ st.writes := fun hmem => hyx (hw y hmem)
  exact ⟨G32.g32_exec_objs_frame call st h hy,
    fun c hc => (G32.g32_exec_frame call st hwf h hy hc).2⟩

theorem g33s_reloc_put {relocatable : Key → Bool} {ss : G33S.State ShapeT DrawStrategy Effect}
    (hR : ∀ x c, ss.holds x c → relocatable c.key = true) (x : Nat)
    (v : Option (G33S.Shape ShapeT DrawStrategy))
    (hv : ∀ c, v = some ⟨some c⟩ → relocatable c.key = true) :
    ∀ y c, (ss.put x v).holds y c → relocatable c.key = true := by
  intro y c hy
  by_cases hyx : y = x
  · subst hyx
    apply hv c
    simpa [G33S.State.holds, G33S.State.put] using hy
  · apply hR y c
    simpa [G33S.State.holds, G33S.State.put, Function.update_noteq hyx] using hy

/-- One statement that is no move and that compiles for `Shape<Capacity,Alignment>`, run from
corresponding states in which (under the condition `A`) every model in a buffer is of a trivially
relocatable type; the statement is a copy assignment only under the condition `A`, and under it
constructs only models of trivially relocatable types.  Then the heap program runs out of memory,
or both programs end normally in corresponding states of the same kind, or both have undefined
behaviour. -/
theorem sim_step (Capacity Alignment : Nat) (sizeofModel alignofModel : Key → Nat)
    (call : ∀ k, DrawStrategy k → ShapeT k → Effect)
    (movedFrom : ∀ k, G33S.OwningModel (ShapeT k) (DrawStrategy k) →
      G33S.OwningModel (ShapeT k) (DrawStrategy k))
    (relocatable : Key → Bool) (A : Prop)
    (st : Stmt ShapeT DrawStrategy) (hst : st.isMove = false)
    (hcomp : G33S.compiles Capacity Alignment sizeofModel alignofModel st = true)
    (hasg : ∀ this other, st = .copyAssign this other → A)
    (hcon : A → ∀ x k shape drawer, st = .construct x k shape drawer → relocatable k = true)
    {hs : G32.State ShapeT DrawStrategy Effect} {ss : G33S.State ShapeT DrawStrategy Effect}
    (hsim : Sim hs ss) (hR : A → ∀ x c, ss.holds x c → relocatable c.key = true) :
    (∃ h1, G32.exec call st hs = .bad_alloc h1) ∨
    (∃ hs1 ss1, G32.exec call st hs = .ok () hs1 ∧
      G33S.exec Capacity Alignment sizeofModel alignofModel call movedFrom relocatable st ss
        = .ok () ss1 ∧
      Sim hs1 ss1 ∧ (A → ∀ x c, ss1.holds x c → relocatable c.key = true)) ∨
    (G32.exec call st hs = .undefined ∧
      G33S.exec Capacity Alignment sizeofModel alignofModel call movedFrom relocatable st ss
        = .undefined) := by
  obtain ⟨hwf, htr, hobjs⟩ := hsim
  have hsim : Sim hs ss := ⟨hwf, htr, hobjs⟩
  cases st with
  | construct x k shape drawer =>
    rcases hobjs x with ⟨hx, sx⟩ | ⟨c, ⟨o, ho, -⟩, sc⟩
    · by_cases ha : hs.avail = 0
      · left
        exact ⟨hs, by simp [G32.exec, hx, G32.Shape.ctor, G32.make_unique, ha, Outcome.andThen]⟩
      · right; left
        have hfit : G33S.static_asserts Capacity Alignment sizeofModel alignofModel k = true := by
          by_contra hn
          simp [G33S.compiles, G33S.Shape.ctor, hn] at hcomp
        have hrun := G32.g32_construct_run call k shape drawer hx ha
        refine ⟨_, ss.put x (some ⟨some ⟨k, ⟨shape, drawer⟩⟩⟩), hrun, ?_, ?_, ?_⟩
        · simp [G33S.exec, sx, G33S.Shape.ctor, hfit]
        · refine sim_update x hsim (G32.g32_exec_WF call _ hwf hrun) htr
            (g32_frame_except call _ hwf hrun x (by simp [Stmt.writes])) ?_ ?_
          · intro y hyx
            simp [G33S.State.put, Function.update_noteq hyx]
          · refine Or.inr ⟨⟨k, ⟨shape, drawer⟩⟩, ?_, ?_⟩
            · rw [G32.g32_holds_put_same]
              exact G32.g32_deref_alloc_new hs _
            · simp [G33S.State.holds, G33S.State.put, toConcept]
        · intro hA
          apply g33s_reloc_put (hR hA)
          intro c hc
          simp only [Option.some.injEq, G33S.Shape.mk.injEq] at hc
          rw [← hc]
          exact hcon hA x k shape drawer rfl
    · right; right
      have sc1 : ss.objs x = _ := sc
      exact ⟨by simp [G32.exec, ho], by simp [G33S.exec, sc1]⟩
  | copyConstruct x other =>
    rcases hobjs x with ⟨hx, sx⟩ | ⟨c, ⟨o, ho, -⟩, sc⟩
    · rcases hobjs other with ⟨hoth, soth⟩ | ⟨c, hc, sc⟩
      · right; right
        exact ⟨by simp [G32.exec, hx, hoth], by simp [G33S.exec, sx, soth]⟩
      · by_cases ha : hs.avail = 0
        · left
          obtain ⟨o, ho, hoc⟩ := hc
          exact ⟨hs, by
            simp [G32.exec, hx, ho, G32.g32_copyCtor_bad_alloc hoc ha, Outcome.andThen]⟩
        · right; left
          have hrun := G32.g32_copyConstruct_run call hx hc ha
          obtain ⟨-, -, h2, -, -⟩ := G32.g32_copyConstruct_spec call hc hrun
          refine ⟨_, _, hrun, G33S.g33s_copyConstruct_of_holds Capacity Alignment sizeofModel
            alignofModel call movedFrom relocatable sx sc, ?_, ?_⟩
          · refine sim_update x hsim (G32.g32_exec_WF call _ hwf hrun) htr
              (g32_frame_except call _ hwf hrun x (by simp [Stmt.writes])) ?_ ?_
            · intro y hyx
              simp [G33S.State.put, Function.update_noteq hyx]
            · exact Or.inr ⟨c, h2, by simp [G33S.State.holds, G33S.State.put]⟩
          · intro hA
            apply g33s_reloc_put (hR hA)
            intro c1 hc1
            simp only [Option.some.injEq, G33S.Shape.mk.injEq] at hc1
            rw [← hc1]
            exact hR hA other _ sc
    · right; right
      have sc1 : ss.objs x = _ := sc
      exact ⟨by simp [G32.exec, ho], by simp [G33S.exec, sc1]⟩
  | moveConstruct x other => simp [Stmt.isMove] at hst
  | copyAssign this other =>
    have hA : A := hasg this other rfl
    rcases hobjs this with ⟨ht, st1⟩ | ⟨ct, hct, sct⟩
    · right; right
      exact ⟨by simp [G32.exec, G32.Shape.copyAssign, ht],
        by simp [G33S.exec, G33S.Shape.copyAssign, st1]⟩
    · rcases hobjs other with ⟨hoth, soth⟩ | ⟨c, hc, sc⟩
      · right; right
        obtain ⟨t, ht, -⟩ := hct
        have sct1 : ss.objs this = _ := sct
        exact ⟨by simp [G32.exec, G32.Shape.copyAssign, ht, hoth],
          by simp [G33S.exec, G33S.Shape.copyAssign, sct1, soth]⟩
      · by_cases ha : hs.avail = 0
        · left
          obtain ⟨t, ht, -⟩ := hct
          obtain ⟨o, ho, hoc⟩ := hc
          exact ⟨hs, by
            simp [G32.exec, G32.Shape.copyAssign, ht, ho, G32.g32_copyCtor_bad_alloc hoc ha,
              Outcome.andThen]⟩
        · right; left
          obtain ⟨t, ht, htc⟩ := hct
          obtain ⟨hs1, hrun⟩ := G32.g32_copyAssign_run call hwf ht hc ha
          obtain ⟨h2, h3, -⟩ := G32.g32_copyAssign_spec call hwf hc hrun
          refine ⟨hs1, _, hrun, G33S.g33s_copyAssign_of_holds Capacity Alignment sizeofModel
            alignofModel call movedFrom relocatable sct sc (hR hA this _ sct)
            (hR hA other _ sc), ?_, ?_⟩
          · refine sim_update this hsim (G32.g32_exec_WF call _ hwf hrun) (h3.trans htr)
              (g32_frame_except call _ hwf hrun this (by simp [Stmt.writes])) ?_ ?_
            · intro y hyx
              simp [G33S.State.put, Function.update_noteq hyx]
            · exact Or.inr ⟨c, h2, by simp [G33S.State.holds, G33S.State.put]⟩
          · intro _
            apply g33s_reloc_put (hR hA)
            intro c1 hc1
            simp only [Option.some.injEq, G33S.Shape.mk.injEq] at hc1
            rw [← hc1]
            exact hR hA other _ sc
  | moveAssign this other => simp [Stmt.isMove] at hst
  | draw x =>
    rcases hobjs x with ⟨hx, sx⟩ | ⟨c, hc, sc⟩
    · right; right
      exact ⟨by simp [G32.exec, hx], by simp [G33S.exec, sx]⟩
    · right; left
      refine ⟨_, _, G32.g32_draw_of_holds call hc,
        G33S.g33s_draw_of_holds Capacity Alignment sizeofModel alignofModel call movedFrom
          relocatable sc, ?_, ?_⟩
      · refine ⟨⟨hwf.valid, hwf.unique⟩, ?_, hobjs⟩
        simp [htr, toConcept]
      · exact hR
  | destroy x =>
    rcases hobjs x with ⟨hx, sx⟩ | ⟨c, hc, sc⟩
    · right; right
      exact ⟨by simp [G32.exec, hx], by simp [G33S.exec, sx]⟩
    · right; left
      obtain ⟨hs1, hrun, hnone⟩ := G32.g32_destroy_run call hc
      have htr1 : hs1.trace = hs.trace := by
        obtain ⟨w, -, -, hs⟩ := (G32.g32_destroy_ok call).mp hrun
        rw [hs]
        simp [G32.State.put, G32.g32_release_trace]
      refine ⟨hs1, _, hrun, G33S.g33s_destroy_of_holds Capacity Alignment sizeofModel
        alignofModel call movedFrom relocatable sc, ?_, ?_⟩
      · refine sim_update x hsim (G32.g32_exec_WF call _ hwf hrun) (htr1.trans htr)
          (g32_frame_except call _ hwf hrun x (by simp [Stmt.writes])) ?_ ?_
        · intro y hyx
          simp [G33S.State.put, Function.update_noteq hyx]
        · exact Or.inl ⟨hnone, by simp [G33S.State.put]⟩
      · intro hA
        apply g33s_reloc_put (hR hA)
        intro c1 hc1
        cases hc1

end

section
variable {Key : Type} {ShapeT DrawStrategy : Key → Type} {Effect : Type}

/-- Programs without moves that compile for `Shape<Capacity,Alignment>`, run from corresponding
states: unless the heap program runs out of memory, both end in the same way with the same
trace.  `A` is the condition under which the program may contain copy assignments; under it the
models in the buffers, and those that the program constructs, are of trivially relocatable
types. -/
theorem sim_run (Capacity Alignment : Nat) (sizeofModel alignofModel : Key → Nat)
    (call : ∀ k, DrawStrategy k → ShapeT k → Effect)
    (movedFrom : ∀ k, G33S.OwningModel (ShapeT k) (DrawStrategy k) →
      G33S.OwningModel (ShapeT k) (DrawStrategy k))
    (relocatable : Key → Bool) (A : Prop)
    (prog : List (Stmt ShapeT DrawStrategy)) :
    prog.all (fun st => !st.isMove) = true →
    prog.all (G33S.compiles Capacity Alignment sizeofModel alignofModel) = true →
    (∀ this other, Stmt.copyAssign this other ∈ prog → A) →
    (A → ∀ x k shape drawer, Stmt.construct x k shape drawer ∈ prog →
      relocatable k = true) →
    ∀ (hs : G32.State ShapeT DrawStrategy Effect) (ss : G33S.State ShapeT DrawStrategy Effect),
      Sim hs ss → (A → ∀ x c, ss.holds x c → relocatable c.key = true) →
      (G32.run call prog hs).isBadAlloc = true ∨
      (runWith (G33S.exec Capacity Alignment sizeofModel alignofModel call movedFrom relocatable)
          prog ss).mapState (fun s => s.trace)
        = (G32.run call prog hs).mapState (fun s => s.trace) := by
  induction prog with
  | nil =>
    intro _ _ _ _ hs ss hsim _
    right
    simp [G32.run, runWith, Outcome.mapState, hsim.2.1]
  | cons st cs ih =>
    intro hnm hcomp hasg hcon hs ss hsim hR
    simp only [List.all_cons, Bool.and_eq_true, Bool.not_eq_true'] at hnm hcomp
    rcases sim_step Capacity Alignment sizeofModel alignofModel call movedFrom relocatable A st
      hnm.1 hcomp.1 (fun this other e => hasg this other (by rw [e]; exact List.mem_cons_self _ _))
      (fun hA x k shape drawer e =>
        hcon hA x k shape drawer (by rw [e]; exact List.mem_cons_self _ _))
      hsim hR with ⟨h1, hb⟩ | ⟨hs1, ss1, hh, hsb, hsim1, hR1⟩ | ⟨hh, hsb⟩
    · left
      simp [G32.run, runWith, hb, Outcome.andThen, Outcome.isBadAlloc]
    · have := ih (by simpa using hnm.2) hcomp.2
        (fun this other hmem => hasg this other (List.mem_cons_of_mem _ hmem))
        (fun hA x k shape drawer hmem =>
          hcon hA x k shape drawer (List.mem_cons_of_mem _ hmem)) hs1 ss1 hsim1 hR1
      simpa [G32.run, runWith, hh, hsb, Outcome.andThen] using this
    · right
      simp [G32.run, runWith, hh, hsb, Outcome.andThen, Outcome.mapState]

theorem isBadAlloc_mapState {σ τ α : Type} (f : σ → τ) (r : Outcome σ α) :
    (r.mapState f).isBadAlloc = r.isBadAlloc := by
  cases r <;> rfl

/-- C9: SBO/heap equivalence, and where it ends.  Take any program made of constructions from
`(shape, drawer)`, copy constructions, copy assignments, draws and destructions (no moves) in
which every constructed model fits `Shape<Capacity,Alignment>`, so that the program compiles for
the SBO `Shape`.

If the program contains no copy assignment, or if every model it constructs is of a trivially
relocatable type, then, started from the empty state, the program runs for the SBO `Shape`, and
unless the heap program leaves by `std::bad_alloc` both runs end in the same way -- both normally
or both with undefined behaviour -- and with the same sequence of behaviour invocations.  A free
store with room for one model per statement is enough for the heap program not to run out of
memory.

For a model type that fits and is not trivially relocatable the two differ on the statements
`Shape a( Tracked{ 1 }, drawer ); Shape b( Tracked{ 2 }, drawer ); a = b; draw( a );`: the heap
`Shape` runs them to the end and draws `2`; with `Shape<32,8>` the copy assignment swaps the
bytes of the two models and the behaviour is undefined. -/
theorem sbo_and_heap_shape_same_invocations (Capacity Alignment : Nat)
    (sizeofModel alignofModel : Key → Nat) (call : ∀ k, DrawStrategy k → ShapeT k → Effect)
    (movedFrom : ∀ k, G33S.OwningModel (ShapeT k) (DrawStrategy k) →
      G33S.OwningModel (ShapeT k) (DrawStrategy k))
    (relocatable : Key → Bool)
    (prog : List (Stmt ShapeT DrawStrategy)) (avail : Nat)
    (hnm : prog.all (fun st => !st.isMove) = true)
    (hfit : ∀ x k shape drawer, Stmt.construct x k shape drawer ∈ prog →
      sizeofModel k ≤ Capacity ∧ alignofModel k ≤ Alignment)
    (hrel : (∃ this other, Stmt.copyAssign this other ∈ prog) →
      ∀ x k shape drawer, Stmt.construct x k shape drawer ∈ prog → relocatable k = true) :
    ((∃ r, G33S.run Capacity Alignment sizeofModel alignofModel call movedFrom relocatable prog
        (G33S.State.init ShapeT DrawStrategy Effect) = some r ∧
      ((G32.run call prog (G32.State.init ShapeT DrawStrategy Effect avail)).isBadAlloc = true ∨
        r.mapState (fun s => s.trace)
          = (G32.run call prog (G32.State.init ShapeT DrawStrategy Effect avail)).mapState
              (fun s => s.trace))) ∧
    (prog.length ≤ avail →
      (G33S.run Capacity Alignment sizeofModel alignofModel call movedFrom relocatable prog
          (G33S.State.init ShapeT DrawStrategy Effect)).map (Outcome.mapState fun s => s.trace)
        = some ((G32.run call prog (G32.State.init ShapeT DrawStrategy Effect avail)).mapState
            (fun s => s.trace)))) ∧
    (DemoTracked.assignProg.all (fun st => !st.isMove) = true ∧
      (∀ st ∈ DemoTracked.assignProg, G33S.compiles 32 8 DemoTracked.sizeofModel
        DemoTracked.alignofModel st = true) ∧
      (G32.run DemoTracked.call DemoTracked.assignProg
          (G32.State.init DemoTracked.ShapeT DemoTracked.DrawStrategy DemoTracked.Ev 4)).mapState
          (fun s => s.trace) = .ok () [DemoTracked.Ev.trackedDrawn 2] ∧
      G33S.run 32 8 DemoTracked.sizeofModel DemoTracked.alignofModel DemoTracked.call
          DemoTracked.movedFrom DemoTracked.relocatable DemoTracked.assignProg
          (G33S.State.init DemoTracked.ShapeT DemoTracked.DrawStrategy DemoTracked.Ev)
        = some .undefined) := by
  have hcomp : prog.all (G33S.compiles Capacity Alignment sizeofModel alignofModel) = true := by
    rw [List.all_eq_true]
    intro st hmem
    cases st with
    | construct x k shape drawer =>
      obtain ⟨h1, h2⟩ := hfit x k shape drawer hmem
      simp [G33S.compiles, G33S.Shape.ctor, G33S.static_asserts, h1, h2]
    | _ => rfl
  have hsim := sim_run Capacity Alignment sizeofModel alignofModel call movedFrom relocatable
    (∃ this other, Stmt.copyAssign this other ∈ prog) prog hnm hcomp
    (fun this other hmem => ⟨this, other, hmem⟩) hrel
    _ _ (sim_init avail) (fun _ x c hc => by simp [G33S.State.holds, G33S.State.init] at hc)
  refine ⟨⟨⟨_, by simp [G33S.run, hcomp], hsim⟩, ?_⟩, by decide, by decide, rfl, rfl⟩
  intro hlen
  have hno := G32.g32_run_no_bad_alloc call prog
    (G32.State.init ShapeT DrawStrategy Effect avail) hlen
  rcases hsim with hb | he
  · rw [hno] at hb
    cases hb
  · simp [G33S.run, hcomp, he]

/-- Witness for C9: `Shape a( circle, drawer ); Shape b( Circle{ 2.0 }, drawer ); a = b;
draw( a );` with `Shape<32,8>` and room for four models: both programs draw the second circle. -/
theorem sbo_and_heap_shape_same_invocations_witness :
    (G33S.run 32 8 Demo.sizeofModel Demo.alignofModel Demo.call Demo.movedFrom Demo.relocatable
        [.construct 1 .lambda Demo.circle (), .construct 2 .lambda (⟨200⟩ : Demo.Circle) (),
          .copyAssign 1 2, .draw 1]
        (G33S.State.init Demo.ShapeT Demo.DrawStrategy Demo.Ev)).map
        (Outcome.mapState fun s => s.trace)
      = some (.ok () [Demo.Ev.circleDrawn 200]) ∧
    (G32.run Demo.call
        [.construct 1 .lambda Demo.circle (), .construct 2 .lambda (⟨200⟩ : Demo.Circle) (),
          .copyAssign 1 2, .draw 1]
        (G32.State.init Demo.ShapeT Demo.DrawStrategy Demo.Ev 4)).mapState (fun s => s.trace)
      = .ok () [Demo.Ev.circleDrawn 200] := by
  have h := (sbo_and_heap_shape_same_invocations 32 8 Demo.sizeofModel Demo.alignofModel
    Demo.call Demo.movedFrom Demo.relocatable
    [.construct 1 .lambda Demo.circle (), .construct 2 .lambda (⟨200⟩ : Demo.Circle) (),
      .copyAssign 1 2, .draw 1] 4 (by decide) (by
      intro x k shape drawer hmem
      cases k
      · decide
      · simp at hmem
      · simp at hmem) (fun _ _ _ _ _ _ => rfl)).1.2 (by decide)
  have h2 : (G32.run Demo.call
      [.construct 1 .lambda Demo.circle (), .construct 2 .lambda (⟨200⟩ : Demo.Circle) (),
        .copyAssign 1 2, .draw 1]
      (G32.State.init Demo.ShapeT Demo.DrawStrategy Demo.Ev 4)).mapState (fun s => s.trace)
      = .ok () [Demo.Ev.circleDrawn 200] := rfl
  exact ⟨h.trans (congrArg some h2), h2⟩

end

/-! ## `draw` forwards to the stored behaviour -/

section
variable {Key : Type} {ShapeT DrawStrategy : Key → Type} {Effect : Type}

/-- Heap `Shape`: `n` statements `draw( x );` on a shape that holds `c` add exactly `n` events
`drawer_( shape_ )` of `c` and change nothing else. -/
theorem g32_draw_n_times (call : ∀ k, DrawStrategy k → ShapeT k → Effect) (x : Nat)
    (c : G32.ShapeConcept ShapeT DrawStrategy) (n : Nat) :
    ∀ (s : G32.State ShapeT DrawStrategy Effect), s.holds x c →
      G32.run call (List.replicate n (.draw x)) s
        = .ok () { s with trace := s.trace ++
            List.replicate n (call c.key c.model.drawer_ c.model.shape_) } := by
  induction n with
  | zero =>
    intro s _
    simp [G32.run, runWith]
  | succ n ih =>
    intro s h
    have h1 : G32.State.holds
        { s with trace := s.trace ++ [call c.key c.model.drawer_ c.model.shape_] } x c := h
    have := ih _ h1
    simp only [G32.run] at this
    simp [G32.run, runWith, List.replicate_succ, G32.g32_draw_of_holds call h, Outcome.andThen,
      this]

/-- The `Shape` with in-place storage: `n` statements `draw( x );` on a shape that holds `c` add
exactly `n` events `drawer_( shape_ )` of `c` and change nothing else. -/
theorem g33s_draw_n_times (Capacity Alignment : Nat) (sizeofModel alignofModel : Key → Nat)
    (call : ∀ k, DrawStrategy k → ShapeT k → Effect)
    (movedFrom : ∀ k, G33S.OwningModel (ShapeT k) (DrawStrategy k) →
      G33S.OwningModel (ShapeT k) (DrawStrategy k))
    (relocatable : Key → Bool) (x : Nat)
    (c : G33S.Concept ShapeT DrawStrategy) (n : Nat) :
    ∀ (s : G33S.State ShapeT DrawStrategy Effect), s.holds x c →
      runWith (G33S.exec Capacity Alignment sizeofModel alignofModel call movedFrom relocatable)
          (List.replicate n (.draw x)) s
        = .ok () { s with trace := s.trace ++
            List.replicate n (call c.key c.model.drawer_ c.model.shape_) } := by
  induction n with
  | zero =>
    intro s _
    simp [runWith]
  | succ n ih =>
    intro s h
    have h1 : G33S.State.holds
        { s with trace := s.trace ++ [call c.key c.model.drawer_ c.model.shape_] } x c := h
    have := ih _ h1
    simp [runWith, List.replicate_succ,
      G33S.g33s_draw_of_holds Capacity Alignment sizeofModel alignofModel call movedFrom
          relocatable h,
      Outcome.andThen, this]

/-- The manual-dispatch `Shape`: the statement `draw( x );` on a shape built by the constructor
instantiation `k` adds the event of `(*drawer_)( shape_ )`, whatever `drawer_( shape_ )` would
do. -/
theorem g33m_draw_calls_deref [DecidableEq Key]
    (derefCall : ∀ k, Option (DrawStrategy k → ShapeT k → Effect))
    (s : G33M.State ShapeT DrawStrategy Effect) (x a : Nat) (k : Key)
    (m : G33M.OwningModel (ShapeT k) (DrawStrategy k)) (f : DrawStrategy k → ShapeT k → Effect)
    (hx : s.objs x = some ⟨some a, some k, some k, some k⟩)
    (ha : cell s.heap a = some ⟨k, m⟩) (hf : derefCall k = some f) :
    G33M.exec derefCall (.draw x) s
      = .ok () { s with trace := s.trace ++ [f m.drawer_ m.shape_] } := by
  simp [G33M.exec, hx, G33M.draw, G33M.drawOp, G33M.State.deref, ha, hf]

/-- C1, evaluated at the failing input: a manual-dispatch `Shape` built from a `Circle` and a
`Pen` whose `operator*` returns another function object.  `draw` on it does not call the stored
`Pen` on the stored circle (event `penDrawn 7 314`, which the heap `Shape` and the `Shape` with
in-place storage produce) but the object that `*drawer_` returns (event `penRelayed 7 314`). -/
theorem manual_dispatch_draw_calls_dereferenced_drawer :
    (G33M.run Demo.derefCall [.construct 1 .relay Demo.circle ⟨7⟩, .draw 1]
        (G33M.State.init Demo.ShapeT Demo.DrawStrategy Demo.Ev 1)).map
        (Outcome.mapState fun s => s.trace)
      = some (.ok () [Demo.Ev.penRelayed 7 314]) ∧
    Demo.call .relay ⟨7⟩ Demo.circle = Demo.Ev.penDrawn 7 314 ∧
    (G32.run Demo.call [.construct 1 .relay Demo.circle ⟨7⟩, .draw 1]
        (G32.State.init Demo.ShapeT Demo.DrawStrategy Demo.Ev 1)).mapState (fun s => s.trace)
      = .ok () [Demo.Ev.penDrawn 7 314] ∧
    (G33S.run 32 8 Demo.sizeofModel Demo.alignofModel Demo.call Demo.movedFrom Demo.relocatable
        [.construct 1 .relay Demo.circle ⟨7⟩, .draw 1]
        (G33S.State.init Demo.ShapeT Demo.DrawStrategy Demo.Ev)).map
        (Outcome.mapState fun s => s.trace)
      = some (.ok () [Demo.Ev.penDrawn 7 314]) :=
  ⟨rfl, rfl, rfl, rfl⟩

end

/-! ## The capacity check of the `Shape` with in-place storage -/

section
variable {Key : Type} {ShapeT DrawStrategy : Key → Type} {Effect : Type}

/-- C10: the capacity check of `Shape<Capacity,Alignment>`.  The construction from
`(shape, drawer)` in instantiation `k` is accepted if and only if
`sizeof(OwningModel<ShapeT,DrawStrategy>) <= Capacity` and
`alignof(OwningModel<ShapeT,DrawStrategy>) <= Alignment`.  When it is accepted the constructor
leaves the model built from `shape` and `drawer` in the buffer.  When it is rejected there is no
constructor to run, and no program that contains the construction runs at all: no model is
constructed and no `Shape` comes into existence. -/
theorem sbo_capacity_check (Capacity Alignment : Nat) (sizeofModel alignofModel : Key → Nat)
    (k : Key) (shape : ShapeT k) (drawer : DrawStrategy k) :
    ((G33S.Shape.ctor Capacity Alignment sizeofModel alignofModel k shape drawer).isSome = true ↔
      sizeofModel k ≤ Capacity ∧ alignofModel k ≤ Alignment) ∧
    (sizeofModel k ≤ Capacity ∧ alignofModel k ≤ Alignment →
      G33S.Shape.ctor Capacity Alignment sizeofModel alignofModel k shape drawer
        = some ⟨some ⟨k, ⟨shape, drawer⟩⟩⟩) ∧
    (¬ (sizeofModel k ≤ Capacity ∧ alignofModel k ≤ Alignment) →
      G33S.Shape.ctor Capacity Alignment sizeofModel alignofModel k shape drawer = none ∧
      ∀ (call : ∀ k, DrawStrategy k → ShapeT k → Effect)
        (movedFrom : ∀ k, G33S.OwningModel (ShapeT k) (DrawStrategy k) →
          G33S.OwningModel (ShapeT k) (DrawStrategy k))
        (relocatable : Key → Bool)
        (x : Nat) (before after : List (Stmt ShapeT DrawStrategy))
        (s : G33S.State ShapeT DrawStrategy Effect),
        G33S.run Capacity Alignment sizeofModel alignofModel call movedFrom relocatable
          (before ++ Stmt.construct x k shape drawer :: after) s = none) := by
  by_cases hfit : sizeofModel k ≤ Capacity ∧ alignofModel k ≤ Alignment
  · have hsa : G33S.static_asserts Capacity Alignment sizeofModel alignofModel k = true := by
      simp [G33S.static_asserts, hfit.1, hfit.2]
    refine ⟨?_, ?_, fun hn => absurd hfit hn⟩
    · simp [G33S.Shape.ctor, hsa, hfit]
    · intro _
      simp [G33S.Shape.ctor, hsa]
  · have hsa : G33S.static_asserts Capacity Alignment sizeofModel alignofModel k = false := by
      simp only [G33S.static_asserts, Bool.and_eq_false_imp, decide_eq_true_eq,
        decide_eq_false_iff_not]
      intro h1 h2
      exact hfit ⟨h1, h2⟩
    refine ⟨?_, fun h => absurd h hfit, fun _ => ⟨?_, ?_⟩⟩
    · simp [G33S.Shape.ctor, hsa, hfit]
    · simp [G33S.Shape.ctor, hsa]
    · intro call movedFrom relocatable x before after s
      simp [G33S.run, G33S.compiles, G33S.Shape.ctor, hsa]

/-- Witness for C10: `Shape<32,8>` accepts the circle with the lambda (24 bytes) and rejects the
box with the lambda (48 bytes). -/
theorem sbo_capacity_check_witness :
    @G33S.Shape.ctor Demo.K Demo.ShapeT Demo.DrawStrategy 32 8 Demo.sizeofModel
      Demo.alignofModel .lambda Demo.circle () = some ⟨some Demo.circleSboModel⟩ ∧
    @G33S.Shape.ctor Demo.K Demo.ShapeT Demo.DrawStrategy 32 8 Demo.sizeofModel
      Demo.alignofModel .wide (⟨0, 0, 4, 3⟩ : Demo.Box) () = none :=
  ⟨(@sbo_capacity_check Demo.K Demo.ShapeT Demo.DrawStrategy Demo.Ev 32 8 Demo.sizeofModel
      Demo.alignofModel .lambda Demo.circle ()).2.1 (by decide),
    ((@sbo_capacity_check Demo.K Demo.ShapeT Demo.DrawStrategy Demo.Ev 32 8 Demo.sizeofModel
      Demo.alignofModel .wide (⟨0, 0, 4, 3⟩ : Demo.Box) ()).2.2 (by decide)).1⟩

end

section

/-- Witness for C8: `Shape shape2( std::move(shape1) );` followed by `shape1 = shape2;`, for the
heap `Shape` and for `Shape<32,8>` with in-place storage, with the circle and the lambda of
`main()`; and the statements `Shape b1( Tracked{ 1 }, drawer ); Shape c( Tracked{ 3 }, drawer );
Shape b2( std::move(b1) ); b1 = c; draw( b1 );` with a shape class that is not trivially
relocatable, which the heap `Shape` runs to the end, drawing `3`, and for which `b1 = c;` is
undefined with `Shape<32,8>`. -/
theorem moved_from_shape_can_be_reassigned_witness :
    (∃ s1 s2, G32.exec Demo.call (.moveConstruct 2 1) Demo.heapOne = .ok () s1 ∧
      G32.exec Demo.call (.copyAssign 1 2) s1 = .ok () s2 ∧
      s2.holds 1 Demo.circleModel ∧ s2.holds 2 Demo.circleModel ∧
      G32.drawEffect Demo.call s2 1 = some [Demo.Ev.circleDrawn 314]) ∧
    (∃ s1 s2, G33S.exec 32 8 Demo.sizeofModel Demo.alignofModel Demo.call Demo.movedFrom
        Demo.relocatable (.moveConstruct 2 1) Demo.sboOne = .ok () s1 ∧
      G33S.exec 32 8 Demo.sizeofModel Demo.alignofModel Demo.call Demo.movedFrom
        Demo.relocatable (.copyAssign 1 2) s1 = .ok () s2 ∧
      s2.holds 1 Demo.circleSboModel ∧ s2.holds 2 Demo.circleSboModel ∧
      G33S.drawEffect Demo.call s2 1 = some [Demo.Ev.circleDrawn 314]) ∧
    (G32.run DemoTracked.call DemoTracked.reassignProg
        (G32.State.init DemoTracked.ShapeT DemoTracked.DrawStrategy DemoTracked.Ev 3)).mapState
        (fun s => s.trace) = .ok () [DemoTracked.Ev.trackedDrawn 3] ∧
    (∃ s1, runWith (G33S.exec 32 8 DemoTracked.sizeofModel DemoTracked.alignofModel
          DemoTracked.call DemoTracked.movedFrom DemoTracked.relocatable)
          (DemoTracked.reassignProg.take 3)
          (G33S.State.init DemoTracked.ShapeT DemoTracked.DrawStrategy DemoTracked.Ev)
        = .ok () s1 ∧
      G33S.exec 32 8 DemoTracked.sizeofModel DemoTracked.alignofModel DemoTracked.call
        DemoTracked.movedFrom DemoTracked.relocatable (.copyAssign 1 3) s1 = .undefined) ∧
    G33S.run 32 8 DemoTracked.sizeofModel DemoTracked.alignofModel DemoTracked.call
        DemoTracked.movedFrom DemoTracked.relocatable DemoTracked.reassignProg
        (G33S.State.init DemoTracked.ShapeT DemoTracked.DrawStrategy DemoTracked.Ev)
      = some .undefined := by
  have thm := moved_from_shape_can_be_reassigned Demo.call 1 2 2 (.moveConstruct 2 1)
    (Or.inl rfl) (by decide)
  have thmT := moved_from_shape_can_be_reassigned DemoTracked.call 1 2 3 (.moveConstruct 2 1)
    (Or.inl rfl) (by decide)
  refine ⟨?_, ?_, rfl, ?_, rfl⟩
  · have hm : G32.exec Demo.call (.moveConstruct 2 1) Demo.heapOne
        = .ok () ((Demo.heapOne.put 1 (some ⟨none⟩)).put 2 (some ⟨some 0⟩)) := rfl
    have hc : ((Demo.heapOne.put 1 (some ⟨none⟩)).put 2 (some ⟨some 0⟩)).holds 2
        Demo.circleModel := ⟨⟨some 0⟩, rfl, rfl⟩
    obtain ⟨-, hex, hall⟩ := thm.1 Demo.heapOne _ Demo.circleModel Demo.circleModel
      G32.g32_heapOne_WF G32.g32_heapOne_holds hm hc
    obtain ⟨s2, h2⟩ := hex (by decide)
    obtain ⟨a1, -, -, a4, -, -, -⟩ := hall s2 h2
    exact ⟨_, s2, hm, h2, a1, a4, G32.g32_drawEffect_of_holds Demo.call a1⟩
  · have hm : G33S.exec 32 8 Demo.sizeofModel Demo.alignofModel Demo.call Demo.movedFrom
        Demo.relocatable (.moveConstruct 2 1) Demo.sboOne
        = .ok () ((Demo.sboOne.put 1 (some ⟨some Demo.circleSboModel⟩)).put 2
            (some ⟨some Demo.circleSboModel⟩)) := rfl
    have hc : ((Demo.sboOne.put 1 (some ⟨some Demo.circleSboModel⟩)).put 2
        (some ⟨some Demo.circleSboModel⟩)).holds 2 Demo.circleSboModel := by
      simp [G33S.State.holds, G33S.State.put]
    obtain ⟨s2, h2, a1, -, -, a4, -, -, -⟩ := (thm.2 32 8 Demo.sizeofModel Demo.alignofModel
      Demo.movedFrom Demo.relocatable Demo.sboOne _ Demo.circleSboModel Demo.circleSboModel rfl
      hm hc).1 rfl rfl
    exact ⟨_, s2, hm, h2, a1, a4, G33S.g33s_drawEffect_of_holds Demo.call a1⟩
  · refine ⟨_, rfl, ?_⟩
    exact (thmT.2 32 8 DemoTracked.sizeofModel DemoTracked.alignofModel DemoTracked.movedFrom
      DemoTracked.relocatable
      (((G33S.State.init DemoTracked.ShapeT DemoTracked.DrawStrategy DemoTracked.Ev).put 1
        (some ⟨some ⟨.tracked, ⟨(⟨1⟩ : DemoTracked.Tracked), ()⟩⟩⟩)).put 3
        (some ⟨some ⟨.tracked, ⟨(⟨3⟩ : DemoTracked.Tracked), ()⟩⟩⟩))
      _ ⟨.tracked, ⟨(⟨1⟩ : DemoTracked.Tracked), ()⟩⟩
      ⟨.tracked, ⟨(⟨3⟩ : DemoTracked.Tracked), ()⟩⟩ rfl rfl rfl).2 (Or.inl rfl)

end

/-! ## Lifetimes of the models of the `Shape` with in-place storage -/

namespace G33S
namespace Lifetime
section
variable {Key : Type} {ShapeT DrawStrategy : Key → Type} {Effect : Type}

theorem lt_serialOf_some {s : State ShapeT DrawStrategy Effect} {x i : Nat}
    (h : s.serialOf x = some i) : ∃ m, s.objs x = some ⟨some m⟩ ∧ m.serial = i := by
  unfold State.serialOf at h
  split at h
  · next m hm => exact ⟨m, hm, Option.some.inj h⟩
  · cases h

variable (Capacity Alignment : Nat) (sizeofModel alignofModel : Key → Nat)
variable (call : ∀ k, DrawStrategy k → ShapeT k → Effect)
variable (movedFrom : ∀ k, OwningModel (ShapeT k) (DrawStrategy k) →
  OwningModel (ShapeT k) (DrawStrategy k))
variable (relocatable : Key → Bool)

end
end Lifetime
end G33S

namespace G33S
section
variable {Key : Type} {ShapeT DrawStrategy : Key → Type} {Effect : Type}
variable (Capacity Alignment : Nat) (sizeofModel alignofModel : Key → Nat)
variable (call : ∀ k, DrawStrategy k → ShapeT k → Effect)
variable (movedFrom : ∀ k, OwningModel (ShapeT k) (DrawStrategy k) →
  OwningModel (ShapeT k) (DrawStrategy k))
variable (relocatable : Key → Bool)

/-- C12: move construction of the `Shape` with in-place storage.  Let the buffer of `b1` hold
the model `m` and let `b2` be a name that is not in use.  `Shape b2( std::move(b1) );` ends
normally; afterwards the buffer of `b2` holds the model that `OwningModel::move` move-constructs
from `m` (it has the members of `m`), `draw( b2 )` adds the event that `draw( b1 )` added before
the move, and the buffer of `b1` still holds its model, now in the moved-from state
`movedFrom m`.  The destruction of `b1` then ends normally and leaves `b2` as it is.  Second
conjunct, with the lifetimes recorded: the model of `b2` is a newly constructed one, the model of
`b1` keeps its serial number `i`, nothing is destroyed by the move, and the destructor of `b1`
destroys exactly model `i`. -/
theorem sbo_move_construct_relocates (b1 b2 : Nat) (m : Concept ShapeT DrawStrategy) :
    (∀ s : State ShapeT DrawStrategy Effect, s.holds b1 m → s.objs b2 = none →
      ∃ s1, exec Capacity Alignment sizeofModel alignofModel call movedFrom relocatable
          (.moveConstruct b2 b1) s = .ok () s1 ∧
        s1.holds b2 (OwningModel.move movedFrom m.key m.model).1 ∧
        (OwningModel.move movedFrom m.key m.model).1 = m ∧
        drawEffect call s1 b2 = drawEffect call s b1 ∧
        s1.holds b1 ⟨m.key, movedFrom m.key m.model⟩ ∧
        s1.trace = s.trace ∧
        ∃ s2, exec Capacity Alignment sizeofModel alignofModel call movedFrom
            relocatable (.destroy b1) s1
            = .ok () s2 ∧
          s2.objs b1 = none ∧ s2.objs b2 = s1.objs b2 ∧ s2.trace = s.trace) ∧
    (∀ (s : Lifetime.State ShapeT DrawStrategy Effect) (i : Nat),
      s.objs b1 = some ⟨some ⟨i, m⟩⟩ → s.objs b2 = none →
      ∃ s1, Lifetime.exec Capacity Alignment sizeofModel alignofModel call movedFrom relocatable
          (.moveConstruct b2 b1) s = .ok () s1 ∧
        s1.objs b2 = some ⟨some ⟨s.born, m⟩⟩ ∧
        s1.objs b1 = some ⟨some ⟨i, ⟨m.key, movedFrom m.key m.model⟩⟩⟩ ∧
        s1.born = s.born + 1 ∧ s1.dead = s.dead ∧
        ∃ s2, Lifetime.exec Capacity Alignment sizeofModel alignofModel call movedFrom relocatable
            (.destroy b1) s1 = .ok () s2 ∧
          s2.objs b1 = none ∧ s2.objs b2 = s1.objs b2 ∧ s2.dead = s.dead ++ [i]) := by
  constructor
  · intro s hb1 hb2
    have hne : b1 ≠ b2 := by
      intro h12
      rw [h12] at hb1
      rw [show s.objs b2 = _ from hb1] at hb2
      cases hb2
    have h1b2 : ((s.put b1 (some ⟨some ⟨m.key, movedFrom m.key m.model⟩⟩)).put b2
        (some ⟨some m⟩)).holds b2 m := by
      simp [State.holds, State.put]
    have h1b1 : ((s.put b1 (some ⟨some ⟨m.key, movedFrom m.key m.model⟩⟩)).put b2
        (some ⟨some m⟩)).holds b1 ⟨m.key, movedFrom m.key m.model⟩ := by
      simp [State.holds, State.put, Function.update_noteq hne]
    refine ⟨_, g33s_moveConstruct_of_holds Capacity Alignment sizeofModel alignofModel call
      movedFrom relocatable hb2 hb1, h1b2, rfl, ?_, h1b1, rfl, ?_⟩
    · rw [g33s_drawEffect_of_holds call h1b2, g33s_drawEffect_of_holds call hb1]
    · refine ⟨_, g33s_destroy_of_holds Capacity Alignment sizeofModel alignofModel call
        movedFrom relocatable h1b1, ?_, ?_, rfl⟩
      · simp [State.put]
      · simp [State.put, Function.update_noteq hne.symm]
  · intro s i hb1 hb2
    have hne : b1 ≠ b2 := by
      intro h12
      rw [h12, hb2] at hb1
      cases hb1
    have hrun1 : Lifetime.exec Capacity Alignment sizeofModel alignofModel call movedFrom
        relocatable
        (.moveConstruct b2 b1) s
        = .ok () (Lifetime.State.put (Lifetime.State.put { s with born := s.born + 1 } b1
            (some ⟨some ⟨i, ⟨m.key, movedFrom m.key m.model⟩⟩⟩)) b2
            (some ⟨some ⟨s.born, m⟩⟩)) := by
      simp [Lifetime.exec, hb1, hb2, Lifetime.Shape.moveCtor, Outcome.andThen,
        Lifetime.construct_at, OwningModel.move]
    have hrun2 : Lifetime.exec Capacity Alignment sizeofModel alignofModel call movedFrom
        relocatable
        (.destroy b1) (Lifetime.State.put (Lifetime.State.put { s with born := s.born + 1 } b1
            (some ⟨some ⟨i, ⟨m.key, movedFrom m.key m.model⟩⟩⟩)) b2
            (some ⟨some ⟨s.born, m⟩⟩))
        = .ok () (Lifetime.State.put { (Lifetime.State.put (Lifetime.State.put { s with born := s.born + 1 } b1
            (some ⟨some ⟨i, ⟨m.key, movedFrom m.key m.model⟩⟩⟩)) b2
            (some ⟨some ⟨s.born, m⟩⟩)) with dead := s.dead ++ [i] } b1 none) := by
      simp [Lifetime.exec, Lifetime.State.put, Function.update_noteq hne,
        Lifetime.Shape.dtor, Lifetime.destroy_at, Outcome.andThen]
    refine ⟨_, hrun1, ?_, ?_, rfl, rfl, _, hrun2, ?_, ?_, rfl⟩
    · simp [Lifetime.State.put]
    · simp [Lifetime.State.put, Function.update_noteq hne]
    · simp [Lifetime.State.put]
    · simp [Lifetime.State.put, Function.update_noteq hne.symm]

/-- Witness for C12: `Shape shape2( std::move(shape1) );` in the state after
`Shape shape1( circle, drawer );`, followed by the destruction of `shape1`. -/
theorem sbo_move_construct_relocates_witness :
    (∃ s1 s2, exec 32 8 Demo.sizeofModel Demo.alignofModel Demo.call Demo.movedFrom
        Demo.relocatable (.moveConstruct 2 1) Demo.sboOne = .ok () s1 ∧
      drawEffect Demo.call s1 2 = some [Demo.Ev.circleDrawn 314] ∧
      s1.holds 1 Demo.circleSboModel ∧
      exec 32 8 Demo.sizeofModel Demo.alignofModel Demo.call Demo.movedFrom
          Demo.relocatable (.destroy 1) s1
        = .ok () s2 ∧ s2.objs 1 = none) ∧
    (∃ s1 s2, Lifetime.exec 32 8 Demo.sizeofModel Demo.alignofModel Demo.call Demo.movedFrom
        Demo.relocatable
        (.moveConstruct 2 1) Demo.sboOneTracked = .ok () s1 ∧
      s1.objs 2 = some ⟨some ⟨1, Demo.circleSboModel⟩⟩ ∧
      Lifetime.exec 32 8 Demo.sizeofModel Demo.alignofModel Demo.call Demo.movedFrom
          Demo.relocatable
        (.destroy 1) s1 = .ok () s2 ∧ s2.dead = [0]) := by
  have thm := sbo_move_construct_relocates 32 8 Demo.sizeofModel Demo.alignofModel Demo.call
    Demo.movedFrom Demo.relocatable 1 2 Demo.circleSboModel
  constructor
  · obtain ⟨s1, h1, -, -, h4, h5, -, s2, h7, h8, -⟩ := thm.1 Demo.sboOne rfl rfl
    exact ⟨s1, s2, h1,
      h4.trans (g33s_drawEffect_of_holds Demo.call (show Demo.sboOne.holds 1 _ from rfl)),
      h5, h7, h8⟩
  · obtain ⟨s1, h1, h2, -, -, -, s2, h6, -, -, h9⟩ := thm.2 Demo.sboOneTracked 0 rfl rfl
    exact ⟨s1, s2, h1, h2, h6, h9⟩

end
end G33S

/-! ## The `Shape` with in-place storage on a machine with a free store -/

namespace G33S
namespace Storage
section
variable {Key : Type} {ShapeT DrawStrategy : Key → Type} {Effect : Type}

variable (Capacity Alignment : Nat) (sizeofModel alignofModel : Key → Nat)
variable (call : ∀ k, DrawStrategy k → ShapeT k → Effect)
variable (movedFrom : ∀ k, OwningModel (ShapeT k) (DrawStrategy k) →
  OwningModel (ShapeT k) (DrawStrategy k))
variable (relocatable : Key → Bool)

end
end Storage
end G33S

namespace G33S
namespace Storage
section
variable {Key : Type} {ShapeT DrawStrategy : Key → Type} {Effect : Type}
variable (Capacity Alignment : Nat) (sizeofModel alignofModel : Key → Nat)
variable (call : ∀ k, DrawStrategy k → ShapeT k → Effect)
variable (movedFrom : ∀ k, OwningModel (ShapeT k) (DrawStrategy k) →
  OwningModel (ShapeT k) (DrawStrategy k))
variable (relocatable : Key → Bool)

end
end Storage
end G33S

namespace G33S
namespace Storage
section
variable {Key : Type} {ShapeT DrawStrategy : Key → Type} {Effect : Type}
variable (Capacity Alignment : Nat) (sizeofModel alignofModel : Key → Nat)
variable (call : ∀ k, DrawStrategy k → ShapeT k → Effect)
variable (movedFrom : ∀ k, OwningModel (ShapeT k) (DrawStrategy k) →
  OwningModel (ShapeT k) (DrawStrategy k))
variable (relocatable : Key → Bool)

end
end Storage
end G33S

/-! ## Non-owning type erasure: `G34_Non_Owning_Type_Erasure_1.cpp` and
`G34_Non_Owning_Type_Erasure_2.cpp` -/

section
variable {Key : Type} [DecidableEq Key] {F : Key → Type}

theorem castTo_self (k : Key) (v : F k) : castTo k (⟨k, v⟩ : Sigma F) = some v := by
  simp [castTo]

theorem castTo_eq_some {k : Key} {v : Sigma F} {w : F k} (h : castTo k v = some w) :
    v = ⟨k, w⟩ := by
  obtain ⟨j, u⟩ := v
  unfold castTo at h
  split_ifs at h with hj
  simp only at hj
  subst hj
  simp only [Option.some.injEq] at h
  rw [h]

end

namespace G34_2
section
variable {Key : Type} {ShapeT DrawStrategy : Key → Type} {Effect : Type}

theorem g34_Direct_init (avail : Nat) : (State.init ShapeT DrawStrategy Effect avail).Direct := by
  intro r m h
  simp [State.refHolds, State.init] at h

theorem g34_liftHeap_ok {α : Type}
    {f : G32.State ShapeT DrawStrategy Effect →
      Outcome (G32.State ShapeT DrawStrategy Effect) α}
    {s s1 : State ShapeT DrawStrategy Effect} {a : α} :
    liftHeap f s = .ok a s1 ↔ ∃ h, f s.toState = .ok a h ∧ s1 = { s with toState := h } := by
  unfold liftHeap
  constructor
  · intro h
    split at h
    · rename_i a1 h1 heq
      simp only [Outcome.ok.injEq] at h
      obtain ⟨ha, hs⟩ := h
      subst ha
      exact ⟨h1, heq, hs.symm⟩
    · simp at h
    · simp at h
  · rintro ⟨h, hf, rfl⟩
    simp [hf]

theorem g34_holds_cell {s : State ShapeT DrawStrategy Effect} {x : Nat}
    {c : G32.ShapeConcept ShapeT DrawStrategy} (h : s.toState.holds x c) :
    ∃ a, s.objs x = some ⟨some a⟩ ∧ cell s.heap a = some c := by
  obtain ⟨o, ho, hc⟩ := h
  obtain ⟨p⟩ := o
  cases p with
  | none => simp [G32.State.deref] at hc
  | some a => exact ⟨a, ho, by simpa [G32.State.deref] using hc⟩

end
end G34_2

namespace G34_2
section
variable {Key : Type} [DecidableEq Key] {ShapeT DrawStrategy : Key → Type} {Effect : Type}

theorem g34_shapeAt_var {s : State ShapeT DrawStrategy Effect} {k : Key} {x : Nat}
    {v : ShapeT k} (hv : s.shapeVars x = some ⟨k, v⟩) : s.shapeAt k (.shapeVar x) = some v := by
  simp [State.shapeAt, hv, castTo_self]

theorem g34_drawerAt_var {s : State ShapeT DrawStrategy Effect} {k : Key} {x : Nat}
    {b : DrawStrategy k} (hb : s.drawerVars x = some ⟨k, b⟩) :
    s.drawerAt k (.drawerVar x) = some b := by
  simp [State.drawerAt, hb, castTo_self]

theorem g34_shapeAt_member {s : State ShapeT DrawStrategy Effect} {a : Nat}
    {c : G32.ShapeConcept ShapeT DrawStrategy} (hc : cell s.heap a = some c) :
    s.shapeAt c.key (.shapeMember a) = some c.model.shape_ := by
  simp [State.shapeAt, hc, castTo_self]

theorem g34_drawerAt_member {s : State ShapeT DrawStrategy Effect} {a : Nat}
    {c : G32.ShapeConcept ShapeT DrawStrategy} (hc : cell s.heap a = some c) :
    s.drawerAt c.key (.drawerMember a) = some c.model.drawer_ := by
  simp [State.drawerAt, hc, castTo_self]

theorem g34_refDraw_run (call : ∀ k, DrawStrategy k → ShapeT k → Effect)
    {s : State ShapeT DrawStrategy Effect} {r : Nat} {m : RefConcept Key}
    {v : ShapeT m.key} {b : DrawStrategy m.key} (hr : s.refHolds r m)
    (hv : s.shapeAt m.key m.model.shape_ = some v)
    (hb : s.drawerAt m.key m.model.drawer_ = some b) :
    exec call (.refDraw r) s = .ok () { s with trace := s.trace ++ [call m.key b v] } := by
  unfold State.refHolds at hr
  simp [exec, hr, draw, NonOwningShapeModel.draw, hv, hb]

theorem g34_refConstruct_run (call : ∀ k, DrawStrategy k → ShapeT k → Effect)
    {s : State ShapeT DrawStrategy Effect} {r sv dv : Nat} {k : Key} {v : ShapeT k}
    {b : DrawStrategy k} (hr : s.refs r = none) (hv : s.shapeVars sv = some ⟨k, v⟩)
    (hb : s.drawerVars dv = some ⟨k, b⟩) :
    exec call (.refConstruct r k sv dv) s
      = .ok () (s.putRef r (some ⟨some ⟨k, ⟨.shapeVar sv, .drawerVar dv⟩⟩⟩)) := by
  simp [exec, hr, g34_shapeAt_var hv, g34_drawerAt_var hb, ShapeConstRef.ctor,
    NonOwningShapeModel.ctor]

end
end G34_2

namespace G34_2
section
variable {Key : Type} [DecidableEq Key] {ShapeT DrawStrategy : Key → Type} {Effect : Type}

theorem g34_refConstruct_ok (call : ∀ k, DrawStrategy k → ShapeT k → Effect)
    {s s1 : State ShapeT DrawStrategy Effect} {r sv dv : Nat} {k : Key}
    (h : exec call (.refConstruct r k sv dv) s = .ok () s1) :
    s.refs r = none ∧
      s1 = s.putRef r (some ⟨some ⟨k, ⟨.shapeVar sv, .drawerVar dv⟩⟩⟩) := by
  simp only [exec] at h
  split at h
  · rename_i hr _ _
    simp only [Outcome.ok.injEq, true_and] at h
    exact ⟨hr, h.symm⟩
  · simp at h

theorem g34_refFromShape_ok (call : ∀ k, DrawStrategy k → ShapeT k → Effect)
    {s s1 : State ShapeT DrawStrategy Effect} {r x : Nat}
    (h : exec call (.refFromShape r x) s = .ok () s1) :
    ∃ a c, s.refs r = none ∧ s.objs x = some ⟨some a⟩ ∧ cell s.heap a = some c ∧
      s1 = s.putRef r (some ⟨some ⟨c.key, ⟨.shapeMember a, .drawerMember a⟩⟩⟩) := by
  simp only [exec] at h
  split at h
  · rename_i o hr hx
    obtain ⟨p⟩ := o
    simp only [ShapeConstRef.ctorFromShape] at h
    split at h
    · simp [Outcome.andThen] at h
    · rename_i a
      split at h
      · simp [Outcome.andThen] at h
      · rename_i c hc
        simp only [Outcome.andThen, Outcome.ok.injEq, true_and] at h
        exact ⟨a, c, hr, hx, hc, h.symm⟩
  · simp at h

theorem g34_refFromConstShape_ok (call : ∀ k, DrawStrategy k → ShapeT k → Effect)
    {s s1 : State ShapeT DrawStrategy Effect} {r x : Nat}
    (h : exec call (.refFromConstShape r x) s = .ok () s1) :
    ∃ a c, s.refs r = none ∧ s.objs x = some ⟨some a⟩ ∧ cell s.heap a = some c ∧
      s1 = s.putRef r (some ⟨some ⟨c.key, ⟨.shapeMember a, .drawerMember a⟩⟩⟩) := by
  simp only [exec] at h
  split at h
  · rename_i o hr hx
    obtain ⟨p⟩ := o
    simp only [ShapeConstRef.ctorFromConstShape] at h
    split at h
    · simp [Outcome.andThen] at h
    · rename_i a
      split at h
      · simp [Outcome.andThen] at h
      · rename_i c hc
        simp only [Outcome.andThen, Outcome.ok.injEq, true_and] at h
        exact ⟨a, c, hr, hx, hc, h.symm⟩
  · simp at h

theorem g34_refCopyConstruct_ok (call : ∀ k, DrawStrategy k → ShapeT k → Effect)
    {s s1 : State ShapeT DrawStrategy Effect} {r other : Nat}
    (h : exec call (.refCopyConstruct r other) s = .ok () s1) :
    ∃ m, s.refs r = none ∧ s.refHolds other m ∧ s1 = s.putRef r (some ⟨some m⟩) := by
  simp only [exec] at h
  split at h
  · rename_i o hr ho
    obtain ⟨p⟩ := o
    cases p with
    | none => simp [ShapeConstRef.copyCtor, Outcome.andThen] at h
    | some m =>
      simp only [ShapeConstRef.copyCtor, NonOwningShapeModel.cloneInto, Outcome.andThen,
        Outcome.ok.injEq, true_and] at h
      exact ⟨m, hr, ho, h.symm⟩
  · simp at h

theorem g34_refCopyAssign_ok (call : ∀ k, DrawStrategy k → ShapeT k → Effect)
    {s s1 : State ShapeT DrawStrategy Effect} {r other : Nat}
    (h : exec call (.refCopyAssign r other) s = .ok () s1) :
    ∃ t m, s.refHolds r t ∧ s.refHolds other m ∧ s1 = s.putRef r (some ⟨some m⟩) := by
  simp only [exec, ShapeConstRef.copyAssign] at h
  split at h
  · rename_i t o hr ho
    obtain ⟨p⟩ := o
    obtain ⟨q⟩ := t
    cases p with
    | none => simp [ShapeConstRef.copyCtor, Outcome.andThen] at h
    | some m =>
      simp only [ShapeConstRef.copyCtor, NonOwningShapeModel.cloneInto, Outcome.andThen,
        hr] at h
      cases q with
      | none => simp [ShapeConstRef.dtor] at h
      | some t =>
        simp only [ShapeConstRef.dtor, Outcome.ok.injEq, true_and] at h
        exact ⟨t, m, hr, ho, h.symm⟩
  · simp at h

theorem g34_refDraw_ok (call : ∀ k, DrawStrategy k → ShapeT k → Effect)
    {s s1 : State ShapeT DrawStrategy Effect} {r : Nat}
    (h : exec call (.refDraw r) s = .ok () s1) :
    ∃ (m : RefConcept Key) (v : ShapeT m.key) (b : DrawStrategy m.key), s.refHolds r m ∧
      s.shapeAt m.key m.model.shape_ = some v ∧ s.drawerAt m.key m.model.drawer_ = some b ∧
      s1 = { s with trace := s.trace ++ [call m.key b v] } := by
  simp only [exec] at h
  split at h
  · rename_i o hr
    obtain ⟨p⟩ := o
    cases p with
    | none => simp [draw] at h
    | some m =>
      simp only [draw, NonOwningShapeModel.draw] at h
      split at h
      · rename_i v b hv hb
        simp only [Outcome.ok.injEq, true_and] at h
        exact ⟨m, v, b, hr, hv, hb, h.symm⟩
      · simp at h
  · simp at h

theorem g34_refDestroy_ok (call : ∀ k, DrawStrategy k → ShapeT k → Effect)
    {s s1 : State ShapeT DrawStrategy Effect} {r : Nat}
    (h : exec call (.refDestroy r) s = .ok () s1) :
    ∃ m, s.refHolds r m ∧ s1 = s.putRef r none := by
  simp only [exec] at h
  split at h
  · rename_i o hr
    obtain ⟨p⟩ := o
    cases p with
    | none => simp [ShapeConstRef.dtor, Outcome.andThen] at h
    | some m =>
      simp only [ShapeConstRef.dtor, Outcome.andThen, Outcome.ok.injEq, true_and] at h
      exact ⟨m, hr, h.symm⟩
  · simp at h

theorem g34_shapeFromRef_ok (call : ∀ k, DrawStrategy k → ShapeT k → Effect)
    {s s1 : State ShapeT DrawStrategy Effect} {x r : Nat}
    (h : exec call (.shapeFromRef x r) s = .ok () s1) :
    ∃ (m : RefConcept Key) (v : ShapeT m.key) (b : DrawStrategy m.key), s.objs x = none ∧
      s.refHolds r m ∧ s.shapeAt m.key m.model.shape_ = some v ∧
      s.drawerAt m.key m.model.drawer_ = some b ∧ s.avail ≠ 0 ∧
      s1 = State.putObj { s with toState := s.toState.alloc ⟨m.key, ⟨v, b⟩⟩ } x
        (some ⟨some s.heap.length⟩) := by
  simp only [exec] at h
  split at h
  · rename_i o hx hr
    obtain ⟨p⟩ := o
    cases p with
    | none => simp [Shape.ctorFromRef, Outcome.andThen] at h
    | some m =>
      simp only [Shape.ctorFromRef, NonOwningShapeModel.clone] at h
      split at h
      · rename_i v b hv hb
        by_cases ha : s.avail = 0
        · simp [liftHeap, G32.make_unique, ha, Outcome.andThen] at h
        · simp only [liftHeap, G32.make_unique, ha, if_false, Outcome.andThen,
            Outcome.ok.injEq, true_and] at h
          exact ⟨m, v, b, hx, hr, hv, hb, ha, h.symm⟩
      · simp [Outcome.andThen] at h
  · simp at h

theorem g34_shapeFromRef_run (call : ∀ k, DrawStrategy k → ShapeT k → Effect)
    {s : State ShapeT DrawStrategy Effect} {x r : Nat} {m : RefConcept Key}
    {v : ShapeT m.key} {b : DrawStrategy m.key} (hx : s.objs x = none) (hr : s.refHolds r m)
    (hv : s.shapeAt m.key m.model.shape_ = some v)
    (hb : s.drawerAt m.key m.model.drawer_ = some b) (ha : s.avail ≠ 0) :
    exec call (.shapeFromRef x r) s
      = .ok () (State.putObj { s with toState := s.toState.alloc ⟨m.key, ⟨v, b⟩⟩ } x
          (some ⟨some s.heap.length⟩)) := by
  unfold State.refHolds at hr
  simp [exec, hx, hr, Shape.ctorFromRef, NonOwningShapeModel.clone, hv, hb, liftHeap,
    G32.make_unique, ha, Outcome.andThen]

theorem g34_refFromShape_run (call : ∀ k, DrawStrategy k → ShapeT k → Effect)
    {s : State ShapeT DrawStrategy Effect} {r x a : Nat}
    {c : G32.ShapeConcept ShapeT DrawStrategy} (hr : s.refs r = none)
    (hx : s.objs x = some ⟨some a⟩) (hc : cell s.heap a = some c) :
    exec call (.refFromShape r x) s
      = .ok () (s.putRef r (some ⟨some ⟨c.key, ⟨.shapeMember a, .drawerMember a⟩⟩⟩)) := by
  simp [exec, hr, hx, ShapeConstRef.ctorFromShape, hc, OwningShapeModel.cloneInto,
    Outcome.andThen]

theorem g34_refFromConstShape_run (call : ∀ k, DrawStrategy k → ShapeT k → Effect)
    {s : State ShapeT DrawStrategy Effect} {r x a : Nat}
    {c : G32.ShapeConcept ShapeT DrawStrategy} (hr : s.refs r = none)
    (hx : s.objs x = some ⟨some a⟩) (hc : cell s.heap a = some c) :
    exec call (.refFromConstShape r x) s
      = .ok () (s.putRef r (some ⟨some ⟨c.key, ⟨.shapeMember a, .drawerMember a⟩⟩⟩)) := by
  simp [exec, hr, hx, ShapeConstRef.ctorFromConstShape, hc, OwningShapeModel.cloneInto,
    Outcome.andThen]

theorem g34_shape_draw_run (call : ∀ k, DrawStrategy k → ShapeT k → Effect)
    {s : State ShapeT DrawStrategy Effect} {x : Nat}
    {c : G32.ShapeConcept ShapeT DrawStrategy} (h : s.toState.holds x c) :
    exec call (.shape (.draw x)) s
      = .ok () { s with trace := s.trace ++ [call c.key c.model.drawer_ c.model.shape_] } := by
  simp [exec, liftHeap, G32.g32_draw_of_holds call h]

theorem g34_effectOf_shape_draw (call : ∀ k, DrawStrategy k → ShapeT k → Effect)
    {s : State ShapeT DrawStrategy Effect} {x : Nat}
    {c : G32.ShapeConcept ShapeT DrawStrategy} (h : s.toState.holds x c) :
    effectOf call s (.shape (.draw x)) = some [call c.key c.model.drawer_ c.model.shape_] := by
  simp [effectOf, g34_shape_draw_run call h]

theorem g34_effectOf_refDraw (call : ∀ k, DrawStrategy k → ShapeT k → Effect)
    {s : State ShapeT DrawStrategy Effect} {r : Nat} {m : RefConcept Key}
    {v : ShapeT m.key} {b : DrawStrategy m.key} (hr : s.refHolds r m)
    (hv : s.shapeAt m.key m.model.shape_ = some v)
    (hb : s.drawerAt m.key m.model.drawer_ = some b) :
    effectOf call s (.refDraw r) = some [call m.key b v] := by
  simp [effectOf, g34_refDraw_run call hr hv hb]

end
end G34_2

namespace G34_2
section
variable {Key : Type} [DecidableEq Key] {ShapeT DrawStrategy : Key → Type} {Effect : Type}

/-- C14: for a shape object `sv` and a drawer object `dv` of instantiation `k`, the
`ShapeConstRef` constructed from them stores exactly the two addresses, in the simple
implementation (`G34_Non_Owning_Type_Erasure_1.cpp`) and in the implementation with a
`NonOwningShapeModel` (`G34_Non_Owning_Type_Erasure_2.cpp`); the construction changes nothing but
the new `ShapeConstRef`; and in every later state in which the two objects are alive, `draw`
calls the drawer object on the shape object with the values they have in that state. -/
theorem const_ref_stores_addresses_and_draws_current_values
    (call : ∀ k, DrawStrategy k → ShapeT k → Effect) (k : Key) (sv dv r : Nat)
    (s : State ShapeT DrawStrategy Effect) {v : ShapeT k} {b : DrawStrategy k}
    (hr : s.refs r = none) (hv : s.shapeVars sv = some ⟨k, v⟩)
    (hb : s.drawerVars dv = some ⟨k, b⟩) :
    (G34_1.ShapeConstRef.ctor k (.shapeVar sv) (.drawerVar dv) : G34_1.ShapeConstRef Key)
        = ⟨some (.shapeVar sv), some (.drawerVar dv), some k⟩ ∧
    (∀ (t : G34_1.State ShapeT DrawStrategy Effect) (v1 : ShapeT k) (b1 : DrawStrategy k),
      t.shapeVars sv = some ⟨k, v1⟩ → t.drawerVars dv = some ⟨k, b1⟩ →
      G34_1.draw call (G34_1.ShapeConstRef.ctor k (.shapeVar sv) (.drawerVar dv)) t
        = .ok () { t with trace := t.trace ++ [call k b1 v1] }) ∧
    (∃ s1, exec call (.refConstruct r k sv dv) s = .ok () s1 ∧
      s1.refHolds r ⟨k, ⟨.shapeVar sv, .drawerVar dv⟩⟩ ∧
      s1.toState = s.toState ∧ s1.shapeVars = s.shapeVars ∧ s1.drawerVars = s.drawerVars ∧
      ∀ q, q ≠ r → s1.refs q = s.refs q) ∧
    (∀ (t : State ShapeT DrawStrategy Effect) (v1 : ShapeT k) (b1 : DrawStrategy k),
      t.refHolds r ⟨k, ⟨.shapeVar sv, .drawerVar dv⟩⟩ →
      t.shapeVars sv = some ⟨k, v1⟩ → t.drawerVars dv = some ⟨k, b1⟩ →
      exec call (.refDraw r) t = .ok () { t with trace := t.trace ++ [call k b1 v1] }) := by
  refine ⟨rfl, ?_, ?_, ?_⟩
  · intro t v1 b1 h1 h2
    simp [G34_1.draw, G34_1.ShapeConstRef.ctor, G34_1.drawOp, G34_1.State.shapeAt,
      G34_1.State.drawerAt, h1, h2, castTo_self]
  · refine ⟨_, g34_refConstruct_run call hr hv hb, ?_, rfl, rfl, rfl, ?_⟩
    · simp [State.refHolds, State.putRef]
    · intro q hq
      simp [State.putRef, Function.update_noteq hq]
  · intro t v1 b1 ht h1 h2
    have hs : t.shapeAt k (Addr.shapeVar sv) = some v1 := g34_shapeAt_var h1
    have hd : t.drawerAt k (Addr.drawerVar dv) = some b1 := g34_drawerAt_var h2
    unfold State.refHolds at ht
    simp [exec, ht, draw, NonOwningShapeModel.draw, hs, hd]

/-- Witness for C14: in `main()`, a `ShapeConstRef` constructed from `circle` and `drawer` draws
the circle of radius 2.00 after `circle` has been given that radius. -/
theorem const_ref_stores_addresses_and_draws_current_values_witness :
    Demo.refOne.refs 1 = none ∧
    (∃ s1, run Demo.call [.refConstruct 1 .lambda 1 1, .setShape 1 .lambda ⟨200⟩] Demo.refOne
        = .ok () s1 ∧
      exec Demo.call (.refDraw 1) s1
        = .ok () { s1 with trace := s1.trace ++ [Demo.Ev.circleDrawn 200] }) ∧
    G34_1.draw Demo.call (G34_1.ShapeConstRef.ctor .lambda (.shapeVar 1) (.drawerVar 1))
        { Demo.simpleOne with
          shapeVars := Function.update Demo.simpleOne.shapeVars 1 (some ⟨.lambda, ⟨200⟩⟩) }
      = .ok () { Demo.simpleOne with
          shapeVars := Function.update Demo.simpleOne.shapeVars 1 (some ⟨.lambda, ⟨200⟩⟩)
          trace := [Demo.Ev.circleDrawn 200] } :=
  ⟨rfl,
    ⟨_, rfl,
      (@const_ref_stores_addresses_and_draws_current_values Demo.K _ Demo.ShapeT
        Demo.DrawStrategy Demo.Ev Demo.call .lambda 1 1 1 Demo.refOne Demo.circle () rfl rfl
        rfl).2.2.2 _ ⟨200⟩ () rfl rfl rfl⟩,
    (@const_ref_stores_addresses_and_draws_current_values Demo.K _ Demo.ShapeT
      Demo.DrawStrategy Demo.Ev Demo.call .lambda 1 1 1 Demo.refOne Demo.circle () rfl rfl
      rfl).2.1 _ ⟨200⟩ () rfl rfl⟩

/-- C16: a `ShapeConstRef` constructed from a `Shape` (by either converting constructor) stores
the addresses of the members `shape_` and `drawer_` of the `OwningShapeModel` that the `Shape`
owns, not the address of the `Shape` object or of its `pimpl_`; the object at the stored shape
address is the value itself, the object at the stored drawer address is the behaviour itself,
and `draw` through the reference calls the one on the other. -/
theorem const_ref_from_shape_stores_member_addresses
    (call : ∀ k, DrawStrategy k → ShapeT k → Effect) {s : State ShapeT DrawStrategy Effect}
    {r x a : Nat} {c : G32.ShapeConcept ShapeT DrawStrategy} (hr : s.refs r = none)
    (hx : s.objs x = some ⟨some a⟩) (hc : cell s.heap a = some c) :
    ∀ st ∈ [Statement.refFromShape r x, Statement.refFromConstShape r x],
      ∃ s1 m, exec call st s = .ok () s1 ∧ s1.refHolds r m ∧ m.key = c.key ∧
        m.model.shape_ = .shapeMember a ∧ m.model.drawer_ = .drawerMember a ∧
        (∀ y, m.model.shape_ ≠ .handle y ∧ m.model.drawer_ ≠ .handle y) ∧
        s1.shapeAt c.key m.model.shape_ = some c.model.shape_ ∧
        s1.drawerAt c.key m.model.drawer_ = some c.model.drawer_ ∧
        exec call (.refDraw r) s1
          = .ok () { s1 with
              trace := s1.trace ++ [call c.key c.model.drawer_ c.model.shape_] } := by
  have key : ∀ st : Statement ShapeT DrawStrategy,
      exec call st s
        = .ok () (s.putRef r (some ⟨some ⟨c.key, ⟨.shapeMember a, .drawerMember a⟩⟩⟩)) →
      ∃ s1 m, exec call st s = .ok () s1 ∧ s1.refHolds r m ∧ m.key = c.key ∧
        m.model.shape_ = .shapeMember a ∧ m.model.drawer_ = .drawerMember a ∧
        (∀ y, m.model.shape_ ≠ .handle y ∧ m.model.drawer_ ≠ .handle y) ∧
        s1.shapeAt c.key m.model.shape_ = some c.model.shape_ ∧
        s1.drawerAt c.key m.model.drawer_ = some c.model.drawer_ ∧
        exec call (.refDraw r) s1
          = .ok () { s1 with
              trace := s1.trace ++ [call c.key c.model.drawer_ c.model.shape_] } := by
    intro st hst
    have hc1 : cell (s.putRef r (some ⟨some ⟨c.key, ⟨.shapeMember a, .drawerMember a⟩⟩⟩)).heap a
        = some c := hc
    have hh : (s.putRef r (some ⟨some ⟨c.key, ⟨.shapeMember a, .drawerMember a⟩⟩⟩)).refHolds r
        ⟨c.key, ⟨.shapeMember a, .drawerMember a⟩⟩ := by
      simp [State.refHolds, State.putRef]
    refine ⟨_, ⟨c.key, ⟨.shapeMember a, .drawerMember a⟩⟩, hst, hh, rfl, rfl, rfl, ?_,
      g34_shapeAt_member hc1, g34_drawerAt_member hc1, ?_⟩
    · intro y
      exact ⟨by simp, by simp⟩
    · exact g34_refDraw_run call hh (g34_shapeAt_member hc1) (g34_drawerAt_member hc1)
  intro st hst
  simp only [List.mem_cons, List.mem_singleton, List.not_mem_nil, or_false] at hst
  rcases hst with rfl | rfl
  · exact key _ (g34_refFromShape_run call hr hx hc)
  · exact key _ (g34_refFromConstShape_run call hr hx hc)

/-- Witness for C16: `ShapeConstRef shaperef( shape1 );` in `main()` stores the addresses of the
members of the model in cell `0`. -/
theorem const_ref_from_shape_stores_member_addresses_witness :
    Demo.refOne.refs 1 = none ∧ Demo.refOne.objs 1 = some ⟨some 0⟩ ∧
    cell Demo.refOne.heap 0 = some Demo.circleModel ∧
    ∃ s1 m, exec Demo.call (.refFromShape 1 1) Demo.refOne = .ok () s1 ∧ s1.refHolds 1 m ∧
      m.key = Demo.circleModel.key ∧
      m.model.shape_ = .shapeMember 0 ∧ m.model.drawer_ = .drawerMember 0 ∧
      (∀ y, m.model.shape_ ≠ .handle y ∧ m.model.drawer_ ≠ .handle y) ∧
      s1.shapeAt Demo.circleModel.key m.model.shape_ = some Demo.circleModel.model.shape_ ∧
      s1.drawerAt Demo.circleModel.key m.model.drawer_
        = some Demo.circleModel.model.drawer_ ∧
      exec Demo.call (.refDraw 1) s1
        = .ok () { s1 with
            trace := s1.trace ++ [Demo.call Demo.circleModel.key
              Demo.circleModel.model.drawer_ Demo.circleModel.model.shape_] } :=
  ⟨rfl, rfl, rfl,
    @const_ref_from_shape_stores_member_addresses Demo.K _ Demo.ShapeT Demo.DrawStrategy
      Demo.Ev Demo.call Demo.refOne 1 1 0 Demo.circleModel rfl rfl rfl _
      (List.mem_cons_self _ _)⟩

/-- C15: for a `Shape` `x` that owns a model, a `ShapeConstRef` constructed from `x` with either
converting constructor draws with the effect of `draw( x )`: the call of the model's drawer on
the model's shape. -/
theorem const_ref_from_shape_draws_like_shape
    (call : ∀ k, DrawStrategy k → ShapeT k → Effect) {s : State ShapeT DrawStrategy Effect}
    {r x : Nat} {c : G32.ShapeConcept ShapeT DrawStrategy} (hr : s.refs r = none)
    (hx : s.toState.holds x c) :
    ∀ st ∈ [Statement.refFromShape r x, Statement.refFromConstShape r x],
      ∃ s1, exec call st s = .ok () s1 ∧
        effectOf call s1 (.refDraw r) = effectOf call s (.shape (.draw x)) ∧
        effectOf call s1 (.refDraw r) = effectOf call s1 (.shape (.draw x)) ∧
        effectOf call s1 (.refDraw r)
          = some [call c.key c.model.drawer_ c.model.shape_] := by
  obtain ⟨a, hxa, hc⟩ := g34_holds_cell hx
  have key : ∀ st : Statement ShapeT DrawStrategy,
      exec call st s
        = .ok () (s.putRef r (some ⟨some ⟨c.key, ⟨.shapeMember a, .drawerMember a⟩⟩⟩)) →
      ∃ s1, exec call st s = .ok () s1 ∧
        effectOf call s1 (.refDraw r) = effectOf call s (.shape (.draw x)) ∧
        effectOf call s1 (.refDraw r) = effectOf call s1 (.shape (.draw x)) ∧
        effectOf call s1 (.refDraw r)
          = some [call c.key c.model.drawer_ c.model.shape_] := by
    intro st hst
    have hc1 : cell (s.putRef r (some ⟨some ⟨c.key, ⟨.shapeMember a, .drawerMember a⟩⟩⟩)).heap a
        = some c := hc
    have hh : (s.putRef r (some ⟨some ⟨c.key, ⟨.shapeMember a, .drawerMember a⟩⟩⟩)).refHolds r
        ⟨c.key, ⟨.shapeMember a, .drawerMember a⟩⟩ := by
      simp [State.refHolds, State.putRef]
    have hx1 : (s.putRef r
        (some ⟨some ⟨c.key, ⟨.shapeMember a, .drawerMember a⟩⟩⟩)).toState.holds x c := hx
    have e1 := g34_effectOf_refDraw call hh (g34_shapeAt_member hc1) (g34_drawerAt_member hc1)
    refine ⟨_, hst, ?_, ?_, e1⟩
    · rw [e1, g34_effectOf_shape_draw call hx]
    · rw [e1, g34_effectOf_shape_draw call hx1]
  intro st hst
  simp only [List.mem_cons, List.mem_singleton, List.not_mem_nil, or_false] at hst
  rcases hst with rfl | rfl
  · exact key _ (g34_refFromShape_run call hr hxa hc)
  · exact key _ (g34_refFromConstShape_run call hr hxa hc)

/-- Witness for C15: `draw( shaperef )` of `main()` has the effect of `draw( shape1 )`, also with
`shape1` seen as a `Shape const`. -/
theorem const_ref_from_shape_draws_like_shape_witness :
    Demo.refOne.refs 1 = none ∧ Demo.refOne.toState.holds 1 Demo.circleModel ∧
    ∃ s1, exec Demo.call (.refFromConstShape 1 1) Demo.refOne = .ok () s1 ∧
      effectOf Demo.call s1 (.refDraw 1) = effectOf Demo.call Demo.refOne (.shape (.draw 1)) ∧
      effectOf Demo.call s1 (.refDraw 1) = effectOf Demo.call s1 (.shape (.draw 1)) ∧
      effectOf Demo.call s1 (.refDraw 1) = some [Demo.Ev.circleDrawn 314] :=
  ⟨rfl, G32.g32_heapOne_holds,
    @const_ref_from_shape_draws_like_shape Demo.K _ Demo.ShapeT Demo.DrawStrategy Demo.Ev
      Demo.call Demo.refOne 1 1 Demo.circleModel rfl G32.g32_heapOne_holds _
      (List.mem_cons_of_mem _ (List.mem_cons_self _ _))⟩

end
end G34_2

namespace G34_2
section
variable {Key : Type} [DecidableEq Key] {ShapeT DrawStrategy : Key → Type} {Effect : Type}

theorem g34_exec_refs (call : ∀ k, DrawStrategy k → ShapeT k → Effect)
    (st : Statement ShapeT DrawStrategy) {s s1 : State ShapeT DrawStrategy Effect}
    (h : exec call st s = .ok () s1) {q : Nat} {m : RefConcept Key} (hq : s1.refHolds q m) :
    (∃ q0, s.refHolds q0 m) ∨
      (m.model.shape_.isShape = true ∧ m.model.drawer_.isDrawer = true) := by
  cases st with
  | shape st =>
    simp only [exec] at h
    obtain ⟨hp, -, rfl⟩ := g34_liftHeap_ok.mp h
    exact Or.inl ⟨q, hq⟩
  | declShape x k v =>
    simp only [exec] at h
    split at h
    · simp only [Outcome.ok.injEq, true_and] at h
      subst h
      exact Or.inl ⟨q, hq⟩
    · simp at h
  | declDrawer x k d =>
    simp only [exec] at h
    split at h
    · simp only [Outcome.ok.injEq, true_and] at h
      subst h
      exact Or.inl ⟨q, hq⟩
    · simp at h
  | setShape x k v =>
    simp only [exec] at h
    split at h
    · simp only [Outcome.ok.injEq, true_and] at h
      subst h
      exact Or.inl ⟨q, hq⟩
    · simp at h
  | setDrawer x k d =>
    simp only [exec] at h
    split at h
    · simp only [Outcome.ok.injEq, true_and] at h
      subst h
      exact Or.inl ⟨q, hq⟩
    · simp at h
  | endShape x =>
    simp only [exec] at h
    split at h
    · simp only [Outcome.ok.injEq, true_and] at h
      subst h
      exact Or.inl ⟨q, hq⟩
    · simp at h
  | endDrawer x =>
    simp only [exec] at h
    split at h
    · simp only [Outcome.ok.injEq, true_and] at h
      subst h
      exact Or.inl ⟨q, hq⟩
    · simp at h
  | refConstruct r k sv dv =>
    obtain ⟨-, rfl⟩ := g34_refConstruct_ok call h
    by_cases hqr : q = r
    · subst hqr
      simp only [State.refHolds, State.putRef, Function.update_same, Option.some.injEq,
        ShapeConstRef.mk.injEq] at hq
      subst hq
      exact Or.inr ⟨rfl, rfl⟩
    · simp only [State.refHolds, State.putRef, Function.update_noteq hqr] at hq
      exact Or.inl ⟨q, hq⟩
  | refFromShape r x =>
    obtain ⟨a, c, -, -, -, rfl⟩ := g34_refFromShape_ok call h
    by_cases hqr : q = r
    · subst hqr
      simp only [State.refHolds, State.putRef, Function.update_same, Option.some.injEq,
        ShapeConstRef.mk.injEq] at hq
      subst hq
      exact Or.inr ⟨rfl, rfl⟩
    · simp only [State.refHolds, State.putRef, Function.update_noteq hqr] at hq
      exact Or.inl ⟨q, hq⟩
  | refFromConstShape r x =>
    obtain ⟨a, c, -, -, -, rfl⟩ := g34_refFromConstShape_ok call h
    by_cases hqr : q = r
    · subst hqr
      simp only [State.refHolds, State.putRef, Function.update_same, Option.some.injEq,
        ShapeConstRef.mk.injEq] at hq
      subst hq
      exact Or.inr ⟨rfl, rfl⟩
    · simp only [State.refHolds, State.putRef, Function.update_noteq hqr] at hq
      exact Or.inl ⟨q, hq⟩
  | refCopyConstruct r other =>
    obtain ⟨m0, -, ho, rfl⟩ := g34_refCopyConstruct_ok call h
    by_cases hqr : q = r
    · subst hqr
      simp only [State.refHolds, State.putRef, Function.update_same, Option.some.injEq,
        ShapeConstRef.mk.injEq] at hq
      subst hq
      exact Or.inl ⟨other, ho⟩
    · simp only [State.refHolds, State.putRef, Function.update_noteq hqr] at hq
      exact Or.inl ⟨q, hq⟩
  | refCopyAssign r other =>
    obtain ⟨t, m0, -, ho, rfl⟩ := g34_refCopyAssign_ok call h
    by_cases hqr : q = r
    · subst hqr
      simp only [State.refHolds, State.putRef, Function.update_same, Option.some.injEq,
        ShapeConstRef.mk.injEq] at hq
      subst hq
      exact Or.inl ⟨other, ho⟩
    · simp only [State.refHolds, State.putRef, Function.update_noteq hqr] at hq
      exact Or.inl ⟨q, hq⟩
  | refDraw r =>
    obtain ⟨m0, v, b, -, -, -, rfl⟩ := g34_refDraw_ok call h
    exact Or.inl ⟨q, hq⟩
  | refDestroy r =>
    obtain ⟨m0, -, rfl⟩ := g34_refDestroy_ok call h
    by_cases hqr : q = r
    · subst hqr
      simp [State.refHolds, State.putRef] at hq
    · simp only [State.refHolds, State.putRef, Function.update_noteq hqr] at hq
      exact Or.inl ⟨q, hq⟩
  | shapeFromRef x r =>
    obtain ⟨m0, v, b, -, -, -, -, -, rfl⟩ := g34_shapeFromRef_ok call h
    exact Or.inl ⟨q, hq⟩

theorem g34_exec_Direct (call : ∀ k, DrawStrategy k → ShapeT k → Effect)
    (st : Statement ShapeT DrawStrategy) {s s1 : State ShapeT DrawStrategy Effect}
    (hd : s.Direct) (h : exec call st s = .ok () s1) : s1.Direct := by
  intro q m hq
  rcases g34_exec_refs call st h hq with ⟨q0, h0⟩ | h1
  · exact hd q0 m h0
  · exact h1

theorem g34_run_Direct (call : ∀ k, DrawStrategy k → ShapeT k → Effect)
    (prog : List (Statement ShapeT DrawStrategy)) :
    ∀ {s s1 : State ShapeT DrawStrategy Effect}, s.Direct → run call prog s = .ok () s1 →
      s1.Direct := by
  induction prog with
  | nil =>
    intro s s1 hd h
    simp only [run, runWith, Outcome.ok.injEq, true_and] at h
    subst h
    exact hd
  | cons st rest ih =>
    intro s s1 hd h
    obtain ⟨s0, h0, h1⟩ := (G32.runWith_cons_ok (exec call) st rest s s1).mp h
    exact ih (g34_exec_Direct call st hd h0) h1

theorem g34_refCopyConstruct_run (call : ∀ k, DrawStrategy k → ShapeT k → Effect)
    {s : State ShapeT DrawStrategy Effect} {r other : Nat} {m : RefConcept Key}
    (hr : s.refs r = none) (ho : s.refHolds other m) :
    exec call (.refCopyConstruct r other) s = .ok () (s.putRef r (some ⟨some m⟩)) := by
  unfold State.refHolds at ho
  simp [exec, hr, ho, ShapeConstRef.copyCtor, NonOwningShapeModel.cloneInto, Outcome.andThen]

theorem g34_refCopyAssign_run (call : ∀ k, DrawStrategy k → ShapeT k → Effect)
    {s : State ShapeT DrawStrategy Effect} {r other : Nat} {t m : RefConcept Key}
    (hr : s.refHolds r t) (ho : s.refHolds other m) :
    exec call (.refCopyAssign r other) s = .ok () (s.putRef r (some ⟨some m⟩)) := by
  unfold State.refHolds at hr ho
  simp [exec, ShapeConstRef.copyAssign, hr, ho, ShapeConstRef.copyCtor,
    NonOwningShapeModel.cloneInto, Outcome.andThen, ShapeConstRef.dtor]

/-- C17: in a state that a program has reached, copy construction of a `ShapeConstRef` from the
`ShapeConstRef` `other` and copy assignment of `other` give a `ShapeConstRef` that holds the
model of `other`, with the same two addresses; these are addresses of a shape value and of a
drawer value, never the address of a `ShapeConstRef`; nothing but the target changes, so `other`
holds what it held. -/
theorem const_ref_copy_stores_source_addresses
    (call : ∀ k, DrawStrategy k → ShapeT k → Effect) (avail : Nat)
    (prog : List (Statement ShapeT DrawStrategy)) {s : State ShapeT DrawStrategy Effect}
    (hreach : run call prog (State.init ShapeT DrawStrategy Effect avail) = .ok () s)
    {r other : Nat} {m : RefConcept Key} (ho : s.refHolds other m) :
    (s.refs r = none →
      exec call (.refCopyConstruct r other) s = .ok () (s.putRef r (some ⟨some m⟩))) ∧
    (∀ t, s.refHolds r t →
      exec call (.refCopyAssign r other) s = .ok () (s.putRef r (some ⟨some m⟩))) ∧
    (s.putRef r (some ⟨some m⟩)).refHolds r m ∧
    (s.putRef r (some ⟨some m⟩)).refHolds other m ∧
    m.model.shape_.isShape = true ∧ m.model.drawer_.isDrawer = true ∧
    ∀ q, m.model.shape_ ≠ .constRef q ∧ m.model.drawer_ ≠ .constRef q := by
  have hd := g34_run_Direct call prog (g34_Direct_init avail) hreach other m ho
  refine ⟨fun hr => g34_refCopyConstruct_run call hr ho,
    fun t ht => g34_refCopyAssign_run call ht ho, ?_, ?_, hd.1, hd.2, ?_⟩
  · simp [State.refHolds, State.putRef]
  · by_cases hor : other = r
    · subst hor
      simp [State.refHolds, State.putRef]
    · simpa [State.refHolds, State.putRef, Function.update_noteq hor] using ho
  · intro q
    constructor
    · intro hq
      have := hd.1
      rw [hq] at this
      simp [Addr.isShape] at this
    · intro hq
      have := hd.2
      rw [hq] at this
      simp [Addr.isDrawer] at this

/-- Witness for C17: after `ShapeConstRef r1( circle, drawer );` the copy `ShapeConstRef r2( r1 );`
and the assignment `r1 = r1;` store the addresses of `circle` and `drawer`. -/
theorem const_ref_copy_stores_source_addresses_witness :
    ∃ s, run Demo.call
        [.declShape 1 .lambda Demo.circle, .declDrawer 1 .lambda (),
         .refConstruct 1 .lambda 1 1]
        (State.init Demo.ShapeT Demo.DrawStrategy Demo.Ev 2) = .ok () s ∧
      s.refHolds 1 ⟨.lambda, ⟨.shapeVar 1, .drawerVar 1⟩⟩ ∧ s.refs 2 = none ∧
      exec Demo.call (.refCopyConstruct 2 1) s
        = .ok () (s.putRef 2 (some ⟨some ⟨.lambda, ⟨.shapeVar 1, .drawerVar 1⟩⟩⟩)) ∧
      exec Demo.call (.refCopyAssign 1 1) s
        = .ok () (s.putRef 1 (some ⟨some ⟨.lambda, ⟨.shapeVar 1, .drawerVar 1⟩⟩⟩)) :=
  ⟨_, rfl, rfl, rfl,
    (@const_ref_copy_stores_source_addresses Demo.K inferInstance Demo.ShapeT Demo.DrawStrategy Demo.Ev
      Demo.call 2
      [.declShape 1 .lambda Demo.circle, .declDrawer 1 .lambda (), .refConstruct 1 .lambda 1 1]
      _ rfl 2 1 ⟨.lambda, ⟨.shapeVar 1, .drawerVar 1⟩⟩ rfl).1 rfl,
    (@const_ref_copy_stores_source_addresses Demo.K inferInstance Demo.ShapeT Demo.DrawStrategy Demo.Ev
      Demo.call 2
      [.declShape 1 .lambda Demo.circle, .declDrawer 1 .lambda (), .refConstruct 1 .lambda 1 1]
      _ rfl 1 1 ⟨.lambda, ⟨.shapeVar 1, .drawerVar 1⟩⟩ rfl).2.1 _ rfl⟩

theorem g34_refOp_frame (call : ∀ k, DrawStrategy k → ShapeT k → Effect)
    (st : Statement ShapeT DrawStrategy) (hst : st.isRefOp = true)
    {s s1 : State ShapeT DrawStrategy Effect} (h : exec call st s = .ok () s1) :
    s1.shapeVars = s.shapeVars ∧ s1.drawerVars = s.drawerVars ∧ s1.heap = s.heap ∧
      s1.avail = s.avail ∧ s1.objs = s.objs := by
  cases st with
  | refConstruct r k sv dv =>
    obtain ⟨-, rfl⟩ := g34_refConstruct_ok call h
    exact ⟨rfl, rfl, rfl, rfl, rfl⟩
  | refFromShape r x =>
    obtain ⟨a, c, -, -, -, rfl⟩ := g34_refFromShape_ok call h
    exact ⟨rfl, rfl, rfl, rfl, rfl⟩
  | refFromConstShape r x =>
    obtain ⟨a, c, -, -, -, rfl⟩ := g34_refFromConstShape_ok call h
    exact ⟨rfl, rfl, rfl, rfl, rfl⟩
  | refCopyConstruct r other =>
    obtain ⟨m0, -, -, rfl⟩ := g34_refCopyConstruct_ok call h
    exact ⟨rfl, rfl, rfl, rfl, rfl⟩
  | refCopyAssign r other =>
    obtain ⟨t, m0, -, -, rfl⟩ := g34_refCopyAssign_ok call h
    exact ⟨rfl, rfl, rfl, rfl, rfl⟩
  | refDraw r =>
    obtain ⟨m0, v, b, -, -, -, rfl⟩ := g34_refDraw_ok call h
    exact ⟨rfl, rfl, rfl, rfl, rfl⟩
  | refDestroy r =>
    obtain ⟨m0, -, rfl⟩ := g34_refDestroy_ok call h
    exact ⟨rfl, rfl, rfl, rfl, rfl⟩
  | _ => simp [Statement.isRefOp] at hst

/-- C20: a program made of operations on `ShapeConstRef` objects only (construction from two
objects or from a `Shape`, copy construction, copy assignment, `draw`, destruction) leaves
every shape object and drawer object, the free store with every model in it, and every `Shape`
object as they were: the object at any address is the same before and after, and a `Shape` owns
the model it owned. -/
theorem const_ref_operations_leave_referents_unchanged
    (call : ∀ k, DrawStrategy k → ShapeT k → Effect)
    (prog : List (Statement ShapeT DrawStrategy)) (hprog : ∀ st ∈ prog, st.isRefOp = true)
    {s s1 : State ShapeT DrawStrategy Effect} (h : run call prog s = .ok () s1) :
    s1.shapeVars = s.shapeVars ∧ s1.drawerVars = s.drawerVars ∧ s1.heap = s.heap ∧
      s1.avail = s.avail ∧ s1.objs = s.objs ∧
      (∀ k a, s1.shapeAt k a = s.shapeAt k a) ∧ (∀ k a, s1.drawerAt k a = s.drawerAt k a) ∧
      ∀ x c, s1.toState.holds x c ↔ s.toState.holds x c := by
  have main : s1.shapeVars = s.shapeVars ∧ s1.drawerVars = s.drawerVars ∧ s1.heap = s.heap ∧
      s1.avail = s.avail ∧ s1.objs = s.objs := by
    induction prog generalizing s with
    | nil =>
      simp only [run, runWith, Outcome.ok.injEq, true_and] at h
      subst h
      exact ⟨rfl, rfl, rfl, rfl, rfl⟩
    | cons st rest ih =>
      obtain ⟨s0, h0, h1⟩ := (G32.runWith_cons_ok (exec call) st rest s s1).mp h
      obtain ⟨a1, a2, a3, a4, a5⟩ :=
        g34_refOp_frame call st (hprog st (List.mem_cons_self _ _)) h0
      obtain ⟨b1, b2, b3, b4, b5⟩ :=
        ih (fun t ht => hprog t (List.mem_cons_of_mem _ ht)) h1
      exact ⟨b1.trans a1, b2.trans a2, b3.trans a3, b4.trans a4, b5.trans a5⟩
  obtain ⟨e1, e2, e3, e4, e5⟩ := main
  refine ⟨e1, e2, e3, e4, e5, ?_, ?_, ?_⟩
  · intro k a
    cases a <;> simp [State.shapeAt, e1, e3]
  · intro k a
    cases a <;> simp [State.drawerAt, e2, e3]
  · intro x c
    simp only [G32.State.holds, G32.State.deref, e5, e3]

/-- Witness for C20: the `ShapeConstRef` operations on `shape1` of `main()`, followed by a copy,
an assignment and the destruction of both references, leave `circle`, `drawer`, the model and
`shape1` as they were. -/
theorem const_ref_operations_leave_referents_unchanged_witness :
    ∃ s1, run Demo.call
        [.refFromShape 1 1, .refDraw 1, .refConstruct 2 .lambda 1 1, .refCopyAssign 2 1,
         .refCopyConstruct 3 2, .refDraw 3, .refDestroy 1, .refDestroy 2, .refDestroy 3]
        Demo.refOne = .ok () s1 ∧
      s1.shapeVars = Demo.refOne.shapeVars ∧ s1.heap = Demo.refOne.heap ∧
      s1.objs = Demo.refOne.objs ∧ s1.toState.holds 1 Demo.circleModel :=
  ⟨_, rfl,
    (@const_ref_operations_leave_referents_unchanged Demo.K inferInstance Demo.ShapeT Demo.DrawStrategy
      Demo.Ev Demo.call
      [.refFromShape 1 1, .refDraw 1, .refConstruct 2 .lambda 1 1, .refCopyAssign 2 1,
       .refCopyConstruct 3 2, .refDraw 3, .refDestroy 1, .refDestroy 2, .refDestroy 3]
      (by decide) Demo.refOne _ rfl).1,
    (@const_ref_operations_leave_referents_unchanged Demo.K inferInstance Demo.ShapeT Demo.DrawStrategy
      Demo.Ev Demo.call
      [.refFromShape 1 1, .refDraw 1, .refConstruct 2 .lambda 1 1, .refCopyAssign 2 1,
       .refCopyConstruct 3 2, .refDraw 3, .refDestroy 1, .refDestroy 2, .refDestroy 3]
      (by decide) Demo.refOne _ rfl).2.2.1,
    (@const_ref_operations_leave_referents_unchanged Demo.K inferInstance Demo.ShapeT Demo.DrawStrategy
      Demo.Ev Demo.call
      [.refFromShape 1 1, .refDraw 1, .refConstruct 2 .lambda 1 1, .refCopyAssign 2 1,
       .refCopyConstruct 3 2, .refDraw 3, .refDestroy 1, .refDestroy 2, .refDestroy 3]
      (by decide) Demo.refOne _ rfl).2.2.2.2.1,
    ((@const_ref_operations_leave_referents_unchanged Demo.K inferInstance Demo.ShapeT Demo.DrawStrategy
      Demo.Ev Demo.call
      [.refFromShape 1 1, .refDraw 1, .refConstruct 2 .lambda 1 1, .refCopyAssign 2 1,
       .refCopyConstruct 3 2, .refDraw 3, .refDestroy 1, .refDestroy 2, .refDestroy 3]
      (by decide) Demo.refOne _ rfl).2.2.2.2.2.2.2 1 Demo.circleModel).2
      G32.g32_heapOne_holds⟩

end
end G34_2

namespace G34_2
section
variable {Key : Type} [DecidableEq Key] {ShapeT DrawStrategy : Key → Type} {Effect : Type}

theorem g34_exec_frame (call : ∀ k, DrawStrategy k → ShapeT k → Effect)
    (st : Statement ShapeT DrawStrategy) {s s1 : State ShapeT DrawStrategy Effect}
    (hwf : s.toState.WF) (h : exec call st s = .ok () s1) :
    s1.toState.WF ∧
      ∀ y c, y ∉ st.writes → s.toState.holds y c → s1.toState.holds y c := by
  cases st with
  | shape st =>
    simp only [exec] at h
    obtain ⟨hp, hrun, rfl⟩ := g34_liftHeap_ok.mp h
    exact ⟨G32.g32_exec_WF call st hwf hrun,
      fun y c hy hc => (G32.g32_exec_frame call st hwf hrun hy hc).2⟩
  | declShape x k v =>
    simp only [exec] at h
    split at h
    · simp only [Outcome.ok.injEq, true_and] at h
      subst h
      exact ⟨hwf, fun y c _ hc => hc⟩
    · simp at h
  | declDrawer x k d =>
    simp only [exec] at h
    split at h
    · simp only [Outcome.ok.injEq, true_and] at h
      subst h
      exact ⟨hwf, fun y c _ hc => hc⟩
    · simp at h
  | setShape x k v =>
    simp only [exec] at h
    split at h
    · simp only [Outcome.ok.injEq, true_and] at h
      subst h
      exact ⟨hwf, fun y c _ hc => hc⟩
    · simp at h
  | setDrawer x k d =>
    simp only [exec] at h
    split at h
    · simp only [Outcome.ok.injEq, true_and] at h
      subst h
      exact ⟨hwf, fun y c _ hc => hc⟩
    · simp at h
  | endShape x =>
    simp only [exec] at h
    split at h
    · simp only [Outcome.ok.injEq, true_and] at h
      subst h
      exact ⟨hwf, fun y c _ hc => hc⟩
    · simp at h
  | endDrawer x =>
    simp only [exec] at h
    split at h
    · simp only [Outcome.ok.injEq, true_and] at h
      subst h
      exact ⟨hwf, fun y c _ hc => hc⟩
    · simp at h
  | refConstruct r k sv dv =>
    obtain ⟨-, rfl⟩ := g34_refConstruct_ok call h
    exact ⟨hwf, fun y c _ hc => hc⟩
  | refFromShape r x =>
    obtain ⟨a, c, -, -, -, rfl⟩ := g34_refFromShape_ok call h
    exact ⟨hwf, fun y c _ hc => hc⟩
  | refFromConstShape r x =>
    obtain ⟨a, c, -, -, -, rfl⟩ := g34_refFromConstShape_ok call h
    exact ⟨hwf, fun y c _ hc => hc⟩
  | refCopyConstruct r other =>
    obtain ⟨m0, -, -, rfl⟩ := g34_refCopyConstruct_ok call h
    exact ⟨hwf, fun y c _ hc => hc⟩
  | refCopyAssign r other =>
    obtain ⟨t, m0, -, -, rfl⟩ := g34_refCopyAssign_ok call h
    exact ⟨hwf, fun y c _ hc => hc⟩
  | refDraw r =>
    obtain ⟨m0, v, b, -, -, -, rfl⟩ := g34_refDraw_ok call h
    exact ⟨⟨hwf.valid, hwf.unique⟩, fun y c _ hc => hc⟩
  | refDestroy r =>
    obtain ⟨m0, -, rfl⟩ := g34_refDestroy_ok call h
    exact ⟨hwf, fun y c _ hc => hc⟩
  | shapeFromRef x r =>
    obtain ⟨m0, v, b, hx, -, -, -, ha, rfl⟩ := g34_shapeFromRef_ok call h
    have hrun := @G32.g32_construct_run Key ShapeT DrawStrategy Effect call s.toState x m0.key
      v b hx ha
    exact ⟨G32.g32_exec_WF call _ hwf hrun,
      fun y c hy hc => (G32.g32_exec_frame call _ hwf hrun hy hc).2⟩

theorem g34_run_frame (call : ∀ k, DrawStrategy k → ShapeT k → Effect)
    (prog : List (Statement ShapeT DrawStrategy)) {y : Nat} (hy : ∀ st ∈ prog, y ∉ st.writes)
    {c : G32.ShapeConcept ShapeT DrawStrategy} :
    ∀ {s s1 : State ShapeT DrawStrategy Effect}, s.toState.WF → run call prog s = .ok () s1 →
      s.toState.holds y c → s1.toState.holds y c := by
  induction prog with
  | nil =>
    intro s s1 _ h hc
    simp only [run, runWith, Outcome.ok.injEq, true_and] at h
    subst h
    exact hc
  | cons st rest ih =>
    intro s s1 hwf h hc
    obtain ⟨s0, h0, h1⟩ := (G32.runWith_cons_ok (exec call) st rest s s1).mp h
    obtain ⟨hwf0, hfr⟩ := g34_exec_frame call st hwf h0
    exact ih (fun t ht => hy t (List.mem_cons_of_mem _ ht)) hwf0 h1
      (hfr y c (hy st (List.mem_cons_self _ _)) hc)

/-- C18: for a `Shape` `x` that owns the model `c`, the statements `ShapeConstRef r( x );
Shape y( r );` (with either converting constructor, and room for one object in the free store)
end normally; then `y` owns a model with the members of `c`, `x` still owns `c`, and `draw( y )`
has the effect of `draw( x )`. -/
theorem shape_from_const_ref_round_trip
    (call : ∀ k, DrawStrategy k → ShapeT k → Effect) {s : State ShapeT DrawStrategy Effect}
    {r x y : Nat} {c : G32.ShapeConcept ShapeT DrawStrategy} (hr : s.refs r = none)
    (hx : s.toState.holds x c) (hy : s.objs y = none) (ha : s.avail ≠ 0) :
    ∀ st ∈ [Statement.refFromShape r x, Statement.refFromConstShape r x],
      ∃ s2, run call [st, .shapeFromRef y r] s = .ok () s2 ∧
        s2.toState.holds y c ∧ s2.toState.holds x c ∧
        effectOf call s2 (.shape (.draw y)) = effectOf call s (.shape (.draw x)) ∧
        effectOf call s2 (.shape (.draw y)) = effectOf call s2 (.shape (.draw x)) ∧
        effectOf call s2 (.shape (.draw y))
          = some [call c.key c.model.drawer_ c.model.shape_] := by
  obtain ⟨a, hxa, hc⟩ := g34_holds_cell hx
  have hxy : x ≠ y := by
    rintro rfl
    rw [hy] at hxa
    simp at hxa
  have key : ∀ st : Statement ShapeT DrawStrategy,
      exec call st s
        = .ok () (s.putRef r (some ⟨some ⟨c.key, ⟨.shapeMember a, .drawerMember a⟩⟩⟩)) →
      ∃ s2, run call [st, .shapeFromRef y r] s = .ok () s2 ∧
        s2.toState.holds y c ∧ s2.toState.holds x c ∧
        effectOf call s2 (.shape (.draw y)) = effectOf call s (.shape (.draw x)) ∧
        effectOf call s2 (.shape (.draw y)) = effectOf call s2 (.shape (.draw x)) ∧
        effectOf call s2 (.shape (.draw y))
          = some [call c.key c.model.drawer_ c.model.shape_] := by
    intro st hst
    have hc1 : cell (s.putRef r (some ⟨some ⟨c.key, ⟨.shapeMember a, .drawerMember a⟩⟩⟩)).heap a
        = some c := hc
    have hh : (s.putRef r (some ⟨some ⟨c.key, ⟨.shapeMember a, .drawerMember a⟩⟩⟩)).refHolds r
        ⟨c.key, ⟨.shapeMember a, .drawerMember a⟩⟩ := by
      simp [State.refHolds, State.putRef]
    have h2 := g34_shapeFromRef_run call
      (show (s.putRef r (some ⟨some ⟨c.key, ⟨.shapeMember a, .drawerMember a⟩⟩⟩)).objs y = none
        from hy) hh (g34_shapeAt_member hc1) (g34_drawerAt_member hc1)
      (show (s.putRef r (some ⟨some ⟨c.key, ⟨.shapeMember a, .drawerMember a⟩⟩⟩)).avail ≠ 0
        from ha)
    have hy2 : (State.putObj
        { s.putRef r (some ⟨some ⟨c.key, ⟨.shapeMember a, .drawerMember a⟩⟩⟩) with
          toState := s.toState.alloc ⟨c.key, ⟨c.model.shape_, c.model.drawer_⟩⟩ } y
        (some ⟨some s.heap.length⟩)).toState.holds y c := by
      refine ⟨⟨some s.heap.length⟩, by simp [State.putObj, G32.State.put], ?_⟩
      exact G32.g32_deref_alloc_new s.toState c
    have hx2 : (State.putObj
        { s.putRef r (some ⟨some ⟨c.key, ⟨.shapeMember a, .drawerMember a⟩⟩⟩) with
          toState := s.toState.alloc ⟨c.key, ⟨c.model.shape_, c.model.drawer_⟩⟩ } y
        (some ⟨some s.heap.length⟩)).toState.holds x c := by
      refine ⟨⟨some a⟩, ?_, ?_⟩
      · simpa [State.putObj, G32.State.put, Function.update_noteq hxy, G32.State.alloc]
          using hxa
      · exact G32.g32_deref_alloc (p := some a) (by simpa [G32.State.deref] using hc) _
    refine ⟨_, ?_, hy2, hx2, ?_, ?_, g34_effectOf_shape_draw call hy2⟩
    · simp only [run, runWith, hst, Outcome.andThen, h2]
      rfl
    · rw [g34_effectOf_shape_draw call hy2, g34_effectOf_shape_draw call hx]
    · rw [g34_effectOf_shape_draw call hy2, g34_effectOf_shape_draw call hx2]
  intro st hst
  simp only [List.mem_cons, List.mem_singleton, List.not_mem_nil, or_false] at hst
  rcases hst with rfl | rfl
  · exact key _ (g34_refFromShape_run call hr hxa hc)
  · exact key _ (g34_refFromConstShape_run call hr hxa hc)

/-- Witness for C18: `ShapeConstRef shaperef( shape1 ); Shape shape2( shaperef );` of `main()`. -/
theorem shape_from_const_ref_round_trip_witness :
    Demo.refOne.refs 1 = none ∧ Demo.refOne.toState.holds 1 Demo.circleModel ∧
    Demo.refOne.objs 2 = none ∧ Demo.refOne.avail ≠ 0 ∧
    ∃ s2, run Demo.call [.refFromShape 1 1, .shapeFromRef 2 1] Demo.refOne = .ok () s2 ∧
      s2.toState.holds 2 Demo.circleModel ∧ s2.toState.holds 1 Demo.circleModel ∧
      effectOf Demo.call s2 (.shape (.draw 2))
        = effectOf Demo.call Demo.refOne (.shape (.draw 1)) ∧
      effectOf Demo.call s2 (.shape (.draw 2)) = effectOf Demo.call s2 (.shape (.draw 1)) ∧
      effectOf Demo.call s2 (.shape (.draw 2)) = some [Demo.Ev.circleDrawn 314] :=
  ⟨rfl, G32.g32_heapOne_holds, rfl, by decide,
    @shape_from_const_ref_round_trip Demo.K inferInstance Demo.ShapeT Demo.DrawStrategy Demo.Ev
      Demo.call Demo.refOne 1 1 2 Demo.circleModel rfl G32.g32_heapOne_holds rfl (by decide) _
      (List.mem_cons_self _ _)⟩

/-- C19: `Shape y( r );` for a `ShapeConstRef` `r` whose two addresses are those of a live shape
`v` and a live drawer `b` ends normally when the free store has room; `y` then owns a model in
a cell that held no object before, with the members `v` and `b`; the cell is none of the two
addresses of `r` and no other `Shape` points to it.  After any statements that do not write `y`
(the destruction of `r`, the end or a new value of the shape and drawer objects, the
destruction or assignment of any other `Shape`) and end normally, `y` owns the same model and
`draw( y )` has the effect it had right after the construction. -/
theorem shape_from_const_ref_is_deep_copy
    (call : ∀ k, DrawStrategy k → ShapeT k → Effect) {s : State ShapeT DrawStrategy Effect}
    {y r : Nat} {m : RefConcept Key} {v : ShapeT m.key} {b : DrawStrategy m.key}
    (hwf : s.toState.WF) (hy : s.objs y = none) (hr : s.refHolds r m)
    (hv : s.shapeAt m.key m.model.shape_ = some v)
    (hb : s.drawerAt m.key m.model.drawer_ = some b) (ha : s.avail ≠ 0) :
    ∃ s1, exec call (.shapeFromRef y r) s = .ok () s1 ∧
      s1.objs y = some ⟨some s.heap.length⟩ ∧ cell s.heap s.heap.length = none ∧
      cell s1.heap s.heap.length = some ⟨m.key, ⟨v, b⟩⟩ ∧
      m.model.shape_ ≠ .shapeMember s.heap.length ∧
      m.model.drawer_ ≠ .drawerMember s.heap.length ∧
      (∀ q o, q ≠ y → s1.objs q = some o → o.pimpl_ ≠ some s.heap.length) ∧
      s1.refs = s.refs ∧ s1.shapeVars = s.shapeVars ∧ s1.drawerVars = s.drawerVars ∧
      effectOf call s1 (.shape (.draw y)) = some [call m.key b v] ∧
      ∀ (prog : List (Statement ShapeT DrawStrategy)) (s2 : State ShapeT DrawStrategy Effect),
        (∀ st ∈ prog, y ∉ st.writes) → run call prog s1 = .ok () s2 →
          s2.toState.holds y ⟨m.key, ⟨v, b⟩⟩ ∧
          effectOf call s2 (.shape (.draw y)) = effectOf call s1 (.shape (.draw y)) := by
  have hrun := g34_shapeFromRef_run call hy hr hv hb ha
  have hfresh : cell s.heap s.heap.length = none := by
    simp [cell]
  obtain ⟨hwf1, -⟩ := g34_exec_frame call _ hwf hrun
  have hy1 : (State.putObj { s with toState := s.toState.alloc ⟨m.key, ⟨v, b⟩⟩ } y
      (some ⟨some s.heap.length⟩)).toState.holds y ⟨m.key, ⟨v, b⟩⟩ := by
    refine ⟨⟨some s.heap.length⟩, by simp [State.putObj, G32.State.put], ?_⟩
    exact G32.g32_deref_alloc_new s.toState _
  refine ⟨_, hrun, by simp [State.putObj, G32.State.put], hfresh,
    G32.g32_deref_alloc_new s.toState _, ?_, ?_, ?_, rfl, rfl, rfl,
    g34_effectOf_shape_draw call hy1, ?_⟩
  · intro h
    rw [h] at hv
    simp [State.shapeAt, hfresh] at hv
  · intro h
    rw [h] at hb
    simp [State.drawerAt, hfresh] at hb
  · intro q o hq ho hp
    have ho1 : s.objs q = some o := by
      simpa [State.putObj, G32.State.put, Function.update_noteq hq, G32.State.alloc] using ho
    exact absurd (G32.g32_WF_lt hwf ho1 hp) (Nat.lt_irrefl _)
  · intro prog s2 hprog h2
    have hy2 := g34_run_frame call prog hprog hwf1 h2 hy1
    exact ⟨hy2, by rw [g34_effectOf_shape_draw call hy2, g34_effectOf_shape_draw call hy1]⟩

/-- Witness for C19: `shape2` of `main()`, constructed from `shaperef`, owns its model and draws
the circle after `shaperef`, `shape1`, `circle` and `drawer` have been destroyed. -/
theorem shape_from_const_ref_is_deep_copy_witness :
    ∃ s1, exec Demo.call (.shapeFromRef 2 1)
        (Demo.refOne.putRef 1 (some ⟨some ⟨.lambda, ⟨.shapeMember 0, .drawerMember 0⟩⟩⟩))
        = .ok () s1 ∧
      ∃ s2, run Demo.call [.refDestroy 1, .shape (.destroy 1), .endShape 1, .endDrawer 1] s1
          = .ok () s2 ∧
        s2.refs 1 = none ∧ s2.objs 1 = none ∧ s2.shapeVars 1 = none ∧
        s2.drawerVars 1 = none ∧ s2.toState.holds 2 Demo.circleModel ∧
        effectOf Demo.call s2 (.shape (.draw 2)) = some [Demo.Ev.circleDrawn 314] := by
  obtain ⟨s1, h1, -, -, -, -, -, -, -, -, -, he, hfr⟩ :=
    @shape_from_const_ref_is_deep_copy Demo.K inferInstance Demo.ShapeT Demo.DrawStrategy
      Demo.Ev Demo.call
      (Demo.refOne.putRef 1 (some ⟨some ⟨.lambda, ⟨.shapeMember 0, .drawerMember 0⟩⟩⟩)) 2 1
      ⟨.lambda, ⟨.shapeMember 0, .drawerMember 0⟩⟩ Demo.circle () G32.g32_heapOne_WF rfl rfl
      rfl rfl (by decide)
  have e : Outcome.ok () s1 = Outcome.ok ()
      (State.putObj
        { Demo.refOne.putRef 1 (some ⟨some ⟨.lambda, ⟨.shapeMember 0, .drawerMember 0⟩⟩⟩) with
          toState := Demo.refOne.toState.alloc ⟨.lambda, ⟨Demo.circle, ()⟩⟩ } 2
        (some ⟨some 1⟩)) := h1.symm.trans rfl
  obtain ⟨-, rfl⟩ := Outcome.ok.inj e
  refine ⟨_, h1, _, rfl, rfl, rfl, rfl, rfl, ?_⟩
  obtain ⟨f1, f2⟩ := hfr [.refDestroy 1, .shape (.destroy 1), .endShape 1, .endDrawer 1] _
    (by decide) rfl
  exact ⟨f1, f2.trans he⟩

end
end G34_2

/-! ## Machine integers -/

theorem addSigned_of_inSigned {bits : Nat} {a b : Int} (ha : inSigned bits a)
    (hb : inSigned bits b) (hs : inSigned bits (a + b)) : addSigned bits a b = some (a + b) := by
  unfold addSigned
  rw [if_pos ⟨ha, hb, hs⟩]

theorem subSigned_of_inSigned {bits : Nat} {a b : Int} (ha : inSigned bits a)
    (hb : inSigned bits b) (hs : inSigned bits (a - b)) : subSigned bits a b = some (a - b) := by
  unfold subSigned
  rw [if_pos ⟨ha, hb, hs⟩]

theorem addSigned_of_not_inSigned {bits : Nat} {a b : Int} (hs : ¬ inSigned bits (a + b)) :
    addSigned bits a b = none := by
  unfold addSigned
  rw [if_neg (fun h => hs h.2.2)]

theorem subSigned_of_not_inSigned {bits : Nat} {a b : Int} (hs : ¬ inSigned bits (a - b)) :
    subSigned bits a b = none := by
  unfold subSigned
  rw [if_neg (fun h => hs h.2.2)]

theorem inSigned_of_small {bits : Nat} (hbits : 16 ≤ bits) {i : Int} (h1 : -32768 ≤ i)
    (h2 : i < 32768) : inSigned bits i := by
  unfold inSigned
  have h16 : (2 : Int) ^ 16 ≤ 2 ^ bits := pow_le_pow_right₀ (by norm_num) hbits
  have : (2 : Int) ^ 16 = 65536 := by norm_num
  constructor <;> omega

/-! ## The calculator of `G21_Command.cpp` -/

namespace G21

theorem g21_compute_add (bits : Nat) (c : Calculator) (n : Int)
    (hc : inSigned bits c.current_) (hn : inSigned bits n)
    (hs : inSigned bits (c.current_ + n)) :
    c.compute bits false (some (.Add n))
      = .ok () { current_ := c.current_ + n, stack_ := .Add n :: c.stack_ } := by
  simp [Calculator.compute, CalculatorCommand.execute, addSigned_of_inSigned hc hn hs]

theorem g21_compute_subtract (bits : Nat) (c : Calculator) (n : Int)
    (hc : inSigned bits c.current_) (hn : inSigned bits n)
    (hs : inSigned bits (c.current_ - n)) :
    c.compute bits false (some (.Subtract n))
      = .ok () { current_ := c.current_ - n, stack_ := .Subtract n :: c.stack_ } := by
  simp [Calculator.compute, CalculatorCommand.execute, subSigned_of_inSigned hc hn hs]

/-- C23, as it fails: with an `int` of 32 bits, the calculator that has computed
`Add( 2147483647 )` holds the largest `int`; `compute` with `Add( 1 )` then evaluates
`2147483647 + 1` in `execute`, which is no value of type `int`: the behaviour is undefined, and
there is no state after `compute` in which `undoLast` could restore anything. -/
theorem calculator_compute_overflows :
    inSigned 32 2147483647 ∧ inSigned 32 1 ∧
    Calculator.computeAll 32 [.Add 2147483647] Calculator.init
      = .ok () ⟨2147483647, [.Add 2147483647]⟩ ∧
    Calculator.compute 32 false (some (.Add 1)) ⟨2147483647, [.Add 2147483647]⟩ = .undefined ∧
    ¬ ∃ c1 c2, Calculator.compute 32 false (some (.Add 1)) ⟨2147483647, [.Add 2147483647]⟩
        = .ok () c1 ∧ c1.undoLast 32 = .ok () c2 ∧ c2.result = 2147483647 := by
  refine ⟨by decide, by decide, rfl, rfl, ?_⟩
  rintro ⟨c1, c2, h, -⟩
  have e : Calculator.compute 32 false (some (.Add 1)) ⟨2147483647, [.Add 2147483647]⟩
      = .undefined := rfl
  rw [e] at h
  cases h

/-- C23, amended: `undoLast` is the inverse of every `compute` that does not overflow.  For
every calculator whose `current_` is a value of type `int` and every operand `n` of type `int`:
if `current_ + n` is a value of type `int`, `compute` with `Add( n )` ends normally (when its
push succeeds) with the command on top of the stack and `result()` equal to `current_ + n`, and
`undoLast` then ends normally and gives back the calculator as it was before, `result()` and
command history; if `current_ + n` is no value of type `int`, the behaviour of `compute` is
undefined.  The same holds for `Subtract( n )` and `current_ - n`.  In `main()`, with an `int` of
at least 16 bits, `result()` is `4` after the four commands and `6` after `undoLast()`. -/
theorem calculator_undo_inverts_compute (bits : Nat) (c : Calculator) (n : Int)
    (hc : inSigned bits c.current_) (hn : inSigned bits n) :
    (inSigned bits (c.current_ + n) →
      ∃ c1, c.compute bits false (some (.Add n)) = .ok () c1 ∧
        c1.stack_ = .Add n :: c.stack_ ∧ c1.result = c.result + n ∧
        c1.undoLast bits = .ok () c) ∧
    (¬ inSigned bits (c.current_ + n) →
      ∀ pushThrows, c.compute bits pushThrows (some (.Add n)) = .undefined) ∧
    (inSigned bits (c.current_ - n) →
      ∃ c1, c.compute bits false (some (.Subtract n)) = .ok () c1 ∧
        c1.stack_ = .Subtract n :: c.stack_ ∧ c1.result = c.result - n ∧
        c1.undoLast bits = .ok () c) ∧
    (¬ inSigned bits (c.current_ - n) →
      ∀ pushThrows, c.compute bits pushThrows (some (.Subtract n)) = .undefined) ∧
    (16 ≤ bits →
      Calculator.computeAll bits [.Add 3, .Add 7, .Subtract 4, .Subtract 2] Calculator.init
        = .ok () ⟨4, [.Subtract 2, .Subtract 4, .Add 7, .Add 3]⟩ ∧
      Calculator.undoLast bits ⟨4, [.Subtract 2, .Subtract 4, .Add 7, .Add 3]⟩
        = .ok () ⟨6, [.Subtract 4, .Add 7, .Add 3]⟩ ∧
      Calculator.result ⟨6, [.Subtract 4, .Add 7, .Add 3]⟩ = 6) := by
  refine ⟨?_, ?_, ?_, ?_, ?_⟩
  · intro hs
    refine ⟨_, g21_compute_add bits c n hc hn hs, rfl, rfl, ?_⟩
    have e : c.current_ + n - n = c.current_ := by ring
    have hu : subSigned bits (c.current_ + n) n = some c.current_ := by
      rw [subSigned_of_inSigned hs hn (by rw [e]; exact hc), e]
    simp [Calculator.undoLast, CalculatorCommand.undo, hu]
  · intro hs pushThrows
    simp [Calculator.compute, CalculatorCommand.execute, addSigned_of_not_inSigned hs]
  · intro hs
    refine ⟨_, g21_compute_subtract bits c n hc hn hs, rfl, rfl, ?_⟩
    have e : c.current_ - n + n = c.current_ := by ring
    have hu : addSigned bits (c.current_ - n) n = some c.current_ := by
      rw [addSigned_of_inSigned hs hn (by rw [e]; exact hc), e]
    simp [Calculator.undoLast, CalculatorCommand.undo, hu]
  · intro hs pushThrows
    simp [Calculator.compute, CalculatorCommand.execute, subSigned_of_not_inSigned hs]
  · intro hbits
    have small : ∀ i : Int, -32768 ≤ i → i < 32768 → inSigned bits i :=
      fun i h1 h2 => inSigned_of_small hbits h1 h2
    have h0 := small 0 (by norm_num) (by norm_num)
    have h2 := small 2 (by norm_num) (by norm_num)
    have h3 := small 3 (by norm_num) (by norm_num)
    have h4 := small 4 (by norm_num) (by norm_num)
    have h6 := small 6 (by norm_num) (by norm_num)
    have h7 := small 7 (by norm_num) (by norm_num)
    have h10 := small 10 (by norm_num) (by norm_num)
    have s1 := g21_compute_add bits Calculator.init 3 h0 h3 (by simpa [Calculator.init] using h3)
    have s2 := g21_compute_add bits ⟨3, [.Add 3]⟩ 7 h3 h7 (by norm_num; exact h10)
    have s3 := g21_compute_subtract bits ⟨10, [.Add 7, .Add 3]⟩ 4 h10 h4 (by norm_num; exact h6)
    have s4 := g21_compute_subtract bits ⟨6, [.Subtract 4, .Add 7, .Add 3]⟩ 2 h6 h2
      (by norm_num; exact h4)
    have e1 : ((0 : Int) + 3) = 3 := by norm_num
    have e2 : ((3 : Int) + 7) = 10 := by norm_num
    have e3 : ((10 : Int) - 4) = 6 := by norm_num
    have e4 : ((6 : Int) - 2) = 4 := by norm_num
    have e5 : ((4 : Int) + 2) = 6 := by norm_num
    simp only [e1, e2, e3, e4, Calculator.init] at s1 s2 s3 s4
    refine ⟨?_, ?_, rfl⟩
    · simp only [Calculator.computeAll, Calculator.init, s1, s2, s3, s4, Outcome.andThen]
    · have hu : addSigned bits 4 2 = some 6 := by
        rw [addSigned_of_inSigned h4 h2 (by norm_num; exact h6), e5]
      simp [Calculator.undoLast, CalculatorCommand.undo, hu]

/-- Witness for C23: the first command of `main()`, `Add( 3 )` on the fresh calculator, with an
`int` of 32 bits. -/
theorem calculator_undo_inverts_compute_witness :
    inSigned 32 Calculator.init.current_ ∧ inSigned 32 3 ∧
    inSigned 32 (Calculator.init.current_ + 3) ∧
    ∃ c1, Calculator.compute 32 false (some (.Add 3)) Calculator.init = .ok () c1 ∧
      c1.stack_ = [.Add 3] ∧ c1.result = 3 ∧ c1.undoLast 32 = .ok () Calculator.init :=
  ⟨by decide, by decide, by decide,
    (calculator_undo_inverts_compute 32 Calculator.init 3 (by decide) (by decide)).1
      (by decide)⟩

/-- C29: after `clear()` a calculator is the freshly constructed calculator, whatever it was
before: `result()` is `0`, the stack is empty, `undoLast()` ends normally and changes nothing.
`undoLast()` on an empty stack ends normally and changes nothing in any calculator. -/
theorem calculator_clear_is_fresh (bits : Nat) (c : Calculator) :
    c.clear = Calculator.init ∧ c.clear.result = 0 ∧ c.clear.stack_ = [] ∧
    c.clear.undoLast bits = .ok () c.clear ∧
    (∃ c1, c.clear.undoLast bits = .ok () c1 ∧ c1.result = 0) ∧
    (∀ (pushThrows : Bool) (command : Option CalculatorCommand),
      c.clear.compute bits pushThrows command
        = Calculator.init.compute bits pushThrows command) ∧
    ∀ d : Calculator, d.stack_ = [] → d.undoLast bits = .ok () d := by
  refine ⟨rfl, rfl, rfl, rfl, ⟨_, rfl, rfl⟩, fun _ _ => rfl, ?_⟩
  intro d hd
  simp [Calculator.undoLast, hd]

/-- Witness for C29: `undoLast()` on the calculator of `main()` after `clear()`. -/
theorem calculator_clear_is_fresh_witness :
    (Calculator.init.clear).stack_ = [] ∧
    Calculator.undoLast 32 (Calculator.clear ⟨4, [.Subtract 2, .Subtract 4, .Add 7, .Add 3]⟩)
      = .ok () ⟨0, []⟩ :=
  ⟨rfl, (calculator_clear_is_fresh 32 ⟨4, [.Subtract 2, .Subtract 4, .Add 7, .Add 3]⟩).2.2.2.2.2.2
    _ rfl⟩

end G21

/-! ## The strong type of `G27_StrongType.cpp` -/

namespace G27

end G27

/-! ## The algorithms of `G22_Example_2.cpp` -/

namespace G22

/-- C30, evaluated on the vector of `main()`: `pos` points to the first `42`, at index `3`;
`std::remove` reads its argument `*pos` through a reference, and the first assignment of its
loop overwrites that element with `4`.  From then on the loop removes the elements equal to
`4`: the vector that `print` sees keeps the second `42` and lacks the second `4`. -/
theorem remove_through_reference_keeps_a_maximum :
    max_element vec0 = 3 ∧ vec0.getD 3 0 = 42 ∧
    (remove vec0 3).1.getD 3 0 = 4 ∧
    main vec0 = [1, -3, 27, 4, -8, 22, 42, 37, 18, 9] ∧
    main vec0 ≠ [1, -3, 27, 4, -8, 22, 37, 4, 18, 9] ∧
    42 ∈ main vec0 ∧ (main vec0).count 4 = 1 ∧ vec0.count 4 = 2 := by
  decide

end G22

/-! ## The decorators of `G35_Decorator_1.cpp` -/

namespace G35

theorem g35_near_bounds {round : ℚ → Double} (hr : Rounding round) {x l h : ℚ}
    (hl : l ≤ x) (hh : x ≤ h) (hl0 : 1 / 100 ≤ l) (hh0 : h ≤ 2 ^ 64) :
    ∃ y, round x = .finite y ∧ l * (1 - 1 / 2 ^ 52) ≤ y ∧ y ≤ h * (1 + 1 / 2 ^ 52) := by
  obtain ⟨y, hy, herr⟩ := hr.near x (le_trans hl0 hl) (le_trans hh hh0)
  have hx0 : 0 ≤ x := le_trans (by norm_num) (le_trans hl0 hl)
  obtain ⟨h1, h2⟩ := abs_le.mp herr
  have hu : (0 : ℚ) ≤ 1 - 1 / 2 ^ 52 := by norm_num
  have hu1 : (0 : ℚ) ≤ 1 + 1 / 2 ^ 52 := by norm_num
  refine ⟨y, hy, ?_, ?_⟩
  · have : l * (1 - 1 / 2 ^ 52) ≤ x * (1 - 1 / 2 ^ 52) := mul_le_mul_of_nonneg_right hl hu
    have e : x * (1 - 1 / 2 ^ 52) = x - x / 2 ^ 52 := by ring
    linarith
  · have : x * (1 + 1 / 2 ^ 52) ≤ h * (1 + 1 / 2 ^ 52) := mul_le_mul_of_nonneg_right hh hu1
    have e : x * (1 + 1 / 2 ^ 52) = x + x / 2 ^ 52 := by ring
    linarith

theorem g35_toUInt64_of_bounds {y : ℚ} {k : Nat} (h1 : (k : ℚ) ≤ y) (h2 : y < k + 1)
    (hk : (k : ℚ) + 1 ≤ 2 ^ 64) : (Double.finite y).toUInt64 = some k := by
  have hy0 : (-1 : ℚ) < y := lt_of_lt_of_le (by norm_num) (le_trans (Nat.cast_nonneg k) h1)
  have hy1 : y < 2 ^ 64 := lt_of_lt_of_le h2 hk
  have hf : ⌊y⌋ = (k : Int) := by
    rw [Int.floor_eq_iff]
    exact ⟨by exact_mod_cast h1, by exact_mod_cast h2⟩
  simp [Double.toUInt64, hy0, hy1, hf]

theorem g35_money_mul {round : ℚ → Double} (hr : Rounding round) {n k : Nat} {f lf hf : ℚ}
    (h1 : lf ≤ f) (h2 : f ≤ hf) (hlf : 0 ≤ lf)
    (hlo : (k : ℚ) ≤ n * (1 - 1 / 2 ^ 52) * lf * (1 - 1 / 2 ^ 52))
    (hhi : n * (1 + 1 / 2 ^ 52) * hf * (1 + 1 / 2 ^ 52) < k + 1)
    (hn : (1 : ℚ) / 100 ≤ n) (hn2 : (n : ℚ) ≤ 2 ^ 64)
    (hp : (1 : ℚ) / 100 ≤ n * (1 - 1 / 2 ^ 52) * lf)
    (hp2 : n * (1 + 1 / 2 ^ 52) * hf ≤ 2 ^ 64) (hk : (k : ℚ) + 1 ≤ 2 ^ 64) :
    Money.mul round ⟨n⟩ (.finite f) = some ⟨k⟩ := by
  obtain ⟨c, hc, hc1, hc2⟩ := g35_near_bounds hr (le_refl (n : ℚ)) (le_refl (n : ℚ)) hn hn2
  have hc0 : 0 ≤ c := le_trans (by positivity) hc1
  have hf0 : 0 ≤ f := le_trans hlf h1
  have hm1 : n * (1 - 1 / 2 ^ 52) * lf ≤ c * f := mul_le_mul hc1 h1 hlf hc0
  have hm2 : c * f ≤ n * (1 + 1 / 2 ^ 52) * hf :=
    mul_le_mul hc2 h2 hf0 (le_trans hc0 hc2)
  obtain ⟨d, hd, hd1, hd2⟩ := g35_near_bounds hr hm1 hm2 hp hp2
  have e : Money.mul round ⟨n⟩ (.finite f) = (Double.finite d).toUInt64.map Money.mk := by
    simp only [Money.mul, hc, Double.mul, hd]
  rw [e, g35_toUInt64_of_bounds (le_trans hlo hd1) (lt_of_le_of_lt hd2 hhi) hk]
  rfl

end G35

namespace G35

theorem g35_taxed_literal {round : ℚ → Double} (hr : Rounding round) (t : ℚ) (i : Item)
    (ht : 1 / 100 ≤ t) (ht2 : t ≤ 1) :
    ∃ b, Taxed.ctor round (literal round t) (some i) = .ok (.Taxed (.finite b) i) ∧
      (1 + t * (1 - 1 / 2 ^ 52)) * (1 - 1 / 2 ^ 52) ≤ b ∧
      b ≤ (1 + t * (1 + 1 / 2 ^ 52)) * (1 + 1 / 2 ^ 52) := by
  obtain ⟨a, ha, ha1, ha2⟩ :=
    g35_near_bounds hr (le_refl t) (le_refl t) ht (le_trans ht2 (by norm_num))
  have ha0 : 0 ≤ a := le_trans (mul_nonneg (le_trans (by norm_num) ht) (by norm_num)) ha1
  have hl : 1 + t * (1 - 1 / 2 ^ 52) ≤ 1 + a := by linarith
  have hh : 1 + a ≤ 1 + t * (1 + 1 / 2 ^ 52) := by linarith
  have hl0 : (1 : ℚ) / 100 ≤ 1 + t * (1 - 1 / 2 ^ 52) := by
    have : 0 ≤ t * (1 - 1 / 2 ^ 52) := mul_nonneg (le_trans (by norm_num) ht) (by norm_num)
    linarith
  have hh0 : 1 + t * (1 + 1 / 2 ^ 52) ≤ 2 ^ 64 := by
    have : t * (1 + 1 / 2 ^ 52) ≤ 1 * (1 + 1 / 2 ^ 52) :=
      mul_le_mul_of_nonneg_right ht2 (by norm_num)
    have : (1 : ℚ) + 1 * (1 + 1 / 2 ^ 52) ≤ 2 ^ 64 := by norm_num
    linarith
  obtain ⟨b, hb, hb1, hb2⟩ := g35_near_bounds hr hl hh hl0 hh0
  refine ⟨b, ?_, hb1, hb2⟩
  have hlt : ¬ a < 0 := not_lt.mpr ha0
  simp [Taxed.ctor, DecoratedItem.ctor, literal, ha, Double.isfinite, Double.lt, hlt,
    Double.add, hb]

theorem g35_discounted_literal {round : ℚ → Double} (hr : Rounding round) (t : ℚ) (i : Item)
    (ht : 1 / 100 ≤ t) (ht2 : t ≤ 9 / 10) :
    ∃ b, Discounted.ctor round (literal round t) (some i) = .ok (.Discounted (.finite b) i) ∧
      (1 - t * (1 + 1 / 2 ^ 52)) * (1 - 1 / 2 ^ 52) ≤ b ∧
      b ≤ (1 - t * (1 - 1 / 2 ^ 52)) * (1 + 1 / 2 ^ 52) := by
  obtain ⟨a, ha, ha1, ha2⟩ :=
    g35_near_bounds hr (le_refl t) (le_refl t) ht (le_trans ht2 (by norm_num))
  have ha0 : 0 ≤ a := le_trans (mul_nonneg (le_trans (by norm_num) ht) (by norm_num)) ha1
  have hup : t * (1 + 1 / 2 ^ 52) ≤ 9 / 10 * (1 + 1 / 2 ^ 52) :=
    mul_le_mul_of_nonneg_right ht2 (by norm_num)
  have hnum : (9 : ℚ) / 10 * (1 + 1 / 2 ^ 52) ≤ 99 / 100 := by norm_num
  have ha3 : a ≤ 1 := by linarith
  have hl : 1 - t * (1 + 1 / 2 ^ 52) ≤ 1 + -a := by linarith
  have hh : 1 + -a ≤ 1 - t * (1 - 1 / 2 ^ 52) := by linarith
  have hl0 : (1 : ℚ) / 100 ≤ 1 - t * (1 + 1 / 2 ^ 52) := by linarith
  have hh0 : 1 - t * (1 - 1 / 2 ^ 52) ≤ 2 ^ 64 := by
    have : 0 ≤ t * (1 - 1 / 2 ^ 52) := mul_nonneg (le_trans (by norm_num) ht) (by norm_num)
    have : (1 : ℚ) ≤ 2 ^ 64 := by norm_num
    linarith
  obtain ⟨b, hb, hb1, hb2⟩ := g35_near_bounds hr hl hh hl0 hh0
  refine ⟨b, ?_, hb1, hb2⟩
  have hlt : ¬ a < 0 := not_lt.mpr ha0
  have hgt : ¬ 1 < a := not_lt.mpr ha3
  simp [Discounted.ctor, DecoratedItem.ctor, literal, ha, Double.isfinite, Double.lt, hlt, hgt,
    Double.sub, Double.neg, Double.add, hb]

/-- C25, evaluated on the two items of `main()`, for every rounding of the implementation with a
relative error of at most `2^-52`: `item1->price()` is `Money{20}` and `item2->price()` is
`Money{950}`, because `operator*( Money, double )` converts the product to `uint64_t`.  The
products that the comments and the claim state, `19 * 1.07 = 20.33` and
`999 * 0.8 * 1.19 = 951.05` (rounded), are no values of `Money`. -/
theorem decorated_prices_are_truncated (round : ℚ → Double) (hr : Rounding round) :
    totalPrice round (item1 round) = some ⟨20⟩ ∧
    totalPrice round (item2 round) = some ⟨950⟩ ∧
    (19 * (1 + 7 / 100) : ℚ) = 2033 / 100 ∧
    (999 * (1 - 2 / 10) * (1 + 19 / 100) : ℚ) = 951048 / 1000 ∧
    (∀ m : Money, (m.value : ℚ) ≠ 2033 / 100 ∧ (m.value : ℚ) ≠ 951048 / 1000 ∧
      (m.value : ℚ) ≠ 95105 / 100) := by
  refine ⟨?_, ?_, by norm_num, by norm_num, ?_⟩
  · obtain ⟨b, hb, hb1, hb2⟩ :=
      g35_taxed_literal hr (7 / 100) (.CppBook "Effective C++" ⟨19⟩) (by norm_num)
        (by norm_num)
    have hm : Money.mul round ⟨19⟩ (.finite b) = some ⟨20⟩ :=
      g35_money_mul hr hb1 hb2 (by norm_num) (by norm_num) (by norm_num) (by norm_num)
        (by norm_num) (by norm_num) (by norm_num) (by norm_num)
    simp only [totalPrice, item1, hb]
    rw [Item.price, Item.price]
    simpa using hm
  · obtain ⟨d, hd, hd1, hd2⟩ :=
      g35_discounted_literal hr (2 / 10) (.ConferenceTicket "CppCon" ⟨999⟩) (by norm_num)
        (by norm_num)
    obtain ⟨b, hb, hb1, hb2⟩ :=
      g35_taxed_literal hr (19 / 100)
        (.Discounted (.finite d) (.ConferenceTicket "CppCon" ⟨999⟩)) (by norm_num)
        (by norm_num)
    have hm1 : Money.mul round ⟨999⟩ (.finite d) = some ⟨799⟩ :=
      g35_money_mul hr hd1 hd2 (by norm_num) (by norm_num) (by norm_num) (by norm_num)
        (by norm_num) (by norm_num) (by norm_num) (by norm_num)
    have hm2 : Money.mul round ⟨799⟩ (.finite b) = some ⟨950⟩ :=
      g35_money_mul hr hb1 hb2 (by norm_num) (by norm_num) (by norm_num) (by norm_num)
        (by norm_num) (by norm_num) (by norm_num) (by norm_num)
    simp only [totalPrice, item2, hd, hb]
    rw [Item.price, Item.price, Item.price]
    simp [hm1, hm2]
  · intro m
    have key : ∀ (p q : Nat), q ≠ 0 → ¬ q ∣ p → (m.value : ℚ) ≠ (p : ℚ) / (q : ℚ) := by
      intro p q hq hdiv h
      have hq0 : (q : ℚ) ≠ 0 := by exact_mod_cast hq
      have h2 : ((m.value * q : Nat) : ℚ) = (p : ℚ) := by
        push_cast
        rw [h]
        field_simp
      have h3 : m.value * q = p := by exact_mod_cast h2
      exact hdiv ⟨m.value, by rw [← h3, Nat.mul_comm]⟩
    refine ⟨?_, ?_, ?_⟩
    · have := key 2033 100 (by norm_num) (by decide)
      simpa using this
    · have := key 951048 1000 (by norm_num) (by decide)
      simpa using this
    · have := key 95105 100 (by norm_num) (by decide)
      simpa using this

theorem g35_exact_rounding : Rounding exact where
  unit := fun x h0 h1 => ⟨x, rfl, h0, h1⟩
  near := fun x h0 _ => ⟨x, rfl, by
    rw [sub_self, abs_zero]
    exact div_nonneg (le_trans (by norm_num) h0) (by norm_num)⟩

/-- Witness for C25: with arithmetic without rounding error the two prices are `Money{20}` and
`Money{950}`. -/
theorem decorated_prices_are_truncated_witness :
    Rounding exact ∧ totalPrice exact (item1 exact) = some ⟨20⟩ ∧
    totalPrice exact (item2 exact) = some ⟨950⟩ :=
  ⟨g35_exact_rounding, (decorated_prices_are_truncated exact g35_exact_rounding).1,
    (decorated_prices_are_truncated exact g35_exact_rounding).2.1⟩

end G35

namespace G35

/-- C28: `Discounted( discount, item )` throws, and then a `std::invalid_argument`, if and only
if `item` is null or `discount` is not finite or `discount < 0.0` or `discount > 1.0`; a null
`item` is reported as "Invalid item" whatever the discount is.  A construction that succeeds
has a finite discount between `0` and `1` and stores a finite factor between `0` and `1` (the
rounding of the implementation keeps a result between `0` and `1` there). -/
theorem discounted_validates_arguments (round : ℚ → Double) (hr : Rounding round)
    (discount : Double) (item : Option Item) :
    ((∃ e, Discounted.ctor round discount item = .error e) ↔
      (item = none ∨ discount.isfinite = false ∨ discount.lt (.finite 0) = true ∨
        (Double.finite 1).lt discount = true)) ∧
    (∀ e, Discounted.ctor round discount item = .error e → ∃ w, e = .invalid_argument w) ∧
    (item = none →
      Discounted.ctor round discount item = .error (.invalid_argument "Invalid item")) ∧
    (∀ r, Discounted.ctor round discount item = .ok r →
      ∃ q y i, discount = .finite q ∧ 0 ≤ q ∧ q ≤ 1 ∧ item = some i ∧
        r = .Discounted (.finite y) i ∧ 0 ≤ y ∧ y ≤ 1) := by
  cases item with
  | none =>
    refine ⟨⟨fun _ => Or.inl rfl, fun _ => ⟨_, rfl⟩⟩, ?_, fun _ => rfl, ?_⟩
    · intro e he
      exact ⟨"Invalid item", by
        simp only [Discounted.ctor, DecoratedItem.ctor, Except.error.injEq] at he
        exact he.symm⟩
    · intro r hr1
      simp [Discounted.ctor, DecoratedItem.ctor] at hr1
  | some i =>
    by_cases hbad : (!discount.isfinite || discount.lt (.finite 0) ||
        (Double.finite 1).lt discount) = true
    · have hc : Discounted.ctor round discount (some i)
          = .error (.invalid_argument "Invalid discount") := by
        simp only [Discounted.ctor, DecoratedItem.ctor, hbad, if_true]
      refine ⟨⟨fun _ => ?_, fun _ => ⟨_, hc⟩⟩, ?_, ?_, ?_⟩
      · simp only [Bool.or_eq_true, Bool.not_eq_true'] at hbad
        rcases hbad with (h | h) | h
        · exact Or.inr (Or.inl h)
        · exact Or.inr (Or.inr (Or.inl h))
        · exact Or.inr (Or.inr (Or.inr h))
      · intro e he
        rw [hc] at he
        exact ⟨"Invalid discount", by
          simp only [Except.error.injEq] at he
          exact he.symm⟩
      · intro h
        simp at h
      · intro r hr1
        rw [hc] at hr1
        simp at hr1
    · have hgood : (!discount.isfinite || discount.lt (.finite 0) ||
          (Double.finite 1).lt discount) = false := by
        simpa using hbad
      have hc : Discounted.ctor round discount (some i)
          = .ok (.Discounted (Double.sub round (.finite 1) discount) i) := by
        simp only [Discounted.ctor, DecoratedItem.ctor, hgood]
        rfl
      simp only [Bool.or_eq_false_iff, Bool.not_eq_false'] at hgood
      obtain ⟨⟨hfin, hlt⟩, hgt⟩ := hgood
      refine ⟨⟨fun h => ?_, fun h => ?_⟩, ?_, ?_, ?_⟩
      · obtain ⟨e, he⟩ := h
        rw [hc] at he
        simp at he
      · rcases h with h | h | h | h
        · simp at h
        · rw [hfin] at h
          simp at h
        · rw [hlt] at h
          simp at h
        · rw [hgt] at h
          simp at h
      · intro e he
        rw [hc] at he
        simp at he
      · intro h
        simp at h
      · intro r hr1
        rw [hc] at hr1
        cases discount with
        | finite q =>
          have hq0 : 0 ≤ q := by
            simpa [Double.lt] using hlt
          have hq1 : q ≤ 1 := by
            simpa [Double.lt] using hgt
          obtain ⟨y, hy, hy0, hy1⟩ := hr.unit (1 + -q) (by linarith) (by linarith)
          refine ⟨q, y, i, rfl, hq0, hq1, rfl, ?_, hy0, hy1⟩
          simp only [Double.sub, Double.neg, Double.add, hy, Except.ok.injEq] at hr1
          exact hr1.symm
        | inf negative => simp [Double.isfinite] at hfin
        | nan => simp [Double.isfinite] at hfin

/-- Witness for C28: `Discounted( 0.2, ticket )` is constructed with the factor `0.8`,
`Discounted( 1.5, ticket )` and `Discounted( 1.5, nullptr )` throw. -/
theorem discounted_validates_arguments_witness :
    Rounding exact ∧
    Discounted.ctor exact (.finite (1 / 5)) (some (.ConferenceTicket "CppCon" ⟨999⟩))
      = .ok (.Discounted (.finite (4 / 5)) (.ConferenceTicket "CppCon" ⟨999⟩)) ∧
    (∃ e, Discounted.ctor exact (.finite (3 / 2)) (some (.ConferenceTicket "CppCon" ⟨999⟩))
      = .error e) ∧
    Discounted.ctor exact (.finite (3 / 2)) none = .error (.invalid_argument "Invalid item") :=
  ⟨g35_exact_rounding,
    by
      simp only [Discounted.ctor, DecoratedItem.ctor, Double.isfinite, Double.lt, Double.sub,
        Double.neg, Double.add, exact]
      norm_num,
    (discounted_validates_arguments exact g35_exact_rounding (.finite (3 / 2))
      (some (.ConferenceTicket "CppCon" ⟨999⟩))).1.mpr
      (Or.inr (Or.inr (Or.inr (by simp [Double.lt]; norm_num)))),
    (discounted_validates_arguments exact g35_exact_rounding (.finite (3 / 2)) none).2.2.1
      rfl⟩

end G35

/-! ## The observers of `G25_Classic_Observer.cpp` and `G25_Modern_Observer.cpp` -/

namespace G25

theorem g25_next_of_sorted {K rest : List Nat} {x : Nat}
    (hs : (K ++ x :: rest).Pairwise (· < ·)) : next (K ++ x :: rest) x = rest.head? := by
  have h1 := List.pairwise_append.mp hs
  obtain ⟨_, hxr, hK⟩ := h1
  have hx := List.pairwise_cons.mp hxr
  have e1 : K.filter (fun o => decide (x < o)) = [] := by
    rw [List.filter_eq_nil_iff]
    intro a ha
    have := hK a ha x (List.mem_cons_self _ _)
    simp only [decide_eq_true_eq, not_lt]
    exact le_of_lt this
  have e2 : rest.filter (fun o => decide (x < o)) = rest := by
    rw [List.filter_eq_self]
    intro a ha
    simpa using hx.1 a ha
  simp only [next, List.filter_append, e1, List.nil_append, List.filter_cons, lt_irrefl,
    decide_False, Bool.false_eq_true, if_false, e2]

theorem g25_erase_of_sorted {K rest : List Nat} {x : Nat}
    (hs : (K ++ x :: rest).Pairwise (· < ·)) : (K ++ x :: rest).erase x = K ++ rest := by
  obtain ⟨_, _, hK⟩ := List.pairwise_append.mp hs
  have hx : x ∉ K := fun h => lt_irrefl x (hK x h x (List.mem_cons_self _ _))
  rw [List.erase_append_right _ hx, List.erase_cons_head]

theorem g25_head_ne_of_sorted {K rest : List Nat} {x : Nat}
    (hs : (K ++ x :: rest).Pairwise (· < ·)) : rest.head? ≠ some x := by
  obtain ⟨_, hxr, _⟩ := List.pairwise_append.mp hs
  have hx := List.pairwise_cons.mp hxr
  intro h
  cases rest with
  | nil => simp at h
  | cons y ys =>
    simp only [List.head?_cons, Option.some.injEq] at h
    have := hx.1 y (List.mem_cons_self _ _)
    omega

theorem g25_loop_self_detach (update : Nat → List Call)
    (hu : ∀ o, update o = [] ∨ update o = [.detach o]) :
    ∀ (rest K : List Nat) (x fuel : Nat) (trace : List Nat),
      (K ++ x :: rest).Pairwise (· < ·) → rest.length + 1 < fuel →
      notifyLoop update fuel (some x) ⟨K ++ x :: rest⟩ trace
        = some (.ok (trace ++ x :: rest)
            ⟨K ++ (x :: rest).filter fun o => decide (update o = [])⟩) := by
  intro rest
  induction rest with
  | nil =>
    intro K x fuel trace hs hf
    obtain ⟨f, rfl⟩ : ∃ f, fuel = f + 2 := ⟨fuel - 2, by simp at hf; omega⟩
    have hn := g25_next_of_sorted hs
    rcases hu x with h | h
    · simp [notifyLoop, hn, h, runCalls]
    · have he := g25_erase_of_sorted hs
      simp [notifyLoop, hn, h, runCalls, Person.detach, he]
  | cons y ys ih =>
    intro K x fuel trace hs hf
    obtain ⟨f, rfl⟩ : ∃ f, fuel = f + 1 := ⟨fuel - 1, by omega⟩
    have hn := g25_next_of_sorted hs
    have hne := g25_head_ne_of_sorted hs
    have hf1 : ys.length + 1 < f := by simp at hf; omega
    rcases hu x with h | h
    · have hs1 : ((K ++ [x]) ++ y :: ys).Pairwise (· < ·) := by
        simpa [List.append_assoc] using hs
      have := ih (K ++ [x]) y f (trace ++ [x]) hs1 hf1
      simp only [List.append_assoc, List.singleton_append] at this
      simp only [notifyLoop, hn, h, runCalls, List.head?_cons, if_true]
      rw [this]
      simp [List.filter_cons, h]
    · have he := g25_erase_of_sorted hs
      have hs1 : (K ++ y :: ys).Pairwise (· < ·) := by
        rw [← he]
        exact hs.sublist (List.erase_sublist _ _)
      have := ih K y f (trace ++ [x]) hs1 hf1
      simp only [List.append_assoc, List.singleton_append] at this
      have hv : (true && !(decide (some y = some x) && decide (x ∈ K ++ x :: y :: ys))) = true := by
        have : y ≠ x := fun hyx => hne (by simp [hyx])
        simp [this]
      simp only [notifyLoop, hn, h, runCalls, List.head?_cons, Person.detach, he, hv, if_true]
      rw [this]
      simp [List.filter_cons, h]

end G25

namespace G25

/-- C26: `notify` with observers that detach themselves.  If the `update` of every observer
either calls nothing on the `Person` or detaches the observer itself, `notify` ends (after one
iteration for each observer attached at its start) without the use of an invalidated iterator;
it has called `update` exactly once on every observer that was attached at its start, in the
order of the set, and never again on an observer that had detached itself; afterwards exactly
the observers that did not detach themselves are attached. -/
theorem notify_tolerates_self_detach (update : Nat → List Call) (p : Person) (fuel : Nat)
    (hs : p.observers_.Pairwise (· < ·))
    (hu : ∀ o, update o = [] ∨ update o = [.detach o]) (hf : p.observers_.length < fuel) :
    ∃ p1, p.notify update fuel = some (.ok p.observers_ p1) ∧
      p.observers_.Nodup ∧
      p1.observers_ = p.observers_.filter (fun o => decide (update o = [])) ∧
      ∀ o, o ∈ p1.observers_ ↔ o ∈ p.observers_ ∧ update o = [] := by
  have hnd : p.observers_.Nodup := hs.imp (fun h => ne_of_lt h)
  obtain ⟨l⟩ := p
  cases l with
  | nil =>
    obtain ⟨f, rfl⟩ : ∃ f, fuel = f + 1 := ⟨fuel - 1, by simp at hf; omega⟩
    exact ⟨⟨[]⟩, rfl, hnd, rfl, by simp⟩
  | cons x rest =>
    have h := g25_loop_self_detach update hu rest [] x fuel [] hs (by simpa using hf)
    refine ⟨_, ?_, hnd, rfl, ?_⟩
    · simpa [Person.notify, begin] using h
    · intro o
      show o ∈ [] ++ (x :: rest).filter (fun o => decide (update o = [])) ↔ _
      rw [List.nil_append, List.mem_filter, decide_eq_true_eq]

/-- Witness for C26: three observers, the second of which detaches itself in its `update`.  All
three are updated once and the first and the third stay attached.  (An `update` of the first
observer that detaches the second one would invalidate the iterator of `notify`.) -/
theorem notify_tolerates_self_detach_witness :
    (∀ o, (fun o => if o = 20 then [Call.detach o] else []) o = [] ∨
      (fun o => if o = 20 then [Call.detach o] else []) o = [.detach o]) ∧
    (∃ p1, Person.notify (fun o => if o = 20 then [Call.detach o] else []) 4 ⟨[10, 20, 30]⟩
        = some (.ok [10, 20, 30] p1) ∧ p1.observers_ = [10, 30]) ∧
    Person.notify (fun o => if o = 10 then [Call.detach 20] else []) 4 ⟨[10, 20, 30]⟩
      = some .undefined :=
  ⟨fun o => by by_cases h : o = 20 <;> simp [h],
    let ⟨p1, h1, _, h2, _⟩ :=
      notify_tolerates_self_detach (fun o => if o = 20 then [Call.detach o] else [])
        ⟨[10, 20, 30]⟩ 4 (by decide) (fun o => by by_cases h : o = 20 <;> simp [h])
        (by decide)
    ⟨p1, h1, h2.trans (by decide)⟩,
    rfl⟩

end G25

/-! ## The dispatch table of the manual-dispatch `Shape` of `G33_Manual_Virtual_Dispatch.cpp` -/

namespace G33M
section
variable {Key : Type} {ShapeT DrawStrategy : Key → Type} {Effect : Type}

theorem g33m_WF_init (avail : Nat) : (State.init ShapeT DrawStrategy Effect avail).WF :=
  ⟨fun x v a h => by simp [State.init] at h, fun x y v w a h => by simp [State.init] at h⟩

theorem g33m_WF_lt {s : State ShapeT DrawStrategy Effect} (h : s.WF) {x : Nat} {v : Shape Key}
    {a : Nat} (hx : s.objs x = some v) (ha : v.pimpl_ = some a) : a < s.heap.length := by
  obtain ⟨o, ho, -⟩ := h.consistent x v a hx ha
  exact cell_lt ho

theorem g33m_WF_alloc {s : State ShapeT DrawStrategy Effect} (h : s.WF)
    (o : Object ShapeT DrawStrategy) :
    State.WF ({ s with heap := s.heap ++ [some o], avail := s.avail - 1 } :
      State ShapeT DrawStrategy Effect) := by
  refine ⟨?_, h.unique⟩
  intro x v a hx ha
  obtain ⟨d, hd, ht⟩ := h.consistent x v a hx ha
  exact ⟨d, by simp only []; rw [cell_append_of_lt _ _ (cell_lt hd)]; exact hd, ht⟩

theorem g33m_WF_trace {s : State ShapeT DrawStrategy Effect} (h : s.WF) (t : List Effect) :
    State.WF ({ s with trace := t } : State ShapeT DrawStrategy Effect) :=
  ⟨h.consistent, h.unique⟩

theorem g33m_WF_put {s : State ShapeT DrawStrategy Effect} (h : s.WF) (x : Nat)
    (v : Option (Shape Key))
    (hv : ∀ w a, v = some w → w.pimpl_ = some a →
      (∃ o, cell s.heap a = some o ∧ w.tableOf o.key) ∧
        ∀ y u, y ≠ x → s.objs y = some u → u.pimpl_ ≠ some a) :
    (s.put x v).WF := by
  constructor
  · intro y u a hy ha
    by_cases hyx : y = x
    · subst hyx
      simp [State.put] at hy
      exact (hv u a hy ha).1
    · simp [State.put, Function.update_noteq hyx] at hy
      exact h.consistent y u a hy ha
  · intro y z u w a hy hz ha ha1
    by_cases hyx : y = x
    · by_cases hzx : z = x
      · rw [hyx, hzx]
      · subst hyx
        simp [State.put] at hy
        simp [State.put, Function.update_noteq hzx] at hz
        exact absurd ha1 ((hv u a hy ha).2 z w hzx hz)
    · by_cases hzx : z = x
      · subst hzx
        simp [State.put] at hz
        simp [State.put, Function.update_noteq hyx] at hy
        exact absurd ha ((hv w a hz ha1).2 y u hyx hy)
      · simp [State.put, Function.update_noteq hyx] at hy
        simp [State.put, Function.update_noteq hzx] at hz
        exact h.unique y z u w a hy hz ha ha1

theorem g33m_WF_alloc_put {s : State ShapeT DrawStrategy Effect} (h : s.WF)
    (o : Object ShapeT DrawStrategy) (x : Nat) (w : Shape Key)
    (hw : w.pimpl_ = some s.heap.length) (ht : w.tableOf o.key) :
    (State.put ({ s with heap := s.heap ++ [some o], avail := s.avail - 1 } :
      State ShapeT DrawStrategy Effect) x (some w)).WF := by
  refine g33m_WF_put (g33m_WF_alloc h o) x _ ?_
  intro u a hu ha
  simp only [Option.some.injEq] at hu
  subst hu
  rw [hw] at ha
  simp only [Option.some.injEq] at ha
  subst ha
  refine ⟨⟨o, cell_append_length _ _, ht⟩, ?_⟩
  intro y v _ hy hv
  exact absurd (g33m_WF_lt h hy hv) (Nat.lt_irrefl _)

theorem g33m_WF_free {s : State ShapeT DrawStrategy Effect} (h : s.WF) (a : Nat)
    (hp : ∀ y u, s.objs y = some u → u.pimpl_ ≠ some a) :
    State.WF ({ s with heap := s.heap.set a none, avail := s.avail + 1 } :
      State ShapeT DrawStrategy Effect) := by
  refine ⟨?_, h.unique⟩
  intro x v b hx hb
  obtain ⟨d, hd, ht⟩ := h.consistent x v b hx hb
  have hne : a ≠ b := by
    rintro rfl
    exact hp x v hx hb
  exact ⟨d, by simp only []; rw [cell_set_of_ne _ hne]; exact hd, ht⟩

end

section
variable {Key : Type} [DecidableEq Key] {ShapeT DrawStrategy : Key → Type} {Effect : Type}

theorem g33m_dtor_ok {s s1 : State ShapeT DrawStrategy Effect} {p : Option Nat}
    {d : Option Key} (h : unique_ptr_dtor p d s = .ok () s1) :
    (p = none ∧ s1 = s) ∨
      ∃ a, p = some a ∧ s1 = { s with heap := s.heap.set a none, avail := s.avail + 1 } := by
  cases p with
  | none =>
    simp only [unique_ptr_dtor, Outcome.ok.injEq, true_and] at h
    exact Or.inl ⟨rfl, h.symm⟩
  | some a =>
    cases d with
    | none => simp [unique_ptr_dtor] at h
    | some k =>
      simp only [unique_ptr_dtor, destroyOp] at h
      split at h
      · simp at h
      · split at h
        · simp only [Outcome.ok.injEq, true_and] at h
          exact Or.inr ⟨a, rfl, h.symm⟩
        · simp at h

theorem g33m_copyCtor_ok {s s1 : State ShapeT DrawStrategy Effect} {o v : Shape Key}
    (h : Shape.copyCtor o s = .ok v s1) :
    ∃ a ob, o.pimpl_ = some a ∧ cell s.heap a = some ob ∧ o.clone_ = some ob.key ∧
      s1 = { s with heap := s.heap ++ [some ⟨ob.key, ⟨ob.model.shape_, ob.model.drawer_⟩⟩],
                    avail := s.avail - 1 } ∧
      v = ⟨some s.heap.length, o.deleter, o.draw_, o.clone_⟩ := by
  simp only [Shape.copyCtor] at h
  split at h
  · simp at h
  · rename_i k hk
    simp only [cloneOp] at h
    split at h
    · simp [Outcome.andThen] at h
    · rename_i ob hob
      split at h
      · rename_i hkey
        simp only [new] at h
        split at h
        · simp [Outcome.andThen] at h
        · simp only [Outcome.andThen, Outcome.ok.injEq] at h
          cases hp : o.pimpl_ with
          | none => simp [State.deref, hp] at hob
          | some a =>
            simp only [State.deref, hp] at hob
            exact ⟨a, ob, rfl, hob, by rw [hk, hkey], h.2.symm, h.1.symm⟩
      · simp [Outcome.andThen] at h

theorem g33m_exec_WF (derefCall : ∀ k, Option (DrawStrategy k → ShapeT k → Effect))
    (st : Stmt ShapeT DrawStrategy) {s s1 : State ShapeT DrawStrategy Effect} (hwf : s.WF)
    (h : exec derefCall st s = .ok () s1) : s1.WF := by
  cases st with
  | construct x k shape drawer =>
    simp only [exec] at h
    split at h
    · simp at h
    · rename_i hx
      simp only [Shape.ctor, new] at h
      split at h
      · simp [Outcome.andThen] at h
      · simp only [Outcome.andThen, Outcome.ok.injEq, true_and] at h
        subst h
        exact g33m_WF_alloc_put hwf _ x _ rfl ⟨rfl, rfl, rfl⟩
  | copyConstruct x other =>
    simp only [exec] at h
    split at h
    · rename_i o hx ho
      cases hc : Shape.copyCtor o s with
      | undefined => simp [hc, Outcome.andThen] at h
      | bad_alloc s2 => simp [hc, Outcome.andThen] at h
      | ok v s2 =>
        simp only [hc, Outcome.andThen, Outcome.ok.injEq, true_and] at h
        subst h
        obtain ⟨a, ob, hp, hob, hcl, rfl, rfl⟩ := g33m_copyCtor_ok hc
        obtain ⟨ob1, hob1, ht⟩ := hwf.consistent other o a ho hp
        rw [hob] at hob1
        cases hob1
        exact g33m_WF_alloc_put hwf _ x _ rfl ht
    · simp at h
  | moveConstruct x other =>
    simp only [exec] at h
    split at h
    · rename_i o hx ho
      simp only [Shape.moveCtor, ho, Outcome.andThen, Outcome.ok.injEq, true_and] at h
      subst h
      have hxo : x ≠ other := by
        rintro rfl
        rw [hx] at ho
        simp at ho
      have hwf1 : (s.put other (some { o with pimpl_ := none })).WF :=
        g33m_WF_put hwf other _ (fun w a hw ha => by
          simp only [Option.some.injEq] at hw
          subst hw
          simp at ha)
      refine g33m_WF_put hwf1 x _ ?_
      intro w a hw ha
      simp only [Option.some.injEq] at hw
      subst hw
      refine ⟨hwf.consistent other o a ho ha, ?_⟩
      intro y u hy hu hp
      by_cases hyo : y = other
      · subst hyo
        simp [State.put] at hu
        subst hu
        simp at hp
      · simp only [State.put, Function.update_noteq hyo] at hu
        exact hyo (hwf.unique y other u o a hu ho hp ha)
    · simp at h
  | copyAssign this other =>
    simp only [exec, Shape.copyAssign] at h
    split at h
    · rename_i t o ht ho
      cases hc : Shape.copyCtor o s with
      | undefined => simp [hc, Outcome.andThen] at h
      | bad_alloc s2 => simp [hc, Outcome.andThen] at h
      | ok v s2 =>
        obtain ⟨a, ob, hp, hob, hcl, rfl, rfl⟩ := g33m_copyCtor_ok hc
        obtain ⟨ob1, hob1, htab⟩ := hwf.consistent other o a ho hp
        rw [hob] at hob1
        cases hob1
        simp only [hc, Outcome.andThen] at h
        have hwf1 := g33m_WF_alloc_put hwf ⟨ob.key, ⟨ob.model.shape_, ob.model.drawer_⟩⟩ this
          ⟨some s.heap.length, o.deleter, o.draw_, o.clone_⟩ rfl htab
        simp only [State.put] at hwf1
        simp only [State.put, ht, Shape.dtor] at h
        rcases g33m_dtor_ok h with ⟨-, rfl⟩ | ⟨b, hb, rfl⟩
        · exact hwf1
        · refine g33m_WF_free hwf1 b ?_
          intro y u hy hu
          by_cases hyt : y = this
          · subst hyt
            simp [State.put] at hy
            subst hy
            simp only [Option.some.injEq] at hu
            have := g33m_WF_lt hwf ht hb
            omega
          · simp only [State.put, Function.update_noteq hyt] at hy
            exact hyt (hwf.unique y this u t b hy ht hu hb)
    · simp at h
  | moveAssign this other =>
    simp only [exec, Shape.moveAssign] at h
    split at h
    · rename_i t o ht ho
      have hwf1 : (s.put other (some { o with pimpl_ := none })).WF :=
        g33m_WF_put hwf other _ (fun w a hw ha => by
          simp only [Option.some.injEq] at hw
          subst hw
          simp at ha)
      by_cases hto : this = other
      · subst hto
        have hto : t = o := by
          rw [ht] at ho
          exact Option.some.inj ho
        subst hto
        have h1 : (s.put this (some { t with pimpl_ := none })).objs this
            = some { t with pimpl_ := none } := by simp [State.put]
        simp only [h1, unique_ptr_dtor, Outcome.ok.injEq, true_and] at h
        subst h
        refine g33m_WF_put hwf1 this _ ?_
        intro w a hw ha
        simp only [Option.some.injEq] at hw
        subst hw
        simp only at ha
        refine ⟨hwf.consistent this t a ht ha, ?_⟩
        intro y u hy hu hp
        simp only [State.put, Function.update_noteq hy] at hu
        exact hy (hwf.unique y this u t a hu ht hp ha)
      · have h1 : (s.put other (some { o with pimpl_ := none })).objs this = some t := by
          simp [State.put, Function.update_noteq hto, ht]
        simp only [h1] at h
        have hwf2 : ((s.put other (some { o with pimpl_ := none })).put this
            (some ⟨o.pimpl_, o.deleter, o.draw_, o.clone_⟩)).WF := by
          refine g33m_WF_put hwf1 this _ ?_
          intro w a hw ha
          simp only [Option.some.injEq] at hw
          subst hw
          simp only at ha
          refine ⟨hwf.consistent other o a ho ha, ?_⟩
          intro y u hy hu hp
          by_cases hyo : y = other
          · subst hyo
            simp [State.put] at hu
            subst hu
            simp at hp
          · simp only [State.put, Function.update_noteq hyo] at hu
            exact hyo (hwf.unique y other u o a hu ho hp ha)
        rcases g33m_dtor_ok h with ⟨-, rfl⟩ | ⟨b, hb, rfl⟩
        · exact hwf2
        · refine g33m_WF_free hwf2 b ?_
          intro y u hy hu
          by_cases hyt : y = this
          · subst hyt
            simp [State.put] at hy
            subst hy
            simp only at hu
            exact hto (hwf.unique y other t o b ht ho hb hu)
          · by_cases hyo : y = other
            · subst hyo
              simp [State.put, Function.update_noteq hyt] at hy
              subst hy
              simp at hu
            · simp only [State.put, Function.update_noteq hyt,
                Function.update_noteq hyo] at hy
              exact hyt (hwf.unique y this u t b hy ht hu hb)
    · simp at h
  | draw x =>
    simp only [exec] at h
    split at h
    · rename_i v hx
      simp only [draw] at h
      split at h
      · simp at h
      · simp only [drawOp] at h
        split at h
        · simp at h
        · split at h
          · split at h
            · simp at h
            · simp only [Outcome.ok.injEq, true_and] at h
              subst h
              exact g33m_WF_trace hwf _
          · simp at h
    · simp at h
  | destroy x =>
    simp only [exec] at h
    split at h
    · rename_i v hx
      cases hd : Shape.dtor v s with
      | undefined => simp [hd, Outcome.andThen] at h
      | bad_alloc s2 => simp [hd, Outcome.andThen] at h
      | ok u s2 =>
        simp only [hd, Outcome.andThen, Outcome.ok.injEq, true_and] at h
        subst h
        simp only [Shape.dtor] at hd
        have hnone : ∀ {s3 : State ShapeT DrawStrategy Effect}, s3.WF → (s3.put x none).WF :=
          fun h3 => g33m_WF_put h3 x none (fun w a hw _ => by simp at hw)
        rcases g33m_dtor_ok hd with ⟨-, rfl⟩ | ⟨b, hb, rfl⟩
        · exact hnone hwf
        · have hwf1 : (s.put x none).WF := hnone hwf
          have : (State.put ({ s with heap := s.heap.set b none, avail := s.avail + 1 } :
              State ShapeT DrawStrategy Effect) x none)
              = ({ s.put x none with heap := (s.put x none).heap.set b none,
                                     avail := (s.put x none).avail + 1 } :
                State ShapeT DrawStrategy Effect) := rfl
          rw [this]
          refine g33m_WF_free hwf1 b ?_
          intro y w hy hw
          by_cases hyx : y = x
          · subst hyx
            simp [State.put] at hy
          · simp only [State.put, Function.update_noteq hyx] at hy
            exact hyx (hwf.unique y x w v b hy hx hw hb)
    · simp at h

/-- C27: the dispatch table of the manual-dispatch `Shape` stays consistent.  In every state
that a program reaches from a consistent state (the start of the program is one), through
constructions, copy constructions, move constructions, copy assignments, move assignments,
`draw`s and destructions, every live `Shape` with a non-null `pimpl_` points to a live object,
and its deleter, its `draw_` and its `clone_` are the three lambdas of the instantiation
`OwningModel<ShapeT,DrawStrategy>` that is the type of that object. -/
theorem manual_dispatch_table_consistent
    (derefCall : ∀ k, Option (DrawStrategy k → ShapeT k → Effect))
    (prog : List (Stmt ShapeT DrawStrategy)) {s s1 : State ShapeT DrawStrategy Effect}
    (hwf : s.WF) (h : runWith (exec derefCall) prog s = .ok () s1) :
    s1.WF ∧
    ∀ x v a, s1.objs x = some v → v.pimpl_ = some a →
      ∃ o, cell s1.heap a = some o ∧ v.deleter = some o.key ∧ v.draw_ = some o.key ∧
        v.clone_ = some o.key := by
  have main : s1.WF := by
    induction prog generalizing s with
    | nil =>
      simp only [runWith, Outcome.ok.injEq, true_and] at h
      subst h
      exact hwf
    | cons st rest ih =>
      obtain ⟨s0, h0, h1⟩ := (G32.runWith_cons_ok (exec derefCall) st rest s s1).mp h
      exact ih (g33m_exec_WF derefCall st hwf h0) h1
  refine ⟨main, ?_⟩
  intro x v a hx hp
  obtain ⟨o, ho, h1, h2, h3⟩ := main.consistent x v a hx hp
  exact ⟨o, ho, h1, h2, h3⟩

/-- Witness for C27: two shapes of different instantiations, a copy assignment between them, a
move construction, a move assignment and a copy construction.  The last `Shape` points to a
model of the instantiation `wide` and holds the three lambdas of `wide`. -/
theorem manual_dispatch_table_consistent_witness :
    ∃ s1, runWith (exec Demo.derefCall)
        [.construct 1 .lambda Demo.circle (), .construct 2 .wide ⟨0, 0, 1, 1⟩ (),
         .copyAssign 1 2, .moveConstruct 3 1, .moveAssign 2 3, .copyConstruct 4 2]
        (State.init Demo.ShapeT Demo.DrawStrategy Demo.Ev 4) = .ok () s1 ∧
      s1.objs 4 = some ⟨some 3, some .wide, some .wide, some .wide⟩ ∧
      s1.objs 1 = some ⟨none, some .wide, some .wide, some .wide⟩ ∧
      ∃ o, cell s1.heap 3 = some o ∧
        (some Demo.K.wide = some o.key ∧ some Demo.K.wide = some o.key ∧
          some Demo.K.wide = some o.key) :=
  ⟨_, rfl, rfl, rfl,
    (@manual_dispatch_table_consistent Demo.K inferInstance Demo.ShapeT Demo.DrawStrategy
      Demo.Ev Demo.derefCall
      [.construct 1 .lambda Demo.circle (), .construct 2 .wide ⟨0, 0, 1, 1⟩ (),
       .copyAssign 1 2, .moveConstruct 3 1, .moveAssign 2 3, .copyConstruct 4 2]
      (State.init Demo.ShapeT Demo.DrawStrategy Demo.Ev 4) _ (g33m_WF_init 4) rfl).2 4
      ⟨some 3, some .wide, some .wide, some .wide⟩ 3 rfl rfl⟩

end
end G33M

/-! ## Manual dispatch against virtual dispatch -/

/-- C22, evaluated at a failing input: shapes built from a `Circle` and a `Pen`, a function
object whose `operator*` returns another function object.  After a construction, a copy
construction, a copy assignment and a move construction, the three `draw`s of the heap `Shape`
with virtual dispatch call the stored `Pen` (events `penDrawn 7 314`); the same statements on
the manual-dispatch `Shape` call what `*drawer_` returns (events `penRelayed 7 314`), because
its `draw_` lambda runs `(*model->drawer_)( model->shape_ )`. -/
theorem manual_dispatch_diverges_from_virtual_dispatch :
    (G32.run Demo.call
        [.construct 1 .relay Demo.circle ⟨7⟩, .copyConstruct 2 1,
         .construct 3 .relay ⟨100⟩ ⟨9⟩, .copyAssign 3 1, .moveConstruct 4 2,
         .draw 1, .draw 3, .draw 4]
        (G32.State.init Demo.ShapeT Demo.DrawStrategy Demo.Ev 4)).mapState (fun s => s.trace)
      = .ok () [Demo.Ev.penDrawn 7 314, Demo.Ev.penDrawn 7 314, Demo.Ev.penDrawn 7 314] ∧
    (G33M.run Demo.derefCall
        [.construct 1 .relay Demo.circle ⟨7⟩, .copyConstruct 2 1,
         .construct 3 .relay ⟨100⟩ ⟨9⟩, .copyAssign 3 1, .moveConstruct 4 2,
         .draw 1, .draw 3, .draw 4]
        (G33M.State.init Demo.ShapeT Demo.DrawStrategy Demo.Ev 4)).map
        (Outcome.mapState fun s => s.trace)
      = some (.ok () [Demo.Ev.penRelayed 7 314, Demo.Ev.penRelayed 7 314,
          Demo.Ev.penRelayed 7 314]) :=
  ⟨rfl, rfl⟩

/-! ## The dynamic types of `G34_Non_Owning_Type_Erasure_2.cpp` -/

theorem cell_map {α β : Type} (f : α → β) (l : List (Option α)) (a : Nat) :
    cell (l.map (Option.map f)) a = (cell l a).map f := by
  unfold cell
  rw [List.getElem?_map]
  cases l[a]? with
  | none => rfl
  | some v => cases v <;> rfl

namespace G34_2
namespace Dyn
section
variable {Key : Type} {ShapeT DrawStrategy : Key → Type} {Effect : Type}

theorem dyn_embed_alloc (s : G34_2.State ShapeT DrawStrategy Effect)
    (c : G32.ShapeConcept ShapeT DrawStrategy) :
    embed { s with toState := s.toState.alloc c }
      = { embed s with heap := (embed s).heap ++ [some (.owning c)],
                       avail := (embed s).avail - 1 } := by
  simp [embed, G32.State.alloc]

theorem dyn_embed_free (s : G34_2.State ShapeT DrawStrategy Effect) (a : Nat) :
    embed { s with toState := s.toState.free a }
      = { embed s with heap := (embed s).heap.set a none, avail := (embed s).avail + 1 } := by
  simp [embed, G32.State.free, List.map_set]

theorem dyn_embed_put (s : G34_2.State ShapeT DrawStrategy Effect) (x : Nat)
    (v : Option G32.Shape) :
    embed { s with toState := s.toState.put x v } = (embed s).put x v := rfl

theorem dyn_embed_putRef (s : G34_2.State ShapeT DrawStrategy Effect) (r : Nat)
    (v : Option (ShapeConstRef Key)) :
    embed (s.putRef r v) = (embed s).putRef r (v.map fun w => w.raw_.map Model.nonOwning) := by
  simp only [embed, G34_2.State.putRef, State.putRef]
  congr 1
  funext q
  by_cases hq : q = r
  · subst hq
    simp
  · simp [Function.update_noteq hq]

theorem dyn_embed_heap_length (s : G34_2.State ShapeT DrawStrategy Effect) :
    (embed s).heap.length = s.heap.length := by
  simp [embed]

theorem dyn_embed_cell (s : G34_2.State ShapeT DrawStrategy Effect) (a : Nat) :
    cell (embed s).heap a = (cell s.heap a).map Model.owning := by
  simp only [embed, cell_map]

theorem dyn_embed_deref (s : G34_2.State ShapeT DrawStrategy Effect) (p : Option Nat) :
    (embed s).deref p = (s.toState.deref p).map Model.owning := by
  cases p with
  | none => rfl
  | some a => exact dyn_embed_cell s a

theorem dyn_make_unique_embed (s : G34_2.State ShapeT DrawStrategy Effect)
    (c : G32.ShapeConcept ShapeT DrawStrategy) :
    make_unique (.owning c) (embed s)
      = (liftHeap (G32.make_unique c) s).mapState embed := by
  by_cases ha : s.avail = 0
  · have : (embed s).avail = 0 := ha
    simp [make_unique, this, liftHeap, G32.make_unique, ha, Outcome.mapState]
  · have : ¬ (embed s).avail = 0 := ha
    simp only [make_unique, this, if_false, liftHeap, G32.make_unique, ha, Outcome.mapState,
      dyn_embed_alloc, dyn_embed_heap_length]

theorem dyn_unique_ptr_dtor_embed (s : G34_2.State ShapeT DrawStrategy Effect)
    (p : Option Nat) :
    unique_ptr_dtor p (embed s)
      = (liftHeap (G32.unique_ptr_dtor p) s).mapState embed := by
  cases p with
  | none => rfl
  | some a =>
    simp only [unique_ptr_dtor, dyn_embed_cell, liftHeap, G32.unique_ptr_dtor, G32.delete]
    cases hc : cell s.heap a with
    | none =>
      have : cell s.toState.heap a = none := hc
      simp [this, Outcome.mapState]
    | some c =>
      have : cell s.toState.heap a = some c := hc
      simp only [this, Option.map_some', Outcome.mapState, dyn_embed_free]

end
end Dyn
end G34_2

namespace G34_2
namespace Dyn
section
variable {Key : Type} [DecidableEq Key] {ShapeT DrawStrategy : Key → Type} {Effect : Type}

theorem dyn_embed_shapeAt (s : G34_2.State ShapeT DrawStrategy Effect) (k : Key)
    (addr : Addr) : (embed s).shapeAt k addr = s.shapeAt k addr := by
  cases addr with
  | shapeMember a =>
    simp only [State.shapeAt, G34_2.State.shapeAt, embed, cell_map]
    cases cell s.heap a <;> rfl
  | shapeBufMember r =>
    simp only [State.shapeAt, G34_2.State.shapeAt, embed]
    cases hr : s.refs r with
    | none => rfl
    | some v =>
      obtain ⟨w⟩ := v
      cases w <;> rfl
  | _ => rfl

theorem dyn_embed_drawerAt (s : G34_2.State ShapeT DrawStrategy Effect) (k : Key)
    (addr : Addr) : (embed s).drawerAt k addr = s.drawerAt k addr := by
  cases addr with
  | drawerMember a =>
    simp only [State.drawerAt, G34_2.State.drawerAt, embed, cell_map]
    cases cell s.heap a <;> rfl
  | drawerBufMember r =>
    simp only [State.drawerAt, G34_2.State.drawerAt, embed]
    cases hr : s.refs r with
    | none => rfl
    | some v =>
      obtain ⟨w⟩ := v
      cases w <;> rfl
  | _ => rfl

theorem dyn_copyCtor_embed (s : G34_2.State ShapeT DrawStrategy Effect) (o : G32.Shape) :
    Shape.copyCtor o (embed s) = (liftHeap (G32.Shape.copyCtor o) s).mapState embed := by
  simp only [Shape.copyCtor, dyn_embed_deref, G32.Shape.copyCtor, liftHeap]
  cases hc : s.toState.deref o.pimpl_ with
  | none => rfl
  | some c =>
    simp only [Option.map_some', Model.clone, dyn_make_unique_embed, G32.ShapeConcept.clone,
      G32.OwningShapeModel.clone, liftHeap]
    cases G32.make_unique ⟨c.key, ⟨c.model.shape_, c.model.drawer_⟩⟩ s.toState <;> rfl

theorem dyn_execShape_embed (call : ∀ k, DrawStrategy k → ShapeT k → Effect)
    (st : Stmt ShapeT DrawStrategy) (s : G34_2.State ShapeT DrawStrategy Effect) :
    execShape call st (embed s) = (liftHeap (G32.exec call st) s).mapState embed := by
  cases st with
  | construct x k shape drawer =>
    have hx : (embed s).objs x = s.toState.objs x := rfl
    simp only [execShape, hx, liftHeap, G32.exec]
    cases s.toState.objs x with
    | some v => rfl
    | none =>
      simp only [Shape.ctor, dyn_make_unique_embed, G32.Shape.ctor, liftHeap]
      cases G32.make_unique ⟨k, ⟨shape, drawer⟩⟩ s.toState <;> rfl
  | copyConstruct x other =>
    have hx : (embed s).objs x = s.toState.objs x := rfl
    have ho : (embed s).objs other = s.toState.objs other := rfl
    simp only [execShape, hx, ho, liftHeap, G32.exec]
    cases s.toState.objs x with
    | some v => rfl
    | none =>
      cases s.toState.objs other with
      | none => rfl
      | some o =>
        simp only [dyn_copyCtor_embed, liftHeap]
        cases G32.Shape.copyCtor o s.toState <;> rfl
  | moveConstruct x other =>
    have hx : (embed s).objs x = s.toState.objs x := rfl
    have ho : (embed s).objs other = s.toState.objs other := rfl
    simp only [execShape, hx, ho, liftHeap, G32.exec]
    cases s.toState.objs x with
    | some v => rfl
    | none =>
      cases hoo : s.toState.objs other with
      | none => rfl
      | some o =>
        simp only [Shape.moveCtor, ho, hoo, G32.Shape.moveCtor]
        rfl
  | copyAssign x other =>
    have hx : (embed s).objs x = s.toState.objs x := rfl
    have ho : (embed s).objs other = s.toState.objs other := rfl
    simp only [execShape, Shape.copyAssign, hx, ho, liftHeap, G32.exec, G32.Shape.copyAssign]
    cases hxx : s.toState.objs x with
    | none => rfl
    | some t =>
      cases s.toState.objs other with
      | none => rfl
      | some o =>
        simp only [dyn_copyCtor_embed, liftHeap]
        cases hc : G32.Shape.copyCtor o s.toState with
        | undefined => rfl
        | bad_alloc h => rfl
        | ok copy h =>
          simp only [Outcome.mapState, Outcome.andThen]
          have e : (embed { s with toState := h }).objs x = h.objs x := rfl
          simp only [e]
          cases h.objs x with
          | none => rfl
          | some t2 =>
            simp only [Shape.dtor, G32.Shape.dtor]
            exact dyn_unique_ptr_dtor_embed
              { s with toState := h.put x (some ⟨copy.pimpl_⟩) } t2.pimpl_
  | moveAssign x other =>
    have hx : (embed s).objs x = s.toState.objs x := rfl
    have ho : (embed s).objs other = s.toState.objs other := rfl
    simp only [execShape, Shape.moveAssign, hx, ho, liftHeap, G32.exec, G32.Shape.moveAssign]
    cases s.toState.objs x with
    | none => rfl
    | some t =>
      cases s.toState.objs other with
      | none => rfl
      | some o =>
        simp only []
        have e : ((embed s).put other (some ⟨none⟩)).objs x
            = (s.toState.put other (some ⟨none⟩)).objs x := rfl
        simp only [e]
        cases (s.toState.put other (some ⟨none⟩)).objs x with
        | none => rfl
        | some t2 =>
          exact dyn_unique_ptr_dtor_embed
            { s with toState := (s.toState.put other (some ⟨none⟩)).put x (some ⟨o.pimpl_⟩) }
            t2.pimpl_
  | draw x =>
    have hx : (embed s).objs x = s.toState.objs x := rfl
    simp only [execShape, hx, liftHeap, G32.exec]
    cases s.toState.objs x with
    | none => rfl
    | some v =>
      simp only [drawShape, dyn_embed_deref, G32.draw]
      cases s.toState.deref v.pimpl_ with
      | none => rfl
      | some c => rfl
  | destroy x =>
    have hx : (embed s).objs x = s.toState.objs x := rfl
    simp only [execShape, hx, liftHeap, G32.exec]
    cases s.toState.objs x with
    | none => rfl
    | some v =>
      simp only [Shape.dtor, dyn_unique_ptr_dtor_embed, G32.Shape.dtor, liftHeap]
      cases G32.unique_ptr_dtor v.pimpl_ s.toState <;> rfl

theorem dyn_exec_embed (call : ∀ k, DrawStrategy k → ShapeT k → Effect)
    (st : Statement ShapeT DrawStrategy) (s : G34_2.State ShapeT DrawStrategy Effect) :
    exec call st (embed s) = (G34_2.exec call st s).mapState embed := by
  cases st with
  | shape st => exact dyn_execShape_embed call st s
  | declShape x k v =>
    have hx : (embed s).shapeVars x = s.shapeVars x := rfl
    simp only [exec, hx, G34_2.exec]
    cases s.shapeVars x <;> rfl
  | declDrawer x k d =>
    have hx : (embed s).drawerVars x = s.drawerVars x := rfl
    simp only [exec, hx, G34_2.exec]
    cases s.drawerVars x <;> rfl
  | setShape x k v =>
    simp only [exec, dyn_embed_shapeAt, G34_2.exec]
    cases s.shapeAt k (.shapeVar x) <;> rfl
  | setDrawer x k d =>
    simp only [exec, dyn_embed_drawerAt, G34_2.exec]
    cases s.drawerAt k (.drawerVar x) <;> rfl
  | endShape x =>
    have hx : (embed s).shapeVars x = s.shapeVars x := rfl
    simp only [exec, hx, G34_2.exec]
    cases s.shapeVars x <;> rfl
  | endDrawer x =>
    have hx : (embed s).drawerVars x = s.drawerVars x := rfl
    simp only [exec, hx, G34_2.exec]
    cases s.drawerVars x <;> rfl
  | refConstruct r k sv dv =>
    have hr : (embed s).refs r = (s.refs r).map fun v => v.raw_.map Model.nonOwning := rfl
    simp only [exec, hr, dyn_embed_shapeAt, dyn_embed_drawerAt, G34_2.exec]
    cases s.refs r with
    | some v => rfl
    | none =>
      cases s.shapeAt k (.shapeVar sv) with
      | none => rfl
      | some a =>
        cases s.drawerAt k (.drawerVar dv) with
        | none => rfl
        | some b =>
          simp only [Option.map_none', Outcome.mapState, dyn_embed_putRef]
          rfl
  | refFromShape r x =>
    have hr : (embed s).refs r = (s.refs r).map fun v => v.raw_.map Model.nonOwning := rfl
    have hx : (embed s).objs x = s.objs x := rfl
    simp only [exec, hr, hx, G34_2.exec]
    cases s.refs r with
    | some v => cases s.objs x <;> rfl
    | none =>
      cases s.objs x with
      | none => rfl
      | some o =>
        obtain ⟨p⟩ := o
        cases p with
        | none => rfl
        | some a =>
          simp only [Option.map_none', ShapeConstRef.ctorFromShape, dyn_embed_cell,
            G34_2.ShapeConstRef.ctorFromShape]
          cases cell s.heap a with
          | none => rfl
          | some c =>
            simp only [Option.map_some', Outcome.andThen, Outcome.mapState, dyn_embed_putRef]
            rfl
  | refFromConstShape r x =>
    have hr : (embed s).refs r = (s.refs r).map fun v => v.raw_.map Model.nonOwning := rfl
    have hx : (embed s).objs x = s.objs x := rfl
    simp only [exec, hr, hx, G34_2.exec]
    cases s.refs r with
    | some v => cases s.objs x <;> rfl
    | none =>
      cases s.objs x with
      | none => rfl
      | some o =>
        obtain ⟨p⟩ := o
        cases p with
        | none => rfl
        | some a =>
          simp only [Option.map_none', ShapeConstRef.ctorFromShape, dyn_embed_cell,
            G34_2.ShapeConstRef.ctorFromConstShape]
          cases cell s.heap a with
          | none => rfl
          | some c =>
            simp only [Option.map_some', Outcome.andThen, Outcome.mapState, dyn_embed_putRef]
            rfl
  | refCopyConstruct r other =>
    have hr : (embed s).refs r = (s.refs r).map fun v => v.raw_.map Model.nonOwning := rfl
    have ho : (embed s).refs other
        = (s.refs other).map fun v => v.raw_.map Model.nonOwning := rfl
    simp only [exec, hr, ho, G34_2.exec]
    cases s.refs r with
    | some v => cases s.refs other <;> rfl
    | none =>
      cases s.refs other with
      | none => rfl
      | some o =>
        obtain ⟨p⟩ := o
        cases p with
        | none => rfl
        | some m =>
          simp only [Option.map_none', Option.map_some', ShapeConstRef.copyCtor,
            G34_2.ShapeConstRef.copyCtor, Outcome.andThen, Outcome.mapState, dyn_embed_putRef]
          rfl
  | refCopyAssign r other =>
    have hr : (embed s).refs r = (s.refs r).map fun v => v.raw_.map Model.nonOwning := rfl
    have ho : (embed s).refs other
        = (s.refs other).map fun v => v.raw_.map Model.nonOwning := rfl
    simp only [exec, ShapeConstRef.copyAssign, hr, ho, G34_2.exec,
      G34_2.ShapeConstRef.copyAssign]
    cases hrr : s.refs r with
    | none => cases s.refs other <;> rfl
    | some t =>
      cases s.refs other with
      | none => rfl
      | some o =>
        obtain ⟨p⟩ := o
        cases p with
        | none => rfl
        | some m =>
          simp only [Option.map_some', ShapeConstRef.copyCtor, G34_2.ShapeConstRef.copyCtor,
            Outcome.andThen, hr, hrr]
          obtain ⟨q⟩ := t
          cases q with
          | none => rfl
          | some m2 =>
            simp only [Option.map_some', ShapeConstRef.dtor, G34_2.ShapeConstRef.dtor,
              Outcome.mapState, dyn_embed_putRef]
            rfl
  | refDraw r =>
    have hr : (embed s).refs r = (s.refs r).map fun v => v.raw_.map Model.nonOwning := rfl
    simp only [exec, hr, G34_2.exec]
    cases s.refs r with
    | none => rfl
    | some v =>
      obtain ⟨p⟩ := v
      cases p with
      | none => rfl
      | some m =>
        simp only [Option.map_some', drawRef, Model.draw, dyn_embed_shapeAt,
          dyn_embed_drawerAt, G34_2.draw, NonOwningShapeModel.draw]
        cases s.shapeAt m.key m.model.shape_ with
        | none => rfl
        | some v1 =>
          cases s.drawerAt m.key m.model.drawer_ <;> rfl
  | refDestroy r =>
    have hr : (embed s).refs r = (s.refs r).map fun v => v.raw_.map Model.nonOwning := rfl
    simp only [exec, hr, G34_2.exec]
    cases s.refs r with
    | none => rfl
    | some v =>
      obtain ⟨p⟩ := v
      cases p with
      | none => rfl
      | some m =>
        simp only [Option.map_some', ShapeConstRef.dtor, G34_2.ShapeConstRef.dtor,
          Outcome.andThen, Outcome.mapState, dyn_embed_putRef]
        rfl
  | shapeFromRef x r =>
    have hr : (embed s).refs r = (s.refs r).map fun v => v.raw_.map Model.nonOwning := rfl
    have hx : (embed s).objs x = s.objs x := rfl
    simp only [exec, hr, hx, G34_2.exec]
    cases s.objs x with
    | some o => cases s.refs r <;> rfl
    | none =>
      cases s.refs r with
      | none => rfl
      | some v =>
        obtain ⟨p⟩ := v
        cases p with
        | none => rfl
        | some m =>
          simp only [Option.map_some', Shape.ctorFromRef, Model.clone, dyn_embed_shapeAt,
            dyn_embed_drawerAt, G34_2.Shape.ctorFromRef, NonOwningShapeModel.clone]
          cases s.shapeAt m.key m.model.shape_ with
          | none => rfl
          | some v1 =>
            cases s.drawerAt m.key m.model.drawer_ with
            | none => rfl
            | some b1 =>
              simp only [dyn_make_unique_embed, liftHeap]
              cases G32.make_unique ⟨m.key, ⟨v1, b1⟩⟩ s.toState <;> rfl

theorem dyn_run_embed (call : ∀ k, DrawStrategy k → ShapeT k → Effect)
    (prog : List (Statement ShapeT DrawStrategy)) :
    ∀ s : G34_2.State ShapeT DrawStrategy Effect,
      run call prog (embed s) = (G34_2.run call prog s).mapState embed := by
  induction prog with
  | nil => intro s; rfl
  | cons st rest ih =>
    intro s
    simp only [run, G34_2.run, runWith, dyn_exec_embed]
    cases G34_2.exec call st s with
    | undefined => rfl
    | bad_alloc s1 => rfl
    | ok u s1 => exact ih s1

end
end Dyn

section
variable {Key : Type} [DecidableEq Key] {ShapeT DrawStrategy : Key → Type} {Effect : Type}

theorem g34_run_WF (call : ∀ k, DrawStrategy k → ShapeT k → Effect)
    (prog : List (Statement ShapeT DrawStrategy)) :
    ∀ {s s1 : State ShapeT DrawStrategy Effect}, s.toState.WF → run call prog s = .ok () s1 →
      s1.toState.WF := by
  induction prog with
  | nil =>
    intro s s1 hwf h
    simp only [run, runWith, Outcome.ok.injEq, true_and] at h
    subst h
    exact hwf
  | cons st rest ih =>
    intro s s1 hwf h
    obtain ⟨s0, h0, h1⟩ := (G32.runWith_cons_ok (exec call) st rest s s1).mp h
    exact ih (g34_exec_frame call st hwf h0).1 h1

theorem g34_exec_filled (call : ∀ k, DrawStrategy k → ShapeT k → Effect)
    (st : Statement ShapeT DrawStrategy) {s s1 : State ShapeT DrawStrategy Effect}
    (hf : ∀ r v, s.refs r = some v → ∃ m, v.raw_ = some m)
    (h : exec call st s = .ok () s1) : ∀ r v, s1.refs r = some v → ∃ m, v.raw_ = some m := by
  have key : ∀ (r0 : Nat) (w : Option (ShapeConstRef Key)),
      (∀ v, w = some v → ∃ m, v.raw_ = some m) →
      ∀ r v, (s.putRef r0 w).refs r = some v → ∃ m, v.raw_ = some m := by
    intro r0 w hw r v hv
    by_cases hr : r = r0
    · subst hr
      simp only [State.putRef, Function.update_same] at hv
      exact hw v hv
    · simp only [State.putRef, Function.update_noteq hr] at hv
      exact hf r v hv
  cases st with
  | shape st =>
    simp only [exec] at h
    obtain ⟨hp, -, rfl⟩ := g34_liftHeap_ok.mp h
    exact hf
  | declShape x k v =>
    simp only [exec] at h
    split at h
    · simp only [Outcome.ok.injEq, true_and] at h
      subst h
      exact hf
    · simp at h
  | declDrawer x k d =>
    simp only [exec] at h
    split at h
    · simp only [Outcome.ok.injEq, true_and] at h
      subst h
      exact hf
    · simp at h
  | setShape x k v =>
    simp only [exec] at h
    split at h
    · simp only [Outcome.ok.injEq, true_and] at h
      subst h
      exact hf
    · simp at h
  | setDrawer x k d =>
    simp only [exec] at h
    split at h
    · simp only [Outcome.ok.injEq, true_and] at h
      subst h
      exact hf
    · simp at h
  | endShape x =>
    simp only [exec] at h
    split at h
    · simp only [Outcome.ok.injEq, true_and] at h
      subst h
      exact hf
    · simp at h
  | endDrawer x =>
    simp only [exec] at h
    split at h
    · simp only [Outcome.ok.injEq, true_and] at h
      subst h
      exact hf
    · simp at h
  | refConstruct r k sv dv =>
    obtain ⟨-, rfl⟩ := g34_refConstruct_ok call h
    exact key _ _ (fun v hv => ⟨_, by cases hv; rfl⟩)
  | refFromShape r x =>
    obtain ⟨a, c, -, -, -, rfl⟩ := g34_refFromShape_ok call h
    exact key _ _ (fun v hv => ⟨_, by cases hv; rfl⟩)
  | refFromConstShape r x =>
    obtain ⟨a, c, -, -, -, rfl⟩ := g34_refFromConstShape_ok call h
    exact key _ _ (fun v hv => ⟨_, by cases hv; rfl⟩)
  | refCopyConstruct r other =>
    obtain ⟨m0, -, -, rfl⟩ := g34_refCopyConstruct_ok call h
    exact key _ _ (fun v hv => ⟨_, by cases hv; rfl⟩)
  | refCopyAssign r other =>
    obtain ⟨t, m0, -, -, rfl⟩ := g34_refCopyAssign_ok call h
    exact key _ _ (fun v hv => ⟨_, by cases hv; rfl⟩)
  | refDraw r =>
    obtain ⟨m0, v, b, -, -, -, rfl⟩ := g34_refDraw_ok call h
    exact hf
  | refDestroy r =>
    obtain ⟨m0, -, rfl⟩ := g34_refDestroy_ok call h
    exact key _ _ (fun v hv => by cases hv)
  | shapeFromRef x r =>
    obtain ⟨m0, v, b, -, -, -, -, -, rfl⟩ := g34_shapeFromRef_ok call h
    exact hf

theorem g34_run_filled (call : ∀ k, DrawStrategy k → ShapeT k → Effect)
    (prog : List (Statement ShapeT DrawStrategy)) :
    ∀ {s s1 : State ShapeT DrawStrategy Effect},
      (∀ r v, s.refs r = some v → ∃ m, v.raw_ = some m) → run call prog s = .ok () s1 →
      ∀ r v, s1.refs r = some v → ∃ m, v.raw_ = some m := by
  induction prog with
  | nil =>
    intro s s1 hf h
    simp only [run, runWith, Outcome.ok.injEq, true_and] at h
    subst h
    exact hf
  | cons st rest ih =>
    intro s s1 hf h
    obtain ⟨s0, h0, h1⟩ := (G32.runWith_cons_ok (exec call) st rest s s1).mp h
    exact ih (g34_exec_filled call st hf h0) h1

end
end G34_2

namespace G34_2
namespace Dyn
section
variable {Key : Type} [DecidableEq Key] {ShapeT DrawStrategy : Key → Type} {Effect : Type}

/-- C21: the no-added-hop invariant, with every virtual call dispatched on the dynamic type.
In every state that a program of any length reaches from the start (constructions, conversions
`Shape` to `ShapeConstRef`, `ShapeConstRef` to `ShapeConstRef`, `ShapeConstRef` to `Shape`,
`Shape` to `Shape`, assignments, moves, `draw`s and destructions, in any order): every object
of the free store is an `OwningShapeModel`, so every `Shape` with a non-null `pimpl_` holds
one; the buffer of every `ShapeConstRef` holds a `NonOwningShapeModel` whose `shape_` is the
address of a shape object or of the member `shape_` of a model of the free store, and whose
`drawer_` is the address of a drawer object or of the member `drawer_` of such a model; no
stored address is the address of a `Shape`, of a `ShapeConstRef` or of anything inside a
`ShapeConstRef`.  The state is a state of the model of namespace `G34_2`, reached there by the
same program. -/
theorem no_added_hop_invariant (call : ∀ k, DrawStrategy k → ShapeT k → Effect) (avail : Nat)
    (prog : List (Statement ShapeT DrawStrategy)) {d : State ShapeT DrawStrategy Effect}
    (h : run call prog (State.init ShapeT DrawStrategy Effect avail) = .ok () d) :
    (∀ a obj, cell d.heap a = some obj → ∃ c, obj = .owning c) ∧
    (∀ x a, d.objs x = some ⟨some a⟩ → ∃ c, cell d.heap a = some (.owning c)) ∧
    (∀ r v, d.refs r = some v → ∃ m, v = some (.nonOwning m) ∧
      ((∃ x, m.model.shape_ = .shapeVar x) ∨ ∃ a, m.model.shape_ = .shapeMember a) ∧
      ((∃ x, m.model.drawer_ = .drawerVar x) ∨ ∃ a, m.model.drawer_ = .drawerMember a) ∧
      ∀ y, m.model.shape_ ≠ .handle y ∧ m.model.shape_ ≠ .constRef y ∧
        m.model.shape_ ≠ .shapeBufMember y ∧ m.model.drawer_ ≠ .handle y ∧
        m.model.drawer_ ≠ .constRef y ∧ m.model.drawer_ ≠ .drawerBufMember y) ∧
    ∃ s, d = embed s ∧
      G34_2.run call prog (G34_2.State.init ShapeT DrawStrategy Effect avail) = .ok () s := by
  have hinit : State.init ShapeT DrawStrategy Effect avail
      = embed (G34_2.State.init ShapeT DrawStrategy Effect avail) := rfl
  rw [hinit, dyn_run_embed] at h
  cases hrun : G34_2.run call prog (G34_2.State.init ShapeT DrawStrategy Effect avail) with
  | undefined => simp [hrun, Outcome.mapState] at h
  | bad_alloc s => simp [hrun, Outcome.mapState] at h
  | ok u s =>
    simp only [hrun, Outcome.mapState, Outcome.ok.injEq, true_and] at h
    subst h
    have hwf : s.toState.WF := g34_run_WF call prog (G32.g32_WF_init avail) hrun
    have hdir : s.Direct := g34_run_Direct call prog (g34_Direct_init avail) hrun
    have hfill : ∀ r v, s.refs r = some v → ∃ m, v.raw_ = some m :=
      g34_run_filled call prog (fun r v hv => by simp [G34_2.State.init] at hv) hrun
    refine ⟨?_, ?_, ?_, s, rfl, rfl⟩
    · intro a obj ha
      rw [dyn_embed_cell] at ha
      cases hc : cell s.heap a with
      | none => simp [hc] at ha
      | some c =>
        simp only [hc, Option.map_some', Option.some.injEq] at ha
        exact ⟨c, ha.symm⟩
    · intro x a hx
      obtain ⟨c, hc⟩ := hwf.valid x ⟨some a⟩ a hx rfl
      exact ⟨c, by rw [dyn_embed_cell]; simp [show cell s.heap a = some c from hc]⟩
    · intro r v hv
      have hr : (embed s).refs r = (s.refs r).map fun w => w.raw_.map Model.nonOwning := rfl
      rw [hr] at hv
      cases hs : s.refs r with
      | none => simp [hs] at hv
      | some w =>
        obtain ⟨m, hm⟩ := hfill r w hs
        simp only [hs, Option.map_some', hm, Option.some.injEq] at hv
        obtain ⟨hd1, hd2⟩ := hdir r m (by
          obtain ⟨q⟩ := w
          simp only at hm
          subst hm
          exact hs)
        refine ⟨m, hv.symm, ?_, ?_, ?_⟩
        · cases hsh : m.model.shape_ <;> simp [hsh, Addr.isShape] at hd1 ⊢
        · cases hdr : m.model.drawer_ <;> simp [hdr, Addr.isDrawer] at hd2 ⊢
        · intro y
          refine ⟨?_, ?_, ?_, ?_, ?_, ?_⟩ <;> intro hy
          · rw [hy] at hd1; simp [Addr.isShape] at hd1
          · rw [hy] at hd1; simp [Addr.isShape] at hd1
          · rw [hy] at hd1; simp [Addr.isShape] at hd1
          · rw [hy] at hd2; simp [Addr.isDrawer] at hd2
          · rw [hy] at hd2; simp [Addr.isDrawer] at hd2
          · rw [hy] at hd2; simp [Addr.isDrawer] at hd2

/-- Witness for C21: a chain of nine statements on the shape of `main()`.  The last
`ShapeConstRef`, a copy of a reference that was assigned from a reference to a `Shape` made
from a reference, stores the addresses of the members of the model in cell `1`, and the third
`Shape` owns an `OwningShapeModel` in cell `2`. -/
theorem no_added_hop_invariant_witness :
    ∃ d, run Demo.call
        [.shape (.construct 1 .lambda Demo.circle ()), .refFromShape 1 1,
         .refCopyConstruct 2 1, .shapeFromRef 2 2, .refFromConstShape 3 2,
         .shape (.copyConstruct 3 2), .refCopyAssign 1 3, .refCopyConstruct 4 1, .refDraw 4]
        (State.init Demo.ShapeT Demo.DrawStrategy Demo.Ev 3) = .ok () d ∧
      d.refs 4 = some (some (.nonOwning ⟨.lambda, ⟨.shapeMember 1, .drawerMember 1⟩⟩)) ∧
      d.trace = [Demo.Ev.circleDrawn 314] ∧ d.objs 3 = some ⟨some 2⟩ ∧
      ∃ c, cell d.heap 2 = some (.owning c) :=
  ⟨_, rfl, rfl, rfl, rfl,
    (@no_added_hop_invariant Demo.K inferInstance Demo.ShapeT Demo.DrawStrategy Demo.Ev
      Demo.call 3
      [.shape (.construct 1 .lambda Demo.circle ()), .refFromShape 1 1,
       .refCopyConstruct 2 1, .shapeFromRef 2 2, .refFromConstShape 3 2,
       .shape (.copyConstruct 3 2), .refCopyAssign 1 3, .refCopyConstruct 4 1, .refDraw 4]
      _ rfl).2.1 3 2 rfl⟩

end
end Dyn
end G34_2
end CppSoftwareDesign
